import Mathlib

/-!
# sst-effects voice effects: GenVA, ShortDelay, CytomicSVF

A shallow embedding of three voice effects of sst-effects
(`generator/GenVA.h`, `delay/ShortDelay.h`, `filter/CytomicSVF.h`) and
theorems about them.

Conventions of the embedding

* `float` values are elements of an arbitrary linearly ordered field `α`
  (exact arithmetic); every definition is computable and can be run at `ℚ`.
* C `int` values are `Int`; `/` and `%` on them are the truncating
  `Int.tdiv` and `Int.tmod`.
* a `float *` buffer is a function `Nat → α`, a store into it is
  `Function.update`.
* a counted `for` loop is a recursive function that keeps the loop guard
  and takes the number of remaining iterations as its first argument.
* a `while` loop takes a bound on its iterations and returns `none` when the
  bound is used up before the loop ends.
* an `int64_t` is an `Int` in `[-2^63, 2^63)`: a sum or a difference of two is
  reduced into that range by `wrap64`, and the cast `(int64_t)` of a `double`
  is `toInt64`, the truncation when that fits 64 bits and `INT64_MIN` when it
  does not.
* a `double` that can be `+inf` is an `Option`, with `none` for `+inf`; the
  zero of a division is `+0.0`.
* an index outside an array is `none`.
-/

/-! ## GenVA: the unison detune strategy -/

namespace GenVA

/-- The constant: `static constexpr int maxUnison{9}`. -/
def maxUnison : Int := 9

/-- The `enum FloatParams` of GenVA. -/
def fpOffset : Fin 5 := 0
/-- The `enum FloatParams` of GenVA. -/
def fpLevel : Fin 5 := 1
/-- The `enum FloatParams` of GenVA. -/
def fpSync : Fin 5 := 2
/-- The `enum FloatParams` of GenVA. -/
def fpWidth : Fin 5 := 3
/-- The `enum FloatParams` of GenVA. -/
def fpUniDetune : Fin 5 := 4

/-- The part of a `GenVA` object that `detuneStrategy` reads: the float
parameters held by the effect base (`getFloatParam`) and the keytrack flag. -/
structure Params (α : Type) where
  /-- The values `getFloatParam(i)` returns. -/
  floatParam : Fin 5 → α
  /-- The member `keytrackOn`. -/
  keytrackOn : Bool

/-- The local `tune` of `detuneStrategy`:
`(keytrackOn) ? getFloatParam(fpOffset) + pitch : getFloatParam(fpOffset)`. -/
def tuneOf {α : Type} [LinearOrderedField α] (p : Params α) (pitch : α) : α :=
  if p.keytrackOn then p.floatParam fpOffset + pitch else p.floatParam fpOffset

/-- The loop of the odd branch of `detuneStrategy`,
`for (int i = 1; i < count; ++i)`, entered at index `i` with the running
`counter`. -/
def oddLoop {α : Type} [LinearOrderedField α] (count : Int) (offsetUnit detune tune : α) :
    Nat → Int → Int → (Nat → α) → (Nat → α)
  | 0, _, _, res => res
  | k + 1, i, counter, res =>
    if i < count then
      let counter := if i.tmod 2 = 0 then counter - 1 else counter
      let tid : α := ((i + counter : Int) : α) * offsetUnit * detune
      let res := Function.update res i.toNat (if i.tmod 2 = 0 then tune + tid else tune + -tid)
      oddLoop count offsetUnit detune tune k (i + 1) counter res
    else res

/-- The loop of the even branch of `detuneStrategy`,
`for (int i = 0; i < count; ++i)`, entered at index `i` with the running
`counter`. -/
def evenLoop {α : Type} [LinearOrderedField α] (count : Int) (offsetUnit detune tune : α) :
    Nat → Int → Int → (Nat → α) → (Nat → α)
  | 0, _, _, res => res
  | k + 1, i, counter, res =>
    if i < count then
      let counter := if i.tmod 2 = 1 then counter - 1 else counter
      let tid : α := ((i + counter : Int) : α) * offsetUnit * detune
      let res := Function.update res i.toNat (if i.tmod 2 = 0 then tune + tid else tune + -tid)
      evenLoop count offsetUnit detune tune k (i + 1) counter res
    else res

/-- The function `GenVA::detuneStrategy(count, pitch, res)`: the buffer `res`
after the call. -/
def detuneStrategy {α : Type} [LinearOrderedField α] (p : Params α) (count : Int) (pitch : α)
    (res : Nat → α) : Nat → α :=
  let tune := tuneOf p pitch
  let detune := p.floatParam fpUniDetune
  if count.tmod 2 = 1 then
    let res := Function.update res 0 tune
    if count > 2 then
      let offsetUnit : α := 1 / ((count.tdiv 2 : Int) : α)
      oddLoop count offsetUnit detune tune count.toNat 1 0 res
    else res
  else
    let offsetUnit : α := 1 / ((count.tdiv 2 : Int) : α)
    evenLoop count offsetUnit detune tune count.toNat 0 1 res

/-! ### Quantities the statements about `detuneStrategy` use -/

variable {α : Type} [LinearOrderedField α]

/-- The value the odd loop stores at index `j`. -/
def oddEntry (offsetUnit detune tune : α) (j : Nat) : α :=
  if j % 2 = 0 then tune + (((j + 1) / 2 : Nat) : α) * offsetUnit * detune
  else tune + -((((j + 1) / 2 : Nat) : α) * offsetUnit * detune)

/-- The value the even loop stores at index `j`. -/
def evenEntry (offsetUnit detune tune : α) (j : Nat) : α :=
  if j % 2 = 0 then tune + ((j / 2 + 1 : Nat) : α) * offsetUnit * detune
  else tune + -(((j / 2 + 1 : Nat) : α) * offsetUnit * detune)

/-- The detune offset `res[i] - tune` of entry `i` after
`detuneStrategy(n, pitch, res)`. -/
def offsetAt (p : Params α) (n : Nat) (pitch : α) (res : Nat → α) (i : Nat) : α :=
  detuneStrategy p (n : Int) pitch res i - tuneOf p pitch

/-- The detune offsets `res[i] - tune`, `i = 0..n-1`, after
`detuneStrategy(n, pitch, res)`. -/
def offsets (p : Params α) (n : Nat) (pitch : α) (res : Nat → α) : List α :=
  (List.range n).map fun i => detuneStrategy p (n : Int) pitch res i - tuneOf p pitch

/-- The index that holds the opposite offset: the other member of the
above/below pair of index `i` (index `0` itself at the centre of an odd count). -/
def partner (n i : Nat) : Nat :=
  if n % 2 = 1 then (if i = 0 then 0 else if i % 2 = 1 then i + 1 else i - 1)
  else (if i % 2 = 0 then i + 1 else i - 1)

/-- The number of detune steps at index `i`: the offset there is this many
times `detune / (n / 2)`, up to its sign. -/
def stepsAt (n i : Nat) : Nat :=
  if n % 2 = 1 then (i + 1) / 2 else i / 2 + 1

end GenVA

/-! ## C++ library functions used by the effects -/

/-- The function `std::clamp(v, lo, hi)`: `(v < lo) ? lo : (hi < v) ? hi : v`. -/
def stdClamp {α : Type} [LinearOrderedField α] (v lo hi : α) : α :=
  if v < lo then lo else if hi < v then hi else v

/-- The function `std::max(a, b)`: `(a < b) ? b : a`. -/
def stdMax {α : Type} [LinearOrderedField α] (a b : α) : α :=
  if a < b then b else a

/-- Modelled from the spec: the Parameter Ramp (`lipol_sse`, declared outside
these sources). It holds the value the previous block ended on and the value
the current block ends on; a block of it interpolates linearly between the
two and reaches the target on its last sample. -/
structure Lipol (α : Type) where
  /-- The value the ramp starts from: the previous target. -/
  current : α
  /-- The value the ramp reaches at the end of the block. -/
  target : α

namespace Lipol

variable {α : Type} [LinearOrderedField α]

/-- Modelled from the spec: `set_target(t)` starts a ramp from the previous
target to `t`. -/
def set_target (l : Lipol α) (t : α) : Lipol α :=
  { current := l.target, target := t }

/-- Modelled from the spec: `set_target_instant(t)` skips the interpolation. -/
def set_target_instant (_l : Lipol α) (t : α) : Lipol α :=
  { current := t, target := t }

/-- Modelled from the spec: `store_block(dst)` writes the `blockSize`
per-sample values of the ramp; sample `i` is
`current + (target - current) * (i + 1) / blockSize`. -/
def store_block (blockSize : Nat) (l : Lipol α) : Nat → α :=
  fun i => l.current + (l.target - l.current) * ((i + 1 : Nat) : α) / (blockSize : α)

end Lipol

/-! ## ShortDelay -/

namespace ShortDelay

/-- The constant: `static constexpr float maxMiliseconds{250.f}`. -/
def maxMiliseconds {α : Type} [LinearOrderedField α] : α := 250

/-- The constant: `static constexpr int shortLineSize{15}`; a line of this
tier holds `2^15` samples. -/
def shortLineSize : Nat := 15

/-- The constant: `static constexpr int longLineSize{17}`; a line of this
tier holds `2^17` samples. -/
def longLineSize : Nat := 17

/-- The `enum FloatParams` of ShortDelay. -/
def fpTimeL : Fin 6 := 0
/-- The `enum FloatParams` of ShortDelay. -/
def fpTimeR : Fin 6 := 1
/-- The `enum FloatParams` of ShortDelay. -/
def fpFeedback : Fin 6 := 2
/-- The `enum FloatParams` of ShortDelay. -/
def fpCrossFeed : Fin 6 := 3
/-- The `enum FloatParams` of ShortDelay. -/
def fpLowCut : Fin 6 := 4
/-- The `enum FloatParams` of ShortDelay. -/
def fpHighCut : Fin 6 := 5
/-- The `enum IntParams` of ShortDelay. -/
def ipStereo : Fin 1 := 0

/-- Modelled from the spec: the delay-line support of `DelaySupport.h` (not
among the sources at hand), which borrows a line of one capacity tier from the
shared pool and returns it. `tier` is the template argument `N` of the
`prepareLine<N>` that borrowed the line held (`none` when no line is held),
`hist` the samples written into the line, the most recent first. -/
structure DelayLineSupport (α : Type) where
  /-- The tier of the line borrowed from the pool. -/
  tier : Option Nat
  /-- The samples written into the line, the most recent first. -/
  hist : List α

/-- A line pointer `getLinePointer<N>()`: the buffer of a support, typed as a
line of tier `lineSize = N`, that is of `2^N` samples. -/
structure LinePointer (α : Type) where
  /-- The template argument `N` of `getLinePointer<N>`. -/
  lineSize : Nat
  /-- The samples written into the line, the most recent first. -/
  hist : List α

namespace DelayLineSupport

variable {α : Type}

/-- Modelled from the spec: `preReserveLines<N>` announces the need of a line
of tier `N` to the pool; the support itself does not change. -/
def preReserveLines (_N : Nat) (s : DelayLineSupport α) : DelayLineSupport α := s

/-- Modelled from the spec: `prepareLine<N>` borrows a line of tier `N` from
the pool and clears it. -/
def prepareLine (N : Nat) (_s : DelayLineSupport α) : DelayLineSupport α :=
  { tier := some N, hist := [] }

/-- Modelled from the spec: `getLinePointer<N>()` is the held buffer read as a
line of tier `N`. -/
def getLinePointer (N : Nat) (s : DelayLineSupport α) : LinePointer α :=
  { lineSize := N, hist := s.hist }

/-- Modelled from the spec: `returnLines<N>` gives a line of tier `N` back to
the pool: the tier that goes back. -/
def returnLines (N : Nat) (_s : DelayLineSupport α) : Nat := N

end DelayLineSupport

/-- The collaborators of ShortDelay that are declared outside these sources:
the block size, the width of the sinc kernel, the delay line's interpolating
read, and the biquad filter (with state `F`). -/
structure Config (α F : Type) where
  /-- The constant `VFXConfig::blockSize`. -/
  blockSize : Nat
  /-- The constant `SincTable::FIRipol_N`. -/
  FIRipol_N : Nat
  /-- The method `read(delay)` of a line of tier `N` holding the written samples. -/
  read : Nat → List α → α → α
  /-- The biquad's `calc_omega`. -/
  calc_omega : α → α
  /-- The biquad's `coeff_LP2B(omega, q)`. -/
  coeff_LP2B : F → α → α → F
  /-- The biquad's `coeff_HP(omega, q)`. -/
  coeff_HP : F → α → α → F
  /-- The biquad's `process_sample(L, R, outL, outR)`: the two outputs and the
  new filter state. -/
  process_sample : F → α → α → α × α × F
  /-- The biquad's `suspend()`. -/
  suspend : F → F

/-- The members of a `ShortDelay` object, with the parameters and the sample
rate its effect base holds. -/
structure State (α F : Type) where
  /-- The values `getFloatParam(i)` returns. -/
  floatParam : Fin 6 → α
  /-- The values `getIntParam(i)` returns. -/
  intParam : Fin 1 → Int
  /-- The value `getSampleRate()` returns. -/
  sampleRate : α
  /-- The member `lineSupport[0]`. -/
  lineSupport0 : DelayLineSupport α
  /-- The member `lineSupport[1]`. -/
  lineSupport1 : DelayLineSupport α
  /-- The member `isShort`. -/
  isShort : Bool
  /-- The member `lipolFb`. -/
  lipolFb : Lipol α
  /-- The member `lipolCross`. -/
  lipolCross : Lipol α
  /-- The member `lipolDelay[0]`. -/
  lipolDelay0 : Lipol α
  /-- The member `lipolDelay[1]`. -/
  lipolDelay1 : Lipol α
  /-- The member `lp`. -/
  lp : F
  /-- The member `hp`. -/
  hp : F

variable {α F : Type} [LinearOrderedField α]

/-- The soft clip of the feedback in `monoImpl` and `stereoImpl`:
`x = std::clamp(x, -1.5f, 1.5f); x = x - 4.0 / 27.0 * x * x * x`. -/
def softClip (x : α) : α :=
  let x := stdClamp x (-1.5) 1.5
  x - 4.0 / 27.0 * x * x * x

/-- The delay-time target `initVoiceEffect` hands to `set_target_instant`:
`std::clamp(time, 0.f, maxMiliseconds) * getSampleRate() / 1000.f`. -/
def initDelayTarget (time sampleRate : α) : α :=
  stdClamp time 0 maxMiliseconds * sampleRate / 1000

/-- The delay-time target `monoImpl` and `stereoImpl` hand to `set_target`:
`std::max(std::clamp(time, 0.f, maxMiliseconds) * getSampleRate() / 1000.f, FIRipol)`. -/
def blockDelayTarget (FIRipol time sampleRate : α) : α :=
  stdMax (stdClamp time 0 maxMiliseconds * sampleRate / 1000) FIRipol

/-- The block operation `mech::copy_from_to<blockSize>(src, dst)`. -/
def copy_from_to (blockSize : Nat) (src dst : Nat → α) : Nat → α :=
  fun i => if i < blockSize then src i else dst i

/-- The method `write(x)` of a delay line. -/
def LinePointer.write (l : LinePointer α) (x : α) : LinePointer α :=
  { l with hist := x :: l.hist }

/-- What the sample loop of `monoImpl` changes: the line, the two filters and
the output block. -/
structure MonoLoop (α F : Type) where
  /-- The line `line`. -/
  line : LinePointer α
  /-- The member `lp`. -/
  lp : F
  /-- The member `hp`. -/
  hp : F
  /-- The block `dataoutL`. -/
  dataoutL : Nat → α

/-- The body of the sample loop of `monoImpl` at index `i`. -/
def monoSample (cfg : Config α F) (ld fb datainL : Nat → α) (i : Nat) (st : MonoLoop α F) :
    MonoLoop α F :=
  let output := cfg.read st.line.lineSize st.line.hist (ld i)
  let nope : α := 0
  let r := cfg.process_sample st.lp output nope
  let output := r.1
  let nope := r.2.1
  let lp := r.2.2
  let r := cfg.process_sample st.hp output nope
  let output := r.1
  let hp := r.2.2
  let dataoutL := Function.update st.dataoutL i output
  let feedback := fb i * dataoutL i
  -- soft clip for now
  let feedback := softClip feedback
  let line := st.line.write (datainL i + feedback)
  { line := line, lp := lp, hp := hp, dataoutL := dataoutL }

/-- The sample loop of `monoImpl`, `for (int i = 0; i < blockSize; ++i)`,
entered at index `i`. -/
def monoLoop (cfg : Config α F) (ld fb datainL : Nat → α) :
    Nat → Nat → MonoLoop α F → MonoLoop α F
  | 0, _, st => st
  | k + 1, i, st =>
    if i < cfg.blockSize then
      monoLoop cfg ld fb datainL k (i + 1) (monoSample cfg ld fb datainL i st)
    else st

/-- What `monoImpl` returns to its caller: the object, the line and the
output block. -/
structure MonoResult (α F : Type) where
  /-- The object after the call. -/
  state : State α F
  /-- The line after the call. -/
  line : LinePointer α
  /-- The block `dataoutL` after the call. -/
  dataoutL : Nat → α

/-- The method `ShortDelay::monoImpl(line, datainL, dataoutL)`. -/
def monoImpl (cfg : Config α F) (s : State α F) (line : LinePointer α)
    (datainL dataoutL : Nat → α) : MonoResult α F :=
  let dataoutL := copy_from_to cfg.blockSize datainL dataoutL
  let FIRipol : α := (cfg.FIRipol_N : α)
  let lipolDelay0 := s.lipolDelay0.set_target
    (blockDelayTarget FIRipol (s.floatParam fpTimeL) s.sampleRate)
  let lipolFb := s.lipolFb.set_target (stdClamp (s.floatParam fpFeedback) 0 1)
  let ld := lipolDelay0.store_block cfg.blockSize
  let fb := lipolFb.store_block cfg.blockSize
  let lp := cfg.coeff_LP2B s.lp (cfg.calc_omega (s.floatParam fpHighCut / 12.0)) 0.707
  let hp := cfg.coeff_HP s.hp (cfg.calc_omega (s.floatParam fpLowCut / 12.0)) 0.707
  let st := monoLoop cfg ld fb datainL cfg.blockSize 0
    { line := line, lp := lp, hp := hp, dataoutL := dataoutL }
  { state := { s with lipolDelay0 := lipolDelay0, lipolFb := lipolFb, lp := st.lp, hp := st.hp }
    line := st.line
    dataoutL := st.dataoutL }

/-- What the sample loop of `stereoImpl` changes: the two lines, the two
filters and the two output blocks. -/
structure StereoLoop (α F : Type) where
  /-- The line `lines[0]`. -/
  line0 : LinePointer α
  /-- The line `lines[1]`. -/
  line1 : LinePointer α
  /-- The member `lp`. -/
  lp : F
  /-- The member `hp`. -/
  hp : F
  /-- The block `dataoutL`. -/
  dataoutL : Nat → α
  /-- The block `dataoutR`. -/
  dataoutR : Nat → α

/-- The body of the sample loop of `stereoImpl` at index `i`. -/
def stereoSample (cfg : Config α F) (stereoSwitch : Int)
    (ld0 ld1 feedback crossfeed datainL datainR : Nat → α) (i : Nat) (st : StereoLoop α F) :
    StereoLoop α F :=
  let out0 := cfg.read st.line0.lineSize st.line0.hist (ld0 i)
  let out1 := cfg.read st.line1.lineSize st.line1.hist (ld1 i)
  let r := cfg.process_sample st.lp out0 out1
  let out0 := r.1
  let out1 := r.2.1
  let lp := r.2.2
  let r := cfg.process_sample st.hp out0 out1
  let out0 := r.1
  let out1 := r.2.1
  let hp := r.2.2
  let dataoutL := Function.update st.dataoutL i out0
  let dataoutR := Function.update st.dataoutR i out1
  let fbc0 := feedback i * dataoutL i
  let fbc1 := feedback i * dataoutR i
  let fbc0 := if stereoSwitch ≠ 0 then fbc0 + crossfeed i * dataoutR i else fbc0
  let fbc1 := if stereoSwitch ≠ 0 then fbc1 + crossfeed i * dataoutL i else fbc1
  -- soft clip for now
  let fbc0 := softClip fbc0
  let fbc1 := softClip fbc1
  let line0 := st.line0.write (datainL i + fbc0)
  let line1 := st.line1.write (datainR i + fbc1)
  { line0 := line0, line1 := line1, lp := lp, hp := hp,
    dataoutL := dataoutL, dataoutR := dataoutR }

/-- The sample loop of `stereoImpl`, `for (int i = 0; i < blockSize; ++i)`,
entered at index `i`. -/
def stereoLoop (cfg : Config α F) (stereoSwitch : Int)
    (ld0 ld1 feedback crossfeed datainL datainR : Nat → α) :
    Nat → Nat → StereoLoop α F → StereoLoop α F
  | 0, _, st => st
  | k + 1, i, st =>
    if i < cfg.blockSize then
      stereoLoop cfg stereoSwitch ld0 ld1 feedback crossfeed datainL datainR k (i + 1)
        (stereoSample cfg stereoSwitch ld0 ld1 feedback crossfeed datainL datainR i st)
    else st

/-- What `stereoImpl` returns to its caller: the object, the two lines and the
two output blocks. -/
structure StereoResult (α F : Type) where
  /-- The object after the call. -/
  state : State α F
  /-- The line `lines[0]` after the call. -/
  line0 : LinePointer α
  /-- The line `lines[1]` after the call. -/
  line1 : LinePointer α
  /-- The block `dataoutL` after the call. -/
  dataoutL : Nat → α
  /-- The block `dataoutR` after the call. -/
  dataoutR : Nat → α

/-- The method `ShortDelay::stereoImpl(lines, datainL, datainR, dataoutL, dataoutR)`. -/
def stereoImpl (cfg : Config α F) (s : State α F) (line0 line1 : LinePointer α)
    (datainL datainR dataoutL dataoutR : Nat → α) : StereoResult α F :=
  let stereoSwitch := s.intParam ipStereo
  let dataoutL := copy_from_to cfg.blockSize datainL dataoutL
  let dataoutR := copy_from_to cfg.blockSize datainR dataoutR
  let FIRipol : α := (cfg.FIRipol_N : α)
  let timeL := s.floatParam fpTimeL
  let timeR := if stereoSwitch ≠ 0 then s.floatParam fpTimeR else timeL
  let lipolDelay0 := s.lipolDelay0.set_target (blockDelayTarget FIRipol timeL s.sampleRate)
  let lipolDelay1 := s.lipolDelay1.set_target (blockDelayTarget FIRipol timeR s.sampleRate)
  let ld0 := lipolDelay0.store_block cfg.blockSize
  let ld1 := lipolDelay1.store_block cfg.blockSize
  let lipolFb := s.lipolFb.set_target (stdClamp (s.floatParam fpFeedback) 0 1)
  let feedback := lipolFb.store_block cfg.blockSize
  let lipolCross := s.lipolCross.set_target (stdClamp (s.floatParam fpCrossFeed) 0 1)
  let crossfeed := lipolCross.store_block cfg.blockSize
  let lp := cfg.coeff_LP2B s.lp (cfg.calc_omega (s.floatParam fpHighCut / 12.0)) 0.707
  let hp := cfg.coeff_HP s.hp (cfg.calc_omega (s.floatParam fpLowCut / 12.0)) 0.707
  let st := stereoLoop cfg stereoSwitch ld0 ld1 feedback crossfeed datainL datainR
    cfg.blockSize 0
    { line0 := line0, line1 := line1, lp := lp, hp := hp,
      dataoutL := dataoutL, dataoutR := dataoutR }
  { state := { s with lipolDelay0 := lipolDelay0, lipolDelay1 := lipolDelay1,
                      lipolFb := lipolFb, lipolCross := lipolCross, lp := st.lp, hp := st.hp }
    line0 := st.line0
    line1 := st.line1
    dataoutL := st.dataoutL
    dataoutR := st.dataoutR }

/-- The line pointers `processStereo` hands to `stereoImpl`. -/
def processStereoLines (s : State α F) : LinePointer α × LinePointer α :=
  if s.isShort then
    (s.lineSupport0.getLinePointer shortLineSize, s.lineSupport1.getLinePointer shortLineSize)
  else
    (s.lineSupport0.getLinePointer longLineSize, s.lineSupport1.getLinePointer longLineSize)

/-- The line pointers `processMonoToStereo` hands to `stereoImpl`. -/
def processMonoToStereoLines (s : State α F) : LinePointer α × LinePointer α :=
  if s.isShort then
    (s.lineSupport0.getLinePointer shortLineSize, s.lineSupport1.getLinePointer shortLineSize)
  else
    (s.lineSupport0.getLinePointer longLineSize, s.lineSupport1.getLinePointer longLineSize)

/-- The line pointer `processMonoToMono` hands to `monoImpl`. -/
def processMonoToMonoLine (s : State α F) : LinePointer α :=
  if s.isShort then
    s.lineSupport0.getLinePointer shortLineSize
  else
    s.lineSupport0.getLinePointer shortLineSize

/-- The method `ShortDelay::processStereo`: the object and the two output
blocks after the call; the samples written through the line pointers are in
the buffers of the two supports. -/
def processStereo (cfg : Config α F) (s : State α F)
    (datainL datainR dataoutL dataoutR : Nat → α) (_pitch : α) :
    State α F × (Nat → α) × (Nat → α) :=
  let lines := processStereoLines s
  let r := stereoImpl cfg s lines.1 lines.2 datainL datainR dataoutL dataoutR
  ({ r.state with
      lineSupport0 := { r.state.lineSupport0 with hist := r.line0.hist }
      lineSupport1 := { r.state.lineSupport1 with hist := r.line1.hist } },
    r.dataoutL, r.dataoutR)

/-- The method `ShortDelay::processMonoToStereo`. -/
def processMonoToStereo (cfg : Config α F) (s : State α F)
    (datain dataoutL dataoutR : Nat → α) (_pitch : α) :
    State α F × (Nat → α) × (Nat → α) :=
  let lines := processMonoToStereoLines s
  let r := stereoImpl cfg s lines.1 lines.2 datain datain dataoutL dataoutR
  ({ r.state with
      lineSupport0 := { r.state.lineSupport0 with hist := r.line0.hist }
      lineSupport1 := { r.state.lineSupport1 with hist := r.line1.hist } },
    r.dataoutL, r.dataoutR)

/-- The method `ShortDelay::processMonoToMono`. -/
def processMonoToMono (cfg : Config α F) (s : State α F)
    (datain dataout : Nat → α) (_pitch : α) : State α F × (Nat → α) :=
  let r := monoImpl cfg s (processMonoToMonoLine s) datain dataout
  ({ r.state with lineSupport0 := { r.state.lineSupport0 with hist := r.line.hist } },
    r.dataoutL)

/-- The constructor `ShortDelay::ShortDelay(st)`, for an effect base that
holds the given parameters and sample rate and for freshly constructed filters
`lp`, `hp`: no line is held, `isShort` is `true`, the ramps are at `0`. -/
def construct (floatParam : Fin 6 → α) (intParam : Fin 1 → Int) (sampleRate : α) (lp hp : F) :
    State α F :=
  { floatParam := floatParam
    intParam := intParam
    sampleRate := sampleRate
    lineSupport0 := { tier := none, hist := [] }
    lineSupport1 := { tier := none, hist := [] }
    isShort := true
    lipolFb := { current := 0, target := 0 }
    lipolCross := { current := 0, target := 0 }
    lipolDelay0 := { current := 0, target := 0 }
    lipolDelay1 := { current := 0, target := 0 }
    lp := lp
    hp := hp }

/-- The method `ShortDelay::initVoiceEffect()`. -/
def initVoiceEffect (cfg : Config α F) (s : State α F) : State α F :=
  let s : State α F :=
    if s.sampleRate * (0.1 : α) > ((1 <<< 14 : Nat) : α) then
      { s with
        isShort := false
        lineSupport0 := (s.lineSupport0.preReserveLines longLineSize).prepareLine longLineSize
        lineSupport1 := (s.lineSupport1.preReserveLines longLineSize).prepareLine longLineSize }
    else
      { s with
        isShort := true
        lineSupport0 := (s.lineSupport0.preReserveLines shortLineSize).prepareLine shortLineSize
        lineSupport1 := (s.lineSupport1.preReserveLines shortLineSize).prepareLine shortLineSize }
  { s with
    lipolDelay0 := s.lipolDelay0.set_target_instant
      (initDelayTarget (s.floatParam fpTimeL) s.sampleRate)
    lipolDelay1 := s.lipolDelay1.set_target_instant
      (initDelayTarget (s.floatParam fpTimeR) s.sampleRate)
    lipolFb := s.lipolFb.set_target_instant (stdClamp (s.floatParam fpFeedback) 0 1)
    lipolCross := s.lipolCross.set_target_instant (stdClamp (s.floatParam fpCrossFeed) 0 1)
    lp := cfg.suspend s.lp
    hp := cfg.suspend s.hp }

/-- The destructor `ShortDelay::~ShortDelay()`: the tiers of the lines it
returns to the pool, for `lineSupport[0]` and `lineSupport[1]`. -/
def destructor (s : State α F) : Nat × Nat :=
  if s.isShort then
    (s.lineSupport0.returnLines shortLineSize, s.lineSupport1.returnLines shortLineSize)
  else
    (s.lineSupport0.returnLines longLineSize, s.lineSupport1.returnLines longLineSize)

/-- The number of samples a line of tier `N` holds: `1 << N`. -/
def capacity (N : Nat) : Nat := 1 <<< N

/-- A concrete configuration to evaluate the delay on: blocks of 16 samples,
a sinc kernel of width 12, a line whose read returns the sample written last,
and filters that pass their input through. -/
def exampleDelayConfig : Config ℚ Unit :=
  { blockSize := 16
    FIRipol_N := 12
    read := fun _ hist _ => hist.headD 0
    calc_omega := fun x => x
    coeff_LP2B := fun f _ _ => f
    coeff_HP := fun f _ _ => f
    process_sample := fun f l r => (l, r, f)
    suspend := fun f => f }

/-- A freshly constructed delay with the given left time (ms) and sample rate,
the other parameters at their defaults. -/
def exampleDelay (timeL sampleRate : ℚ) : State ℚ Unit :=
  construct ![timeL, 50, 0, 0, -60, 70] ![1] sampleRate () ()

end ShortDelay

/-! ## CytomicSVF -/

namespace CytomicSVF

/-- The constant: `static constexpr int numFloatParams{4}`. -/
abbrev numFloatParams : Nat := 4

/-- The constant: `static constexpr int numIntParams{2}`. -/
abbrev numIntParams : Nat := 2

/-- The `enum floatParams` of CytomicSVF. -/
def fpFreqL : Fin numFloatParams := 0
/-- The `enum floatParams` of CytomicSVF. -/
def fpFreqR : Fin numFloatParams := 1
/-- The `enum floatParams` of CytomicSVF. -/
def fpResonance : Fin numFloatParams := 2
/-- The `enum floatParams` of CytomicSVF. -/
def fpShelf : Fin numFloatParams := 3
/-- The `enum intParams` of CytomicSVF. -/
def ipMode : Fin numIntParams := 0
/-- The `enum intParams` of CytomicSVF. -/
def ipStereo : Fin numIntParams := 1

/-- A call of a method of the member `cySvf` (a `sst::filters::CytomicSVF`,
declared outside these sources), with its arguments. -/
inductive SvfCall (α : Type) where
  /-- The call `cySvf.init()`, which resets the integrator state. -/
  | init : SvfCall α
  /-- The call `cySvf.setCoeffForBlock(mode, freqL, freqR, resL, resR, srInv, shelfL, shelfR)`. -/
  | setCoeffForBlockStereo (mode : Int) (freqL freqR resL resR srInv shelfL shelfR : α) :
      SvfCall α
  /-- The call `cySvf.setCoeffForBlock(mode, freq, res, srInv, shelf)`. -/
  | setCoeffForBlock (mode : Int) (freq res srInv shelf : α) : SvfCall α
  /-- The call `cySvf.retainCoeffForBlock()`. -/
  | retainCoeffForBlock : SvfCall α
  /-- The call `cySvf.processBlock(inL, inR, outL, outR)`. -/
  | processBlockStereo (inL inR : Nat → α) : SvfCall α
  /-- The call `cySvf.processBlock(inL, outL)`. -/
  | processBlockMono (inL : Nat → α) : SvfCall α

/-- The collaborators of CytomicSVF that are declared outside these sources:
the two conversions of the effect base and the outputs of `processBlock`,
which depend on the calls made on `cySvf` so far. -/
structure Config (α : Type) where
  /-- The method `note_to_pitch_ignoring_tuning` of the effect base. -/
  note_to_pitch_ignoring_tuning : α → α
  /-- The method `dbToLinear` of the effect base. -/
  dbToLinear : α → α
  /-- The output blocks of `cySvf.processBlock(inL, inR, outL, outR)`. -/
  processBlockStereo : List (SvfCall α) → (Nat → α) → (Nat → α) → (Nat → α) × (Nat → α)
  /-- The output block of `cySvf.processBlock(inL, outL)`. -/
  processBlockMono : List (SvfCall α) → (Nat → α) → (Nat → α)

/-- The members of a `CytomicSVF` object, with the parameters and the inverse
sample rate its effect base holds. The member `cySvf` is the list of the calls
made on it since its construction, the oldest first. -/
structure State (α : Type) where
  /-- The values `getFloatParam(i)` returns. -/
  floatParam : Fin numFloatParams → α
  /-- The values `getIntParam(i)` returns. -/
  intParam : Fin numIntParams → Int
  /-- The value `getSampleRateInv()` returns. -/
  sampleRateInv : α
  /-- The member `keytrackOn`. -/
  keytrackOn : Bool
  /-- The member `wasKeytrackOn`. -/
  wasKeytrackOn : Bool
  /-- The member `mLastParam`. -/
  mLastParam : Fin numFloatParams → α
  /-- The member `mLastIParam`. -/
  mLastIParam : Fin numIntParams → Int
  /-- The calls made on the member `cySvf`. -/
  cySvf : List (SvfCall α)

variable {α : Type} [LinearOrderedField α]

/-- The constructor `CytomicSVF::CytomicSVF()`, for an effect base that holds
the given parameters. -/
def construct (floatParam : Fin numFloatParams → α) (intParam : Fin numIntParams → Int)
    (sampleRateInv : α) : State α :=
  { floatParam := floatParam
    intParam := intParam
    sampleRateInv := sampleRateInv
    keytrackOn := false
    wasKeytrackOn := false
    mLastParam := fun _ => -188888
    mLastIParam := fun _ => -1
    cySvf := [] }

/-- The method `CytomicSVF::initVoiceEffect()`, whose body is empty. -/
def initVoiceEffect (s : State α) : State α := s

/-- The method `CytomicSVF::enableKeytrack(b)`: the object after the call and
the value returned. -/
def enableKeytrack (s : State α) (b : Bool) : State α × Bool :=
  let res := (b != s.keytrackOn)
  ({ s with keytrackOn := b }, res)

/-- The first loop of `calc_coeffs`, `for (int i = 0; i < numFloatParams; i++)`,
entered at index `i` with the local array `param` and the flag `diff`. -/
def floatLoop (s : State α) (pitch : α) :
    Nat → Nat → (Fin numFloatParams → α) × Bool → (Fin numFloatParams → α) × Bool
  | 0, _, acc => acc
  | k + 1, i, (param, diff) =>
    if h : i < numFloatParams then
      let v := s.floatParam ⟨i, h⟩
      let v := if i < 2 ∧ s.keytrackOn = true then v + pitch else v
      let param := Function.update param ⟨i, h⟩ v
      let diff := diff || decide (s.mLastParam ⟨i, h⟩ ≠ param ⟨i, h⟩)
      floatLoop s pitch k (i + 1) (param, diff)
    else (param, diff)

/-- The second loop of `calc_coeffs`, `for (int i = 0; i < numIntParams; ++i)`,
entered at index `i` with the local array `iparam` and the flag `idiff`. -/
def intLoop (s : State α) :
    Nat → Nat → (Fin numIntParams → Int) × Bool → (Fin numIntParams → Int) × Bool
  | 0, _, acc => acc
  | k + 1, i, (iparam, idiff) =>
    if h : i < numIntParams then
      let iparam := Function.update iparam ⟨i, h⟩ (s.intParam ⟨i, h⟩)
      let idiff := idiff || decide (s.mLastIParam ⟨i, h⟩ ≠ iparam ⟨i, h⟩)
      intLoop s k (i + 1) (iparam, idiff)
    else (iparam, idiff)

/-- The method `CytomicSVF::calc_coeffs(pitch)`. -/
def calc_coeffs (cfg : Config α) (s : State α) (pitch : α) : State α :=
  let r := floatLoop s pitch numFloatParams 0 (fun _ => 0, false)
  let param := r.1
  let diff := r.2
  let r := intLoop s numIntParams 0 (fun _ => 0, false)
  let iparam := r.1
  let idiff := r.2
  let idiff := idiff || (s.wasKeytrackOn != s.keytrackOn)
  let s := { s with wasKeytrackOn := s.keytrackOn }
  if diff || idiff then
    let s := if idiff then { s with cySvf := s.cySvf ++ [SvfCall.init] } else s
    let mode := iparam 0
    let res := stdClamp (param 2) 0 1
    let shelf := cfg.dbToLinear (param 3)
    let s :=
      if s.intParam ipStereo ≠ 0 then
        let freqL := 440.0 * cfg.note_to_pitch_ignoring_tuning (param 0)
        let freqR := 440.0 * cfg.note_to_pitch_ignoring_tuning (param 1)
        { s with cySvf := s.cySvf ++
            [SvfCall.setCoeffForBlockStereo mode freqL freqR res res s.sampleRateInv shelf shelf] }
      else
        let freq := 440.0 * cfg.note_to_pitch_ignoring_tuning (param 0)
        { s with cySvf := s.cySvf ++ [SvfCall.setCoeffForBlock mode freq res s.sampleRateInv shelf] }
    { s with mLastParam := param, mLastIParam := iparam }
  else
    { s with cySvf := s.cySvf ++ [SvfCall.retainCoeffForBlock] }

/-- The method `CytomicSVF::processStereo`: the object and the two output
blocks after the call. -/
def processStereo (cfg : Config α) (s : State α) (datainL datainR : Nat → α) (pitch : α) :
    State α × (Nat → α) × (Nat → α) :=
  let s := calc_coeffs cfg s pitch
  let out := cfg.processBlockStereo s.cySvf datainL datainR
  ({ s with cySvf := s.cySvf ++ [SvfCall.processBlockStereo datainL datainR] }, out.1, out.2)

/-- The method `CytomicSVF::processMonoToMono`: the object and the output
block after the call. -/
def processMonoToMono (cfg : Config α) (s : State α) (datainL : Nat → α) (pitch : α) :
    State α × (Nat → α) :=
  let s := calc_coeffs cfg s pitch
  let out := cfg.processBlockMono s.cySvf datainL
  ({ s with cySvf := s.cySvf ++ [SvfCall.processBlockMono datainL] }, out)

/-- The method `CytomicSVF::processMonoToStereo`: the object and the two
output blocks after the call. -/
def processMonoToStereo (cfg : Config α) (s : State α) (datainL : Nat → α) (pitch : α) :
    State α × (Nat → α) × (Nat → α) :=
  let s := calc_coeffs cfg s pitch
  let out := cfg.processBlockStereo s.cySvf datainL datainL
  ({ s with cySvf := s.cySvf ++ [SvfCall.processBlockStereo datainL datainL] }, out.1, out.2)

end CytomicSVF

/-! ### Quantities the statements about `calc_coeffs` use -/

namespace CytomicSVF

variable {α : Type} [LinearOrderedField α]

/-- The effective float parameter `i`: the parameter, with the pitch added for
the two cutoffs when keytracking is on. -/
def effectiveParam (s : State α) (pitch : α) (i : Fin numFloatParams) : α :=
  if i.val < 2 ∧ s.keytrackOn = true then s.floatParam i + pitch else s.floatParam i

/-- Some effective float parameter or some integer parameter differs from the
cached vectors `mLastParam`, `mLastIParam`. -/
def paramsDiffer (s : State α) (pitch : α) : Prop :=
  (∃ i : Fin numFloatParams, s.mLastParam i ≠ effectiveParam s pitch i) ∨
  (∃ j : Fin numIntParams, s.mLastIParam j ≠ s.intParam j)

instance paramsDifferDecidable (s : State α) (pitch : α) : Decidable (paramsDiffer s pitch) :=
  inferInstanceAs (Decidable
    ((∃ i : Fin numFloatParams, s.mLastParam i ≠ effectiveParam s pitch i) ∨
     (∃ j : Fin numIntParams, s.mLastIParam j ≠ s.intParam j)))

/-- The calls a `calc_coeffs(pitch)` makes on `cySvf`, in order. -/
def callsOf (cfg : Config α) (s : State α) (pitch : α) : List (SvfCall α) :=
  (calc_coeffs cfg s pitch).cySvf.drop s.cySvf.length

/-- The call is one of the two `setCoeffForBlock` overloads. -/
def SvfCall.isSetCoeff : SvfCall α → Bool
  | .setCoeffForBlockStereo .. => true
  | .setCoeffForBlock .. => true
  | _ => false

/-- The call is `init`. -/
def SvfCall.isInit : SvfCall α → Bool
  | .init => true
  | _ => false

/-- The call is `retainCoeffForBlock`. -/
def SvfCall.isRetain : SvfCall α → Bool
  | .retainCoeffForBlock => true
  | _ => false

/-- The `setCoeffForBlock` call `calc_coeffs(pitch)` makes in its recompute
branch. -/
def setCoeffCall (cfg : Config α) (s : State α) (pitch : α) : SvfCall α :=
  if s.intParam ipStereo ≠ 0 then
    SvfCall.setCoeffForBlockStereo (s.intParam ipMode)
      (440.0 * cfg.note_to_pitch_ignoring_tuning (effectiveParam s pitch fpFreqL))
      (440.0 * cfg.note_to_pitch_ignoring_tuning (effectiveParam s pitch fpFreqR))
      (stdClamp (effectiveParam s pitch fpResonance) 0 1)
      (stdClamp (effectiveParam s pitch fpResonance) 0 1)
      s.sampleRateInv
      (cfg.dbToLinear (effectiveParam s pitch fpShelf))
      (cfg.dbToLinear (effectiveParam s pitch fpShelf))
  else
    SvfCall.setCoeffForBlock (s.intParam ipMode)
      (440.0 * cfg.note_to_pitch_ignoring_tuning (effectiveParam s pitch fpFreqL))
      (stdClamp (effectiveParam s pitch fpResonance) 0 1)
      s.sampleRateInv
      (cfg.dbToLinear (effectiveParam s pitch fpShelf))

/-- The call `calc_coeffs(pitch)` recomputes the coefficients: it calls
`setCoeffForBlock`. -/
def recomputes (cfg : Config α) (s : State α) (pitch : α) : Bool :=
  (callsOf cfg s pitch).any SvfCall.isSetCoeff

/-- The call `calc_coeffs(pitch)` resets the filter state: it calls `init`. -/
def resets (cfg : Config α) (s : State α) (pitch : α) : Bool :=
  (callsOf cfg s pitch).any SvfCall.isInit

/-- The call `calc_coeffs(pitch)` retains the coefficients: it calls
`retainCoeffForBlock`. -/
def retains (cfg : Config α) (s : State α) (pitch : α) : Bool :=
  (callsOf cfg s pitch).any SvfCall.isRetain

/-- The three block-processing entry points of the filter. -/
inductive ProcessKind where
  /-- The method `processMonoToMono`. -/
  | monoToMono : ProcessKind
  /-- The method `processMonoToStereo`. -/
  | monoToStereo : ProcessKind
  /-- The method `processStereo`. -/
  | stereo : ProcessKind

/-- The object after a call of the process method `kind` on the input blocks. -/
def processState (cfg : Config α) (kind : ProcessKind) (s : State α) (datainL datainR : Nat → α)
    (pitch : α) : State α :=
  match kind with
  | .monoToMono => (processMonoToMono cfg s datainL pitch).1
  | .monoToStereo => (processMonoToStereo cfg s datainL pitch).1
  | .stereo => (processStereo cfg s datainL datainR pitch).1

/-- A concrete configuration to evaluate the filter on: the two conversions
are the identity and `processBlock` passes its input through. -/
def exampleFilterConfig : Config ℚ :=
  { note_to_pitch_ignoring_tuning := fun x => x
    dbToLinear := fun x => x
    processBlockStereo := fun _ l r => (l, r)
    processBlockMono := fun _ l => l }

/-- A freshly constructed filter: low-pass mode, mono, cutoff offsets 0,
resonance 1/2, gain 0. -/
def exampleFilter : State ℚ :=
  construct ![0, 0, 1 / 2, 0] ![0, 0] (1 / 48000)

end CytomicSVF

/-! ## GenVA: the pulse oscillator -/

/-- Modelled from the spec: the scalar Parameter Ramp (`lipol<float,
blockSize, true>`, declared outside these sources). It holds the current value
`v`, the target `new_v` and the per-sample increment `dv`; with the third
template argument `true` the first target set after construction takes effect
at once. -/
structure lipol (α : Type) where
  /-- The current value. -/
  v : α
  /-- The target of the running ramp. -/
  new_v : α
  /-- The per-sample increment. -/
  dv : α
  /-- No target was set yet. -/
  first_run : Bool

namespace lipol

variable {α : Type} [LinearOrderedField α]

/-- Modelled from the spec: a freshly constructed ramp, at `0`. -/
def fresh : lipol α :=
  { v := 0, new_v := 0, dv := 0, first_run := true }

/-- Modelled from the spec: `newValue(f)` starts a ramp of `blockSize` steps
from the previous target to `f`; the first call jumps to `f`. -/
def newValue (blockSize : Nat) (l : lipol α) (f : α) : lipol α :=
  if l.first_run then
    { v := f, new_v := f, dv := 0, first_run := false }
  else
    { v := l.new_v, new_v := f, dv := (f - l.new_v) / (blockSize : α), first_run := false }

/-- Modelled from the spec: `process()` advances the ramp by one sample. -/
def process (l : lipol α) : lipol α :=
  { l with v := l.v + l.dv }

end lipol

/-- The sinc table (`ShortcircuitSincTableProvider`, declared outside these
sources): the kernel width and the two tables the pulse oscillator reads. -/
structure SincTable (α : Type) where
  /-- The constant `SincTable::FIRipol_N`. -/
  FIRipol_N : Nat
  /-- The table `SincTableF32`. -/
  SincTableF32 : Nat → α
  /-- The table `SincOffsetF32`. -/
  SincOffsetF32 : Nat → α

/-- The conversion `(int32_t)` of a value in `[0, 2^32)`: the two's complement
reading of its 32 bits. -/
def toInt32 (x : Int) : Int :=
  (x + 2 ^ 31) % 2 ^ 32 - 2 ^ 31

/-- The least `int64_t`, `INT64_MIN`. -/
def int64Min : Int := -2 ^ 63

/-- The `int64_t` that a sum or a difference of two `int64_t` leaves: the
value in `[-2^63, 2^63)` with the same 64 bits as the exact result. It is the
exact result when that fits 64 bits; otherwise the operation overflows, which
C++ leaves undefined, and the value is the two's complement one. -/
def wrap64 (x : Int) : Int :=
  (x + 2 ^ 63) % 2 ^ 64 - 2 ^ 63

/-- The conversion `(int64_t)(double)` of a finite value: truncation towards
zero when the result fits 64 bits. When it does not, C++ leaves the conversion
undefined, and the value is `INT64_MIN`, which the conversion instruction of
x86-64 returns. -/
def toInt64 {α : Type} [LinearOrderedField α] [FloorRing α] (x : α) : Int :=
  let t : Int := if 0 ≤ x then ⌊x⌋ else ⌈x⌉
  if -2 ^ 63 ≤ t ∧ t < 2 ^ 63 then t else int64Min

/-- The conversion `(int64_t)(double)` of a value that can be `+inf`: `+inf`
does not fit 64 bits. -/
def toInt64Ext {α : Type} [LinearOrderedField α] [FloorRing α] (x : Option α) : Int :=
  match x with
  | none => int64Min
  | some x => toInt64 x

/-- The `double` `std::max(0.5, a / b)`, with `none` for `+inf`: the quotient
of a positive `a` and the zero `b` is `+inf`, and so is the maximum. When `b`
is zero and `a` is not positive the quotient is `-inf` or NaN, and
`std::max(0.5, x)`, which is `(0.5 < x) ? x : 0.5`, is `0.5`. -/
def maxHalfQuotient {α : Type} [LinearOrderedField α] (a b : α) : Option α :=
  if b = 0 then (if 0 < a then none else some 0.5) else some (stdMax (0.5 : α) (a / b))

namespace GenVA

/-- The members of a `GenVA::PulseOscillator`. -/
structure PulseOscillator (α : Type) where
  /-- The member `mFirstRun`. -/
  mFirstRun : Bool
  /-- The member `samplerate`. -/
  samplerate : α
  /-- The member `mFreqLerp`. -/
  mFreqLerp : lipol α
  /-- The member `mWidthLerp`. -/
  mWidthLerp : lipol α
  /-- The member `mSyncLerp`. -/
  mSyncLerp : lipol α
  /-- The member `mLevelLerp`. -/
  mLevelLerp : lipol α
  /-- The member `mOscBuffer`, of `blockSize` entries. -/
  mOscBuffer : Nat → α
  /-- The member `mOscState`, an `int64_t`. -/
  mOscState : Int
  /-- The member `mSyncState`, an `int64_t`. -/
  mSyncState : Int
  /-- The member `mPolarity`. -/
  mPolarity : Bool
  /-- The member `mOscOut`. -/
  mOscOut : α
  /-- The member `mBufPos`. -/
  mBufPos : Nat
  /-- The table `localSincTable` points to. -/
  localSincTable : SincTable α

namespace PulseOscillator

variable {α : Type} [LinearOrderedField α] [FloorRing α]

/-- The constant: `static constexpr int64_t kLarge = 0x10000000000`. -/
def kLarge : Int := 0x10000000000

/-- The constant: `static constexpr float kIntegratorHPF = 0.99999999f`. The
literal lies within `2^-25` of `1`, closer to `1` than to the `float` below it,
`1 - 2^-24`, so the `float` constant is `1`. -/
def kIntegratorHPF : α := 1

/-- The kernel loop of `convolute`, `for (auto k = 0U; k < FIRipol_N; k++)`,
entered at index `k`: it adds the interpolated kernel row `m`, with sign
`fpol`, into the circular buffer from `mBufPos` on. -/
def kernelLoop (blockSize : Nat) (tbl : SincTable α) (mBufPos : Nat) (fpol lipol : α) (m : Int) :
    Nat → Nat → (Nat → α) → (Nat → α)
  | 0, _, buf => buf
  | n + 1, k, buf =>
    if k < tbl.FIRipol_N then
      let idx := (mBufPos + k) &&& (blockSize - 1)
      let buf := Function.update buf idx
        (buf idx + fpol * (tbl.SincTableF32 (m + k).toNat + lipol * tbl.SincOffsetF32 (m + k).toNat))
      kernelLoop blockSize tbl mBufPos fpol lipol m n (k + 1) buf
    else buf

/-- The test `mSyncState < mOscState` of `convolute`: the value of its local
`sync` after the `if`. -/
def syncEvent (st : PulseOscillator α) : Bool :=
  decide (st.mSyncState < st.mOscState)

/-- The phase `convolute` takes `ipos` from: `mSyncState` in the sync branch,
`mOscState` otherwise. -/
def eventPhase (st : PulseOscillator α) : Int :=
  if syncEvent st then st.mSyncState else st.mOscState

/-- The local `syncrate` of the sync branch of `convolute`:
`(int64_t)(double)(65536.0 * 16777216.0 * std::max(0.5, samplerate / freq))`;
the product with `+inf` is `+inf`. -/
def syncrate (st : PulseOscillator α) : Int :=
  toInt64Ext ((maxHalfQuotient st.samplerate st.mFreqLerp.v).map fun t =>
    (65536.0 : α) * 16777216.0 * t)

/-- The condition `!sync || !mPolarity` under which `convolute` writes the
kernel. -/
def writesKernel (st : PulseOscillator α) : Bool :=
  !syncEvent st || !st.mPolarity

/-- The member `mPolarity` after `if (sync) mPolarity = false`. -/
def polarityAfterSync (st : PulseOscillator α) : Bool :=
  if syncEvent st then false else st.mPolarity

/-- The local `width` of `convolute`, after `if (mPolarity) width = 1 - width`:
`0.5 - 0.499f * std::clamp(mWidthLerp.v, 0.01f, 0.99f)` or one minus it. -/
def dutyWidth (st : PulseOscillator α) : α :=
  let width : α := 0.5 - 0.499 * stdClamp st.mWidthLerp.v 0.01 0.99
  if polarityAfterSync st then 1 - width else width

/-- The divisor `freq + sync` of the second division of `convolute`; the
`bool` counts as `1` or `0`. -/
def periodDivisor (st : PulseOscillator α) : α :=
  st.mFreqLerp.v + (if syncEvent st then 1 else 0)

/-- The local `t` of `convolute`: `std::max(0.5, samplerate / (freq + sync))`,
with `none` for `+inf`. -/
def period (st : PulseOscillator α) : Option α :=
  maxHalfQuotient st.samplerate (periodDivisor st)

/-- The local `rate` of `convolute`:
`(int64_t)(double)(65536.0 * 16777216.0 * t * width)`; the width is positive,
so the product with `+inf` is `+inf`. -/
def rate (st : PulseOscillator α) : Int :=
  toInt64Ext ((period st).map fun t => (65536.0 : α) * 16777216.0 * t * dutyWidth st)

/-- The method `PulseOscillator::convolute()`. The shifts and masks are
written as divisions and remainders: `x >> 16` is `x / 2^16`, `x & 0xFFFFFFFF`
is `x % 2^32`, `x & 0xff` is `x % 256`, `x & 0xffff` is `x % 2^16`. -/
def convolute (blockSize : Nat) (st : PulseOscillator α) : PulseOscillator α :=
  let ipos : Int := toInt32 ((wrap64 (kLarge + eventPhase st) / 2 ^ 16) % 2 ^ 32)
  let sync : Bool := syncEvent st
  let mOscState : Int := if sync then st.mSyncState else st.mOscState
  let mSyncState : Int := if sync then wrap64 (st.mSyncState + syncrate st) else st.mSyncState
  -- generate pulse
  let fpol : α := if st.mPolarity then -1.0 else 1.0
  let m : Int := ((ipos / 2 ^ 16) % 256) * (st.localSincTable.FIRipol_N : Int)
  let lipol : α := ((ipos % 2 ^ 16 : Int) : α)
  let mOscBuffer : Nat → α :=
    if writesKernel st then
      kernelLoop blockSize st.localSincTable st.mBufPos fpol lipol m
        st.localSincTable.FIRipol_N 0 st.mOscBuffer
    else st.mOscBuffer
  let mPolarity : Bool := polarityAfterSync st
  -- add time until next statechange
  { st with
    mOscBuffer := mOscBuffer
    mOscState := wrap64 (mOscState + rate st)
    mSyncState := mSyncState
    mPolarity := !mPolarity }

/-- The method `PulseOscillator::initialize(sinc, sr)` (spelled `initialise`
here, the source's name being a keyword). -/
def initialise (st : PulseOscillator α) (sinc : SincTable α) (sr : α) : PulseOscillator α :=
  { st with
    localSincTable := sinc
    samplerate := sr
    mFirstRun := true
    mOscState := 0
    mSyncState := 0
    mOscOut := 0
    mPolarity := false
    mBufPos := 0
    mOscBuffer := fun _ => 0 }

/-- The method `PulseOscillator::setParams(freq, width, sync, level)`. -/
def setParams (blockSize : Nat) (st : PulseOscillator α) (freq width sync level : α) :
    PulseOscillator α :=
  { st with
    mFreqLerp := st.mFreqLerp.newValue blockSize freq
    mWidthLerp := st.mWidthLerp.newValue blockSize width
    mSyncLerp := st.mSyncLerp.newValue blockSize sync
    mLevelLerp := st.mLevelLerp.newValue blockSize level }

/-- The first-run part of `run`: the initial antipulse. -/
def prime (blockSize : Nat) (st : PulseOscillator α) : PulseOscillator α :=
  let st := { st with mFirstRun := false }
  -- initial antipulse
  let st := convolute blockSize st
  let st := { st with mOscState := wrap64 (st.mOscState - kLarge) }
  let st := { st with
    mOscBuffer := fun i => if i < blockSize then st.mOscBuffer i * (-0.5) else st.mOscBuffer i }
  { st with mOscState := 0, mPolarity := false }

/-- The loop `while (mSyncState < 0) this->convolute()` of `run`, cut off
after `fuel` calls: `none` when the loop has not ended by then. -/
def whileSyncState (blockSize : Nat) : Nat → PulseOscillator α → Option (PulseOscillator α)
  | 0, st => if st.mSyncState < 0 then none else some st
  | fuel + 1, st =>
    if st.mSyncState < 0 then whileSyncState blockSize fuel (convolute blockSize st) else some st

/-- The loop `while (mOscState < 0) this->convolute()` of `run`, cut off
after `fuel` calls: `none` when the loop has not ended by then. -/
def whileOscState (blockSize : Nat) : Nat → PulseOscillator α → Option (PulseOscillator α)
  | 0, st => if st.mOscState < 0 then none else some st
  | fuel + 1, st =>
    if st.mOscState < 0 then whileOscState blockSize fuel (convolute blockSize st) else some st

/-- The body of the sample loop of `run` at index `k`, after the two `while`
loops: the output sample and the advance of the buffer and of the ramps. -/
def emitSample (blockSize : Nat) (k : Nat) (st : PulseOscillator α) (block : Nat → α) :
    PulseOscillator α × (Nat → α) :=
  let mOscOut := st.mOscOut * kIntegratorHPF + st.mOscBuffer st.mBufPos
  let block := Function.update block k
    (mOscOut * st.mLevelLerp.v * st.mLevelLerp.v * st.mLevelLerp.v)
  let mOscBuffer := Function.update st.mOscBuffer st.mBufPos 0
  let mBufPos := st.mBufPos + 1
  let mBufPos := mBufPos &&& (blockSize - 1)
  ({ st with
      mOscOut := mOscOut
      mOscBuffer := mOscBuffer
      mBufPos := mBufPos
      mWidthLerp := st.mWidthLerp.process
      mSyncLerp := st.mSyncLerp.process
      mFreqLerp := st.mFreqLerp.process
      mLevelLerp := st.mLevelLerp.process }, block)

/-- The body of the sample loop of `run` at index `k`. -/
def runSample (blockSize fuel : Nat) (k : Nat) (st : PulseOscillator α) (block : Nat → α) :
    Option (PulseOscillator α × (Nat → α)) :=
  let st := { st with mOscState := wrap64 (st.mOscState - kLarge) }
  let st := { st with mSyncState := wrap64 (st.mSyncState - kLarge) }
  (whileSyncState blockSize fuel st).bind fun st =>
  (whileOscState blockSize fuel st).bind fun st =>
  some (emitSample blockSize k st block)

/-- The sample loop of `run`, `for (auto k = 0U; k < blockSize; k++)`, entered
at index `k`. -/
def runLoop (blockSize fuel : Nat) :
    Nat → Nat → PulseOscillator α → (Nat → α) → Option (PulseOscillator α × (Nat → α))
  | 0, _, st, block => some (st, block)
  | n + 1, k, st, block =>
    if k < blockSize then
      (runSample blockSize fuel k st block).bind fun r =>
        runLoop blockSize fuel n (k + 1) r.1 r.2
    else some (st, block)

/-- The method `PulseOscillator::run(block)`; each `while` loop is cut off
after `fuel` calls of `convolute`, and the result is `none` when one of them
has not ended by then. -/
def run (blockSize fuel : Nat) (st : PulseOscillator α) (block : Nat → α) :
    Option (PulseOscillator α × (Nat → α)) :=
  let st := if st.mFirstRun then prime blockSize st else st
  runLoop blockSize fuel blockSize 0 st block

end PulseOscillator

end GenVA

/-! ## GenVA: the block processing -/

namespace GenVA

/-- The `enum IntParams` of GenVA. -/
def ipStereo : Fin 3 := 0
/-- The `enum IntParams` of GenVA. -/
def ipWaveform : Fin 3 := 1
/-- The `enum IntParams` of GenVA. -/
def ipUnison : Fin 3 := 2

/-- The collaborators of GenVA that are declared outside these sources: the
block size, the sinc table, the pitch conversion of the effect base, the
constant `M_PI`, and the quadrature (state `Q`) and DPW saw (state `S`)
oscillators. -/
structure Config (α Q S : Type) where
  /-- The constant `VFXConfig::blockSize`. -/
  blockSize : Nat
  /-- The table `sSincTable`. -/
  sSincTable : SincTable α
  /-- The method `note_to_pitch_ignoring_tuning` of the effect base. -/
  note_to_pitch_ignoring_tuning : α → α
  /-- The constant `M_PI`. -/
  M_PI : α
  /-- The quadrature oscillator's `setRate(omega)`. -/
  setRate : Q → α → Q
  /-- The quadrature oscillator's member `v`. -/
  quadV : Q → α
  /-- The quadrature oscillator's `step()`. -/
  quadStep : Q → Q
  /-- The saw oscillator's `setFrequency(freq, sampleRateInv)`. -/
  setFrequency : S → α → α → S
  /-- The saw oscillator's `step()`: the sample and the new state. -/
  sawStep : S → α × S

/-- The members of a `GenVA` object, with the parameters and the sample rate
its effect base holds. The three banks are the `std::array`s of `maxUnison = 9`
oscillators. -/
structure State (α Q S : Type) extends Params α where
  /-- The values `getIntParam(i)` returns. -/
  intParam : Fin 3 → Int
  /-- The value `getSampleRate()` returns. -/
  sampleRate : α
  /-- The value `getSampleRateInv()` returns. -/
  sampleRateInv : α
  /-- The member `mQuadOsc`. -/
  mQuadOsc : Fin 9 → Q
  /-- The member `mSawOsc`. -/
  mSawOsc : Fin 9 → S
  /-- The member `mPulseOsc`. -/
  mPulseOsc : Fin 9 → PulseOscillator α
  /-- The member `oscSum`. -/
  oscSum : Nat → α
  /-- The member `levelLerp`. -/
  levelLerp : Lipol α

variable {α Q S : Type} [LinearOrderedField α] [FloorRing α]

/-- The block operation `mech::copy_from_to<blockSize>(src, dst)`. -/
def copy_from_to (blockSize : Nat) (src dst : Nat → α) : Nat → α :=
  fun i => if i < blockSize then src i else dst i

/-- The block operation `mech::accumulate_from_to<blockSize>(src, dst)`. -/
def accumulate_from_to (blockSize : Nat) (src dst : Nat → α) : Nat → α :=
  fun i => if i < blockSize then dst i + src i else dst i

/-- The block operation `mech::scale_by<blockSize>(scale, block)`. -/
def scale_by (blockSize : Nat) (scale : α) (block : Nat → α) : Nat → α :=
  fun i => if i < blockSize then block i * scale else block i

/-- The sample loop of `runSine`, `for (int k = 0; k < blockSize; k++)`,
entered at index `k`. -/
def sineLoop (cfg : Config α Q S) : Nat → Nat → Q → (Nat → α) → Q × (Nat → α)
  | 0, _, osc, output => (osc, output)
  | n + 1, k, osc, output =>
    if k < cfg.blockSize then
      let output := Function.update output k (cfg.quadV osc)
      let osc := cfg.quadStep osc
      sineLoop cfg n (k + 1) osc output
    else (osc, output)

/-- The method `GenVA::runSine(osc, output, tune)`. -/
def runSine (cfg : Config α Q S) (s : State α Q S) (osc : Q) (output : Nat → α) (tune : α) :
    Q × (Nat → α) :=
  let osc := cfg.setRate osc
    (440.0 * 2 * cfg.M_PI * cfg.note_to_pitch_ignoring_tuning tune * s.sampleRateInv)
  sineLoop cfg cfg.blockSize 0 osc output

/-- The sample loop of `runSaw`, `for (int k = 0; k < blockSize; k++)`,
entered at index `k`. -/
def sawLoop (cfg : Config α Q S) : Nat → Nat → S → (Nat → α) → S × (Nat → α)
  | 0, _, osc, output => (osc, output)
  | n + 1, k, osc, output =>
    if k < cfg.blockSize then
      let r := cfg.sawStep osc
      let output := Function.update output k r.1
      sawLoop cfg n (k + 1) r.2 output
    else (osc, output)

/-- The method `GenVA::runSaw(osc, output, tune)`. -/
def runSaw (cfg : Config α Q S) (s : State α Q S) (osc : S) (output : Nat → α) (tune : α) :
    S × (Nat → α) :=
  let osc := cfg.setFrequency osc (440.0 * cfg.note_to_pitch_ignoring_tuning tune) s.sampleRateInv
  sawLoop cfg cfg.blockSize 0 osc output

/-- The method `GenVA::runPulse(osc, output, tune)`; `fuel` bounds the `while`
loops of the oscillator's `run`. -/
def runPulse (cfg : Config α Q S) (fuel : Nat) (s : State α Q S) (osc : PulseOscillator α)
    (output : Nat → α) (tune : α) : Option (PulseOscillator α × (Nat → α)) :=
  let freq := 440.0 * cfg.note_to_pitch_ignoring_tuning tune
  let sync := 440.0 * cfg.note_to_pitch_ignoring_tuning (s.floatParam fpSync)
  let osc := osc.setParams cfg.blockSize freq (s.floatParam fpWidth) sync (s.floatParam fpLevel)
  osc.run cfg.blockSize fuel output

/-- The constructor `GenVA::GenVA(st)`, for an effect base that holds the
given parameters and sample rate and for freshly constructed oscillators. -/
def construct (cfg : Config α Q S) (floatParam : Fin 5 → α) (intParam : Fin 3 → Int)
    (sampleRate sampleRateInv : α) (quad : Q) (saw : S) : State α Q S :=
  { floatParam := floatParam
    keytrackOn := true
    intParam := intParam
    sampleRate := sampleRate
    sampleRateInv := sampleRateInv
    mQuadOsc := fun _ => quad
    mSawOsc := fun _ => saw
    mPulseOsc := fun _ =>
      PulseOscillator.initialise
        { mFirstRun := true, samplerate := 0, mFreqLerp := lipol.fresh, mWidthLerp := lipol.fresh,
          mSyncLerp := lipol.fresh, mLevelLerp := lipol.fresh, mOscBuffer := fun _ => 0,
          mOscState := 0, mSyncState := 0, mPolarity := false, mOscOut := 0, mBufPos := 0,
          localSincTable := cfg.sSincTable }
        cfg.sSincTable sampleRate
    oscSum := fun _ => 0
    levelLerp := { current := 0, target := 0 } }

/-- The method `GenVA::enableKeytrack(b)`: the object after the call and the
value returned. -/
def enableKeytrack (s : State α Q S) (b : Bool) : State α Q S × Bool :=
  let res := (b != s.keytrackOn)
  ({ s with keytrackOn := b }, res)

/-- The local `tune` of `processMonoToMono`:
`(keytrackOn) ? getFloatParam(fpOffset) + pitch : getFloatParam(fpOffset)`. -/
def processTune (s : State α Q S) (pitch : α) : α :=
  if s.keytrackOn then s.floatParam fpOffset + pitch else s.floatParam fpOffset

/-- The local `level` of `processMonoToMono`:
`level = std::clamp(getFloatParam(fpLevel), 0.f, 1.f); level = level * level * level`. -/
def processLevel (s : State α Q S) : α :=
  let level := stdClamp (s.floatParam fpLevel) 0 1
  level * level * level

/-- The local array `detune` of `processMonoToMono` after
`detuneStrategy(unisonCount, tune, detune)`; the entries the call does not
write are shown as `0`. -/
def processDetune (s : State α Q S) (pitch : α) : Nat → α :=
  let tune := processTune s pitch
  let unisonCount := s.intParam ipUnison
  detuneStrategy s.toParams unisonCount tune (fun _ => 0)

/-- The step of a voice loop of `processMonoToMono` after the kernel has
filled `tmp`: `copy_from_to` for voice `0`, `accumulate_from_to` for the
others. -/
def sumVoice (blockSize : Nat) (i : Nat) (tmp oscSum : Nat → α) : Nat → α :=
  if i = 0 then copy_from_to blockSize tmp oscSum else accumulate_from_to blockSize tmp oscSum

/-- The sine voice loop of `processMonoToMono`,
`for (int i = 0; i < unisonCount; i++)`, entered at index `i`; `none` when an
index leaves the bank `mQuadOsc`. -/
def sineVoices (cfg : Config α Q S) (unisonCount : Int) (detune : Nat → α) :
    Nat → Nat → State α Q S → Option (State α Q S)
  | 0, _, s => some s
  | n + 1, i, s =>
    if (i : Int) < unisonCount then
      if h : i < 9 then
        let r := runSine cfg s (s.mQuadOsc ⟨i, h⟩) (fun _ => 0) (detune i)
        sineVoices cfg unisonCount detune n (i + 1)
          { s with
            mQuadOsc := Function.update s.mQuadOsc ⟨i, h⟩ r.1
            oscSum := sumVoice cfg.blockSize i r.2 s.oscSum }
      else none
    else some s

/-- The saw voice loop of `processMonoToMono`,
`for (int i = 0; i < unisonCount; i++)`, entered at index `i`; `none` when an
index leaves the bank `mSawOsc`. -/
def sawVoices (cfg : Config α Q S) (unisonCount : Int) (detune : Nat → α) :
    Nat → Nat → State α Q S → Option (State α Q S)
  | 0, _, s => some s
  | n + 1, i, s =>
    if (i : Int) < unisonCount then
      if h : i < 9 then
        let r := runSaw cfg s (s.mSawOsc ⟨i, h⟩) (fun _ => 0) (detune i)
        sawVoices cfg unisonCount detune n (i + 1)
          { s with
            mSawOsc := Function.update s.mSawOsc ⟨i, h⟩ r.1
            oscSum := sumVoice cfg.blockSize i r.2 s.oscSum }
      else none
    else some s

/-- The pulse voice loop of `processMonoToMono`,
`for (int i = 0; i < unisonCount; i++)`, entered at index `i`; `none` when an
index leaves the bank `mPulseOsc` or a `while` loop of an oscillator has not
ended after `fuel` calls. -/
def pulseVoices (cfg : Config α Q S) (fuel : Nat) (unisonCount : Int) (detune : Nat → α) :
    Nat → Nat → State α Q S → Option (State α Q S)
  | 0, _, s => some s
  | n + 1, i, s =>
    if (i : Int) < unisonCount then
      if h : i < 9 then
        (runPulse cfg fuel s (s.mPulseOsc ⟨i, h⟩) (fun _ => 0) (detune i)).bind fun r =>
          pulseVoices cfg fuel unisonCount detune n (i + 1)
            { s with
              mPulseOsc := Function.update s.mPulseOsc ⟨i, h⟩ r.1
              oscSum := sumVoice cfg.blockSize i r.2 s.oscSum }
      else none
    else some s

/-- The method `GenVA::processMonoToMono(datainL, dataoutL, pitch)`: the
object and the output block after the call. -/
def processMonoToMono (cfg : Config α Q S) (fuel : Nat) (s : State α Q S)
    (_datainL dataoutL : Nat → α) (pitch : α) : Option (State α Q S × (Nat → α)) :=
  let level := processLevel s
  let s := { s with levelLerp := s.levelLerp.set_target level }
  let unisonCount := s.intParam ipUnison
  let detune := processDetune s pitch
  let wave := s.intParam ipWaveform
  let r : Option (State α Q S) :=
    if wave = 0 then
      (sineVoices cfg unisonCount detune unisonCount.toNat 0 s).map fun s =>
        { s with oscSum := scale_by cfg.blockSize level s.oscSum }
    else if wave = 1 then
      (sawVoices cfg unisonCount detune unisonCount.toNat 0 s).map fun s =>
        { s with oscSum := scale_by cfg.blockSize level s.oscSum }
    else
      pulseVoices cfg fuel unisonCount detune unisonCount.toNat 0 s
  r.map fun s => (s, copy_from_to cfg.blockSize s.oscSum dataoutL)

/-- The method `GenVA::processStereo(datainL, datainR, dataoutL, dataoutR,
pitch)`: the object and the two output blocks after the call. -/
def processStereo (cfg : Config α Q S) (fuel : Nat) (s : State α Q S)
    (datainL _datainR dataoutL dataoutR : Nat → α) (pitch : α) :
    Option (State α Q S × (Nat → α) × (Nat → α)) :=
  (processMonoToMono cfg fuel s datainL dataoutL pitch).map fun r =>
    (r.1, r.2, copy_from_to cfg.blockSize r.2 dataoutR)

end GenVA

/-! ## Parameter metadata -/

/-- A call of a builder method of `ParamMetaData` (declared outside these
sources), with its arguments. -/
inductive PmdCall where
  /-- The call `asFloat()`. -/
  | asFloat : PmdCall
  /-- The call `asInt()`. -/
  | asInt : PmdCall
  /-- The call `asBool()`. -/
  | asBool : PmdCall
  /-- The call `asPercent()`. -/
  | asPercent : PmdCall
  /-- The call `asAudibleFrequency()`. -/
  | asAudibleFrequency : PmdCall
  /-- The call `asCubicDecibelAttenuation()`. -/
  | asCubicDecibelAttenuation : PmdCall
  /-- The call `asDecibelNarrow()`. -/
  | asDecibelNarrow : PmdCall
  /-- The call `withRange(lo, hi)`. -/
  | withRange (lo hi : ℚ) : PmdCall
  /-- The call `withDefault(d)`. -/
  | withDefault (d : ℚ) : PmdCall
  /-- The call `withName(name)`. -/
  | withName (name : String) : PmdCall
  /-- The call `withLinearScaleFormatting(units, scale)`; `scale` is `1` when
  the source leaves it out. -/
  | withLinearScaleFormatting (units : String) (scale : ℚ) : PmdCall
  /-- The call `withUnorderedMapFormatting(map)`. -/
  | withUnorderedMapFormatting (map : List (Int × String)) : PmdCall
  deriving DecidableEq

/-- Modelled from the spec: the display metadata of a parameter
(`ParamMetaData`, declared outside these sources), as the builder calls that
made it, the oldest first. -/
structure ParamMetaData where
  /-- The builder calls, the oldest first. -/
  calls : List PmdCall
  deriving DecidableEq

namespace ParamMetaData

/-- The expression `pmd()`: a descriptor no builder was called on. -/
def pmd : ParamMetaData := { calls := [] }

/-- A builder call on a descriptor. -/
def call (d : ParamMetaData) (c : PmdCall) : ParamMetaData := { calls := d.calls ++ [c] }

/-- The name a list of builder calls leaves: the argument of the last
`withName`, empty when there is none. -/
def nameOf (calls : List PmdCall) : String :=
  calls.foldl (fun n c => match c with | PmdCall.withName m => m | _ => n) ""

/-- Modelled from the spec: the name of a descriptor. -/
def name (d : ParamMetaData) : String := nameOf d.calls

end ParamMetaData

namespace ShortDelay

open ParamMetaData in
/-- The method `ShortDelay::paramAt(idx)`. -/
def paramAt {α F : Type} (s : State α F) (idx : Int) : ParamMetaData :=
  let stereo : Bool := decide (s.intParam ipStereo > 0)
  if idx = 0 then
    ((((pmd.call .asFloat).call (.withRange 0 250)).call (.withDefault 50)).call
      (.withLinearScaleFormatting "ms" 1)).call (.withName ("Time" ++ (if stereo then " L" else "")))
  else if idx = 1 then
    ((((pmd.call .asFloat).call (.withRange 0 250)).call (.withDefault 50)).call
      (.withLinearScaleFormatting "ms" 1)).call (.withName (if !stereo then "" else "Time R"))
  else if idx = 2 then
    ((pmd.call .asPercent).call (.withDefault 0)).call (.withName "Feedback")
  else if idx = 3 then
    ((pmd.call .asPercent).call (.withDefault 0)).call
      (.withName (if !stereo then "" else "CrossFeed"))
  else if idx = 4 then
    ((pmd.call .asAudibleFrequency).call (.withDefault (-60))).call (.withName "LowCut")
  else if idx = 5 then
    ((pmd.call .asAudibleFrequency).call (.withDefault 70)).call (.withName "HighCut")
  else
    pmd.call (.withName "Error")

open ParamMetaData in
/-- The method `ShortDelay::intParamAt(idx)`. -/
def intParamAt (_idx : Int) : ParamMetaData :=
  ((pmd.call .asBool).call (.withDefault 1)).call (.withName "Stereo")

end ShortDelay

namespace CytomicSVF

/-- Modelled from the spec: the enumerators of `sst::filters::CytomicSVF::Mode`
(declared outside these sources), in the order the spec lists the nine modes:
`LP, HP, BP, NOTCH, PEAK, ALL, BELL, LOW_SHELF, HIGH_SHELF`. -/
def modeNames : List (Int × String) :=
  [(0, "Low Pass"), (1, "High Pass"), (2, "Band Pass"), (3, "Notch"), (4, "Peak"),
   (5, "All Pass"), (6, "Bell"), (7, "Low Shelf"), (8, "High Shelf")]

open ParamMetaData in
/-- The method `CytomicSVF::paramAt(idx)`. -/
def paramAt {α : Type} (s : State α) (idx : Int) : ParamMetaData :=
  let stereo : Bool := decide (s.intParam ipStereo > 0)
  if idx = 0 then
    if s.keytrackOn then
      ((((pmd.call .asFloat).call (.withRange (-48) 48)).call
        (.withName ("Offset" ++ (if stereo then " L" else "")))).call (.withDefault 0)).call
        (.withLinearScaleFormatting "semitones" 1)
    else
      ((pmd.call .asAudibleFrequency).call
        (.withName ("Cutoff" ++ (if stereo then " L" else "")))).call (.withDefault 0)
  else if idx = 1 then
    if s.keytrackOn then
      ((((pmd.call .asFloat).call (.withRange (-48) 48)).call
        (.withName (if !stereo then "" else "Offset R"))).call (.withDefault 0)).call
        (.withLinearScaleFormatting "semitones" 1)
    else
      ((pmd.call .asAudibleFrequency).call
        (.withName (if !stereo then "" else "Cutoff R"))).call (.withDefault 0)
  else if idx = 2 then
    (((pmd.call .asPercent).call (.withName "Resonance")).call
      (.withLinearScaleFormatting "" 1)).call (.withDefault 0.707)
  else if idx = 3 then
    (((pmd.call .asDecibelNarrow).call (.withRange (-12) 12)).call (.withName "Gain")).call
      (.withDefault 0)
  else
    (pmd.call (.withName ("Unknown " ++ toString idx))).call .asPercent

open ParamMetaData in
/-- The method `CytomicSVF::intParamAt(idx)`. -/
def intParamAt (idx : Int) : ParamMetaData :=
  if idx = 0 then
    ((((pmd.call .asInt).call (.withRange 0 8)).call (.withName "Mode")).call
      (.withUnorderedMapFormatting modeNames)).call (.withDefault 0)
  else if idx = 1 then
    ((pmd.call .asBool).call (.withDefault 0)).call (.withName "Stereo")
  else
    pmd.call (.withName "error")

end CytomicSVF

namespace GenVA

open ParamMetaData in
/-- The method `GenVA::paramAt(idx)`. -/
def paramAt {α : Type} (p : Params α) (idx : Int) : ParamMetaData :=
  if idx = 0 then
    if p.keytrackOn then
      ((((pmd.call .asFloat).call (.withRange (-48) 48)).call (.withDefault 0)).call
        (.withLinearScaleFormatting "semitones" 1)).call (.withName "Tune")
    else
      (pmd.call .asAudibleFrequency).call (.withName "Frequency")
  else if idx = 1 then
    ((pmd.call .asCubicDecibelAttenuation).call (.withDefault 0.5)).call (.withName "Level")
  else if idx = 3 then
    ((pmd.call .asPercent).call (.withName "Pulse Width")).call (.withDefault 0.5)
  else if idx = 2 then
    ((((pmd.call .asFloat).call (.withRange 0 96)).call (.withName "Sync")).call
      (.withDefault 0)).call (.withLinearScaleFormatting "semitones" 1)
  else if idx = 4 then
    ((((pmd.call .asFloat).call (.withRange 0 1)).call (.withDefault 0.01)).call
      (.withLinearScaleFormatting "cents" 100)).call (.withName "Unison Detune")
  else
    (pmd.call (.withName ("Unknown " ++ toString idx))).call .asPercent

open ParamMetaData in
/-- The method `GenVA::intParamAt(idx)`. -/
def intParamAt (idx : Int) : ParamMetaData :=
  if idx = 0 then
    ((pmd.call .asBool).call (.withDefault 0)).call (.withName "Stereo")
  else if idx = 1 then
    (((pmd.call .asInt).call (.withRange 0 2)).call
      (.withUnorderedMapFormatting [(0, "Sine"), (1, "Saw"), (2, "Pulse")])).call
      (.withName "Waveform")
  else if idx = 2 then
    (((pmd.call .asInt).call (.withRange 1 9)).call (.withDefault 1)).call
      (.withName "Unison Count")
  else
    pmd.call (.withName "error")

end GenVA

/-- The name marks a sentinel descriptor: it is `"Error"`, `"error"` or starts
with `"Unknown "`. -/
def isSentinelName (n : String) : Bool :=
  n == "Error" || n == "error" || "Unknown ".toList.isPrefixOf n.toList

namespace GenVA

/-- A concrete configuration to evaluate the oscillator on: blocks of 4
samples, a sinc kernel of width 2 with all entries `1` and no offset, a pitch
conversion that is constantly `1` (every voice runs at 440 Hz), and sine and
saw oscillators that put out their state and keep it. -/
def exampleVAConfig : Config ℚ ℚ ℚ :=
  { blockSize := 4
    sSincTable := { FIRipol_N := 2, SincTableF32 := fun _ => 1, SincOffsetF32 := fun _ => 0 }
    note_to_pitch_ignoring_tuning := fun _ => 1
    M_PI := 22 / 7
    setRate := fun q _ => q
    quadV := fun q => q
    quadStep := fun q => q
    setFrequency := fun q _ _ => q
    sawStep := fun q => (q, q) }

/-- A freshly constructed oscillator engine at 48 kHz with the given keytrack
setting, Tune parameter, level, waveform and unison count; the sine and saw
oscillators put out `1`. -/
def exampleVA (keytrack : Bool) (tune level : ℚ) (wave unison : Int) : State ℚ ℚ ℚ :=
  (enableKeytrack
    (construct exampleVAConfig ![tune, level, 0, 1 / 2, 1 / 100] ![0, wave, unison]
      48000 (1 / 48000) 1 1) keytrack).1

end GenVA

/-! ### Quantities the statements about the pulse oscillator use -/

namespace GenVA

namespace PulseOscillator

variable {α : Type} [LinearOrderedField α] [FloorRing α]

/-- The divisors of the divisions `convolute` performs, in order:
`samplerate / freq` in the sync branch, then `samplerate / (freq + sync)`. -/
def convoluteDivisors (st : PulseOscillator α) : List α :=
  (if syncEvent st then [st.mFreqLerp.v] else []) ++ [periodDivisor st]

/-- The duty fraction `convolute` uses while `mPolarity` is false:
`0.5 - 0.499 * clamp(width, 0.01, 0.99)`. -/
def duty0 (w : α) : α :=
  0.5 - 0.499 * stdClamp w 0.01 0.99

/-- The `syncrate` of `convolute` at sample rate `sr` and frequency `f`: the
period of the oscillator in phase units. -/
def syncPeriod (sr f : α) : Int :=
  toInt64 ((65536.0 : α) * 16777216.0 * stdMax (0.5 : α) (sr / f))

/-- The `rate` of `convolute` in its sync branch, at sample rate `sr`,
frequency `f` and width `w`. -/
def stepAfterSync (sr f w : α) : Int :=
  toInt64 ((65536.0 : α) * 16777216.0 * stdMax (0.5 : α) (sr / (f + 1)) * duty0 w)

/-- The `rate` of `convolute` without a sync while `mPolarity` is true: the
step it takes when it writes a negative edge. -/
def stepFall (sr f w : α) : Int :=
  toInt64 ((65536.0 : α) * 16777216.0 * stdMax (0.5 : α) (sr / f) * (1 - duty0 w))

/-- The `rate` of `convolute` without a sync while `mPolarity` is false: the
step it takes when it writes a positive edge. -/
def stepRise (sr f w : α) : Int :=
  toInt64 ((65536.0 : α) * 16777216.0 * stdMax (0.5 : α) (sr / f) * duty0 w)

/-- The oscillator runs at sample rate `sr` with the frequency ramp at `f` and
the width ramp at `w`. -/
def Steady (sr f w : α) (st : PulseOscillator α) : Prop :=
  st.samplerate = sr ∧ st.mFreqLerp.v = f ∧ st.mWidthLerp.v = w

/-- The state of the steady cycle right after a sync at phase `S`. -/
def afterSync (sr f w : α) (S : Int) (st : PulseOscillator α) : Prop :=
  Steady sr f w st ∧ st.mPolarity = true ∧
  st.mOscState = S + stepAfterSync sr f w ∧ st.mSyncState = S + syncPeriod sr f

/-- The state of the steady cycle after the negative edge that follows the
sync at phase `S`. -/
def afterFall (sr f w : α) (S : Int) (st : PulseOscillator α) : Prop :=
  Steady sr f w st ∧ st.mPolarity = false ∧
  st.mOscState = S + stepAfterSync sr f w + stepFall sr f w ∧
  st.mSyncState = S + syncPeriod sr f

/-- The state of the steady cycle after the positive edge that follows the
sync at phase `S`. -/
def afterRise (sr f w : α) (S : Int) (st : PulseOscillator α) : Prop :=
  Steady sr f w st ∧ st.mPolarity = true ∧
  st.mOscState = S + stepAfterSync sr f w + stepFall sr f w + stepRise sr f w ∧
  st.mSyncState = S + syncPeriod sr f

/-- A default-constructed pulse oscillator that points to the table `tbl`. -/
def unprimed (tbl : SincTable α) : PulseOscillator α :=
  { mFirstRun := true, samplerate := 0, mFreqLerp := lipol.fresh, mWidthLerp := lipol.fresh,
    mSyncLerp := lipol.fresh, mLevelLerp := lipol.fresh, mOscBuffer := fun _ => 0,
    mOscState := 0, mSyncState := 0, mPolarity := false, mOscOut := 0, mBufPos := 0,
    localSincTable := tbl }

end PulseOscillator

/-- A pulse oscillator of the example engine, initialised at 48 kHz and given
the frequency, width and level by `setParams`. -/
def examplePulse (freq width level : ℚ) : PulseOscillator ℚ :=
  PulseOscillator.setParams 4
    (PulseOscillator.initialise (PulseOscillator.unprimed exampleVAConfig.sSincTable)
      exampleVAConfig.sSincTable 48000)
    freq width 0 level

end GenVA

/-! ### The recorded run of the pulse oscillator -/

namespace GenVA

namespace PulseOscillator

variable {α : Type} [LinearOrderedField α]

/-- A pulse oscillator together with a record of its run: the number of
samples begun so far, and the edges the calls of `convolute` have written, each
as its polarity (`true` for `fpol = 1`) and its phase counted from the start of
the run. The record does not feed back into the oscillator. -/
structure Traced (α : Type) where
  /-- The oscillator. -/
  osc : PulseOscillator α
  /-- The number of samples begun: how often `run` has subtracted `kLarge`. -/
  ticks : Nat
  /-- The edges written so far, oldest first. -/
  edges : List (Bool × Int)

/-- The edge one call of `convolute` writes from the state `st` once `ticks`
samples have begun: none when the kernel loop is skipped; the phase is
`eventPhase st` moved back by the `ticks * kLarge` that `run` has subtracted. -/
def edgeOf [FloorRing α] (ticks : Nat) (st : PulseOscillator α) : List (Bool × Int) :=
  if writesKernel st then [(!st.mPolarity, eventPhase st + (ticks : Int) * kLarge)] else []

/-- One call of `convolute`, recorded. -/
def convoluteT [FloorRing α] (blockSize : Nat) (tr : Traced α) : Traced α :=
  { tr with osc := convolute blockSize tr.osc, edges := tr.edges ++ edgeOf tr.ticks tr.osc }

/-- The first-run part of `run`, recorded. -/
def primeT [FloorRing α] (blockSize : Nat) (tr : Traced α) : Traced α :=
  { tr with
    osc := prime blockSize tr.osc
    edges := tr.edges ++ edgeOf tr.ticks { tr.osc with mFirstRun := false } }

/-- The loop `whileSyncState`, recorded. -/
def whileSyncStateT [FloorRing α] (blockSize : Nat) : Nat → Traced α → Option (Traced α)
  | 0, tr => if tr.osc.mSyncState < 0 then none else some tr
  | fuel + 1, tr =>
    if tr.osc.mSyncState < 0 then whileSyncStateT blockSize fuel (convoluteT blockSize tr)
    else some tr

/-- The loop `whileOscState`, recorded. -/
def whileOscStateT [FloorRing α] (blockSize : Nat) : Nat → Traced α → Option (Traced α)
  | 0, tr => if tr.osc.mOscState < 0 then none else some tr
  | fuel + 1, tr =>
    if tr.osc.mOscState < 0 then whileOscStateT blockSize fuel (convoluteT blockSize tr)
    else some tr

/-- The two subtractions of `kLarge` that open the body of the sample loop. -/
def tick (st : PulseOscillator α) : PulseOscillator α :=
  let st := { st with mOscState := wrap64 (st.mOscState - kLarge) }
  { st with mSyncState := wrap64 (st.mSyncState - kLarge) }

/-- The body of the sample loop, `runSample`, recorded. -/
def runSampleT [FloorRing α] (blockSize fuel : Nat) (k : Nat) (tr : Traced α) (block : Nat → α) :
    Option (Traced α × (Nat → α)) :=
  let tr := { tr with osc := tick tr.osc, ticks := tr.ticks + 1 }
  (whileSyncStateT blockSize fuel tr).bind fun tr =>
  (whileOscStateT blockSize fuel tr).bind fun tr =>
  some ({ tr with osc := (emitSample blockSize k tr.osc block).1 },
    (emitSample blockSize k tr.osc block).2)

/-- The sample loop `runLoop`, recorded. -/
def runLoopT [FloorRing α] (blockSize fuel : Nat) :
    Nat → Nat → Traced α → (Nat → α) → Option (Traced α × (Nat → α))
  | 0, _, tr, block => some (tr, block)
  | n + 1, k, tr, block =>
    if k < blockSize then
      (runSampleT blockSize fuel k tr block).bind fun r =>
        runLoopT blockSize fuel n (k + 1) r.1 r.2
    else some (tr, block)

/-- The method `run`, recorded. -/
def runT [FloorRing α] (blockSize fuel : Nat) (tr : Traced α) (block : Nat → α) :
    Option (Traced α × (Nat → α)) :=
  let tr := if tr.osc.mFirstRun then primeT blockSize tr else tr
  runLoopT blockSize fuel blockSize 0 tr block

/-- The oscillator driven for `n` blocks the way `runPulse` drives it, with the
same frequency, width, sync and level in every block: `setParams`, then `run`
into `block`. The result is `none` when a `while` loop was cut off. -/
def runBlocksT [FloorRing α] (blockSize fuel : Nat) (freq width sync level : α)
    (block : Nat → α) : Nat → Traced α → Option (Traced α)
  | 0, tr => some tr
  | n + 1, tr =>
    (runBlocksT blockSize fuel freq width sync level block n tr).bind fun tr =>
      (runT blockSize fuel
        { tr with osc := setParams blockSize tr.osc freq width sync level } block).map Prod.fst

/-- The same blocks without the record: `setParams`, then `run`, `n` times. -/
def runBlocks [FloorRing α] (blockSize fuel : Nat) (freq width sync level : α)
    (block : Nat → α) : Nat → PulseOscillator α → Option (PulseOscillator α)
  | 0, st => some st
  | n + 1, st =>
    (runBlocks blockSize fuel freq width sync level block n st).bind fun st =>
      (run blockSize fuel (setParams blockSize st freq width sync level) block).map Prod.fst

/-- The phases of the positive edges of a record, oldest first. -/
def risingPhases (es : List (Bool × Int)) : List Int :=
  (es.filter fun e => e.1).map fun e => e.2

/-- The positive edges of a steady run at sample rate `sr`, frequency `f` and
width `w`: the two at phase `0` that start the oscillator, then `m` edges one
`syncPeriod` apart. -/
def steadyRising [FloorRing α] (sr f w : α) (m : Nat) : List Int :=
  [0, 0] ++ (List.range m).map fun (k : Nat) =>
    stepAfterSync sr f w + stepFall sr f w + (k : Int) * syncPeriod sr f

/-- A ramp that rests at `x`. -/
def lipolHeld (x : α) (l : lipol α) : Prop :=
  l.v = x ∧ l.new_v = x ∧ l.dv = 0

end PulseOscillator

end GenVA

namespace GenVA

namespace PulseOscillator

variable {α : Type} [LinearOrderedField α]

/-- The oscillator has run before and its frequency and width ramps rest at
`f` and `w`. -/
def rampsRest (f w : α) (st : PulseOscillator α) : Prop :=
  st.mFirstRun = false ∧ lipolHeld f st.mFreqLerp ∧ lipolHeld w st.mWidthLerp

/-- The recorded run is right after the sync that opens period number `m`:
that sync is at phase `S` on the oscillator's own clock, and the record holds
the positive edges of the periods before. -/
def cycleSync [FloorRing α] (sr f w : α) (S : Int) (m : Nat) (tr : Traced α) : Prop :=
  rampsRest f w tr.osc ∧ afterSync sr f w S tr.osc ∧
  S + (tr.ticks : Int) * kLarge = (m : Int) * syncPeriod sr f ∧
  risingPhases tr.edges = steadyRising sr f w m

/-- The recorded run is after the negative edge of period number `m`. -/
def cycleFall [FloorRing α] (sr f w : α) (S : Int) (m : Nat) (tr : Traced α) : Prop :=
  rampsRest f w tr.osc ∧ afterFall sr f w S tr.osc ∧
  S + (tr.ticks : Int) * kLarge = (m : Int) * syncPeriod sr f ∧
  risingPhases tr.edges = steadyRising sr f w m

/-- The recorded run is after the positive edge of period number `m`, which
the record now holds. -/
def cycleRise [FloorRing α] (sr f w : α) (S : Int) (m : Nat) (tr : Traced α) : Prop :=
  rampsRest f w tr.osc ∧ afterRise sr f w S tr.osc ∧
  S + (tr.ticks : Int) * kLarge = (m : Int) * syncPeriod sr f ∧
  risingPhases tr.edges = steadyRising sr f w (m + 1)

/-- The recorded run is in the steady cycle, with the next sync due at a phase
in `[lo, syncPeriod)`. -/
def cycling [FloorRing α] (sr f w : α) (lo : Int) (tr : Traced α) : Prop :=
  ∃ (S : Int) (m : Nat),
    (cycleSync sr f w S m tr ∨ cycleFall sr f w S m tr ∨ cycleRise sr f w S m tr) ∧
    lo ≤ tr.osc.mSyncState ∧ tr.osc.mSyncState < syncPeriod sr f

/-- The recorded run is between two samples of the steady cycle: both `while`
loops of `run` have ended. -/
def betweenSamples [FloorRing α] (sr f w : α) (tr : Traced α) : Prop :=
  cycling sr f w 0 tr ∧ 0 ≤ tr.osc.mOscState

end PulseOscillator

end GenVA

namespace ShortDelay

variable {α F : Type} [LinearOrderedField α]

/-- The delay object `s'` differs from `s` at most in the right-time and
cross-feed parameters and in the cross-feed ramp. -/
def sameButRight (s s' : State α F) : Prop :=
  (∀ i, i ≠ fpTimeR → i ≠ fpCrossFeed → s'.floatParam i = s.floatParam i) ∧
  s'.intParam = s.intParam ∧ s'.sampleRate = s.sampleRate ∧
  s'.lineSupport0 = s.lineSupport0 ∧ s'.lineSupport1 = s.lineSupport1 ∧
  s'.isShort = s.isShort ∧ s'.lipolFb = s.lipolFb ∧
  s'.lipolDelay0 = s.lipolDelay0 ∧ s'.lipolDelay1 = s.lipolDelay1 ∧
  s'.lp = s.lp ∧ s'.hp = s.hp

/-- The example delay with the stereo flag off and the given right time and
cross-feed. -/
def exampleMonoDelay (timeR crossFeed : ℚ) : State ℚ Unit :=
  construct ![10, timeR, 1 / 2, crossFeed, -60, 70] ![0] 48000 () ()

end ShortDelay

namespace CytomicSVF

/-- The resonance arguments of a call on `cySvf`: `resL`, `resR` or `res` of a
`setCoeffForBlock`, none for the other calls. -/
def SvfCall.resonances {α : Type} : SvfCall α → List α
  | .setCoeffForBlockStereo _ _ _ resL resR _ _ _ => [resL, resR]
  | .setCoeffForBlock _ _ res _ _ => [res]
  | _ => []

end CytomicSVF

/-! ### The oscillator over a sequence of blocks -/

namespace GenVA

namespace PulseOscillator

variable {α : Type} [LinearOrderedField α]

/-- The arguments of one call of `setParams`. -/
structure BlockParams (α : Type) where
  /-- The argument `freq`. -/
  freq : α
  /-- The argument `width`. -/
  width : α
  /-- The argument `sync`. -/
  sync : α
  /-- The argument `level`. -/
  level : α

/-- The oscillator driven through a sequence of blocks the way `runPulse`
drives it: for each block `setParams` with the block's arguments, then `run`
into `block`. The result is the oscillator after the last block and the output
blocks in order, or `none` when a `while` loop was cut off. -/
def runSeq [FloorRing α] (blockSize fuel : Nat) (block : Nat → α) :
    List (BlockParams α) → PulseOscillator α → Option (PulseOscillator α × List (Nat → α))
  | [], st => some (st, [])
  | p :: ps, st =>
    (run blockSize fuel (setParams blockSize st p.freq p.width p.sync p.level) block).bind fun r =>
      (runSeq blockSize fuel block ps r.1).map fun q => (q.1, r.2 :: q.2)

/-- The kernel the priming call of `convolute` writes: row `0` of the sinc
table with sign `1`, added into an empty buffer from position `0` on. -/
def primeKernel (blockSize : Nat) (tbl : SincTable α) : Nat → α :=
  kernelLoop blockSize tbl 0 1.0 0 0 tbl.FIRipol_N 0 (fun _ => 0)

/-- The local `ipos` of `convolute`:
`(int32_t)(((kLarge + phase) >> 16) & 0xFFFFFFFF)` at the phase of the event. -/
def kernelPos [FloorRing α] (st : PulseOscillator α) : Int :=
  toInt32 ((wrap64 (kLarge + eventPhase st) / 2 ^ 16) % 2 ^ 32)

/-- The local `m` of `convolute`: `((ipos >> 16) & 0xff) * FIRipol_N`, the
first sinc-table index of the kernel row. -/
def kernelRow [FloorRing α] (st : PulseOscillator α) : Int :=
  ((kernelPos st / 2 ^ 16) % 256) * (st.localSincTable.FIRipol_N : Int)

/-- The oscillator with its sync ramp put back to a fresh one: everything of
the oscillator but the member `mSyncLerp`. -/
def eraseSync (st : PulseOscillator α) : PulseOscillator α :=
  { st with mSyncLerp := lipol.fresh }

/-- The two argument lists agree in frequency, width and level, block by
block; the sync arguments are free. -/
def sameButSync (ps qs : List (BlockParams α)) : Prop :=
  List.Forall₂ (fun p q => p.freq = q.freq ∧ p.width = q.width ∧ p.level = q.level) ps qs

/-- The kernel that stands behind one edge of the record: what `convolute`
adds into the buffer `buf` of the oscillator `st` for an edge of polarity `e.1`
whose phase, counted from the start of the run, is `e.2`, once `ticks` samples
have begun. -/
def edgeKernel [FloorRing α] (blockSize : Nat) (st : PulseOscillator α) (ticks : Nat)
    (buf : Nat → α) (e : Bool × Int) : Nat → α :=
  kernelLoop blockSize st.localSincTable st.mBufPos (if e.1 then 1.0 else -1.0)
    (((toInt32 ((wrap64 (kLarge + (e.2 - (ticks : Int) * kLarge)) / 2 ^ 16) % 2 ^ 32) %
      2 ^ 16 : Int)) : α)
    (((toInt32 ((wrap64 (kLarge + (e.2 - (ticks : Int) * kLarge)) / 2 ^ 16) % 2 ^ 32) /
      2 ^ 16) % 256) * (st.localSincTable.FIRipol_N : Int))
    st.localSincTable.FIRipol_N 0 buf

/-- The recorded run at sample rate `sr` with the ramps at rest at `f` and `w`
has the phases `o` and `y` and the polarity `p`, has begun `t` samples, and the
positive edges of its record are at the phases `rs`. -/
def runAt (sr f w : α) (o y : Int) (p : Bool) (t : Nat) (rs : List Int) (tr : Traced α) :
    Prop :=
  rampsRest f w tr.osc ∧ tr.osc.samplerate = sr ∧ tr.osc.mOscState = o ∧
  tr.osc.mSyncState = y ∧ tr.osc.mPolarity = p ∧ tr.ticks = t ∧ risingPhases tr.edges = rs

/-- The kernel loop of `convolute` with its array accesses checked: the loop
`kernelLoop`, but `none` as soon as the buffer index
`(mBufPos + k) & (blockSize - 1)` is not below `blockSize`, the length of
`mOscBuffer`, or the sinc-table index `m + k` is not in
`[0, 256 * FIRipol_N)`. -/
def kernelLoopChecked (blockSize : Nat) (tbl : SincTable α) (mBufPos : Nat) (fpol lipol : α)
    (m : Int) : Nat → Nat → (Nat → α) → Option (Nat → α)
  | 0, _, buf => some buf
  | n + 1, k, buf =>
    if k < tbl.FIRipol_N then
      let idx := (mBufPos + k) &&& (blockSize - 1)
      if idx < blockSize ∧ 0 ≤ m + k ∧ m + k < 256 * (tbl.FIRipol_N : Int) then
        let buf := Function.update buf idx
          (buf idx + fpol * (tbl.SincTableF32 (m + k).toNat + lipol * tbl.SincOffsetF32 (m + k).toNat))
        kernelLoopChecked blockSize tbl mBufPos fpol lipol m n (k + 1) buf
      else none
    else some buf

/-- The end of a sample, `emitSample`, with its array accesses checked: `none`
when the index `mBufPos` into `mOscBuffer` or the index `k` into the block of
`blockSize` samples is not below `blockSize`. -/
def emitSampleChecked (blockSize : Nat) (k : Nat) (st : PulseOscillator α) (block : Nat → α) :
    Option (PulseOscillator α × (Nat → α)) :=
  if st.mBufPos < blockSize ∧ k < blockSize then some (emitSample blockSize k st block) else none

/-- The states the oscillator passes through: the state `initialize` leaves,
and every state a `setParams` or a step of `run` leads to from such a state. The
steps of `run` are the clearing of `mFirstRun`, a call of `convolute`, the rest
of the priming, the two subtractions that open a sample, and the end of a
sample. -/
inductive Reachable [FloorRing α] (blockSize : Nat) : PulseOscillator α → Prop
  | initialise (st : PulseOscillator α) (tbl : SincTable α) (sr : α) :
      Reachable blockSize (PulseOscillator.initialise st tbl sr)
  | setParams {st : PulseOscillator α} (freq width sync level : α) :
      Reachable blockSize st →
      Reachable blockSize (PulseOscillator.setParams blockSize st freq width sync level)
  | clearFirstRun {st : PulseOscillator α} :
      Reachable blockSize st → Reachable blockSize { st with mFirstRun := false }
  | convolute {st : PulseOscillator α} :
      Reachable blockSize st → Reachable blockSize (PulseOscillator.convolute blockSize st)
  | prime {st : PulseOscillator α} :
      Reachable blockSize st → Reachable blockSize (PulseOscillator.prime blockSize st)
  | tick {st : PulseOscillator α} :
      Reachable blockSize st → Reachable blockSize (PulseOscillator.tick st)
  | emitSample {st : PulseOscillator α} (k : Nat) (block : Nat → α) :
      Reachable blockSize st →
      Reachable blockSize (PulseOscillator.emitSample blockSize k st block).1

end PulseOscillator

end GenVA

/-! # Theorems -/


namespace GenVA

variable {α : Type} [LinearOrderedField α]

theorem oddLoop_apply (count : Int) (u d T : α) (k : Nat) :
    ∀ (i counter : Int) (res : Nat → α), 1 ≤ i → counter = -((i - 1) / 2) →
      count - i ≤ k → ∀ j : Nat,
      oddLoop count u d T k i counter res j =
        if i ≤ (j : Int) ∧ (j : Int) < count then oddEntry u d T j else res j := by
  induction k with
  | zero =>
    intro i counter res _ _ hk j
    have : ¬ (i ≤ (j : Int) ∧ (j : Int) < count) := by
      simp only [Nat.cast_zero] at hk; omega
    simp [oddLoop, this]
  | succ k ih =>
    intro i counter res hi hc hk j
    unfold oddLoop
    by_cases hlt : i < count
    · have hm : i.tmod 2 = i % 2 := Int.tmod_eq_emod (by omega) (by norm_num)
      simp only [hlt, if_true, hm]
      rw [ih (i + 1) _ _ (by omega) (by split_ifs <;> omega) (by push_cast at hk; omega) j]
      by_cases hj : (j : Int) = i
      · have hj2 : i.toNat = j := by omega
        have h1 : ¬ (i + 1 ≤ (j : Int) ∧ (j : Int) < count) := by omega
        have h2 : i ≤ (j : Int) ∧ (j : Int) < count := by omega
        rw [if_neg h1, if_pos h2, hj2, Function.update_same]
        unfold oddEntry
        have hpar : (i % 2 = 0) ↔ (j % 2 = 0) := by omega
        have hval : (i + if i % 2 = 0 then counter - 1 else counter) = (((j + 1) / 2 : Nat) : Int) := by
          split_ifs <;> omega
        rw [hval, Int.cast_natCast]
        by_cases hp : j % 2 = 0
        · rw [if_pos (hpar.2 hp), if_pos hp]
        · rw [if_neg (fun h => hp (hpar.1 h)), if_neg hp]
      · have hj2 : j ≠ i.toNat := by omega
        rw [Function.update_noteq hj2]
        have : (i + 1 ≤ (j : Int) ∧ (j : Int) < count) ↔ (i ≤ (j : Int) ∧ (j : Int) < count) := by
          omega
        simp only [this]
    · have : ¬ (i ≤ (j : Int) ∧ (j : Int) < count) := by omega
      simp [hlt, this]

theorem evenLoop_apply (count : Int) (u d T : α) (k : Nat) :
    ∀ (i counter : Int) (res : Nat → α), 0 ≤ i → counter = 1 - i / 2 →
      count - i ≤ k → ∀ j : Nat,
      evenLoop count u d T k i counter res j =
        if i ≤ (j : Int) ∧ (j : Int) < count then evenEntry u d T j else res j := by
  induction k with
  | zero =>
    intro i counter res _ _ hk j
    have : ¬ (i ≤ (j : Int) ∧ (j : Int) < count) := by
      simp only [Nat.cast_zero] at hk; omega
    simp [evenLoop, this]
  | succ k ih =>
    intro i counter res hi hc hk j
    unfold evenLoop
    by_cases hlt : i < count
    · have hm : i.tmod 2 = i % 2 := Int.tmod_eq_emod (by omega) (by norm_num)
      simp only [hlt, if_true, hm]
      rw [ih (i + 1) _ _ (by omega) (by split_ifs <;> omega) (by push_cast at hk; omega) j]
      by_cases hj : (j : Int) = i
      · have hj2 : i.toNat = j := by omega
        have h1 : ¬ (i + 1 ≤ (j : Int) ∧ (j : Int) < count) := by omega
        have h2 : i ≤ (j : Int) ∧ (j : Int) < count := by omega
        rw [if_neg h1, if_pos h2, hj2, Function.update_same]
        unfold evenEntry
        have hpar : (i % 2 = 0) ↔ (j % 2 = 0) := by omega
        have hval : (i + if i % 2 = 1 then counter - 1 else counter) = ((j / 2 + 1 : Nat) : Int) := by
          split_ifs <;> omega
        rw [hval, Int.cast_natCast]
        by_cases hp : j % 2 = 0
        · rw [if_pos (hpar.2 hp), if_pos hp]
        · rw [if_neg (fun h => hp (hpar.1 h)), if_neg hp]
      · have hj2 : j ≠ i.toNat := by omega
        rw [Function.update_noteq hj2]
        have : (i + 1 ≤ (j : Int) ∧ (j : Int) < count) ↔ (i ≤ (j : Int) ∧ (j : Int) < count) := by
          omega
        simp only [this]
    · have : ¬ (i ≤ (j : Int) ∧ (j : Int) < count) := by omega
      simp [hlt, this]

/-- Closed form of `detuneStrategy` for an odd count. -/
theorem detuneStrategy_odd (p : Params α) (n : Nat) (pitch : α) (res : Nat → α)
    (hn : n % 2 = 1) (j : Nat) :
    detuneStrategy p (n : Int) pitch res j =
      if j = 0 then tuneOf p pitch
      else if j < n then
        oddEntry (1 / ((n / 2 : Nat) : α)) (p.floatParam fpUniDetune) (tuneOf p pitch) j
      else res j := by
  have hm : (n : Int).tmod 2 = 1 := by
    rw [Int.tmod_eq_emod (by omega) (by norm_num)]; omega
  have hd : (n : Int).tdiv 2 = ((n / 2 : Nat) : Int) := by
    rw [Int.tdiv_eq_ediv (by omega) (by norm_num)]; omega
  unfold detuneStrategy
  simp only [hm, if_true, hd, Int.cast_natCast]
  by_cases h2 : (n : Int) > 2
  · simp only [h2, if_true]
    rw [oddLoop_apply (n : Int) _ _ _ _ 1 0 _ (by norm_num) (by norm_num)
      (by simp) j]
    by_cases hj : j = 0
    · subst hj; simp
    · have : (1 ≤ (j : Int) ∧ (j : Int) < n) ↔ j < n := by omega
      simp only [this, hj, if_false]
      split_ifs
      · rfl
      · exact Function.update_noteq hj _ _
  · simp only [h2, if_false]
    have hn1 : n = 1 := by omega
    subst hn1
    by_cases hj : j = 0
    · subst hj; simp
    · have : ¬ j < 1 := by omega
      simp only [hj, this, if_false]
      exact Function.update_noteq hj _ _

/-- Closed form of `detuneStrategy` for an even count. -/
theorem detuneStrategy_even (p : Params α) (n : Nat) (pitch : α) (res : Nat → α)
    (hn : n % 2 = 0) (j : Nat) :
    detuneStrategy p (n : Int) pitch res j =
      if j < n then
        evenEntry (1 / ((n / 2 : Nat) : α)) (p.floatParam fpUniDetune) (tuneOf p pitch) j
      else res j := by
  have hm : ¬ (n : Int).tmod 2 = 1 := by
    rw [Int.tmod_eq_emod (by omega) (by norm_num)]; omega
  have hd : (n : Int).tdiv 2 = ((n / 2 : Nat) : Int) := by
    rw [Int.tdiv_eq_ediv (by omega) (by norm_num)]; omega
  unfold detuneStrategy
  simp only [hm, if_false, hd, Int.cast_natCast]
  rw [evenLoop_apply (n : Int) _ _ _ _ 0 1 _ (by norm_num) (by norm_num) (by simp) j]
  have : (0 ≤ (j : Int) ∧ (j : Int) < n) ↔ j < n := by omega
  simp only [this]

end GenVA

namespace GenVA

variable {α : Type} [LinearOrderedField α]

/-- C1: for a unison count `n ≥ 1` (in particular `1..9`), centre tune
`T = tuneOf p pitch` and detune amount `d`, `detuneStrategy` stores `T` at
index `0` and `T ∓ j*d/(n div 2)` at indices `2j-1`, `2j` for odd `n`, and
`T ± j*d/(n/2)` at indices `2j-2`, `2j-1` for even `n`; entries from index `n`
on are not written; `n = 1` gives offset `0`; for even `n` and `d ≠ 0` no
entry equals `T`. -/
theorem detuneStrategy_entries (p : Params α) (pitch : α) (res : Nat → α) (n : Nat)
    (h1 : 1 ≤ n) (h9 : n ≤ 9) :
    (n % 2 = 1 →
      detuneStrategy p (n : Int) pitch res 0 = tuneOf p pitch ∧
      ∀ j : Nat, 1 ≤ j → j ≤ (n - 1) / 2 →
        detuneStrategy p (n : Int) pitch res (2 * j - 1) =
          tuneOf p pitch - (j : α) * p.floatParam fpUniDetune / ((n / 2 : Nat) : α) ∧
        detuneStrategy p (n : Int) pitch res (2 * j) =
          tuneOf p pitch + (j : α) * p.floatParam fpUniDetune / ((n / 2 : Nat) : α)) ∧
    (n % 2 = 0 →
      ∀ j : Nat, 1 ≤ j → j ≤ n / 2 →
        detuneStrategy p (n : Int) pitch res (2 * j - 2) =
          tuneOf p pitch + (j : α) * p.floatParam fpUniDetune / ((n / 2 : Nat) : α) ∧
        detuneStrategy p (n : Int) pitch res (2 * j - 1) =
          tuneOf p pitch - (j : α) * p.floatParam fpUniDetune / ((n / 2 : Nat) : α)) ∧
    (∀ i : Nat, n ≤ i → detuneStrategy p (n : Int) pitch res i = res i) ∧
    (n = 1 → detuneStrategy p (n : Int) pitch res 0 - tuneOf p pitch = 0) ∧
    (n % 2 = 0 → p.floatParam fpUniDetune ≠ 0 →
      ∀ i : Nat, i < n → detuneStrategy p (n : Int) pitch res i ≠ tuneOf p pitch) := by
  refine ⟨fun hn => ⟨?_, fun j hj1 hj2 => ⟨?_, ?_⟩⟩, fun hn j hj1 hj2 => ⟨?_, ?_⟩,
    fun i hi => ?_, fun hn => ?_, fun hn hd i hi => ?_⟩
  · rw [detuneStrategy_odd p n pitch res hn]; simp
  · rw [detuneStrategy_odd p n pitch res hn]
    have e1 : ¬ (2 * j - 1 = 0) := by omega
    have e2 : 2 * j - 1 < n := by omega
    have e3 : ¬ ((2 * j - 1) % 2 = 0) := by omega
    have e4 : (2 * j - 1 + 1) / 2 = j := by omega
    rw [if_neg e1, if_pos e2, oddEntry, if_neg e3, e4]; ring
  · rw [detuneStrategy_odd p n pitch res hn]
    have e1 : ¬ (2 * j = 0) := by omega
    have e2 : 2 * j < n := by omega
    have e3 : (2 * j) % 2 = 0 := by omega
    have e4 : (2 * j + 1) / 2 = j := by omega
    rw [if_neg e1, if_pos e2, oddEntry, if_pos e3, e4]; ring
  · rw [detuneStrategy_even p n pitch res hn]
    have e2 : 2 * j - 2 < n := by omega
    have e3 : (2 * j - 2) % 2 = 0 := by omega
    have e4 : (2 * j - 2) / 2 + 1 = j := by omega
    rw [if_pos e2, evenEntry, if_pos e3, e4]; ring
  · rw [detuneStrategy_even p n pitch res hn]
    have e2 : 2 * j - 1 < n := by omega
    have e3 : ¬ ((2 * j - 1) % 2 = 0) := by omega
    have e4 : (2 * j - 1) / 2 + 1 = j := by omega
    rw [if_pos e2, evenEntry, if_neg e3, e4]; ring
  · rcases Nat.mod_two_eq_zero_or_one n with hn | hn
    · rw [detuneStrategy_even p n pitch res hn, if_neg (by omega)]
    · rw [detuneStrategy_odd p n pitch res hn, if_neg (by omega), if_neg (by omega)]
  · subst hn
    rw [detuneStrategy_odd p 1 pitch res (by norm_num)]; simp
  · rw [detuneStrategy_even p n pitch res hn, if_pos hi]
    have hm : ((n / 2 : Nat) : α) ≠ 0 := by
      have : 0 < n / 2 := by omega
      exact_mod_cast this.ne'
    have hk : ((i / 2 + 1 : Nat) : α) ≠ 0 := by
      have : i / 2 + 1 ≠ 0 := by omega
      exact_mod_cast this
    have hne : ((i / 2 + 1 : Nat) : α) * (1 / ((n / 2 : Nat) : α)) * p.floatParam fpUniDetune ≠ 0 :=
      mul_ne_zero (mul_ne_zero hk (one_div_ne_zero hm)) hd
    unfold evenEntry
    split_ifs
    · intro h; apply hne; linear_combination h
    · intro h; apply hne; linear_combination -h

/-- Witness of `detuneStrategy_entries`: three voices, tune 10, detune 1. -/
theorem detuneStrategy_entries_witness :
    (1 ≤ 3 ∧ 3 ≤ 9) ∧
    detuneStrategy (⟨![10, 0, 0, 0, 1], false⟩ : Params ℚ) 3 0 (fun _ => 7) 0 = 10 ∧
    detuneStrategy (⟨![10, 0, 0, 0, 1], false⟩ : Params ℚ) 3 0 (fun _ => 7) 1 = 9 ∧
    detuneStrategy (⟨![10, 0, 0, 0, 1], false⟩ : Params ℚ) 3 0 (fun _ => 7) 2 = 11 ∧
    detuneStrategy (⟨![10, 0, 0, 0, 1], false⟩ : Params ℚ) 3 0 (fun _ => 7) 3 = 7 := by
  have h := detuneStrategy_entries (⟨![10, 0, 0, 0, 1], false⟩ : Params ℚ) 0 (fun _ => 7) 3
    (by decide) (by decide)
  obtain ⟨hodd, _, hframe, _, _⟩ := h
  obtain ⟨h0, hj⟩ := hodd (by decide)
  obtain ⟨ha, hb⟩ := hj 1 (by decide) (by decide)
  have hf := hframe 3 (le_refl 3)
  norm_num [tuneOf, fpOffset, fpUniDetune] at h0 ha hb hf
  exact ⟨⟨by decide, by decide⟩, h0, ha, hb, hf⟩

end GenVA

namespace GenVA

variable {α : Type} [LinearOrderedField α]

theorem offset_apply (p : Params α) (n : Nat) (pitch : α) (res : Nat → α) (i : Nat)
    (hi : i < n) :
    detuneStrategy p (n : Int) pitch res i - tuneOf p pitch =
      (if i % 2 = 0 then (1 : α) else -1) *
        ((stepsAt n i : α) * (1 / ((n / 2 : Nat) : α)) * p.floatParam fpUniDetune) := by
  rcases Nat.mod_two_eq_zero_or_one n with hn | hn
  · rw [detuneStrategy_even p n pitch res hn, if_pos hi]
    have hs : stepsAt n i = i / 2 + 1 := by simp [stepsAt, hn]
    rw [hs]; unfold evenEntry
    split_ifs <;> ring
  · rw [detuneStrategy_odd p n pitch res hn]
    have hs : stepsAt n i = (i + 1) / 2 := by simp [stepsAt, hn]
    rw [hs]
    by_cases h0 : i = 0
    · subst h0; simp
    · rw [if_neg h0, if_pos hi]; unfold oddEntry
      split_ifs <;> ring

theorem partner_lt (n i : Nat) (hi : i < n) : partner n i < n := by
  unfold partner; split_ifs <;> omega

theorem partner_partner (n i : Nat) : partner n (partner n i) = i := by
  unfold partner
  by_cases hn : n % 2 = 1 <;> by_cases h0 : i = 0 <;> by_cases hi : i % 2 = 1 <;>
    simp only [hn, h0, hi, if_true, if_false] <;> split_ifs <;>
    first | omega | contradiction

theorem offset_partner (p : Params α) (n : Nat) (pitch : α) (res : Nat → α) (i : Nat)
    (hi : i < n) :
    detuneStrategy p (n : Int) pitch res (partner n i) - tuneOf p pitch =
      -(detuneStrategy p (n : Int) pitch res i - tuneOf p pitch) := by
  rw [offset_apply p n pitch res _ (partner_lt n i hi), offset_apply p n pitch res i hi]
  by_cases h0 : stepsAt n i = 0
  · have hp : partner n i = i := by
      unfold stepsAt at h0; unfold partner; split_ifs at h0 ⊢ <;> omega
    rw [hp, h0]; simp
  · have hs : stepsAt n (partner n i) = stepsAt n i := by
      unfold stepsAt partner; split_ifs <;> omega
    have hpar : (partner n i % 2 = 0) ↔ ¬ (i % 2 = 0) := by
      unfold stepsAt at h0; unfold partner; split_ifs at h0 ⊢ <;> omega
    rw [hs]
    by_cases hi2 : i % 2 = 0
    · rw [if_pos hi2, if_neg (fun h => hpar.1 h hi2)]; ring
    · rw [if_neg hi2, if_pos (hpar.2 hi2)]; ring

theorem offsets_neg_perm (p : Params α) (n : Nat) (pitch : α) (res : Nat → α) :
    ((offsets p n pitch res).map fun x => -x).Perm (offsets p n pitch res) := by
  rw [← Multiset.coe_eq_coe]
  unfold offsets
  rw [List.map_map, ← Multiset.map_coe, ← Multiset.map_coe]
  refine Multiset.map_eq_map_of_bij_of_nodup _ _ (List.nodup_range n) (List.nodup_range n)
    (fun i _ => partner n i) ?_ ?_ ?_ ?_
  · intro i hi
    have : i < n := by simpa using hi
    simpa using partner_lt n i this
  · intro a _ b _ h
    have := congrArg (partner n) h
    simpa [partner_partner] using this
  · intro b hb
    have hb2 : b < n := by simpa using hb
    exact ⟨partner n b, by simpa using partner_lt n b hb2, partner_partner n b⟩
  · intro i hi
    have : i < n := by simpa using hi
    simp only [Function.comp]
    rw [offset_partner p n pitch res i this]

theorem offsets_sum (p : Params α) (n : Nat) (pitch : α) (res : Nat → α) :
    (offsets p n pitch res).sum = 0 := by
  have h := (offsets_neg_perm p n pitch res).sum_eq
  have h2 : ((offsets p n pitch res).map fun x => -x).sum = -(offsets p n pitch res).sum := by
    induction offsets p n pitch res with
    | nil => simp
    | cons a l ih => simp [ih]; ring
  rw [h2] at h
  linarith

end GenVA

namespace GenVA

variable {α : Type} [LinearOrderedField α]

theorem offsetAt_abs (p : Params α) (n : Nat) (pitch : α) (res : Nat → α) (i : Nat)
    (hi : i < n) (hd : 0 ≤ p.floatParam fpUniDetune) :
    |offsetAt p n pitch res i| =
      (stepsAt n i : α) * (1 / ((n / 2 : Nat) : α)) * p.floatParam fpUniDetune := by
  have hnn : (0 : α) ≤ (stepsAt n i : α) * (1 / ((n / 2 : Nat) : α)) * p.floatParam fpUniDetune :=
    mul_nonneg (mul_nonneg (Nat.cast_nonneg _) (by positivity)) hd
  unfold offsetAt
  rw [offset_apply p n pitch res i hi]
  split_ifs
  · rw [one_mul, abs_of_nonneg hnn]
  · rw [neg_one_mul, abs_neg, abs_of_nonneg hnn]

/-- C2: for a unison count `n ≥ 1` (in particular `1..9`) the offsets
`res[i] - T` written by `detuneStrategy` are symmetric around zero: negating
all of them permutes them, so their sum and their mean are `0`; and for a
detune amount `d > 0` each below/above pair holds opposite offsets `-x`, `x`
with `x > 0`, and the magnitude grows strictly from one pair to the next going
outward (index `i` to index `i + 2`). -/
theorem detuneStrategy_symmetric (p : Params α) (pitch : α) (res : Nat → α) (n : Nat)
    (h1 : 1 ≤ n) (h9 : n ≤ 9) :
    ((offsets p n pitch res).map fun x => -x).Perm (offsets p n pitch res) ∧
    (offsets p n pitch res).sum = 0 ∧
    (offsets p n pitch res).sum / (n : α) = 0 ∧
    (0 < p.floatParam fpUniDetune →
      (∀ i : Nat, i + 2 < n → |offsetAt p n pitch res i| < |offsetAt p n pitch res (i + 2)|) ∧
      (n % 2 = 1 → ∀ j : Nat, 1 ≤ j → 2 * j < n →
        offsetAt p n pitch res (2 * j - 1) = -offsetAt p n pitch res (2 * j) ∧
        0 < offsetAt p n pitch res (2 * j)) ∧
      (n % 2 = 0 → ∀ j : Nat, 1 ≤ j → 2 * j ≤ n →
        offsetAt p n pitch res (2 * j - 1) = -offsetAt p n pitch res (2 * j - 2) ∧
        0 < offsetAt p n pitch res (2 * j - 2))) := by
  refine ⟨offsets_neg_perm p n pitch res, offsets_sum p n pitch res, ?_, fun hd => ⟨?_, ?_, ?_⟩⟩
  · rw [offsets_sum, zero_div]
  · intro i hi
    have hm : (0 : α) < ((n / 2 : Nat) : α) := by
      have : 0 < n / 2 := by omega
      exact_mod_cast this
    have hu : (0 : α) < 1 / ((n / 2 : Nat) : α) * p.floatParam fpUniDetune :=
      mul_pos (one_div_pos.2 hm) hd
    have hs : stepsAt n (i + 2) = stepsAt n i + 1 := by
      unfold stepsAt; split_ifs <;> omega
    rw [offsetAt_abs p n pitch res i (by omega) hd.le,
      offsetAt_abs p n pitch res (i + 2) hi hd.le, hs]
    push_cast
    nlinarith
  · intro hn j hj1 hj2
    have hm : (0 : α) < ((n / 2 : Nat) : α) := by
      have : 0 < n / 2 := by omega
      exact_mod_cast this
    have hp : partner n (2 * j) = 2 * j - 1 := by
      unfold partner; split_ifs <;> omega
    have h := offset_partner p n pitch res (2 * j) hj2
    rw [hp] at h
    refine ⟨h, ?_⟩
    unfold offsetAt
    rw [offset_apply p n pitch res (2 * j) hj2, if_pos (by omega), one_mul]
    have hs : (0 : α) < (stepsAt n (2 * j) : α) := by
      have : 0 < stepsAt n (2 * j) := by unfold stepsAt; rw [if_pos hn]; omega
      exact_mod_cast this
    exact mul_pos (mul_pos hs (one_div_pos.2 hm)) hd
  · intro hn j hj1 hj2
    have hm : (0 : α) < ((n / 2 : Nat) : α) := by
      have : 0 < n / 2 := by omega
      exact_mod_cast this
    have hp : partner n (2 * j - 2) = 2 * j - 1 := by
      unfold partner; split_ifs <;> omega
    have h := offset_partner p n pitch res (2 * j - 2) (by omega)
    rw [hp] at h
    refine ⟨h, ?_⟩
    unfold offsetAt
    rw [offset_apply p n pitch res (2 * j - 2) (by omega), if_pos (by omega), one_mul]
    have hs : (0 : α) < (stepsAt n (2 * j - 2) : α) := by
      have : 0 < stepsAt n (2 * j - 2) := by simp [stepsAt, hn]
      exact_mod_cast this
    exact mul_pos (mul_pos hs (one_div_pos.2 hm)) hd

/-- Witness of `detuneStrategy_symmetric`: four voices, tune 10, detune 1;
the offsets are `1/2, -1/2, 1, -1`. -/
theorem detuneStrategy_symmetric_witness :
    (1 ≤ 4 ∧ 4 ≤ 9) ∧
    (offsets (⟨![10, 0, 0, 0, 1], false⟩ : Params ℚ) 4 0 (fun _ => 7)).sum = 0 ∧
    offsets (⟨![10, 0, 0, 0, 1], false⟩ : Params ℚ) 4 0 (fun _ => 7) = [1 / 2, -1 / 2, 1, -1] :=
  ⟨⟨by decide, by decide⟩,
    (detuneStrategy_symmetric (⟨![10, 0, 0, 0, 1], false⟩ : Params ℚ) 0 (fun _ => 7) 4
      (by decide) (by decide)).2.1,
    by
      simp [offsets, List.range_succ, detuneStrategy, evenLoop, tuneOf, fpOffset, fpUniDetune,
        Function.update, Int.tmod_eq_emod, Int.tdiv_eq_ediv]
      norm_num⟩

end GenVA

namespace ShortDelay

variable {α F : Type} [LinearOrderedField α]

theorem stdClamp_bounds (v lo hi : α) (h : lo ≤ hi) :
    lo ≤ stdClamp v lo hi ∧ stdClamp v lo hi ≤ hi := by
  unfold stdClamp
  split_ifs with h1 h2
  · exact ⟨le_refl _, h⟩
  · exact ⟨h, le_refl _⟩
  · exact ⟨not_lt.1 h1, not_lt.1 h2⟩

theorem softClip_bounds (x : α) : -1 ≤ softClip x ∧ softClip x ≤ 1 := by
  have hb := stdClamp_bounds x (-1.5 : α) 1.5 (by norm_num)
  unfold softClip
  generalize stdClamp x (-1.5 : α) 1.5 = c at hb
  obtain ⟨h1, h2⟩ := hb
  norm_num at h1 h2 ⊢
  have e1 : 1 - (c - 4 / 27 * c * c * c) = 4 / 27 * ((c - 3 / 2) ^ 2 * (c + 3)) := by ring
  have e2 : (c - 4 / 27 * c * c * c) - (-1) = 4 / 27 * ((c + 3 / 2) ^ 2 * (3 - c)) := by ring
  have p1 : 0 ≤ (c - 3 / 2) ^ 2 * (c + 3) := mul_nonneg (sq_nonneg _) (by linarith)
  have p2 : 0 ≤ (c + 3 / 2) ^ 2 * (3 - c) := mul_nonneg (sq_nonneg _) (by linarith)
  constructor <;> nlinarith

theorem softClip_abs (x : α) : |softClip x| ≤ 1 :=
  abs_le.2 (softClip_bounds x)

/-- The samples the loop of `monoImpl` writes into the line: `ws`, in the
order of writing, one per remaining index, each within `1` of its input sample. -/
theorem monoLoop_written (cfg : Config α F) (ld fb datainL : Nat → α) (k : Nat) :
    ∀ (i : Nat) (st : MonoLoop α F), ∃ ws : List α,
      (monoLoop cfg ld fb datainL k i st).line.hist = ws.reverse ++ st.line.hist ∧
      ws.length = min k (cfg.blockSize - i) ∧
      ∀ (m : Nat) (h : m < ws.length), |ws.get ⟨m, h⟩ - datainL (i + m)| ≤ 1 := by
  induction k with
  | zero =>
    intro i st
    exact ⟨[], by simp [monoLoop], by simp, fun m h => absurd h (by simp)⟩
  | succ k ih =>
    intro i st
    unfold monoLoop
    by_cases hlt : i < cfg.blockSize
    · simp only [hlt, if_true]
      obtain ⟨ws, h1, h2, h3⟩ := ih (i + 1) (monoSample cfg ld fb datainL i st)
      refine ⟨(datainL i + softClip (fb i * Function.update st.dataoutL i
        (cfg.process_sample st.hp
          (cfg.process_sample st.lp (cfg.read st.line.lineSize st.line.hist (ld i)) 0).1
          (cfg.process_sample st.lp (cfg.read st.line.lineSize st.line.hist (ld i)) 0).2.1).1 i))
        :: ws, ?_, ?_, ?_⟩
      · rw [h1]; simp [monoSample, LinePointer.write]
      · simp only [List.length_cons, h2]; omega
      · intro m h
        cases m with
        | zero => simpa using softClip_abs _
        | succ m =>
          have := h3 m (by simpa using h)
          simpa [Nat.add_assoc, Nat.add_comm 1 m] using this
    · refine ⟨[], by simp [hlt], ?_, fun m h => absurd h (by simp)⟩
      simp only [List.length_nil]; omega

theorem stereoSample_written (cfg : Config α F) (stereoSwitch : Int)
    (ld0 ld1 feedback crossfeed datainL datainR : Nat → α) (i : Nat) (st : StereoLoop α F) :
    ∃ x0 x1 : α,
      (stereoSample cfg stereoSwitch ld0 ld1 feedback crossfeed datainL datainR i st).line0.hist =
        (datainL i + softClip x0) :: st.line0.hist ∧
      (stereoSample cfg stereoSwitch ld0 ld1 feedback crossfeed datainL datainR i st).line1.hist =
        (datainR i + softClip x1) :: st.line1.hist :=
  ⟨_, _, rfl, rfl⟩

/-- The samples the loop of `stereoImpl` writes into its two lines: `ws0` and
`ws1`, in the order of writing, one per remaining index, each within `1` of
its input sample. -/
theorem stereoLoop_written (cfg : Config α F) (stereoSwitch : Int)
    (ld0 ld1 feedback crossfeed datainL datainR : Nat → α) (k : Nat) :
    ∀ (i : Nat) (st : StereoLoop α F), ∃ ws0 ws1 : List α,
      (stereoLoop cfg stereoSwitch ld0 ld1 feedback crossfeed datainL datainR k i st).line0.hist =
        ws0.reverse ++ st.line0.hist ∧
      (stereoLoop cfg stereoSwitch ld0 ld1 feedback crossfeed datainL datainR k i st).line1.hist =
        ws1.reverse ++ st.line1.hist ∧
      ws0.length = min k (cfg.blockSize - i) ∧
      ws1.length = min k (cfg.blockSize - i) ∧
      (∀ (m : Nat) (h : m < ws0.length), |ws0.get ⟨m, h⟩ - datainL (i + m)| ≤ 1) ∧
      (∀ (m : Nat) (h : m < ws1.length), |ws1.get ⟨m, h⟩ - datainR (i + m)| ≤ 1) := by
  induction k with
  | zero =>
    intro i st
    exact ⟨[], [], by simp [stereoLoop], by simp [stereoLoop], by simp, by simp,
      fun m h => absurd h (by simp), fun m h => absurd h (by simp)⟩
  | succ k ih =>
    intro i st
    unfold stereoLoop
    by_cases hlt : i < cfg.blockSize
    · simp only [hlt, if_true]
      obtain ⟨ws0, ws1, h1, h1', h2, h2', h3, h3'⟩ := ih (i + 1)
        (stereoSample cfg stereoSwitch ld0 ld1 feedback crossfeed datainL datainR i st)
      obtain ⟨x0, x1, e0, e1⟩ :=
        stereoSample_written cfg stereoSwitch ld0 ld1 feedback crossfeed datainL datainR i st
      refine ⟨(datainL i + softClip x0) :: ws0, (datainR i + softClip x1) :: ws1,
        ?_, ?_, ?_, ?_, ?_, ?_⟩
      · rw [h1, e0]; simp
      · rw [h1', e1]; simp
      · simp only [List.length_cons, h2]; omega
      · simp only [List.length_cons, h2']; omega
      · intro m h
        cases m with
        | zero => simpa using softClip_abs x0
        | succ m =>
          have := h3 m (by simpa using h)
          simpa [Nat.add_assoc, Nat.add_comm 1 m] using this
      · intro m h
        cases m with
        | zero => simpa using softClip_abs x1
        | succ m =>
          have := h3' m (by simpa using h)
          simpa [Nat.add_assoc, Nat.add_comm 1 m] using this
    · refine ⟨[], [], by simp [hlt], by simp [hlt], ?_, ?_,
        fun m h => absurd h (by simp), fun m h => absurd h (by simp)⟩
      · simp only [List.length_nil]; omega
      · simp only [List.length_nil]; omega

/-- C3: the soft clip of the delay, `c - (4/27)*c^3` with
`c = clamp(x, -1.5, 1.5)`, lies in `[-1, 1]` for every `x`; and a block of
`monoImpl` or `stereoImpl` writes into each of its lines `blockSize` samples
(`ws`, in the order of writing, on top of what the line held), the `i`-th of
them within `1` of the input sample `i`. -/
theorem softClip_bounded (cfg : Config α F) (s : State α F) (line line0 line1 : LinePointer α)
    (datainL datainR dataoutL dataoutR : Nat → α) (x : α) :
    (softClip x = stdClamp x (-1.5) 1.5 - 4 / 27 * (stdClamp x (-1.5) 1.5) ^ 3) ∧
    (-1 ≤ softClip x ∧ softClip x ≤ 1) ∧
    (∃ ws : List α,
      (monoImpl cfg s line datainL dataoutL).line.hist = ws.reverse ++ line.hist ∧
      ws.length = cfg.blockSize ∧
      ∀ (i : Nat) (h : i < ws.length), |ws.get ⟨i, h⟩ - datainL i| ≤ 1) ∧
    (∃ ws0 ws1 : List α,
      (stereoImpl cfg s line0 line1 datainL datainR dataoutL dataoutR).line0.hist =
        ws0.reverse ++ line0.hist ∧
      (stereoImpl cfg s line0 line1 datainL datainR dataoutL dataoutR).line1.hist =
        ws1.reverse ++ line1.hist ∧
      ws0.length = cfg.blockSize ∧ ws1.length = cfg.blockSize ∧
      (∀ (i : Nat) (h : i < ws0.length), |ws0.get ⟨i, h⟩ - datainL i| ≤ 1) ∧
      (∀ (i : Nat) (h : i < ws1.length), |ws1.get ⟨i, h⟩ - datainR i| ≤ 1)) := by
  refine ⟨?_, softClip_bounds x, ?_, ?_⟩
  · unfold softClip; norm_num; ring
  · obtain ⟨ws, h1, h2, h3⟩ := monoLoop_written cfg
      ((s.lipolDelay0.set_target
        (blockDelayTarget (cfg.FIRipol_N : α) (s.floatParam fpTimeL) s.sampleRate)).store_block
        cfg.blockSize)
      ((s.lipolFb.set_target (stdClamp (s.floatParam fpFeedback) 0 1)).store_block cfg.blockSize)
      datainL cfg.blockSize 0
      { line := line
        lp := cfg.coeff_LP2B s.lp (cfg.calc_omega (s.floatParam fpHighCut / 12.0)) 0.707
        hp := cfg.coeff_HP s.hp (cfg.calc_omega (s.floatParam fpLowCut / 12.0)) 0.707
        dataoutL := copy_from_to cfg.blockSize datainL dataoutL }
    refine ⟨ws, h1, by simpa using h2, fun i h => ?_⟩
    simpa using h3 i h
  · obtain ⟨ws0, ws1, h1, h1', h2, h2', h3, h3'⟩ := stereoLoop_written cfg (s.intParam ipStereo)
      ((s.lipolDelay0.set_target
        (blockDelayTarget (cfg.FIRipol_N : α) (s.floatParam fpTimeL) s.sampleRate)).store_block
        cfg.blockSize)
      ((s.lipolDelay1.set_target
        (blockDelayTarget (cfg.FIRipol_N : α)
          (if s.intParam ipStereo ≠ 0 then s.floatParam fpTimeR else s.floatParam fpTimeL)
          s.sampleRate)).store_block cfg.blockSize)
      ((s.lipolFb.set_target (stdClamp (s.floatParam fpFeedback) 0 1)).store_block cfg.blockSize)
      ((s.lipolCross.set_target (stdClamp (s.floatParam fpCrossFeed) 0 1)).store_block
        cfg.blockSize)
      datainL datainR cfg.blockSize 0
      { line0 := line0, line1 := line1
        lp := cfg.coeff_LP2B s.lp (cfg.calc_omega (s.floatParam fpHighCut / 12.0)) 0.707
        hp := cfg.coeff_HP s.hp (cfg.calc_omega (s.floatParam fpLowCut / 12.0)) 0.707
        dataoutL := copy_from_to cfg.blockSize datainL dataoutL
        dataoutR := copy_from_to cfg.blockSize datainR dataoutR }
    refine ⟨ws0, ws1, h1, h1', by simpa using h2, by simpa using h2', fun i h => ?_,
      fun i h => ?_⟩
    · simpa using h3 i h
    · simpa using h3' i h

end ShortDelay

namespace CytomicSVF

variable {α : Type} [LinearOrderedField α]

theorem floatLoop_eq (s : State α) (pitch : α) :
    floatLoop s pitch numFloatParams 0 (fun _ => 0, false) =
      (effectiveParam s pitch, decide (∃ i, s.mLastParam i ≠ effectiveParam s pitch i)) := by
  refine Prod.ext ?_ ?_
  · funext i
    fin_cases i <;> simp [floatLoop, effectiveParam, Function.update, numFloatParams]
  · simp [floatLoop, effectiveParam, Function.update, numFloatParams, Fin.exists_fin_succ]
    simp only [Bool.or_assoc]
    rfl

theorem intLoop_eq {β : Type} (s : State β) :
    intLoop s numIntParams 0 (fun _ => 0, false) =
      (s.intParam, decide (∃ j, s.mLastIParam j ≠ s.intParam j)) := by
  refine Prod.ext ?_ ?_
  · funext i
    fin_cases i <;> simp [intLoop, Function.update, numIntParams]
  · simp [intLoop, Function.update, numIntParams, Fin.exists_fin_succ]

/-- The two branches of `calc_coeffs` in closed form. -/
theorem calc_coeffs_eq (cfg : Config α) (s : State α) (pitch : α) :
    calc_coeffs cfg s pitch =
      if paramsDiffer s pitch ∨ s.wasKeytrackOn ≠ s.keytrackOn then
        { s with
          wasKeytrackOn := s.keytrackOn
          mLastParam := effectiveParam s pitch
          mLastIParam := s.intParam
          cySvf := s.cySvf ++
            ((if (∃ j, s.mLastIParam j ≠ s.intParam j) ∨ s.wasKeytrackOn ≠ s.keytrackOn
              then [SvfCall.init] else []) ++ [setCoeffCall cfg s pitch]) }
      else
        { s with
          wasKeytrackOn := s.keytrackOn
          cySvf := s.cySvf ++ [SvfCall.retainCoeffForBlock] } := by
  unfold calc_coeffs
  simp only [floatLoop_eq, intLoop_eq]
  by_cases hf : ∃ i, s.mLastParam i ≠ effectiveParam s pitch i <;>
  by_cases hi : ∃ j, s.mLastIParam j ≠ s.intParam j <;>
  by_cases hk : s.wasKeytrackOn = s.keytrackOn <;>
  by_cases hs : s.intParam ipStereo = 0 <;>
  simp [paramsDiffer, setCoeffCall, hf, hi, hk, hs, fpFreqL, fpFreqR, fpResonance, fpShelf, ipMode]

end CytomicSVF

namespace ShortDelay

variable {α F : Type} [LinearOrderedField α]

theorem stdMax_eq_max (a b : α) : stdMax a b = max a b := by
  unfold stdMax
  split_ifs with h
  · exact (max_eq_right h.le).symm
  · exact (max_eq_left (not_lt.1 h)).symm

/-- The targets `monoImpl` and `stereoImpl` hand to the delay ramps are at
least the kernel width and at most `max(FIRipol_N, 250 * sampleRate / 1000)`. -/
theorem blockDelayTarget_bounds (FIRipol time sampleRate : α) (hsr : 0 < sampleRate) :
    FIRipol ≤ blockDelayTarget FIRipol time sampleRate ∧
    blockDelayTarget FIRipol time sampleRate ≤ max FIRipol (250 * sampleRate / 1000) := by
  have hc := stdClamp_bounds time (0 : α) maxMiliseconds (by unfold maxMiliseconds; norm_num)
  unfold blockDelayTarget
  rw [stdMax_eq_max]
  refine ⟨le_max_right _ _, max_le ?_ (le_max_left _ _)⟩
  refine le_trans ?_ (le_max_right _ _)
  have : stdClamp time 0 maxMiliseconds * sampleRate ≤ 250 * sampleRate :=
    mul_le_mul_of_nonneg_right (by simpa [maxMiliseconds] using hc.2) hsr.le
  exact div_le_div_of_nonneg_right this (by norm_num)

theorem initVoiceEffect_params (cfg : Config α F) (s : State α F) :
    (initVoiceEffect cfg s).floatParam = s.floatParam ∧
    (initVoiceEffect cfg s).intParam = s.intParam ∧
    (initVoiceEffect cfg s).sampleRate = s.sampleRate := by
  unfold initVoiceEffect
  refine ⟨?_, ?_, ?_⟩ <;> (dsimp only; split_ifs <;> rfl)

theorem initVoiceEffect_lipolDelay0 (cfg : Config α F) (s : State α F) :
    (initVoiceEffect cfg s).lipolDelay0 =
      { current := initDelayTarget (s.floatParam fpTimeL) s.sampleRate
        target := initDelayTarget (s.floatParam fpTimeL) s.sampleRate } := by
  unfold initVoiceEffect
  dsimp only
  split_ifs <;> rfl

theorem initVoiceEffect_long (cfg : Config α F) (s : State α F)
    (h : s.sampleRate * (0.1 : α) > ((1 <<< 14 : Nat) : α)) :
    (initVoiceEffect cfg s).isShort = false ∧
    (initVoiceEffect cfg s).lineSupport0 = { tier := some longLineSize, hist := [] } ∧
    (initVoiceEffect cfg s).lineSupport1 = { tier := some longLineSize, hist := [] } := by
  unfold initVoiceEffect
  simp only [h, if_true]
  refine ⟨?_, ?_, ?_⟩ <;> first | rfl | trivial

theorem initVoiceEffect_short (cfg : Config α F) (s : State α F)
    (h : ¬ s.sampleRate * (0.1 : α) > ((1 <<< 14 : Nat) : α)) :
    (initVoiceEffect cfg s).isShort = true ∧
    (initVoiceEffect cfg s).lineSupport0 = { tier := some shortLineSize, hist := [] } ∧
    (initVoiceEffect cfg s).lineSupport1 = { tier := some shortLineSize, hist := [] } := by
  unfold initVoiceEffect
  simp only [h, if_false]
  refine ⟨?_, ?_, ?_⟩ <;> first | rfl | trivial

theorem monoImpl_lipolDelay0 (cfg : Config α F) (s : State α F) (line : LinePointer α)
    (datainL dataoutL : Nat → α) :
    (monoImpl cfg s line datainL dataoutL).state.lipolDelay0 =
      { current := s.lipolDelay0.target
        target := blockDelayTarget (cfg.FIRipol_N : α) (s.floatParam fpTimeL) s.sampleRate } :=
  rfl

/-- C4, evaluated at a left time of 0 ms and 48 kHz: `initVoiceEffect` hands
the delay ramp the target `0`, below the kernel width `12`, while the first
block of `monoImpl` hands it `12`; the ramp of that block then goes from `0` to
`12`, and its first sample, the first read offset, is `3/4`. -/
theorem initVoiceEffect_target_below_kernel :
    (initVoiceEffect exampleDelayConfig (exampleDelay 0 48000)).lipolDelay0.target = 0 ∧
    (0 : ℚ) < (exampleDelayConfig.FIRipol_N : ℚ) ∧
    (monoImpl exampleDelayConfig (initVoiceEffect exampleDelayConfig (exampleDelay 0 48000))
      (processMonoToMonoLine (initVoiceEffect exampleDelayConfig (exampleDelay 0 48000)))
      (fun _ => 0) (fun _ => 0)).state.lipolDelay0 = { current := 0, target := 12 } ∧
    (Lipol.store_block exampleDelayConfig.blockSize
      ({ current := 0, target := 12 } : Lipol ℚ)) 0 = 3 / 4 := by
  have ht : initDelayTarget (0 : ℚ) 48000 = 0 := by
    norm_num [initDelayTarget, stdClamp, maxMiliseconds]
  have hb : blockDelayTarget (12 : ℚ) 0 48000 = 12 := by
    norm_num [blockDelayTarget, stdClamp, stdMax, maxMiliseconds]
  have hp := initVoiceEffect_params exampleDelayConfig (exampleDelay 0 48000)
  have hf : (exampleDelay 0 48000).floatParam fpTimeL = 0 := rfl
  have hs : (exampleDelay 0 48000).sampleRate = 48000 := rfl
  refine ⟨?_, ?_, ?_, ?_⟩
  · rw [initVoiceEffect_lipolDelay0, hf, hs, ht]
  · norm_num [exampleDelayConfig]
  · rw [monoImpl_lipolDelay0, initVoiceEffect_lipolDelay0, hp.1, hp.2.2, hf, hs, ht]
    have : ((exampleDelayConfig.FIRipol_N : Nat) : ℚ) = 12 := by norm_num [exampleDelayConfig]
    rw [this, hb]
  · norm_num [Lipol.store_block, exampleDelayConfig]

end ShortDelay

namespace ShortDelay

variable {α F : Type} [LinearOrderedField α]

/-- The stereo paths and the destructor use the tier `initVoiceEffect`
borrowed, for every sample rate; the mono path does when that tier is the
short one. -/
theorem stereo_lines_match_tier (cfg : Config α F) (s : State α F) :
    (initVoiceEffect cfg s).lineSupport0.tier =
      some (processStereoLines (initVoiceEffect cfg s)).1.lineSize ∧
    (initVoiceEffect cfg s).lineSupport1.tier =
      some (processStereoLines (initVoiceEffect cfg s)).2.lineSize ∧
    (initVoiceEffect cfg s).lineSupport0.tier =
      some (processMonoToStereoLines (initVoiceEffect cfg s)).1.lineSize ∧
    (initVoiceEffect cfg s).lineSupport1.tier =
      some (processMonoToStereoLines (initVoiceEffect cfg s)).2.lineSize ∧
    (initVoiceEffect cfg s).lineSupport0.tier = some (destructor (initVoiceEffect cfg s)).1 ∧
    (initVoiceEffect cfg s).lineSupport1.tier = some (destructor (initVoiceEffect cfg s)).2 ∧
    ((initVoiceEffect cfg s).isShort = true →
      (initVoiceEffect cfg s).lineSupport0.tier =
        some (processMonoToMonoLine (initVoiceEffect cfg s)).lineSize) := by
  by_cases h : s.sampleRate * (0.1 : α) > ((1 <<< 14 : Nat) : α)
  · obtain ⟨h1, h2, h3⟩ := initVoiceEffect_long cfg s h
    simp [processStereoLines, processMonoToStereoLines, destructor, h1, h2, h3,
      DelayLineSupport.getLinePointer, DelayLineSupport.returnLines]
  · obtain ⟨h1, h2, h3⟩ := initVoiceEffect_short cfg s h
    simp [processStereoLines, processMonoToStereoLines, destructor, processMonoToMonoLine,
      h1, h2, h3, DelayLineSupport.getLinePointer, DelayLineSupport.returnLines]

/-- C5, evaluated at 192 kHz: `initVoiceEffect` borrows lines of the long tier
(17), `processStereo`, `processMonoToStereo` and the destructor use that tier,
and `processMonoToMono` hands `monoImpl` a line of the short tier (15). -/
theorem processMonoToMono_line_tier :
    (initVoiceEffect exampleDelayConfig (exampleDelay 50 192000)).isShort = false ∧
    (initVoiceEffect exampleDelayConfig (exampleDelay 50 192000)).lineSupport0.tier = some 17 ∧
    (processMonoToMonoLine (initVoiceEffect exampleDelayConfig (exampleDelay 50 192000))).lineSize
      = 15 ∧
    (processStereoLines (initVoiceEffect exampleDelayConfig (exampleDelay 50 192000))).1.lineSize
      = 17 ∧
    (processMonoToStereoLines
      (initVoiceEffect exampleDelayConfig (exampleDelay 50 192000))).1.lineSize = 17 ∧
    destructor (initVoiceEffect exampleDelayConfig (exampleDelay 50 192000)) = (17, 17) := by
  have h : (exampleDelay 50 192000).sampleRate * (0.1 : ℚ) > ((1 <<< 14 : Nat) : ℚ) := by
    rw [show (1 <<< 14 : Nat) = 16384 from rfl]
    norm_num [exampleDelay, construct]
  obtain ⟨h1, h2, h3⟩ := initVoiceEffect_long exampleDelayConfig (exampleDelay 50 192000) h
  simp [processStereoLines, processMonoToStereoLines, destructor, processMonoToMonoLine,
    h1, h2, h3, DelayLineSupport.getLinePointer, DelayLineSupport.returnLines, longLineSize,
    shortLineSize]

/-- C6, evaluated at 144 kHz: `initVoiceEffect` selects the short tier, whose
`2^15 = 32768` samples are fewer than the `36000` samples of the maximum delay
of 250 ms, the delay-time target a left time of 250 ms gives. -/
theorem initVoiceEffect_short_line_too_small :
    (initVoiceEffect exampleDelayConfig (exampleDelay 250 144000)).isShort = true ∧
    (initVoiceEffect exampleDelayConfig (exampleDelay 250 144000)).lineSupport0.tier = some 15 ∧
    capacity 15 = 32768 ∧
    ((capacity 15 : Nat) : ℚ) < 0.25 * 144000 ∧
    (initVoiceEffect exampleDelayConfig (exampleDelay 250 144000)).lipolDelay0.target = 36000 := by
  have h : ¬ (exampleDelay 250 144000).sampleRate * (0.1 : ℚ) > ((1 <<< 14 : Nat) : ℚ) := by
    rw [show (1 <<< 14 : Nat) = 16384 from rfl]
    norm_num [exampleDelay, construct]
  obtain ⟨h1, h2, h3⟩ := initVoiceEffect_short exampleDelayConfig (exampleDelay 250 144000) h
  have hc : capacity 15 = 32768 := by decide
  have ht : initDelayTarget (250 : ℚ) 144000 = 36000 := by
    norm_num [initDelayTarget, stdClamp, maxMiliseconds]
  have hf : (exampleDelay 250 144000).floatParam fpTimeL = 250 := rfl
  have hs : (exampleDelay 250 144000).sampleRate = 144000 := rfl
  refine ⟨h1, by rw [h2]; rfl, hc, by rw [hc]; norm_num, ?_⟩
  rw [initVoiceEffect_lipolDelay0, hf, hs, ht]

end ShortDelay

namespace CytomicSVF

variable {α : Type} [LinearOrderedField α]

theorem callsOf_eq (cfg : Config α) (s : State α) (pitch : α) :
    callsOf cfg s pitch =
      if paramsDiffer s pitch ∨ s.wasKeytrackOn ≠ s.keytrackOn then
        (if (∃ j, s.mLastIParam j ≠ s.intParam j) ∨ s.wasKeytrackOn ≠ s.keytrackOn
          then [SvfCall.init] else []) ++ [setCoeffCall cfg s pitch]
      else [SvfCall.retainCoeffForBlock] := by
  unfold callsOf
  rw [calc_coeffs_eq]
  split_ifs <;> simp

theorem setCoeffCall_isSetCoeff (cfg : Config α) (s : State α) (pitch : α) :
    (setCoeffCall cfg s pitch).isSetCoeff = true ∧
    (setCoeffCall cfg s pitch).isInit = false ∧
    (setCoeffCall cfg s pitch).isRetain = false := by
  unfold setCoeffCall
  split_ifs <;> exact ⟨rfl, rfl, rfl⟩

theorem recomputes_iff (cfg : Config α) (s : State α) (pitch : α) :
    recomputes cfg s pitch = true ↔ (paramsDiffer s pitch ∨ s.wasKeytrackOn ≠ s.keytrackOn) := by
  unfold recomputes
  rw [callsOf_eq]
  have h := setCoeffCall_isSetCoeff cfg s pitch
  split_ifs with h1 h2
  · simp [h.1, h1]
  · simp [h.1, h1]
  · simp [SvfCall.isSetCoeff, h1]

theorem resets_iff (cfg : Config α) (s : State α) (pitch : α) :
    resets cfg s pitch = true ↔
      ((∃ j, s.mLastIParam j ≠ s.intParam j) ∨ s.wasKeytrackOn ≠ s.keytrackOn) := by
  unfold resets
  rw [callsOf_eq]
  have h := setCoeffCall_isSetCoeff cfg s pitch
  split_ifs with h1 h2
  · simp only [List.singleton_append, List.any_cons, SvfCall.isInit, Bool.true_or, true_iff]
    exact h2
  · simp [h.2.1, h2]
  · have : ¬ ((∃ j, s.mLastIParam j ≠ s.intParam j) ∨ s.wasKeytrackOn ≠ s.keytrackOn) := by
      intro hc
      rcases hc with hc | hc
      · exact h1 (Or.inl (Or.inr hc))
      · exact h1 (Or.inr hc)
    simp only [List.any_cons, SvfCall.isInit, List.any_nil, Bool.or_self, Bool.false_eq_true,
      false_iff]
    exact this

end CytomicSVF

namespace CytomicSVF

variable {α : Type} [LinearOrderedField α]

theorem calc_coeffs_frame (cfg : Config α) (s : State α) (pitch : α) :
    (calc_coeffs cfg s pitch).floatParam = s.floatParam ∧
    (calc_coeffs cfg s pitch).intParam = s.intParam ∧
    (calc_coeffs cfg s pitch).keytrackOn = s.keytrackOn ∧
    (calc_coeffs cfg s pitch).wasKeytrackOn = s.keytrackOn := by
  rw [calc_coeffs_eq]
  split_ifs <;> exact ⟨rfl, rfl, rfl, rfl⟩

/-- After `calc_coeffs(pitch)` the cached vectors hold the effective float
parameters and the integer parameters of that call. -/
theorem calc_coeffs_cache (cfg : Config α) (s : State α) (pitch : α) :
    (calc_coeffs cfg s pitch).mLastParam = effectiveParam s pitch ∧
    (calc_coeffs cfg s pitch).mLastIParam = s.intParam := by
  rw [calc_coeffs_eq]
  by_cases h : paramsDiffer s pitch ∨ s.wasKeytrackOn ≠ s.keytrackOn
  · rw [if_pos h]
    exact ⟨rfl, rfl⟩
  · rw [if_neg h]
    have h1 : ¬ paramsDiffer s pitch := fun hc => h (Or.inl hc)
    unfold paramsDiffer at h1
    push_neg at h1
    exact ⟨funext h1.1, funext h1.2⟩

theorem processState_fields (cfg : Config α) (kind : ProcessKind) (s : State α)
    (datainL datainR : Nat → α) (pitch : α) :
    (processState cfg kind s datainL datainR pitch).floatParam = s.floatParam ∧
    (processState cfg kind s datainL datainR pitch).intParam = s.intParam ∧
    (processState cfg kind s datainL datainR pitch).keytrackOn = s.keytrackOn ∧
    (processState cfg kind s datainL datainR pitch).wasKeytrackOn = s.keytrackOn ∧
    (processState cfg kind s datainL datainR pitch).mLastParam = effectiveParam s pitch ∧
    (processState cfg kind s datainL datainR pitch).mLastIParam = s.intParam := by
  obtain ⟨h1, h2, h3, h4⟩ := calc_coeffs_frame cfg s pitch
  obtain ⟨h5, h6⟩ := calc_coeffs_cache cfg s pitch
  cases kind <;> exact ⟨h1, h2, h3, h4, h5, h6⟩

/-- After a process call, a `calc_coeffs` with the same parameters, pitch and
keytrack setting finds nothing changed. -/
theorem processState_settled (cfg : Config α) (kind : ProcessKind) (s : State α)
    (datainL datainR : Nat → α) (pitch : α) :
    ¬ (paramsDiffer (processState cfg kind s datainL datainR pitch) pitch ∨
      (processState cfg kind s datainL datainR pitch).wasKeytrackOn ≠
        (processState cfg kind s datainL datainR pitch).keytrackOn) := by
  obtain ⟨h1, h2, h3, h4, h5, h6⟩ := processState_fields cfg kind s datainL datainR pitch
  have he : effectiveParam (processState cfg kind s datainL datainR pitch) pitch =
      effectiveParam s pitch := by
    funext i; simp only [effectiveParam, h1, h3]
  intro hc
  rcases hc with hc | hc
  · unfold paramsDiffer at hc
    rw [h5, h6, he, h2] at hc
    rcases hc with ⟨i, hi⟩ | ⟨j, hj⟩
    · exact hi rfl
    · exact hj rfl
  · rw [h3, h4] at hc
    exact hc rfl

/-- C7 as stated fails: on the filter that was processed once with
keytracking off and pitch 0 and then had keytracking enabled, a call with
pitch 0 finds no effective float parameter and no integer parameter different
from the cached vectors, and recomputes the coefficients all the same. -/
theorem recompute_without_param_change :
    ¬ paramsDiffer (enableKeytrack (calc_coeffs exampleFilterConfig exampleFilter 0) true).1 0 ∧
    recomputes exampleFilterConfig (enableKeytrack (calc_coeffs exampleFilterConfig exampleFilter 0) true).1 0
      = true := by
  obtain ⟨h1, h2, h3, h4⟩ := calc_coeffs_frame exampleFilterConfig exampleFilter 0
  obtain ⟨h5, h6⟩ := calc_coeffs_cache exampleFilterConfig exampleFilter 0
  constructor
  · unfold paramsDiffer
    simp only [enableKeytrack, h1, h2, h5, h6, effectiveParam, add_zero, ite_self, ne_eq,
      not_true_eq_false, exists_false, or_self, not_false_eq_true]
  · rw [recomputes_iff]
    right
    simp only [enableKeytrack, h4]
    simp [exampleFilter, construct]

/-- C7, amended: `calc_coeffs` recomputes the coefficients (calls
`setCoeffForBlock`) if and only if an effective float parameter or an integer
parameter differs from the cached vectors or the keytrack setting differs from
its value at the previous call; otherwise its only call is
`retainCoeffForBlock`. -/
theorem calc_coeffs_recompute_iff (cfg : Config α) (s : State α) (pitch : α) :
    (recomputes cfg s pitch = true ↔
      (paramsDiffer s pitch ∨ s.wasKeytrackOn ≠ s.keytrackOn)) ∧
    (¬ (paramsDiffer s pitch ∨ s.wasKeytrackOn ≠ s.keytrackOn) →
      callsOf cfg s pitch = [SvfCall.retainCoeffForBlock]) ∧
    (recomputes cfg s pitch = true → retains cfg s pitch = false) := by
  refine ⟨recomputes_iff cfg s pitch, fun h => ?_, fun h => ?_⟩
  · rw [callsOf_eq, if_neg h]
  · have h1 := (recomputes_iff cfg s pitch).1 h
    have h2 := setCoeffCall_isSetCoeff cfg s pitch
    unfold retains
    have h3 : (SvfCall.init : SvfCall α).isRetain = false := rfl
    rw [callsOf_eq, if_pos h1]
    split_ifs <;> simp [h3, h2.2.2]

/-- Witness of `calc_coeffs_recompute_iff`: the first call on a fresh filter
recomputes, a second call with the same parameters retains. -/
theorem calc_coeffs_recompute_iff_witness :
    recomputes exampleFilterConfig exampleFilter 0 = true ∧
    callsOf exampleFilterConfig (calc_coeffs exampleFilterConfig exampleFilter 0) 0 =
      [SvfCall.retainCoeffForBlock] := by
  constructor
  · rw [(calc_coeffs_recompute_iff exampleFilterConfig exampleFilter 0).1]
    left; right
    exact ⟨0, by simp [exampleFilter, construct]⟩
  · apply (calc_coeffs_recompute_iff exampleFilterConfig (calc_coeffs exampleFilterConfig exampleFilter 0) 0).2.1
    exact processState_settled exampleFilterConfig ProcessKind.monoToMono exampleFilter
      (fun _ => 0) (fun _ => 0) 0

end CytomicSVF

namespace CytomicSVF

variable {α : Type} [LinearOrderedField α]

theorem processState_cySvf (cfg : Config α) (kind : ProcessKind) (s : State α)
    (datainL datainR : Nat → α) (pitch : α) :
    ∃ c : SvfCall α, c.isSetCoeff = false ∧ c.isInit = false ∧ c.isRetain = false ∧
      (processState cfg kind s datainL datainR pitch).cySvf =
        s.cySvf ++ (callsOf cfg s pitch ++ [c]) := by
  have h : (calc_coeffs cfg s pitch).cySvf = s.cySvf ++ callsOf cfg s pitch := by
    rw [callsOf_eq, calc_coeffs_eq]
    split_ifs <;> rfl
  cases kind
  · exact ⟨SvfCall.processBlockMono datainL, rfl, rfl, rfl, by
      simp [processState, processMonoToMono, h]⟩
  · exact ⟨SvfCall.processBlockStereo datainL datainL, rfl, rfl, rfl, by
      simp [processState, processMonoToStereo, h]⟩
  · exact ⟨SvfCall.processBlockStereo datainL datainR, rfl, rfl, rfl, by
      simp [processState, processStereo, h]⟩

/-- C8: when a process call (any of the three) is followed by a second process
call (any of the three) with the same float parameters, integer parameters,
pitch and keytrack setting, the `calc_coeffs` of the second call only calls
`retainCoeffForBlock`: it neither recomputes the coefficients nor resets the
filter state, the calls the second process call makes on `cySvf` are that one
and its `processBlock`, and the cached vectors stay as they were. -/
theorem second_call_retains (cfg : Config α) (k1 k2 : ProcessKind) (s : State α)
    (in1L in1R in2L in2R : Nat → α) (pitch : α) :
    callsOf cfg (processState cfg k1 s in1L in1R pitch) pitch = [SvfCall.retainCoeffForBlock] ∧
    recomputes cfg (processState cfg k1 s in1L in1R pitch) pitch = false ∧
    resets cfg (processState cfg k1 s in1L in1R pitch) pitch = false ∧
    (∃ c : SvfCall α, c.isSetCoeff = false ∧ c.isInit = false ∧ c.isRetain = false ∧
      (processState cfg k2 (processState cfg k1 s in1L in1R pitch) in2L in2R pitch).cySvf =
        (processState cfg k1 s in1L in1R pitch).cySvf ++ [SvfCall.retainCoeffForBlock, c]) ∧
    (processState cfg k2 (processState cfg k1 s in1L in1R pitch) in2L in2R pitch).mLastParam =
      (processState cfg k1 s in1L in1R pitch).mLastParam ∧
    (processState cfg k2 (processState cfg k1 s in1L in1R pitch) in2L in2R pitch).mLastIParam =
      (processState cfg k1 s in1L in1R pitch).mLastIParam := by
  have hs := processState_settled cfg k1 s in1L in1R pitch
  have hc : callsOf cfg (processState cfg k1 s in1L in1R pitch) pitch =
      [SvfCall.retainCoeffForBlock] := by
    rw [callsOf_eq, if_neg hs]
  obtain ⟨h1, h2, h3, h4, h5, h6⟩ := processState_fields cfg k1 s in1L in1R pitch
  obtain ⟨g1, g2, g3, g4, g5, g6⟩ :=
    processState_fields cfg k2 (processState cfg k1 s in1L in1R pitch) in2L in2R pitch
  refine ⟨hc, ?_, ?_, ?_, ?_, ?_⟩
  · unfold recomputes; rw [hc]; rfl
  · unfold resets; rw [hc]; rfl
  · obtain ⟨c, c1, c2, c3, c4⟩ :=
      processState_cySvf cfg k2 (processState cfg k1 s in1L in1R pitch) in2L in2R pitch
    exact ⟨c, c1, c2, c3, by rw [c4, hc]; rfl⟩
  · rw [g5, h5]
    funext i
    simp only [effectiveParam, h1, h3]
  · rw [g6, h6, h2]

/-- C9 as stated fails: after a process call and an `initVoiceEffect`, a
process call with the same parameters and pitch neither recomputes the
coefficients nor resets the filter state; and neither does the first call on
a fresh filter whose parameters equal the values the constructor caches
(`-188888` and `-1`). -/
theorem no_recompute_after_initVoiceEffect :
    recomputes exampleFilterConfig
      (initVoiceEffect
        (processState exampleFilterConfig ProcessKind.stereo exampleFilter
          (fun _ => 0) (fun _ => 0) 0))
      0 = false ∧
    resets exampleFilterConfig
      (initVoiceEffect
        (processState exampleFilterConfig ProcessKind.stereo exampleFilter
          (fun _ => 0) (fun _ => 0) 0))
      0 = false ∧
    recomputes exampleFilterConfig
      (initVoiceEffect (construct (fun _ => -188888) (fun _ => -1) (1 / 48000))) 0 = false := by
  have hs := processState_settled exampleFilterConfig ProcessKind.stereo exampleFilter
    (fun _ => 0) (fun _ => 0) 0
  have hc : callsOf exampleFilterConfig (initVoiceEffect
      (processState exampleFilterConfig ProcessKind.stereo exampleFilter
        (fun _ => 0) (fun _ => 0) 0))
      0 = [SvfCall.retainCoeffForBlock] := by
    unfold initVoiceEffect
    rw [callsOf_eq, if_neg hs]
  have hn : ¬ (paramsDiffer
      (initVoiceEffect (construct (fun _ => (-188888 : ℚ)) (fun _ => -1) (1 / 48000))) 0 ∨
      (initVoiceEffect (construct (fun _ => (-188888 : ℚ)) (fun _ => -1) (1 / 48000))).wasKeytrackOn
        ≠ (initVoiceEffect
          (construct (fun _ => (-188888 : ℚ)) (fun _ => -1) (1 / 48000))).keytrackOn) := by
    simp [paramsDiffer, initVoiceEffect, construct, effectiveParam]
  have hd : callsOf exampleFilterConfig
      (initVoiceEffect (construct (fun _ => (-188888 : ℚ)) (fun _ => -1) (1 / 48000))) 0 =
      [SvfCall.retainCoeffForBlock] := by
    rw [callsOf_eq, if_neg hn]
  unfold recomputes resets
  rw [hc, hd]
  exact ⟨rfl, rfl, rfl⟩

/-- C9, amended: on the first process call after construction (with
keytracking switched either way and `initVoiceEffect` called in between), for
every parameter setting whose mode or stereo flag is not `-1`, so for every
setting in range, `calc_coeffs` resets the filter state and recomputes the
coefficients: its calls are `init` and `setCoeffForBlock`. And
`initVoiceEffect` leaves the object as it is. -/
theorem first_call_recomputes (cfg : Config α) (floatParam : Fin numFloatParams → α)
    (intParam : Fin numIntParams → Int) (sampleRateInv pitch : α) (b : Bool)
    (h : intParam ipMode ≠ -1 ∨ intParam ipStereo ≠ -1) :
    callsOf cfg
        (initVoiceEffect (enableKeytrack (construct floatParam intParam sampleRateInv) b).1) pitch =
      [SvfCall.init, setCoeffCall cfg
        (initVoiceEffect (enableKeytrack (construct floatParam intParam sampleRateInv) b).1) pitch] ∧
    recomputes cfg
        (initVoiceEffect (enableKeytrack (construct floatParam intParam sampleRateInv) b).1) pitch =
      true ∧
    resets cfg
        (initVoiceEffect (enableKeytrack (construct floatParam intParam sampleRateInv) b).1) pitch =
      true ∧
    (∀ s : State α, initVoiceEffect s = s) := by
  have hi : ∃ j, (initVoiceEffect (enableKeytrack (construct floatParam intParam sampleRateInv)
      b).1).mLastIParam j ≠
      (initVoiceEffect (enableKeytrack (construct floatParam intParam sampleRateInv)
        b).1).intParam j := by
    rcases h with h | h
    · exact ⟨ipMode, fun hc => h hc.symm⟩
    · exact ⟨ipStereo, fun hc => h hc.symm⟩
  have hp : paramsDiffer
      (initVoiceEffect (enableKeytrack (construct floatParam intParam sampleRateInv) b).1) pitch ∨
      (initVoiceEffect (enableKeytrack (construct floatParam intParam sampleRateInv)
        b).1).wasKeytrackOn ≠
      (initVoiceEffect (enableKeytrack (construct floatParam intParam sampleRateInv)
        b).1).keytrackOn := Or.inl (Or.inr hi)
  have hq : (∃ j, (initVoiceEffect (enableKeytrack (construct floatParam intParam sampleRateInv)
      b).1).mLastIParam j ≠
      (initVoiceEffect (enableKeytrack (construct floatParam intParam sampleRateInv)
        b).1).intParam j) ∨
      (initVoiceEffect (enableKeytrack (construct floatParam intParam sampleRateInv)
        b).1).wasKeytrackOn ≠
      (initVoiceEffect (enableKeytrack (construct floatParam intParam sampleRateInv)
        b).1).keytrackOn := Or.inl hi
  refine ⟨?_, ?_, ?_, fun s => rfl⟩
  · rw [callsOf_eq, if_pos hp, if_pos hq]
    rfl
  · exact (recomputes_iff cfg _ pitch).2 hp
  · exact (resets_iff cfg _ pitch).2 hq

/-- Witness of `first_call_recomputes`: a fresh low-pass, mono filter. -/
theorem first_call_recomputes_witness :
    ((0 : Int) ≠ -1 ∨ (0 : Int) ≠ -1) ∧
    recomputes exampleFilterConfig
      (initVoiceEffect (enableKeytrack (construct ![0, 0, 1 / 2, 0] ![0, 0] (1 / 48000)) false).1)
      0 = true ∧
    resets exampleFilterConfig
      (initVoiceEffect (enableKeytrack (construct ![0, 0, 1 / 2, 0] ![0, 0] (1 / 48000)) false).1)
      0 = true :=
  ⟨Or.inl (by decide),
    (first_call_recomputes exampleFilterConfig ![0, 0, 1 / 2, 0] ![0, 0] (1 / 48000) 0 false
      (Or.inl (by decide))).2.1,
    (first_call_recomputes exampleFilterConfig ![0, 0, 1 / 2, 0] ![0, 0] (1 / 48000) 0 false
      (Or.inl (by decide))).2.2.1⟩

/-- C10: `calc_coeffs` calls `cySvf.init()`, and then `setCoeffForBlock`,
whenever the mode or the stereo flag differs from its cached value; and when
the integer parameters and the keytrack setting are unchanged and only an
effective float parameter differs from the cache, its only call is
`setCoeffForBlock`: the coefficients are recomputed, `init` is not called and
what was done on `cySvf` before stays as it was. -/
theorem reset_only_on_int_change (cfg : Config α) (s : State α) (pitch : α) :
    ((∃ j, s.mLastIParam j ≠ s.intParam j) →
      callsOf cfg s pitch = [SvfCall.init, setCoeffCall cfg s pitch] ∧
      resets cfg s pitch = true) ∧
    ((∀ j, s.mLastIParam j = s.intParam j) → s.wasKeytrackOn = s.keytrackOn →
      (∃ i, s.mLastParam i ≠ effectiveParam s pitch i) →
      callsOf cfg s pitch = [setCoeffCall cfg s pitch] ∧
      recomputes cfg s pitch = true ∧
      resets cfg s pitch = false ∧
      (calc_coeffs cfg s pitch).cySvf = s.cySvf ++ [setCoeffCall cfg s pitch]) := by
  constructor
  · intro hi
    have hp : paramsDiffer s pitch ∨ s.wasKeytrackOn ≠ s.keytrackOn := Or.inl (Or.inr hi)
    have hq : (∃ j, s.mLastIParam j ≠ s.intParam j) ∨ s.wasKeytrackOn ≠ s.keytrackOn :=
      Or.inl hi
    refine ⟨?_, (resets_iff cfg s pitch).2 hq⟩
    rw [callsOf_eq, if_pos hp, if_pos hq]
    rfl
  · intro hi hk hf
    have hn : ¬ ((∃ j, s.mLastIParam j ≠ s.intParam j) ∨ s.wasKeytrackOn ≠ s.keytrackOn) := by
      rintro (⟨j, hj⟩ | hc)
      · exact hj (hi j)
      · exact hc hk
    have hp : paramsDiffer s pitch ∨ s.wasKeytrackOn ≠ s.keytrackOn := Or.inl (Or.inl hf)
    have hc : callsOf cfg s pitch = [setCoeffCall cfg s pitch] := by
      rw [callsOf_eq, if_pos hp, if_neg hn]
      rfl
    refine ⟨hc, (recomputes_iff cfg s pitch).2 hp, ?_, ?_⟩
    · cases hr : resets cfg s pitch with
      | false => rfl
      | true => exact absurd ((resets_iff cfg s pitch).1 hr) hn
    · rw [calc_coeffs_eq, if_pos hp, if_neg hn]
      rfl

/-- Witness of `reset_only_on_int_change`: on a filter processed once, a change
of the mode resets the state, a change of the resonance alone does not. -/
theorem reset_only_on_int_change_witness :
    resets exampleFilterConfig
      { calc_coeffs exampleFilterConfig exampleFilter 0 with intParam := ![1, 0] } 0 = true ∧
    resets exampleFilterConfig
      { calc_coeffs exampleFilterConfig exampleFilter 0 with floatParam := ![0, 0, 3 / 4, 0] } 0
      = false ∧
    recomputes exampleFilterConfig
      { calc_coeffs exampleFilterConfig exampleFilter 0 with floatParam := ![0, 0, 3 / 4, 0] } 0
      = true := by
  obtain ⟨h1, h2, h3, h4⟩ := calc_coeffs_frame exampleFilterConfig exampleFilter 0
  obtain ⟨h5, h6⟩ := calc_coeffs_cache exampleFilterConfig exampleFilter 0
  have ha := (reset_only_on_int_change exampleFilterConfig
    { calc_coeffs exampleFilterConfig exampleFilter 0 with intParam := ![1, 0] } 0).1
    ⟨0, by simp only [h6]; simp [exampleFilter, construct]⟩
  have hb := (reset_only_on_int_change exampleFilterConfig
    { calc_coeffs exampleFilterConfig exampleFilter 0 with floatParam := ![0, 0, 3 / 4, 0] } 0).2
    (fun j => by simp only [h6, h2])
    (by simp only [h3, h4])
    ⟨2, by
      simp only [h5, effectiveParam]
      norm_num [exampleFilter, construct]⟩
  exact ⟨ha.2, hb.2.2.1, hb.2.1⟩

end CytomicSVF

namespace GenVA

variable {α Q S : Type} [LinearOrderedField α]

/-- The centre tune `processMonoToMono` derives the voices from, for an odd
unison count: the Tune parameter is added twice under keytracking. -/
theorem processDetune_centre (s : State α Q S) (pitch : α) (n : Nat)
    (hn : s.intParam ipUnison = (n : Int)) (hodd : n % 2 = 1) :
    processDetune s pitch 0 =
      if s.keytrackOn then s.floatParam fpOffset + (s.floatParam fpOffset + pitch)
      else s.floatParam fpOffset := by
  unfold processDetune
  simp only [hn]
  rw [detuneStrategy_odd s.toParams n _ _ hodd 0]
  simp only [if_true, tuneOf, processTune]
  split_ifs <;> rfl

/-- C11, evaluated with keytracking on, Tune parameter 12 and pitch 60, one
voice: `processMonoToMono` computes the tune `72 = 12 + 60` and hands it to
`detuneStrategy` as the pitch, which adds the Tune parameter once more: the
voice runs at `84`, not at `72`. With keytracking off the voice runs at `12`. -/
theorem processMonoToMono_centre_tune :
    processTune (exampleVA true 12 1 0 1) 60 = 72 ∧
    processDetune (exampleVA true 12 1 0 1) 60 0 = 84 ∧
    processDetune (exampleVA false 12 1 0 1) 60 0 = 12 := by
  refine ⟨?_, ?_, ?_⟩
  · norm_num [processTune, exampleVA, enableKeytrack, construct, fpOffset]
  · rw [processDetune_centre _ _ 1 (by rfl) (by norm_num)]
    norm_num [exampleVA, enableKeytrack, construct, fpOffset]
  · rw [processDetune_centre _ _ 1 (by rfl) (by norm_num)]
    norm_num [exampleVA, enableKeytrack, construct, fpOffset]

end GenVA

namespace CytomicSVF

variable {α : Type} [LinearOrderedField α]

theorem effectiveParam_apply (s : State α) (pitch : α) :
    effectiveParam s pitch fpFreqL =
      (if s.keytrackOn = true then s.floatParam fpFreqL + pitch else s.floatParam fpFreqL) ∧
    effectiveParam s pitch fpFreqR =
      (if s.keytrackOn = true then s.floatParam fpFreqR + pitch else s.floatParam fpFreqR) ∧
    effectiveParam s pitch fpResonance = s.floatParam fpResonance ∧
    effectiveParam s pitch fpShelf = s.floatParam fpShelf := by
  have h0 : (fpFreqL : Fin numFloatParams).val < 2 := by decide
  have h1 : (fpFreqR : Fin numFloatParams).val < 2 := by decide
  have h2 : ¬ (fpResonance : Fin numFloatParams).val < 2 := by decide
  have h3 : ¬ (fpShelf : Fin numFloatParams).val < 2 := by decide
  unfold effectiveParam
  simp only [h0, h1, h2, h3, true_and, false_and, if_false, and_self]

theorem callsOf_recompute (cfg : Config α) (s : State α) (pitch : α)
    (h : recomputes cfg s pitch = true) :
    (callsOf cfg s pitch).getLast? = some (setCoeffCall cfg s pitch) := by
  have hp := (recomputes_iff cfg s pitch).1 h
  rw [callsOf_eq, if_pos hp]
  split_ifs <;> rfl

/-- C12: with keytracking on, the `setCoeffForBlock` call of a recomputing
`calc_coeffs(pitch)` gets the frequencies
`440 * note_to_pitch_ignoring_tuning(cutoff + pitch)`, for the left and (in
stereo) the right cutoff, and the resonance `clamp(resonance, 0, 1)` and the
shelf gain `dbToLinear(gain)` without the pitch; with keytracking off the
object after `calc_coeffs`, so the branch taken, the cached vectors and the
calls on `cySvf`, does not depend on the pitch. -/
theorem keytrack_offsets_cutoffs (cfg : Config α) (s : State α) (pitch pitch2 : α) :
    (s.keytrackOn = true → recomputes cfg s pitch = true →
      (s.intParam ipStereo ≠ 0 →
        (callsOf cfg s pitch).getLast? = some
          (SvfCall.setCoeffForBlockStereo (s.intParam ipMode)
            (440.0 * cfg.note_to_pitch_ignoring_tuning (s.floatParam fpFreqL + pitch))
            (440.0 * cfg.note_to_pitch_ignoring_tuning (s.floatParam fpFreqR + pitch))
            (stdClamp (s.floatParam fpResonance) 0 1) (stdClamp (s.floatParam fpResonance) 0 1)
            s.sampleRateInv
            (cfg.dbToLinear (s.floatParam fpShelf)) (cfg.dbToLinear (s.floatParam fpShelf)))) ∧
      (s.intParam ipStereo = 0 →
        (callsOf cfg s pitch).getLast? = some
          (SvfCall.setCoeffForBlock (s.intParam ipMode)
            (440.0 * cfg.note_to_pitch_ignoring_tuning (s.floatParam fpFreqL + pitch))
            (stdClamp (s.floatParam fpResonance) 0 1)
            s.sampleRateInv
            (cfg.dbToLinear (s.floatParam fpShelf))))) ∧
    (s.keytrackOn = false → calc_coeffs cfg s pitch = calc_coeffs cfg s pitch2) := by
  constructor
  · intro hk hr
    have hc := callsOf_recompute cfg s pitch hr
    obtain ⟨e0, e1, e2, e3⟩ := effectiveParam_apply s pitch
    constructor
    · intro hs
      rw [hc, setCoeffCall, if_pos hs, e0, e1, e2, e3, if_pos hk, if_pos hk]
    · intro hs
      rw [hc, setCoeffCall, if_neg (not_not.2 hs), e0, e2, e3, if_pos hk]
  · intro hk
    have he : effectiveParam s pitch = effectiveParam s pitch2 := by
      funext i; simp [effectiveParam, hk]
    have hd : paramsDiffer s pitch ↔ paramsDiffer s pitch2 := by
      unfold paramsDiffer; rw [he]
    have hsc : setCoeffCall cfg s pitch = setCoeffCall cfg s pitch2 := by
      unfold setCoeffCall; rw [he]
    rw [calc_coeffs_eq, calc_coeffs_eq, he, hsc]
    by_cases h : paramsDiffer s pitch ∨ s.wasKeytrackOn ≠ s.keytrackOn
    · have h2 : paramsDiffer s pitch2 ∨ s.wasKeytrackOn ≠ s.keytrackOn := by
        rcases h with h | h
        · exact Or.inl (hd.1 h)
        · exact Or.inr h
      rw [if_pos h, if_pos h2]
    · have h2 : ¬ (paramsDiffer s pitch2 ∨ s.wasKeytrackOn ≠ s.keytrackOn) := by
        rintro (h2 | h2)
        · exact h (Or.inl (hd.2 h2))
        · exact h (Or.inr h2)
      rw [if_neg h, if_neg h2]

/-- Witness of `keytrack_offsets_cutoffs`: the fresh example filter with
keytracking switched on and pitch 7 gets the frequency `440 * 7`; with
keytracking off the pitches 7 and 0 give the same object. -/
theorem keytrack_offsets_cutoffs_witness :
    (callsOf exampleFilterConfig (enableKeytrack exampleFilter true).1 7).getLast? = some
      (SvfCall.setCoeffForBlock 0 (440.0 * 7) (1 / 2) (1 / 48000) 0) ∧
    calc_coeffs exampleFilterConfig exampleFilter 7 =
      calc_coeffs exampleFilterConfig exampleFilter 0 := by
  have h := keytrack_offsets_cutoffs exampleFilterConfig (enableKeytrack exampleFilter true).1 7 0
  have hr : recomputes exampleFilterConfig (enableKeytrack exampleFilter true).1 7 = true := by
    rw [recomputes_iff]
    right
    simp [enableKeytrack, exampleFilter, construct]
  have h1 := (h.1 rfl hr).2 rfl
  refine ⟨?_, (keytrack_offsets_cutoffs exampleFilterConfig exampleFilter 7 0).2 rfl⟩
  rw [h1]
  norm_num [enableKeytrack, exampleFilter, construct, exampleFilterConfig, fpFreqL, fpResonance,
    fpShelf, ipMode, stdClamp]

end CytomicSVF

namespace GenVA

variable {α Q S : Type} [LinearOrderedField α]

/-- A unison count above nine makes the sine voice loop leave the bank. -/
theorem sineVoices_none (cfg : Config α Q S) (count : Int) (detune : Nat → α) (hc : 9 < count)
    (n : Nat) : ∀ (i : Nat) (s : State α Q S), i ≤ 9 → count ≤ (i : Int) + n →
      sineVoices cfg count detune n i s = none := by
  induction n with
  | zero => intro i s hi hk; simp only [Nat.cast_zero] at hk; omega
  | succ n ih =>
    intro i s hi hk
    unfold sineVoices
    have hlt : (i : Int) < count := by omega
    rw [if_pos hlt]
    by_cases h9 : i < 9
    · rw [dif_pos h9]
      exact ih (i + 1) _ (by omega) (by push_cast at hk ⊢; omega)
    · rw [dif_neg h9]

/-- For a unison count of at most nine the sine voice loop returns, having run
exactly the voices below the count. -/
theorem sineVoices_some (cfg : Config α Q S) (c : Nat) (hc : c ≤ 9) (detune : Nat → α)
    (n : Nat) : ∀ (i : Nat) (s : State α Q S), c ≤ i + n →
      ∃ s', sineVoices cfg (c : Int) detune n i s = some s' ∧
        ∀ (j : Nat) (h : j < 9), s'.mQuadOsc ⟨j, h⟩ =
          if i ≤ j ∧ j < c then (runSine cfg s (s.mQuadOsc ⟨j, h⟩) (fun _ => 0) (detune j)).1
          else s.mQuadOsc ⟨j, h⟩ := by
  induction n with
  | zero =>
    intro i s hk
    refine ⟨s, rfl, fun j h => ?_⟩
    rw [if_neg (by omega)]
  | succ n ih =>
    intro i s hk
    unfold sineVoices
    by_cases hlt : (i : Int) < (c : Int)
    · have hi : i < c := by exact_mod_cast hlt
      have h9 : i < 9 := by omega
      rw [if_pos hlt, dif_pos h9]
      obtain ⟨s', hs', hb⟩ := ih (i + 1)
        { s with
          mQuadOsc := Function.update s.mQuadOsc ⟨i, h9⟩
            (runSine cfg s (s.mQuadOsc ⟨i, h9⟩) (fun _ => 0) (detune i)).1
          oscSum := sumVoice cfg.blockSize i
            (runSine cfg s (s.mQuadOsc ⟨i, h9⟩) (fun _ => 0) (detune i)).2 s.oscSum }
        (by omega)
      refine ⟨s', hs', fun j h => ?_⟩
      rw [hb j h]
      by_cases hj : j = i
      · subst hj
        rw [if_neg (by omega), if_pos ⟨le_refl _, hi⟩]
        simp
      · have hne : (⟨j, h⟩ : Fin 9) ≠ ⟨i, h9⟩ := fun he => hj (Fin.mk.inj he)
        by_cases hr : i + 1 ≤ j ∧ j < c
        · rw [if_pos hr, if_pos ⟨by omega, hr.2⟩]
          simp only [Function.update_noteq hne]
          rfl
        · rw [if_neg hr, if_neg (by omega)]
          simp only [Function.update_noteq hne]
    · rw [if_neg hlt]
      have hi : ¬ i < c := fun h => hlt (by exact_mod_cast h)
      refine ⟨s, rfl, fun j h => ?_⟩
      rw [if_neg (by omega)]

/-- For a unison count of at most nine the saw voice loop returns, having run
exactly the voices below the count. -/
theorem sawVoices_some (cfg : Config α Q S) (c : Nat) (hc : c ≤ 9) (detune : Nat → α)
    (n : Nat) : ∀ (i : Nat) (s : State α Q S), c ≤ i + n →
      ∃ s', sawVoices cfg (c : Int) detune n i s = some s' ∧
        ∀ (j : Nat) (h : j < 9), s'.mSawOsc ⟨j, h⟩ =
          if i ≤ j ∧ j < c then (runSaw cfg s (s.mSawOsc ⟨j, h⟩) (fun _ => 0) (detune j)).1
          else s.mSawOsc ⟨j, h⟩ := by
  induction n with
  | zero =>
    intro i s hk
    refine ⟨s, rfl, fun j h => ?_⟩
    rw [if_neg (by omega)]
  | succ n ih =>
    intro i s hk
    unfold sawVoices
    by_cases hlt : (i : Int) < (c : Int)
    · have hi : i < c := by exact_mod_cast hlt
      have h9 : i < 9 := by omega
      rw [if_pos hlt, dif_pos h9]
      obtain ⟨s', hs', hb⟩ := ih (i + 1)
        { s with
          mSawOsc := Function.update s.mSawOsc ⟨i, h9⟩
            (runSaw cfg s (s.mSawOsc ⟨i, h9⟩) (fun _ => 0) (detune i)).1
          oscSum := sumVoice cfg.blockSize i
            (runSaw cfg s (s.mSawOsc ⟨i, h9⟩) (fun _ => 0) (detune i)).2 s.oscSum }
        (by omega)
      refine ⟨s', hs', fun j h => ?_⟩
      rw [hb j h]
      by_cases hj : j = i
      · subst hj
        rw [if_neg (by omega), if_pos ⟨le_refl _, hi⟩]
        simp
      · have hne : (⟨j, h⟩ : Fin 9) ≠ ⟨i, h9⟩ := fun he => hj (Fin.mk.inj he)
        by_cases hr : i + 1 ≤ j ∧ j < c
        · rw [if_pos hr, if_pos ⟨by omega, hr.2⟩]
          simp only [Function.update_noteq hne]
          rfl
        · rw [if_neg hr, if_neg (by omega)]
          simp only [Function.update_noteq hne]
    · rw [if_neg hlt]
      have hi : ¬ i < c := fun h => hlt (by exact_mod_cast h)
      refine ⟨s, rfl, fun j h => ?_⟩
      rw [if_neg (by omega)]

end GenVA

namespace GenVA

variable {α Q S : Type} [LinearOrderedField α] [FloorRing α]

/-- For a unison count of at most nine the pulse voice loop runs exactly the
voices below the count: when it returns, every voice below the count holds the
oscillator its `run` has left and the other voices are as before; and it
returns when the `run` of every voice below the count does. -/
theorem pulseVoices_some (cfg : Config α Q S) (fuel : Nat) (c : Nat) (hc : c ≤ 9)
    (detune : Nat → α) (n : Nat) : ∀ (i : Nat) (s : State α Q S), c ≤ i + n →
      (∀ s', pulseVoices cfg fuel (c : Int) detune n i s = some s' →
        ∀ (j : Nat) (h : j < 9),
          if i ≤ j ∧ j < c then
            (runPulse cfg fuel s (s.mPulseOsc ⟨j, h⟩) (fun _ => 0) (detune j)).map Prod.fst =
              some (s'.mPulseOsc ⟨j, h⟩)
          else s'.mPulseOsc ⟨j, h⟩ = s.mPulseOsc ⟨j, h⟩) ∧
      ((∀ (j : Nat) (h : j < 9), i ≤ j → j < c →
          runPulse cfg fuel s (s.mPulseOsc ⟨j, h⟩) (fun _ => 0) (detune j) ≠ none) →
        ∃ s', pulseVoices cfg fuel (c : Int) detune n i s = some s') := by
  induction n with
  | zero =>
    intro i s hk
    refine ⟨fun s' hs' j h => ?_, fun _ => ⟨s, rfl⟩⟩
    rw [pulseVoices] at hs'
    cases hs'
    rw [if_neg (by omega)]
  | succ n ih =>
    intro i s hk
    by_cases hlt : (i : Int) < (c : Int)
    · have hi : i < c := by exact_mod_cast hlt
      have h9 : i < 9 := by omega
      have hstep : ∀ (r : PulseOscillator α × (Nat → α)) (j : Nat) (h : j < 9), j ≠ i →
          runPulse cfg fuel
            { s with
              mPulseOsc := Function.update s.mPulseOsc ⟨i, h9⟩ r.1
              oscSum := sumVoice cfg.blockSize i r.2 s.oscSum }
            (Function.update s.mPulseOsc ⟨i, h9⟩ r.1 ⟨j, h⟩) (fun _ => 0) (detune j) =
          runPulse cfg fuel s (s.mPulseOsc ⟨j, h⟩) (fun _ => 0) (detune j) := by
        intro r j h hj
        have hne : (⟨j, h⟩ : Fin 9) ≠ ⟨i, h9⟩ := fun he => hj (Fin.mk.inj he)
        rw [Function.update_noteq hne]
        rfl
      constructor
      · intro s' hs' j h
        rw [pulseVoices, if_pos hlt, dif_pos h9] at hs'
        cases hr : runPulse cfg fuel s (s.mPulseOsc ⟨i, h9⟩) (fun _ => 0) (detune i) with
        | none => rw [hr] at hs'; cases hs'
        | some r =>
          rw [hr, Option.some_bind] at hs'
          have hb := (ih (i + 1) _ (by omega)).1 s' hs' j h
          by_cases hj : j = i
          · subst hj
            rw [if_neg (by omega)] at hb
            rw [if_pos ⟨le_refl _, hi⟩, hr, hb]
            simp
          · have hne : (⟨j, h⟩ : Fin 9) ≠ ⟨i, h9⟩ := fun he => hj (Fin.mk.inj he)
            by_cases hq : i + 1 ≤ j ∧ j < c
            · rw [if_pos hq] at hb
              rw [if_pos ⟨by omega, hq.2⟩, ← hb]
              exact congrArg _ (hstep r j h hj).symm
            · rw [if_neg hq] at hb
              rw [if_neg (by omega), hb]
              exact Function.update_noteq hne _ _
      · intro hall
        rw [pulseVoices, if_pos hlt, dif_pos h9]
        cases hr : runPulse cfg fuel s (s.mPulseOsc ⟨i, h9⟩) (fun _ => 0) (detune i) with
        | none => exact absurd hr (hall i h9 le_rfl hi)
        | some r =>
          rw [Option.some_bind]
          refine (ih (i + 1) _ (by omega)).2 fun j h hij hjc => ?_
          have := hstep r j h (by omega)
          show runPulse cfg fuel _ (Function.update s.mPulseOsc ⟨i, h9⟩ r.1 ⟨j, h⟩) (fun _ => 0)
            (detune j) ≠ none
          rw [this]
          exact hall j h (by omega) hjc
    · have hi : ¬ i < c := fun h => hlt (by exact_mod_cast h)
      refine ⟨fun s' hs' j h => ?_, fun _ => ⟨s, by rw [pulseVoices, if_neg hlt]⟩⟩
      rw [pulseVoices, if_neg hlt] at hs'
      cases hs'
      rw [if_neg (by omega)]

end GenVA

namespace GenVA

variable {α Q S : Type} [LinearOrderedField α] [FloorRing α]

theorem processMonoToMono_sine (cfg : Config α Q S) (fuel : Nat) (s : State α Q S)
    (datainL dataoutL : Nat → α) (pitch : α) (hw : s.intParam ipWaveform = 0) :
    processMonoToMono cfg fuel s datainL dataoutL pitch =
      ((sineVoices cfg (s.intParam ipUnison) (processDetune s pitch) (s.intParam ipUnison).toNat 0
        { s with levelLerp := s.levelLerp.set_target (processLevel s) }).map fun s' =>
        { s' with oscSum := scale_by cfg.blockSize (processLevel s) s'.oscSum }).map fun s' =>
        (s', copy_from_to cfg.blockSize s'.oscSum dataoutL) := by
  unfold processMonoToMono
  simp only [hw, if_true]
  rfl

theorem processMonoToMono_saw (cfg : Config α Q S) (fuel : Nat) (s : State α Q S)
    (datainL dataoutL : Nat → α) (pitch : α) (hw : s.intParam ipWaveform = 1) :
    processMonoToMono cfg fuel s datainL dataoutL pitch =
      ((sawVoices cfg (s.intParam ipUnison) (processDetune s pitch) (s.intParam ipUnison).toNat 0
        { s with levelLerp := s.levelLerp.set_target (processLevel s) }).map fun s' =>
        { s' with oscSum := scale_by cfg.blockSize (processLevel s) s'.oscSum }).map fun s' =>
        (s', copy_from_to cfg.blockSize s'.oscSum dataoutL) := by
  unfold processMonoToMono
  have h0 : ¬ ((1 : Int) = 0) := by decide
  simp only [hw, h0, if_true, if_false]
  rfl

theorem processMonoToMono_pulse (cfg : Config α Q S) (fuel : Nat) (s : State α Q S)
    (datainL dataoutL : Nat → α) (pitch : α) (h0 : s.intParam ipWaveform ≠ 0)
    (h1 : s.intParam ipWaveform ≠ 1) :
    processMonoToMono cfg fuel s datainL dataoutL pitch =
      (pulseVoices cfg fuel (s.intParam ipUnison) (processDetune s pitch)
        (s.intParam ipUnison).toNat 0
        { s with levelLerp := s.levelLerp.set_target (processLevel s) }).map fun s' =>
        (s', copy_from_to cfg.blockSize s'.oscSum dataoutL) := by
  unfold processMonoToMono
  simp only [h0, h1, if_false]
  rfl

/-- C13 as stated fails: with the unison count 10 the sine voice loop of
`processMonoToMono` reaches index 9, outside the banks of nine oscillators. -/
theorem unison_count_not_clamped :
    (exampleVA true 0 1 0 10).intParam ipUnison = 10 ∧
    processMonoToMono exampleVAConfig 3 (exampleVA true 0 1 0 10) (fun _ => 0) (fun _ => 0) 60
      = none := by
  refine ⟨rfl, ?_⟩
  rw [processMonoToMono_sine _ _ _ _ _ _ rfl]
  have h : (exampleVA true 0 1 0 10).intParam ipUnison = 10 := rfl
  rw [h, sineVoices_none exampleVAConfig 10 _ (by decide) _ 0 _ (by decide) (by decide)]
  rfl

/-- C13, amended: for a unison count `c` within its range `1..9` every index
the voice loops of `processMonoToMono` admit is below nine (and below `c`, the
length of the detune vector). With the sine or the saw waveform the call
returns and has run exactly the voices `0..c-1` of the bank. With the pulse
waveform the call returns when the `run` of each of the voices `0..c-1`
returns, and when the call returns it has run exactly the voices `0..c-1`:
each of them holds the oscillator its `run` has left, and the other voices of
the bank are as before. The count is not clamped. -/
theorem unison_count_in_range (cfg : Config α Q S) (fuel : Nat) (s : State α Q S)
    (datainL dataoutL : Nat → α) (pitch : α) (c : Nat) (h1 : 1 ≤ c) (h9 : c ≤ 9)
    (hc : s.intParam ipUnison = (c : Int)) :
    (∀ i : Nat, (i : Int) < s.intParam ipUnison → i < 9 ∧ i < c) ∧
    (s.intParam ipWaveform = 0 →
      ∃ r, processMonoToMono cfg fuel s datainL dataoutL pitch = some r ∧
        ∀ (j : Nat) (h : j < 9), r.1.mQuadOsc ⟨j, h⟩ =
          if j < c then
            (runSine cfg s (s.mQuadOsc ⟨j, h⟩) (fun _ => 0) (processDetune s pitch j)).1
          else s.mQuadOsc ⟨j, h⟩) ∧
    (s.intParam ipWaveform = 1 →
      ∃ r, processMonoToMono cfg fuel s datainL dataoutL pitch = some r ∧
        ∀ (j : Nat) (h : j < 9), r.1.mSawOsc ⟨j, h⟩ =
          if j < c then
            (runSaw cfg s (s.mSawOsc ⟨j, h⟩) (fun _ => 0) (processDetune s pitch j)).1
          else s.mSawOsc ⟨j, h⟩) ∧
    (s.intParam ipWaveform ≠ 0 → s.intParam ipWaveform ≠ 1 →
      ((∀ (j : Nat) (h : j < 9), j < c →
          runPulse cfg fuel s (s.mPulseOsc ⟨j, h⟩) (fun _ => 0) (processDetune s pitch j) ≠
            none) →
        ∃ r, processMonoToMono cfg fuel s datainL dataoutL pitch = some r) ∧
      (∀ r, processMonoToMono cfg fuel s datainL dataoutL pitch = some r →
        ∀ (j : Nat) (h : j < 9),
          if j < c then
            (runPulse cfg fuel s (s.mPulseOsc ⟨j, h⟩) (fun _ => 0)
              (processDetune s pitch j)).map Prod.fst = some (r.1.mPulseOsc ⟨j, h⟩)
          else r.1.mPulseOsc ⟨j, h⟩ = s.mPulseOsc ⟨j, h⟩)) := by
  refine ⟨fun i hi => ?_, fun hw => ?_, fun hw => ?_, fun hw0 hw1 => ⟨fun hall => ?_,
    fun r hr j h => ?_⟩⟩
  · rw [hc] at hi
    have : i < c := by exact_mod_cast hi
    omega
  · rw [processMonoToMono_sine cfg fuel s datainL dataoutL pitch hw, hc]
    obtain ⟨s', hs', hb⟩ := sineVoices_some cfg c h9 (processDetune s pitch) (c : Int).toNat 0
      { s with levelLerp := s.levelLerp.set_target (processLevel s) } (by simp)
    rw [hs']
    refine ⟨_, rfl, fun j h => ?_⟩
    have := hb j h
    simp only [Nat.zero_le, true_and] at this
    exact this
  · rw [processMonoToMono_saw cfg fuel s datainL dataoutL pitch hw, hc]
    obtain ⟨s', hs', hb⟩ := sawVoices_some cfg c h9 (processDetune s pitch) (c : Int).toNat 0
      { s with levelLerp := s.levelLerp.set_target (processLevel s) } (by simp)
    rw [hs']
    refine ⟨_, rfl, fun j h => ?_⟩
    have := hb j h
    simp only [Nat.zero_le, true_and] at this
    exact this
  · rw [processMonoToMono_pulse cfg fuel s datainL dataoutL pitch hw0 hw1, hc]
    obtain ⟨s', hs'⟩ := (pulseVoices_some cfg fuel c h9 (processDetune s pitch) (c : Int).toNat 0
      { s with levelLerp := s.levelLerp.set_target (processLevel s) } (by simp)).2
      (fun j h _ hj => hall j h hj)
    rw [hs']
    exact ⟨_, rfl⟩
  · rw [processMonoToMono_pulse cfg fuel s datainL dataoutL pitch hw0 hw1, hc] at hr
    cases hp : pulseVoices cfg fuel (c : Int) (processDetune s pitch) (c : Int).toNat 0
      { s with levelLerp := s.levelLerp.set_target (processLevel s) } with
    | none => rw [hp] at hr; cases hr
    | some s' =>
      rw [hp] at hr
      cases hr
      have hb := (pulseVoices_some cfg fuel c h9 (processDetune s pitch) (c : Int).toNat 0
        { s with levelLerp := s.levelLerp.set_target (processLevel s) } (by simp)).1 s' hp j h
      simp only [Nat.zero_le, true_and] at hb
      exact hb

end GenVA

namespace GenVA

namespace PulseOscillator

variable {α : Type} [LinearOrderedField α]

theorem wrap64_eq (x : Int) (h1 : -2 ^ 63 ≤ x) (h2 : x < 2 ^ 63) : wrap64 x = x := by
  unfold wrap64; omega

theorem wrap64_range (x : Int) : -2 ^ 63 ≤ wrap64 x ∧ wrap64 x < 2 ^ 63 := by
  unfold wrap64; omega

/-- The cast of a value in `[0, 2^63)` is its floor. -/
theorem toInt64_nonneg [FloorRing α] (x : α) (hx : 0 ≤ x) (hlt : x < 2 ^ 63) :
    toInt64 x = ⌊x⌋ := by
  have h1 : (0 : Int) ≤ ⌊x⌋ := Int.floor_nonneg.2 hx
  have h2 : ⌊x⌋ < 2 ^ 63 := Int.floor_lt.2 (by exact_mod_cast hlt)
  have h3 : -2 ^ 63 ≤ ⌊x⌋ := le_trans (by norm_num) h1
  show (if -2 ^ 63 ≤ (if 0 ≤ x then ⌊x⌋ else ⌈x⌉) ∧ (if 0 ≤ x then ⌊x⌋ else ⌈x⌉) < 2 ^ 63
    then (if 0 ≤ x then ⌊x⌋ else ⌈x⌉) else int64Min) = ⌊x⌋
  rw [if_pos hx, if_pos ⟨h3, h2⟩]

/-- The cast of a value of `2^63` or more is `INT64_MIN`. -/
theorem toInt64_overflow [FloorRing α] (x : α) (hx : 2 ^ 63 ≤ x) : toInt64 x = -2 ^ 63 := by
  have h0 : (0 : α) ≤ x := le_trans (by positivity) hx
  have h2 : ¬ ⌊x⌋ < 2 ^ 63 := by
    rw [Int.floor_lt]; exact not_lt.2 (by exact_mod_cast hx)
  show (if -2 ^ 63 ≤ (if 0 ≤ x then ⌊x⌋ else ⌈x⌉) ∧ (if 0 ≤ x then ⌊x⌋ else ⌈x⌉) < 2 ^ 63
    then (if 0 ≤ x then ⌊x⌋ else ⌈x⌉) else int64Min) = -2 ^ 63
  rw [if_pos h0, if_neg (fun h => h2 h.2)]
  rfl

theorem maxHalfQuotient_ne (a b : α) (hb : b ≠ 0) :
    maxHalfQuotient a b = some (stdMax (0.5 : α) (a / b)) := by
  unfold maxHalfQuotient; rw [if_neg hb]

/-- With a divisor that is not zero the period of `convolute` is finite and
the step is the cast of the finite product. -/
theorem rate_eq [FloorRing α] (st : PulseOscillator α) (hd : periodDivisor st ≠ 0) :
    period st = some (stdMax (0.5 : α) (st.samplerate / periodDivisor st)) ∧
    rate st = toInt64 ((65536.0 : α) * 16777216.0 *
      stdMax (0.5 : α) (st.samplerate / periodDivisor st) * dutyWidth st) := by
  have hp : period st = some (stdMax (0.5 : α) (st.samplerate / periodDivisor st)) :=
    maxHalfQuotient_ne _ _ hd
  refine ⟨hp, ?_⟩
  unfold rate; rw [hp]; rfl

theorem syncrate_eq [FloorRing α] (st : PulseOscillator α) (hf : st.mFreqLerp.v ≠ 0) :
    syncrate st = toInt64 ((65536.0 : α) * 16777216.0 *
      stdMax (0.5 : α) (st.samplerate / st.mFreqLerp.v)) := by
  unfold syncrate; rw [maxHalfQuotient_ne _ _ hf]; rfl

/-- The duty fraction of `convolute` lies in `[0.00599, 0.99401]`. -/
theorem dutyWidth_bounds (st : PulseOscillator α) :
    (0.5 - 0.499 * 0.99 : α) ≤ dutyWidth st ∧ dutyWidth st ≤ (0.5 + 0.499 * 0.99 : α) := by
  have hb := ShortDelay.stdClamp_bounds st.mWidthLerp.v (0.01 : α) 0.99 (by norm_num)
  unfold dutyWidth
  generalize stdClamp st.mWidthLerp.v (0.01 : α) 0.99 = c at hb
  obtain ⟨h1, h2⟩ := hb
  norm_num at h1 h2 ⊢
  split_ifs <;> constructor <;> linarith

/-- The period at a divisor `d ≥ f > 0` lies in `[0.5, 2^22]` when `sr / f` is
at most `2^22`. -/
theorem stdMax_quotient_bounds (sr f d : α) (hf : 0 < f) (hd : f ≤ d) (hT : sr / f ≤ 2 ^ 22) :
    (0.5 : α) ≤ stdMax (0.5 : α) (sr / d) ∧ stdMax (0.5 : α) (sr / d) ≤ 2 ^ 22 := by
  rw [ShortDelay.stdMax_eq_max]
  refine ⟨le_max_left _ _, max_le (by norm_num) ?_⟩
  have hd0 : 0 < d := lt_of_lt_of_le hf hd
  by_cases hs : 0 ≤ sr
  · exact le_trans (div_le_div_of_nonneg_left hs hf hd) hT
  · exact le_trans (div_nonpos_of_nonpos_of_nonneg (le_of_not_le hs) hd0.le) (by norm_num)

/-- The cast of `2^40 * t * d` for a period `t` in `[0.5, 2^22]` and a factor
`d` in `[0.00599, 1]` is the floor of the product, between `2^31` and `2^62`. -/
theorem toInt64_step [FloorRing α] (t d : α) (ht : (0.5 : α) ≤ t) (ht2 : t ≤ 2 ^ 22)
    (hd : (0.5 - 0.499 * 0.99 : α) ≤ d) (hd2 : d ≤ 1) :
    toInt64 ((65536.0 : α) * 16777216.0 * t * d) = ⌊(65536.0 : α) * 16777216.0 * t * d⌋ ∧
    2 ^ 31 ≤ toInt64 ((65536.0 : α) * 16777216.0 * t * d) ∧
    toInt64 ((65536.0 : α) * 16777216.0 * t * d) ≤ 2 ^ 62 ∧
    ((toInt64 ((65536.0 : α) * 16777216.0 * t * d) : Int) : α) ≤ 2 ^ 40 * t := by
  have hK : (65536.0 : α) * 16777216.0 = 2 ^ 40 := by norm_num
  have ht0 : (0 : α) ≤ t := le_trans (by norm_num) ht
  have hd0 : (0 : α) ≤ d := le_trans (by norm_num) hd
  have h1 : (0.5 : α) * (0.5 - 0.499 * 0.99) ≤ t * d := mul_le_mul ht hd (by norm_num) ht0
  have h2 : t * d ≤ 2 ^ 22 * 1 := mul_le_mul ht2 hd2 hd0 (by positivity)
  have h3 : t * d ≤ t * 1 := mul_le_mul_of_nonneg_left hd2 ht0
  rw [hK]
  have hlo : ((2 ^ 31 : Int) : α) ≤ 2 ^ 40 * t * d := by
    push_cast
    norm_num at h1 ⊢
    nlinarith
  have hhi : 2 ^ 40 * t * d ≤ ((2 ^ 62 : Int) : α) := by
    push_cast
    have : (2 : α) ^ 40 * (t * d) ≤ 2 ^ 40 * (2 ^ 22 * 1) :=
      mul_le_mul_of_nonneg_left h2 (by positivity)
    have e : (2 : α) ^ 40 * (2 ^ 22 * 1) = 2 ^ 62 := by norm_num
    rw [mul_assoc]; linarith
  have h0 : (0 : α) ≤ 2 ^ 40 * t * d := by positivity
  have h63 : 2 ^ 40 * t * d < 2 ^ 63 := by
    have : ((2 ^ 62 : Int) : α) < 2 ^ 63 := by norm_num
    linarith
  rw [toInt64_nonneg _ h0 h63]
  refine ⟨rfl, Int.le_floor.2 hlo, ?_, ?_⟩
  · have : ((⌊(2 : α) ^ 40 * t * d⌋ : Int) : α) ≤ ((2 ^ 62 : Int) : α) :=
      le_trans (Int.floor_le _) hhi
    exact_mod_cast this
  · refine le_trans (Int.floor_le _) ?_
    have : (2 : α) ^ 40 * (t * d) ≤ 2 ^ 40 * (t * 1) :=
      mul_le_mul_of_nonneg_left h3 (by positivity)
    rw [mul_assoc]; linarith

theorem periodDivisor_ge (st : PulseOscillator α) :
    st.mFreqLerp.v ≤ periodDivisor st := by
  unfold periodDivisor
  split_ifs <;> linarith

/-- The step `rate` of `convolute` at a frequency `f > 0` with
`samplerate / f` at most `2^22`: the floor of the exact product, between `2^31`
and `2^62`. -/
theorem rate_bounds [FloorRing α] (st : PulseOscillator α) (hf : 0 < st.mFreqLerp.v)
    (hT : st.samplerate / st.mFreqLerp.v ≤ 2 ^ 22) :
    rate st = ⌊(65536.0 : α) * 16777216.0 *
      stdMax (0.5 : α) (st.samplerate / periodDivisor st) * dutyWidth st⌋ ∧
    2 ^ 31 ≤ rate st ∧ rate st ≤ 2 ^ 62 ∧
    ((rate st : Int) : α) ≤ 2 ^ 40 * stdMax (0.5 : α) (st.samplerate / periodDivisor st) := by
  have hd := periodDivisor_ge st
  have hd0 : periodDivisor st ≠ 0 := (lt_of_lt_of_le hf hd).ne'
  obtain ⟨t1, t2⟩ := stdMax_quotient_bounds st.samplerate st.mFreqLerp.v (periodDivisor st) hf hd hT
  obtain ⟨w1, w2⟩ := dutyWidth_bounds st
  have hs := toInt64_step (stdMax (0.5 : α) (st.samplerate / periodDivisor st)) (dutyWidth st)
    t1 t2 w1 (le_trans w2 (by norm_num))
  rw [(rate_eq st hd0).2]
  exact hs

/-- What `convolute` does to the buffer, and the members it leaves alone. -/
theorem convolute_buffer [FloorRing α] (blockSize : Nat) (st : PulseOscillator α) :
    (convolute blockSize st).mOscBuffer =
      (if writesKernel st then
        kernelLoop blockSize st.localSincTable st.mBufPos (if st.mPolarity then -1.0 else 1.0)
          (((toInt32 ((wrap64 (kLarge + eventPhase st) / 2 ^ 16) % 2 ^ 32) % 2 ^ 16 : Int)) : α)
          (((toInt32 ((wrap64 (kLarge + eventPhase st) / 2 ^ 16) % 2 ^ 32) / 2 ^ 16) % 256) *
            (st.localSincTable.FIRipol_N : Int))
          st.localSincTable.FIRipol_N 0 st.mOscBuffer
      else st.mOscBuffer) ∧
    (convolute blockSize st).mOscOut = st.mOscOut ∧
    (convolute blockSize st).mBufPos = st.mBufPos ∧
    (convolute blockSize st).mLevelLerp = st.mLevelLerp ∧
    (convolute blockSize st).localSincTable = st.localSincTable := by
  unfold convolute
  exact ⟨rfl, rfl, rfl, rfl, rfl⟩

/-- What `convolute` does to the phases, the polarity and the ramps. -/
theorem convolute_fields [FloorRing α] (blockSize : Nat) (st : PulseOscillator α) :
    (convolute blockSize st).mOscState = wrap64 (eventPhase st + rate st) ∧
    (convolute blockSize st).mSyncState =
      (if syncEvent st then wrap64 (st.mSyncState + syncrate st) else st.mSyncState) ∧
    (convolute blockSize st).mPolarity = !polarityAfterSync st ∧
    (convolute blockSize st).samplerate = st.samplerate ∧
    (convolute blockSize st).mFreqLerp = st.mFreqLerp ∧
    (convolute blockSize st).mWidthLerp = st.mWidthLerp ∧
    (convolute blockSize st).mFirstRun = st.mFirstRun := by
  unfold convolute eventPhase
  exact ⟨rfl, rfl, rfl, rfl, rfl, rfl, rfl⟩

end PulseOscillator

end GenVA

namespace GenVA

namespace PulseOscillator

variable {α : Type} [LinearOrderedField α]

/-- C15 as stated fails: at the frequency 0 the division
`samplerate / (freq + sync)` of `convolute` has the divisor 0. The quotient of
the positive sample rate and 0 is `+inf`, so the period is not finite, and the
step `rate` is `INT64_MIN`, not positive. -/
theorem convolute_divides_by_zero :
    (examplePulse 0 (1 / 2) 1).mFreqLerp.v = 0 ∧
    convoluteDivisors (examplePulse 0 (1 / 2) 1) = [0] ∧
    period (examplePulse 0 (1 / 2) 1) = none ∧
    rate (examplePulse 0 (1 / 2) 1) = -2 ^ 63 := by
  have hd : periodDivisor (examplePulse 0 (1 / 2) 1) = 0 := by
    simp [periodDivisor, syncEvent, examplePulse, setParams, lipol.newValue, initialise,
      unprimed, lipol.fresh]
  have hs : (examplePulse 0 (1 / 2) 1).samplerate = 48000 := rfl
  have hp : period (examplePulse 0 (1 / 2) 1) = none := by
    unfold period maxHalfQuotient
    rw [hd, hs, if_pos rfl, if_pos (by norm_num)]
  refine ⟨?_, ?_, hp, ?_⟩
  · simp [examplePulse, setParams, lipol.newValue, initialise, unprimed, lipol.fresh]
  · simp [convoluteDivisors, periodDivisor, syncEvent, examplePulse, setParams, lipol.newValue,
      initialise, unprimed, lipol.fresh]
  · unfold rate; rw [hp]; rfl

/-- C15, amended: for a frequency `f > 0` with `samplerate / f` at most `2^22`
and every width, `convolute` divides by positive numbers only (`freq` in the
sync branch, `freq + sync`), uses a duty fraction within
`[0.5 - 0.499*0.99, 0.5 + 0.499*0.99]`, so strictly between 0 and 1, and a
finite period `t` of at least 0.5 samples. The step `rate` is the floor of the
exact product `2^40 * t * width`: the cast does not overflow. The step is
strictly positive, below `2^63` and at most `2^40 * t`. The new `mOscState` is
the `int64_t` sum of the phase of the event and the step, and that sum does not
overflow when the phase of the event is not positive, as it is at every call
`run` makes. -/
theorem convolute_step_positive [FloorRing α] (blockSize : Nat) (st : PulseOscillator α)
    (hf : 0 < st.mFreqLerp.v) (hT : st.samplerate / st.mFreqLerp.v ≤ 2 ^ 22) :
    (∀ d ∈ convoluteDivisors st, 0 < d) ∧
    ((0.5 - 0.499 * 0.99 : α) ≤ dutyWidth st ∧ dutyWidth st ≤ (0.5 + 0.499 * 0.99 : α)) ∧
    (0 < dutyWidth st ∧ dutyWidth st < 1) ∧
    (∃ t : α, period st = some t ∧ 0.5 ≤ t ∧
      rate st = ⌊(65536.0 : α) * 16777216.0 * t * dutyWidth st⌋ ∧
      ((rate st : Int) : α) ≤ 2 ^ 40 * t) ∧
    0 < rate st ∧ rate st < 2 ^ 63 ∧
    (convolute blockSize st).mOscState = wrap64 (eventPhase st + rate st) ∧
    (-2 ^ 63 ≤ eventPhase st → eventPhase st ≤ 0 →
      (convolute blockSize st).mOscState = eventPhase st + rate st) := by
  have hw := dutyWidth_bounds st
  have hdge := periodDivisor_ge st
  have hd : 0 < periodDivisor st := lt_of_lt_of_le hf hdge
  obtain ⟨r1, r2, r3, r4⟩ := rate_bounds st hf hT
  obtain ⟨t1, -⟩ := stdMax_quotient_bounds st.samplerate st.mFreqLerp.v (periodDivisor st) hf
    hdge hT
  have f1 := (convolute_fields blockSize st).1
  refine ⟨?_, hw, ⟨by linarith [hw.1, (by norm_num : (0 : α) < 0.5 - 0.499 * 0.99)],
    by linarith [hw.2, (by norm_num : (0.5 + 0.499 * 0.99 : α) < 1)]⟩,
    ⟨_, (rate_eq st hd.ne').1, t1, r1, r4⟩, by omega, by omega, f1, ?_⟩
  · intro d hdm
    unfold convoluteDivisors at hdm
    rw [List.mem_append] at hdm
    rcases hdm with hdm | hdm
    · split_ifs at hdm
      · rw [List.mem_singleton] at hdm; rw [hdm]; exact hf
      · exact absurd hdm (List.not_mem_nil _)
    · rw [List.mem_singleton] at hdm; rw [hdm]; exact hd
  · intro h1 h2
    rw [f1]
    exact wrap64_eq _ (by omega) (by omega)

/-- Witness of `convolute_step_positive`: the example oscillator at 440 Hz. -/
theorem convolute_step_positive_witness :
    (0 : ℚ) < (examplePulse 440 (1 / 2) 1).mFreqLerp.v ∧
    (examplePulse 440 (1 / 2) 1).samplerate / (examplePulse 440 (1 / 2) 1).mFreqLerp.v
      ≤ 2 ^ 22 ∧
    0 < rate (examplePulse 440 (1 / 2) 1) ∧ rate (examplePulse 440 (1 / 2) 1) < 2 ^ 63 := by
  have hv : (examplePulse 440 (1 / 2) 1).mFreqLerp.v = 440 := by
    simp [examplePulse, setParams, lipol.newValue, initialise, unprimed, lipol.fresh]
  have hs : (examplePulse 440 (1 / 2) 1).samplerate = 48000 := rfl
  have hf : (0 : ℚ) < (examplePulse 440 (1 / 2) 1).mFreqLerp.v := by rw [hv]; norm_num
  have hT : (examplePulse 440 (1 / 2) 1).samplerate / (examplePulse 440 (1 / 2) 1).mFreqLerp.v
      ≤ 2 ^ 22 := by rw [hv, hs]; norm_num
  exact ⟨hf, hT, (convolute_step_positive 4 (examplePulse 440 (1 / 2) 1) hf hT).2.2.2.2.1,
    (convolute_step_positive 4 (examplePulse 440 (1 / 2) 1) hf hT).2.2.2.2.2.1⟩

end PulseOscillator

end GenVA

namespace GenVA

namespace PulseOscillator

variable {α : Type} [LinearOrderedField α]

theorem duty0_bounds (w : α) : (0.00599 : α) ≤ duty0 w ∧ duty0 w ≤ (0.49501 : α) := by
  have hb := ShortDelay.stdClamp_bounds w (0.01 : α) 0.99 (by norm_num)
  unfold duty0
  generalize stdClamp w (0.01 : α) 0.99 = c at hb
  obtain ⟨h1, h2⟩ := hb
  norm_num at h1 h2 ⊢
  constructor <;> linarith

/-- The periods `convolute` uses at the frequencies `f` and `f + 1`. -/
theorem period_facts (sr f : α) (hf : 0 < f) (hsr : 1 ≤ sr / f) :
    stdMax (0.5 : α) (sr / f) = sr / f ∧
    (0.5 : α) ≤ stdMax (0.5 : α) (sr / (f + 1)) ∧
    stdMax (0.5 : α) (sr / (f + 1)) ≤ sr / f := by
  have hsr0 : 0 < sr := by
    by_contra h
    have : sr / f ≤ 0 := div_nonpos_of_nonpos_of_nonneg (le_of_not_lt h) hf.le
    linarith
  refine ⟨?_, ?_, ?_⟩
  · rw [ShortDelay.stdMax_eq_max]
    exact max_eq_right (le_trans (by norm_num) hsr)
  · rw [ShortDelay.stdMax_eq_max]
    exact le_max_left _ _
  · rw [ShortDelay.stdMax_eq_max]
    refine max_le (le_trans (by norm_num) hsr) ?_
    exact div_le_div_of_nonneg_left hsr0.le hf (by linarith)

/-- The steps of the steady cycle, for `1 ≤ sr / f ≤ 2^22`: the step after a
sync is at least 2 and, together with the step after the negative edge, at most
one period; the three steps together exceed one period; one period is at least
one sample, within one phase unit of `2^40 * sr / f`, and at most `2^62`; the
step after the positive edge is at most one period. -/
theorem cycle_steps [FloorRing α] (sr f w : α) (hf : 0 < f) (hsr : 1 ≤ sr / f)
    (hT : sr / f ≤ 2 ^ 22) :
    2 ≤ stepAfterSync sr f w ∧
    0 ≤ stepFall sr f w ∧
    0 < stepRise sr f w ∧
    stepAfterSync sr f w + stepFall sr f w ≤ syncPeriod sr f ∧
    syncPeriod sr f < stepAfterSync sr f w + stepFall sr f w + stepRise sr f w ∧
    kLarge ≤ syncPeriod sr f ∧
    ((syncPeriod sr f : Int) : α) ≤ 2 ^ 40 * (sr / f) ∧
    2 ^ 40 * (sr / f) - 1 < ((syncPeriod sr f : Int) : α) ∧
    syncPeriod sr f ≤ 2 ^ 62 ∧
    stepRise sr f w ≤ syncPeriod sr f := by
  obtain ⟨hTe, hT1, hT1le⟩ := period_facts sr f hf hsr
  obtain ⟨hd1, hd2⟩ := duty0_bounds w
  unfold stepAfterSync stepFall stepRise syncPeriod
  rw [hTe]
  generalize stdMax (0.5 : α) (sr / (f + 1)) = T1 at hT1 hT1le
  generalize duty0 w = d at hd1 hd2
  generalize sr / f = T at hsr hT1le hT
  have hK : (65536.0 : α) * 16777216.0 = 2 ^ 40 := by norm_num
  rw [hK]
  have hT0 : (0 : α) ≤ T := by linarith
  have hd0 : (0 : α) ≤ d := le_trans (by norm_num) hd1
  have hd1' : (0 : α) ≤ 1 - d := by
    have : d ≤ 1 := le_trans hd2 (by norm_num)
    linarith
  have hT10 : (0 : α) ≤ T1 := le_trans (by norm_num) hT1
  have x1 : (0 : α) ≤ 2 ^ 40 * T1 * d := by positivity
  have x2 : (0 : α) ≤ 2 ^ 40 * T * (1 - d) := by positivity
  have x3 : (0 : α) ≤ 2 ^ 40 * T * d := by positivity
  have xP : (0 : α) ≤ 2 ^ 40 * T := by positivity
  have h40 : (0 : α) ≤ 2 ^ 40 := by positivity
  have hsum : 2 ^ 40 * T1 * d + 2 ^ 40 * T * (1 - d) ≤ 2 ^ 40 * T := by
    have h := mul_le_mul_of_nonneg_left (mul_le_mul_of_nonneg_right hT1le hd0) h40
    linarith
  have hTd : (2 : α) ^ 40 * (T * d) ≤ 2 ^ 40 * (T * 1) :=
    mul_le_mul_of_nonneg_left
      (mul_le_mul_of_nonneg_left (le_trans hd2 (by norm_num)) hT0) h40
  have e62 : (2 : α) ^ 40 * 2 ^ 22 = 2 ^ 62 := by norm_num
  have yP' : (2 : α) ^ 40 * T ≤ 2 ^ 62 := by
    have : (2 : α) ^ 40 * T ≤ 2 ^ 40 * 2 ^ 22 := mul_le_mul_of_nonneg_left hT (by positivity)
    linarith
  have h6263 : (2 : α) ^ 62 < 2 ^ 63 := by norm_num
  have yP : (2 : α) ^ 40 * T < 2 ^ 63 := by linarith
  have y1 : (2 : α) ^ 40 * T1 * d < 2 ^ 63 := by linarith
  have y2 : (2 : α) ^ 40 * T * (1 - d) < 2 ^ 63 := by linarith
  have y3 : (2 : α) ^ 40 * T * d < 2 ^ 63 := by linarith
  rw [toInt64_nonneg _ x1 y1, toInt64_nonneg _ x2 y2, toInt64_nonneg _ x3 y3,
    toInt64_nonneg _ xP yP]
  have hx1 : (2 : α) ≤ 2 ^ 40 * T1 * d := by
    have h := mul_le_mul_of_nonneg_left
      (mul_le_mul hT1 hd1 (by norm_num) hT10 : (0.5 : α) * 0.00599 ≤ T1 * d) h40
    have e : (2 : α) ≤ 2 ^ 40 * (0.5 * 0.00599) := by norm_num
    linarith
  have hx3 : (1 : α) ≤ 2 ^ 40 * T * d := by
    have h := mul_le_mul_of_nonneg_left
      (mul_le_mul hsr hd1 (by norm_num) hT0 : (1 : α) * 0.00599 ≤ T * d) h40
    have e : (1 : α) ≤ 2 ^ 40 * (1 * 0.00599) := by norm_num
    linarith
  have f1 := Int.floor_le (2 ^ 40 * T1 * d)
  have f2 := Int.floor_le (2 ^ 40 * T * (1 - d))
  have g2 := Int.lt_floor_add_one (2 ^ 40 * T * (1 - d))
  have g3 := Int.lt_floor_add_one (2 ^ 40 * T * d)
  have fP := Int.floor_le (2 ^ 40 * T)
  have gP := Int.lt_floor_add_one (2 ^ 40 * T)
  have h2 : 2 ≤ ⌊2 ^ 40 * T1 * d⌋ := Int.le_floor.2 (by exact_mod_cast hx1)
  refine ⟨h2, Int.floor_nonneg.2 x2, Int.floor_pos.2 hx3, ?_, ?_, ?_, fP, by linarith, ?_, ?_⟩
  · apply Int.le_floor.2
    push_cast
    linarith
  · have h : ((⌊2 ^ 40 * T⌋ : Int) : α) <
        ((⌊2 ^ 40 * T * (1 - d)⌋ + ⌊2 ^ 40 * T * d⌋ + 2 : Int) : α) := by
      push_cast
      have : 2 ^ 40 * T * (1 - d) + 2 ^ 40 * T * d = 2 ^ 40 * T := by ring
      linarith
    have h' : ⌊2 ^ 40 * T⌋ < ⌊2 ^ 40 * T * (1 - d)⌋ + ⌊2 ^ 40 * T * d⌋ + 2 := by
      exact_mod_cast h
    omega
  · apply Int.le_floor.2
    have hk : ((kLarge : Int) : α) = 2 ^ 40 := by norm_num [kLarge]
    rw [hk]
    exact le_mul_of_one_le_right (by positivity) hsr
  · have : ((⌊(2 : α) ^ 40 * T⌋ : Int) : α) ≤ ((2 ^ 62 : Int) : α) := by
      push_cast; linarith
    exact_mod_cast this
  · apply Int.floor_mono
    linarith

end PulseOscillator

end GenVA

namespace GenVA

namespace PulseOscillator

variable {α : Type} [LinearOrderedField α]

theorem rate_steady [FloorRing α] (sr f w : α) (hf : 0 < f) (st : PulseOscillator α)
    (hs : Steady sr f w st) :
    syncrate st = syncPeriod sr f ∧
    (syncEvent st = true → rate st = stepAfterSync sr f w) ∧
    (syncEvent st = false → st.mPolarity = true → rate st = stepFall sr f w) ∧
    (syncEvent st = false → st.mPolarity = false → rate st = stepRise sr f w) := by
  obtain ⟨h1, h2, h3⟩ := hs
  have hf1 : f + 1 ≠ 0 := by linarith
  refine ⟨?_, fun he => ?_, fun he hp => ?_, fun he hp => ?_⟩
  · rw [syncrate_eq st (by rw [h2]; exact hf.ne')]
    unfold syncPeriod; rw [h1, h2]
  · have hd : periodDivisor st = f + 1 := by unfold periodDivisor; rw [he, h2]; rfl
    rw [(rate_eq st (by rw [hd]; exact hf1)).2, hd, h1]
    unfold dutyWidth polarityAfterSync stepAfterSync duty0
    simp only [he, if_true, h3, Bool.false_eq_true, if_false]
  · have hd : periodDivisor st = f := by
      unfold periodDivisor; rw [he, h2]; simp
    rw [(rate_eq st (by rw [hd]; exact hf.ne')).2, hd, h1]
    unfold dutyWidth polarityAfterSync stepFall duty0
    simp only [he, hp, if_true, h3, Bool.false_eq_true, if_false]
  · have hd : periodDivisor st = f := by
      unfold periodDivisor; rw [he, h2]; simp
    rw [(rate_eq st (by rw [hd]; exact hf.ne')).2, hd, h1]
    unfold dutyWidth polarityAfterSync stepRise duty0
    simp only [he, hp, h3, Bool.false_eq_true, if_false]

/-- The first step of the steady cycle: after a sync at phase `S`, `convolute`
writes a negative edge at phase `S + stepAfterSync`. -/
theorem step_fall [FloorRing α] (blockSize : Nat) (sr f w : α) (hf : 0 < f) (hsr : 1 ≤ sr / f)
    (hT : sr / f ≤ 2 ^ 22) (S : Int) (st : PulseOscillator α) (h : afterSync sr f w S st)
    (hlo : -syncPeriod sr f ≤ st.mSyncState) (hhi : st.mSyncState < syncPeriod sr f) :
    syncEvent st = false ∧ writesKernel st = true ∧
    eventPhase st = S + stepAfterSync sr f w ∧
    afterFall sr f w S (convolute blockSize st) := by
  obtain ⟨hs, hp, ho, hy⟩ := h
  obtain ⟨c1, c2, c3, c4, c5, c6, -, -, c9, c10⟩ := cycle_steps sr f w hf hsr hT
  have he : syncEvent st = false := by
    unfold syncEvent; rw [ho, hy]; exact decide_eq_false (by omega)
  obtain ⟨r0, -, r2, -⟩ := rate_steady sr f w hf st hs
  obtain ⟨f1, f2, f3, f4, f5, f6, -⟩ := convolute_fields blockSize st
  have hph : eventPhase st = S + stepAfterSync sr f w := by
    unfold eventPhase; rw [he]; exact ho
  refine ⟨he, by unfold writesKernel; rw [he]; rfl, hph, ⟨?_, ?_, ?_⟩, ?_, ?_, ?_⟩
  · rw [f4]; exact hs.1
  · rw [f5]; exact hs.2.1
  · rw [f6]; exact hs.2.2
  · rw [f3]; unfold polarityAfterSync; rw [he, hp]; rfl
  · rw [f1, hph, r2 he hp]
    exact wrap64_eq _ (by omega) (by omega)
  · rw [f2, he]; exact hy

/-- The second step of the steady cycle: `convolute` writes a positive edge at
phase `S + stepAfterSync + stepFall`. -/
theorem step_rise [FloorRing α] (blockSize : Nat) (sr f w : α) (hf : 0 < f) (hsr : 1 ≤ sr / f)
    (hT : sr / f ≤ 2 ^ 22) (S : Int) (st : PulseOscillator α) (h : afterFall sr f w S st)
    (hlo : -syncPeriod sr f ≤ st.mSyncState) (hhi : st.mSyncState < syncPeriod sr f) :
    syncEvent st = false ∧ writesKernel st = true ∧
    eventPhase st = S + stepAfterSync sr f w + stepFall sr f w ∧
    afterRise sr f w S (convolute blockSize st) := by
  obtain ⟨hs, hp, ho, hy⟩ := h
  obtain ⟨c1, c2, c3, c4, c5, c6, -, -, c9, c10⟩ := cycle_steps sr f w hf hsr hT
  have he : syncEvent st = false := by
    unfold syncEvent; rw [ho, hy]; exact decide_eq_false (by omega)
  obtain ⟨r0, -, -, r3⟩ := rate_steady sr f w hf st hs
  obtain ⟨f1, f2, f3, f4, f5, f6, -⟩ := convolute_fields blockSize st
  have hph : eventPhase st = S + stepAfterSync sr f w + stepFall sr f w := by
    unfold eventPhase; rw [he]; exact ho
  refine ⟨he, by unfold writesKernel; rw [he]; rfl, hph, ⟨?_, ?_, ?_⟩, ?_, ?_, ?_⟩
  · rw [f4]; exact hs.1
  · rw [f5]; exact hs.2.1
  · rw [f6]; exact hs.2.2
  · rw [f3]; unfold polarityAfterSync; rw [he, hp]; rfl
  · rw [f1, hph, r3 he hp]
    exact wrap64_eq _ (by omega) (by omega)
  · rw [f2, he]; exact hy

/-- The third step of the steady cycle: `convolute` takes its sync branch,
writes nothing and starts the next period at phase `S + syncPeriod`. -/
theorem step_sync [FloorRing α] (blockSize : Nat) (sr f w : α) (hf : 0 < f) (hsr : 1 ≤ sr / f)
    (hT : sr / f ≤ 2 ^ 22) (S : Int) (st : PulseOscillator α) (h : afterRise sr f w S st)
    (hlo : -syncPeriod sr f ≤ st.mSyncState) (hneg : st.mSyncState < 0) :
    syncEvent st = true ∧ writesKernel st = false ∧
    eventPhase st = S + syncPeriod sr f ∧
    afterSync sr f w (S + syncPeriod sr f) (convolute blockSize st) := by
  obtain ⟨hs, hp, ho, hy⟩ := h
  obtain ⟨c1, c2, c3, c4, c5, c6, -, -, c9, c10⟩ := cycle_steps sr f w hf hsr hT
  have he : syncEvent st = true := by
    unfold syncEvent; rw [ho, hy]; exact decide_eq_true (by omega)
  obtain ⟨r0, r1, -, -⟩ := rate_steady sr f w hf st hs
  obtain ⟨f1, f2, f3, f4, f5, f6, -⟩ := convolute_fields blockSize st
  have hph : eventPhase st = S + syncPeriod sr f := by
    unfold eventPhase; rw [he]; exact hy
  refine ⟨he, by unfold writesKernel; rw [he, hp]; rfl, hph, ⟨?_, ?_, ?_⟩, ?_, ?_, ?_⟩
  · rw [f4]; exact hs.1
  · rw [f5]; exact hs.2.1
  · rw [f6]; exact hs.2.2
  · rw [f3]; unfold polarityAfterSync; rw [he]; rfl
  · rw [f1, hph, r1 he]
    exact wrap64_eq _ (by omega) (by omega)
  · rw [f2, he, r0, hy, if_pos rfl]
    exact wrap64_eq _ (by omega) (by omega)

end PulseOscillator

end GenVA

namespace GenVA

namespace PulseOscillator

variable {α : Type} [LinearOrderedField α]

theorem risingPhases_append (es fs : List (Bool × Int)) :
    risingPhases (es ++ fs) = risingPhases es ++ risingPhases fs := by
  unfold risingPhases; rw [List.filter_append, List.map_append]

theorem steadyRising_succ [FloorRing α] (sr f w : α) (m : Nat) :
    steadyRising sr f w (m + 1) = steadyRising sr f w m ++
      [stepAfterSync sr f w + stepFall sr f w + (m : Int) * syncPeriod sr f] := by
  unfold steadyRising
  rw [List.range_succ, List.map_append, List.append_assoc]; rfl

theorem rampsRest_convolute [FloorRing α] (blockSize : Nat) (f w : α) (st : PulseOscillator α)
    (h : rampsRest f w st) : rampsRest f w (convolute blockSize st) := by
  obtain ⟨-, -, -, -, f5, f6, f7⟩ := convolute_fields blockSize st
  unfold rampsRest; rw [f5, f6, f7]; exact h

/-- One recorded `convolute` after a sync: the negative edge. -/
theorem convoluteT_sync [FloorRing α] (blockSize : Nat) (sr f w : α) (hf : 0 < f)
    (hsr : 1 ≤ sr / f) (hT : sr / f ≤ 2 ^ 22) (S : Int) (m : Nat) (tr : Traced α)
    (h : cycleSync sr f w S m tr) (hlo : -syncPeriod sr f ≤ tr.osc.mSyncState)
    (hhi : tr.osc.mSyncState < syncPeriod sr f) :
    cycleFall sr f w S m (convoluteT blockSize tr) ∧
    (convoluteT blockSize tr).ticks = tr.ticks ∧
    (convoluteT blockSize tr).osc.mSyncState = tr.osc.mSyncState := by
  obtain ⟨hb, ha, ht, hr⟩ := h
  obtain ⟨he, hw, hph, hn⟩ := step_fall blockSize sr f w hf hsr hT S tr.osc ha hlo hhi
  refine ⟨⟨rampsRest_convolute blockSize f w _ hb, hn, ht, ?_⟩, rfl, ?_⟩
  · show risingPhases (tr.edges ++ edgeOf tr.ticks tr.osc) = _
    rw [risingPhases_append, hr]
    unfold edgeOf; rw [hw, if_pos rfl, ha.2.1]
    simp [risingPhases]
  · show (convolute blockSize tr.osc).mSyncState = _
    rw [(convolute_fields blockSize tr.osc).2.1, he]; rfl

/-- One recorded `convolute` after the negative edge: the positive edge of the
period, which enters the record. -/
theorem convoluteT_fall [FloorRing α] (blockSize : Nat) (sr f w : α) (hf : 0 < f)
    (hsr : 1 ≤ sr / f) (hT : sr / f ≤ 2 ^ 22) (S : Int) (m : Nat) (tr : Traced α)
    (h : cycleFall sr f w S m tr) (hlo : -syncPeriod sr f ≤ tr.osc.mSyncState)
    (hhi : tr.osc.mSyncState < syncPeriod sr f) :
    cycleRise sr f w S m (convoluteT blockSize tr) ∧
    (convoluteT blockSize tr).ticks = tr.ticks ∧
    (convoluteT blockSize tr).osc.mSyncState = tr.osc.mSyncState := by
  obtain ⟨hb, ha, ht, hr⟩ := h
  obtain ⟨he, hw, hph, hn⟩ := step_rise blockSize sr f w hf hsr hT S tr.osc ha hlo hhi
  refine ⟨⟨rampsRest_convolute blockSize f w _ hb, hn, ht, ?_⟩, rfl, ?_⟩
  · show risingPhases (tr.edges ++ edgeOf tr.ticks tr.osc) = _
    rw [risingPhases_append, hr, steadyRising_succ]
    unfold edgeOf; rw [hw, if_pos rfl, ha.2.1, hph]
    have : S + stepAfterSync sr f w + stepFall sr f w + (tr.ticks : Int) * kLarge =
        stepAfterSync sr f w + stepFall sr f w + (m : Int) * syncPeriod sr f := by
      rw [← ht]; ring
    rw [this]
    simp [risingPhases]
  · show (convolute blockSize tr.osc).mSyncState = _
    rw [(convolute_fields blockSize tr.osc).2.1, he]; rfl

/-- One recorded `convolute` after the positive edge: the sync that opens the
next period, with no edge. -/
theorem convoluteT_rise [FloorRing α] (blockSize : Nat) (sr f w : α) (hf : 0 < f)
    (hsr : 1 ≤ sr / f) (hT : sr / f ≤ 2 ^ 22) (S : Int) (m : Nat) (tr : Traced α)
    (h : cycleRise sr f w S m tr) (hlo : -syncPeriod sr f ≤ tr.osc.mSyncState)
    (hneg : tr.osc.mSyncState < 0) :
    cycleSync sr f w (S + syncPeriod sr f) (m + 1) (convoluteT blockSize tr) ∧
    (convoluteT blockSize tr).ticks = tr.ticks ∧
    (convoluteT blockSize tr).osc.mSyncState = tr.osc.mSyncState + syncPeriod sr f := by
  obtain ⟨hb, ha, ht, hr⟩ := h
  obtain ⟨he, hw, hph, hn⟩ := step_sync blockSize sr f w hf hsr hT S tr.osc ha hlo hneg
  obtain ⟨-, -, -, -, -, -, -, -, c9, -⟩ := cycle_steps sr f w hf hsr hT
  refine ⟨⟨rampsRest_convolute blockSize f w _ hb, hn, ?_, ?_⟩, rfl, ?_⟩
  · show S + syncPeriod sr f + (tr.ticks : Int) * kLarge = _
    push_cast
    linarith
  · show risingPhases (tr.edges ++ edgeOf tr.ticks tr.osc) = _
    rw [risingPhases_append, hr]
    unfold edgeOf; rw [hw]
    simp [risingPhases]
  · show (convolute blockSize tr.osc).mSyncState = _
    rw [(convolute_fields blockSize tr.osc).2.1, he, (rate_steady sr f w hf tr.osc ha.1).1,
      if_pos rfl]
    exact wrap64_eq _ (by omega) (by omega)

end PulseOscillator

end GenVA

namespace GenVA

namespace PulseOscillator

variable {α : Type} [LinearOrderedField α]

theorem whileSyncStateT_done [FloorRing α] (blockSize : Nat) (tr : Traced α)
    (h : ¬ tr.osc.mSyncState < 0) : ∀ n, whileSyncStateT blockSize n tr = some tr := by
  intro n
  cases n with
  | zero => rw [whileSyncStateT, if_neg h]
  | succ n => rw [whileSyncStateT, if_neg h]

theorem whileOscStateT_done [FloorRing α] (blockSize : Nat) (tr : Traced α)
    (h : ¬ tr.osc.mOscState < 0) : ∀ n, whileOscStateT blockSize n tr = some tr := by
  intro n
  cases n with
  | zero => rw [whileOscStateT, if_neg h]
  | succ n => rw [whileOscStateT, if_neg h]

theorem whileSyncStateT_rise [FloorRing α] (blockSize : Nat) (sr f w : α) (hf : 0 < f)
    (hsr : 1 ≤ sr / f) (hT : sr / f ≤ 2 ^ 22)
    (S : Int) (m : Nat) (tr : Traced α) (h : cycleRise sr f w S m tr)
    (hneg : tr.osc.mSyncState < 0) (hlo : -syncPeriod sr f ≤ tr.osc.mSyncState) (n : Nat) :
    ∃ tr', whileSyncStateT blockSize (n + 1) tr = some tr' ∧ cycling sr f w 0 tr' ∧
      tr'.ticks = tr.ticks := by
  obtain ⟨hc, ht, hs⟩ := convoluteT_rise blockSize sr f w hf hsr hT S m tr h hlo hneg
  refine ⟨convoluteT blockSize tr, ?_, ⟨_, _, Or.inl hc, ?_, ?_⟩, ht⟩
  · rw [whileSyncStateT, if_pos hneg]
    exact whileSyncStateT_done blockSize _ (by rw [hs]; omega) n
  · rw [hs]; omega
  · rw [hs]; omega

theorem whileSyncStateT_fall [FloorRing α] (blockSize : Nat) (sr f w : α) (hf : 0 < f)
    (hsr : 1 ≤ sr / f) (hT : sr / f ≤ 2 ^ 22)
    (S : Int) (m : Nat) (tr : Traced α) (h : cycleFall sr f w S m tr)
    (hneg : tr.osc.mSyncState < 0) (hlo : -syncPeriod sr f ≤ tr.osc.mSyncState) (n : Nat) :
    ∃ tr', whileSyncStateT blockSize (n + 2) tr = some tr' ∧ cycling sr f w 0 tr' ∧
      tr'.ticks = tr.ticks := by
  obtain ⟨-, -, -, -, -, c6, -⟩ := cycle_steps sr f w hf hsr hT
  have hK : (0 : Int) < kLarge := by unfold kLarge; decide
  obtain ⟨hc, ht, hs⟩ := convoluteT_fall blockSize sr f w hf hsr hT S m tr h hlo (by omega)
  obtain ⟨tr', h1, h2, h3⟩ := whileSyncStateT_rise blockSize sr f w hf hsr hT S m _ hc
    (by rw [hs]; exact hneg) (by rw [hs]; exact hlo) n
  exact ⟨tr', by rw [whileSyncStateT, if_pos hneg]; exact h1, h2, h3.trans ht⟩

theorem whileSyncStateT_sync [FloorRing α] (blockSize : Nat) (sr f w : α) (hf : 0 < f)
    (hsr : 1 ≤ sr / f) (hT : sr / f ≤ 2 ^ 22)
    (S : Int) (m : Nat) (tr : Traced α) (h : cycleSync sr f w S m tr)
    (hneg : tr.osc.mSyncState < 0) (hlo : -syncPeriod sr f ≤ tr.osc.mSyncState) (n : Nat) :
    ∃ tr', whileSyncStateT blockSize (n + 3) tr = some tr' ∧ cycling sr f w 0 tr' ∧
      tr'.ticks = tr.ticks := by
  obtain ⟨-, -, -, -, -, c6, -⟩ := cycle_steps sr f w hf hsr hT
  have hK : (0 : Int) < kLarge := by unfold kLarge; decide
  obtain ⟨hc, ht, hs⟩ := convoluteT_sync blockSize sr f w hf hsr hT S m tr h hlo (by omega)
  obtain ⟨tr', h1, h2, h3⟩ := whileSyncStateT_fall blockSize sr f w hf hsr hT S m _ hc
    (by rw [hs]; exact hneg) (by rw [hs]; exact hlo) n
  exact ⟨tr', by rw [whileSyncStateT, if_pos hneg]; exact h1, h2, h3.trans ht⟩

/-- The first `while` loop of a sample ends within three calls of `convolute`
and leaves the run in the steady cycle with the next sync ahead. -/
theorem whileSyncStateT_cycling [FloorRing α] (blockSize : Nat) (sr f w : α) (hf : 0 < f)
    (hsr : 1 ≤ sr / f) (hT : sr / f ≤ 2 ^ 22)
    (tr : Traced α) (h : cycling sr f w (-syncPeriod sr f) tr)
    (fuel : Nat) (hfuel : 3 ≤ fuel) :
    ∃ tr', whileSyncStateT blockSize fuel tr = some tr' ∧ cycling sr f w 0 tr' ∧
      tr'.ticks = tr.ticks := by
  obtain ⟨S, m, hc, hlo, hhi⟩ := h
  obtain ⟨n, rfl⟩ : ∃ n, fuel = n + 3 := ⟨fuel - 3, by omega⟩
  by_cases hneg : tr.osc.mSyncState < 0
  · rcases hc with hc | hc | hc
    · exact whileSyncStateT_sync blockSize sr f w hf hsr hT S m tr hc hneg hlo n
    · exact whileSyncStateT_fall blockSize sr f w hf hsr hT S m tr hc hneg hlo (n + 1)
    · exact whileSyncStateT_rise blockSize sr f w hf hsr hT S m tr hc hneg hlo (n + 2)
  · exact ⟨tr, whileSyncStateT_done blockSize tr hneg _, ⟨S, m, hc, by omega, hhi⟩, rfl⟩

theorem whileOscStateT_rise [FloorRing α] (blockSize : Nat) (sr f w : α) (hf : 0 < f)
    (hsr : 1 ≤ sr / f) (hT : sr / f ≤ 2 ^ 22)
    (S : Int) (m : Nat) (tr : Traced α) (h : cycleRise sr f w S m tr)
    (hlo : 0 ≤ tr.osc.mSyncState) (hhi : tr.osc.mSyncState < syncPeriod sr f) (n : Nat) :
    ∃ tr', whileOscStateT blockSize n tr = some tr' ∧ betweenSamples sr f w tr' ∧
      tr'.ticks = tr.ticks := by
  obtain ⟨c1, c2, c3, c4, c5, c6, -, -⟩ := cycle_steps sr f w hf hsr hT
  have ho : 0 ≤ tr.osc.mOscState := by
    have h1 := h.2.1.2.2.1
    have h2 := h.2.1.2.2.2
    omega
  exact ⟨tr, whileOscStateT_done blockSize tr (by omega) n,
    ⟨⟨S, m, Or.inr (Or.inr h), hlo, hhi⟩, ho⟩, rfl⟩

theorem whileOscStateT_fall [FloorRing α] (blockSize : Nat) (sr f w : α) (hf : 0 < f)
    (hsr : 1 ≤ sr / f) (hT : sr / f ≤ 2 ^ 22)
    (S : Int) (m : Nat) (tr : Traced α) (h : cycleFall sr f w S m tr)
    (hlo : 0 ≤ tr.osc.mSyncState) (hhi : tr.osc.mSyncState < syncPeriod sr f) (n : Nat) :
    ∃ tr', whileOscStateT blockSize (n + 1) tr = some tr' ∧ betweenSamples sr f w tr' ∧
      tr'.ticks = tr.ticks := by
  obtain ⟨-, -, -, -, -, c6, -⟩ := cycle_steps sr f w hf hsr hT
  have hK : (0 : Int) < kLarge := by unfold kLarge; decide
  by_cases hneg : tr.osc.mOscState < 0
  · obtain ⟨hc, ht, hs⟩ := convoluteT_fall blockSize sr f w hf hsr hT S m tr h (by omega) hhi
    obtain ⟨tr', h1, h2, h3⟩ := whileOscStateT_rise blockSize sr f w hf hsr hT S m _ hc
      (by rw [hs]; exact hlo) (by rw [hs]; exact hhi) n
    exact ⟨tr', by rw [whileOscStateT, if_pos hneg]; exact h1, h2, h3.trans ht⟩
  · exact ⟨tr, whileOscStateT_done blockSize tr hneg _,
      ⟨⟨S, m, Or.inr (Or.inl h), hlo, hhi⟩, by omega⟩, rfl⟩

theorem whileOscStateT_sync [FloorRing α] (blockSize : Nat) (sr f w : α) (hf : 0 < f)
    (hsr : 1 ≤ sr / f) (hT : sr / f ≤ 2 ^ 22)
    (S : Int) (m : Nat) (tr : Traced α) (h : cycleSync sr f w S m tr)
    (hlo : 0 ≤ tr.osc.mSyncState) (hhi : tr.osc.mSyncState < syncPeriod sr f) (n : Nat) :
    ∃ tr', whileOscStateT blockSize (n + 2) tr = some tr' ∧ betweenSamples sr f w tr' ∧
      tr'.ticks = tr.ticks := by
  obtain ⟨-, -, -, -, -, c6, -⟩ := cycle_steps sr f w hf hsr hT
  have hK : (0 : Int) < kLarge := by unfold kLarge; decide
  by_cases hneg : tr.osc.mOscState < 0
  · obtain ⟨hc, ht, hs⟩ := convoluteT_sync blockSize sr f w hf hsr hT S m tr h (by omega) hhi
    obtain ⟨tr', h1, h2, h3⟩ := whileOscStateT_fall blockSize sr f w hf hsr hT S m _ hc
      (by rw [hs]; exact hlo) (by rw [hs]; exact hhi) n
    exact ⟨tr', by rw [whileOscStateT, if_pos hneg]; exact h1, h2, h3.trans ht⟩
  · exact ⟨tr, whileOscStateT_done blockSize tr hneg _,
      ⟨⟨S, m, Or.inl h, hlo, hhi⟩, by omega⟩, rfl⟩

/-- The second `while` loop of a sample ends within two calls of `convolute`
and leaves the run between two samples of the steady cycle. -/
theorem whileOscStateT_cycling [FloorRing α] (blockSize : Nat) (sr f w : α) (hf : 0 < f)
    (hsr : 1 ≤ sr / f) (hT : sr / f ≤ 2 ^ 22) (tr : Traced α) (h : cycling sr f w 0 tr)
    (fuel : Nat) (hfuel : 2 ≤ fuel) :
    ∃ tr', whileOscStateT blockSize fuel tr = some tr' ∧ betweenSamples sr f w tr' ∧
      tr'.ticks = tr.ticks := by
  obtain ⟨S, m, hc, hlo, hhi⟩ := h
  obtain ⟨n, rfl⟩ : ∃ n, fuel = n + 2 := ⟨fuel - 2, by omega⟩
  rcases hc with hc | hc | hc
  · exact whileOscStateT_sync blockSize sr f w hf hsr hT S m tr hc hlo hhi n
  · exact whileOscStateT_fall blockSize sr f w hf hsr hT S m tr hc hlo hhi (n + 1)
  · exact whileOscStateT_rise blockSize sr f w hf hsr hT S m tr hc hlo hhi (n + 2)

end PulseOscillator

end GenVA

namespace GenVA

namespace PulseOscillator

variable {α : Type} [LinearOrderedField α]

theorem lipolHeld_newValue (blockSize : Nat) (x : α) (l : lipol α)
    (h : l.first_run = true ∨ l.new_v = x) : lipolHeld x (l.newValue blockSize x) := by
  unfold lipol.newValue
  by_cases hr : l.first_run = true
  · rw [if_pos hr]; exact ⟨rfl, rfl, rfl⟩
  · rw [if_neg hr]
    have hx : l.new_v = x := h.resolve_left hr
    refine ⟨hx, rfl, ?_⟩
    show (x - l.new_v) / (blockSize : α) = 0
    rw [hx, sub_self, zero_div]

theorem lipolHeld_process (x : α) (l : lipol α) (h : lipolHeld x l) : lipolHeld x l.process := by
  obtain ⟨h1, h2, h3⟩ := h
  refine ⟨?_, h2, h3⟩
  show l.v + l.dv = x
  rw [h3, add_zero, h1]

/-- The steady cycle carries over to a recorded run with the same polarity,
ramps at rest and both phases moved by the same amount as the cycle. -/
theorem cycle_transfer [FloorRing α] (sr f w : α) (S S' : Int) (m : Nat) (tr tr' : Traced α)
    (hs : tr'.osc.samplerate = tr.osc.samplerate) (hp : tr'.osc.mPolarity = tr.osc.mPolarity)
    (ho : tr'.osc.mOscState = tr.osc.mOscState + (S' - S))
    (hy : tr'.osc.mSyncState = tr.osc.mSyncState + (S' - S))
    (hr : rampsRest f w tr'.osc)
    (ht : S' + (tr'.ticks : Int) * kLarge = S + (tr.ticks : Int) * kLarge)
    (he : tr'.edges = tr.edges) :
    (cycleSync sr f w S m tr → cycleSync sr f w S' m tr') ∧
    (cycleFall sr f w S m tr → cycleFall sr f w S' m tr') ∧
    (cycleRise sr f w S m tr → cycleRise sr f w S' m tr') := by
  have hst : Steady sr f w tr.osc → Steady sr f w tr'.osc := fun h =>
    ⟨hs.trans h.1, hr.2.1.1, hr.2.2.1⟩
  refine ⟨?_, ?_, ?_⟩
  · rintro ⟨-, ⟨a1, a2, a3, a4⟩, b, c⟩
    exact ⟨hr, ⟨hst a1, hp.trans a2, by rw [ho, a3]; ring, by rw [hy, a4]; ring⟩,
      by rw [ht]; exact b, by rw [he]; exact c⟩
  · rintro ⟨-, ⟨a1, a2, a3, a4⟩, b, c⟩
    exact ⟨hr, ⟨hst a1, hp.trans a2, by rw [ho, a3]; ring, by rw [hy, a4]; ring⟩,
      by rw [ht]; exact b, by rw [he]; exact c⟩
  · rintro ⟨-, ⟨a1, a2, a3, a4⟩, b, c⟩
    exact ⟨hr, ⟨hst a1, hp.trans a2, by rw [ho, a3]; ring, by rw [hy, a4]; ring⟩,
      by rw [ht]; exact b, by rw [he]; exact c⟩

theorem cycling_transfer [FloorRing α] (sr f w : α) (d lo : Int) (tr tr' : Traced α)
    (hs : tr'.osc.samplerate = tr.osc.samplerate) (hp : tr'.osc.mPolarity = tr.osc.mPolarity)
    (ho : tr'.osc.mOscState = tr.osc.mOscState - d)
    (hy : tr'.osc.mSyncState = tr.osc.mSyncState - d)
    (hr : rampsRest f w tr'.osc)
    (ht : (tr'.ticks : Int) * kLarge = (tr.ticks : Int) * kLarge + d)
    (he : tr'.edges = tr.edges) (h : cycling sr f w lo tr) (hd : 0 ≤ d) :
    cycling sr f w (lo - d) tr' := by
  obtain ⟨S, m, hc, hlo, hhi⟩ := h
  obtain ⟨t1, t2, t3⟩ := cycle_transfer sr f w S (S - d) m tr tr' hs hp
    (by rw [ho]; ring) (by rw [hy]; ring) hr (by rw [ht]; ring) he
  refine ⟨S - d, m, ?_, by rw [hy]; omega, by rw [hy]; omega⟩
  rcases hc with hc | hc | hc
  · exact Or.inl (t1 hc)
  · exact Or.inr (Or.inl (t2 hc))
  · exact Or.inr (Or.inr (t3 hc))

theorem cycling_rampsRest [FloorRing α] (sr f w : α) (lo : Int) (tr : Traced α)
    (h : cycling sr f w lo tr) : rampsRest f w tr.osc := by
  obtain ⟨S, m, hc, -, -⟩ := h
  rcases hc with hc | hc | hc <;> exact hc.1

end PulseOscillator

end GenVA

namespace GenVA

namespace PulseOscillator

variable {α : Type} [LinearOrderedField α]

theorem rampsRest_emitSample (blockSize k : Nat) (f w : α) (st : PulseOscillator α)
    (block : Nat → α) (h : rampsRest f w st) :
    rampsRest f w (emitSample blockSize k st block).1 :=
  ⟨h.1, lipolHeld_process f _ h.2.1, lipolHeld_process w _ h.2.2⟩

/-- The tail of a sample, from the second `while` loop on, in the steady
cycle: it returns, and the run is between two samples again. -/
theorem sample_tail [FloorRing α] (blockSize : Nat) (sr f w : α) (hf : 0 < f)
    (hsr : 1 ≤ sr / f) (hT : sr / f ≤ 2 ^ 22) (k : Nat) (block : Nat → α) (tr : Traced α)
    (h : cycling sr f w 0 tr) (fuel : Nat) (hfuel : 2 ≤ fuel) :
    ∃ r : Traced α × (Nat → α),
      ((whileOscStateT blockSize fuel tr).bind fun tr =>
        some ({ tr with osc := (emitSample blockSize k tr.osc block).1 },
          (emitSample blockSize k tr.osc block).2)) = some r ∧
      betweenSamples sr f w r.1 ∧ r.1.ticks = tr.ticks := by
  obtain ⟨tr2, h1, ⟨h2, h2o⟩, h3⟩ := whileOscStateT_cycling blockSize sr f w hf hsr hT tr h fuel hfuel
  refine ⟨_, by rw [h1]; rfl, ⟨?_, h2o⟩, h3⟩
  have hc := cycling_transfer sr f w 0 0 tr2
    { tr2 with osc := (emitSample blockSize k tr2.osc block).1 } rfl rfl
    (by rw [sub_zero]; rfl) (by rw [sub_zero]; rfl)
    (rampsRest_emitSample blockSize k f w _ block (cycling_rampsRest sr f w 0 tr2 h2))
    (by rw [add_zero]) rfl h2 le_rfl
  rw [sub_zero] at hc
  exact hc

/-- Between two samples of the steady cycle both phases are in `[0, 2^63)`, so
the subtractions that open the next sample do not overflow. -/
theorem betweenSamples_bounds [FloorRing α] (sr f w : α) (hf : 0 < f) (hsr : 1 ≤ sr / f)
    (hT : sr / f ≤ 2 ^ 22) (tr : Traced α) (h : betweenSamples sr f w tr) :
    0 ≤ tr.osc.mOscState ∧ tr.osc.mOscState < 2 ^ 63 ∧
    0 ≤ tr.osc.mSyncState ∧ tr.osc.mSyncState < 2 ^ 63 ∧
    (tick tr.osc).mOscState = tr.osc.mOscState - kLarge ∧
    (tick tr.osc).mSyncState = tr.osc.mSyncState - kLarge := by
  obtain ⟨c1, c2, c3, c4, c5, c6, -, -, c9, c10⟩ := cycle_steps sr f w hf hsr hT
  have hK : (0 : Int) < kLarge := by unfold kLarge; decide
  obtain ⟨⟨S, m, hc, hlo, hhi⟩, ho⟩ := h
  have hup : tr.osc.mOscState < 2 ^ 63 := by
    rcases hc with ⟨-, ha, -, -⟩ | ⟨-, ha, -, -⟩ | ⟨-, ha, -, -⟩
    · have h1 := ha.2.2.1
      have h2 := ha.2.2.2
      omega
    · have h1 := ha.2.2.1
      have h2 := ha.2.2.2
      omega
    · have h1 := ha.2.2.1
      have h2 := ha.2.2.2
      omega
  refine ⟨ho, hup, hlo, by omega, ?_, ?_⟩
  · exact wrap64_eq (tr.osc.mOscState - kLarge) (by omega) (by omega)
  · exact wrap64_eq (tr.osc.mSyncState - kLarge) (by omega) (by omega)

/-- One sample of the sample loop in the steady cycle: it returns with fuel
for three calls of `convolute`, and the run is between two samples again. -/
theorem runSampleT_steady [FloorRing α] (blockSize : Nat) (sr f w : α) (hf : 0 < f)
    (hsr : 1 ≤ sr / f) (hT : sr / f ≤ 2 ^ 22) (k : Nat) (block : Nat → α) (tr : Traced α)
    (h : betweenSamples sr f w tr) (fuel : Nat) (hfuel : 3 ≤ fuel) :
    ∃ r, runSampleT blockSize fuel k tr block = some r ∧
      betweenSamples sr f w r.1 ∧ r.1.ticks = tr.ticks + 1 := by
  obtain ⟨c1, c2, c3, c4, c5, c6, -, -⟩ := cycle_steps sr f w hf hsr hT
  obtain ⟨-, -, -, -, b5, b6⟩ := betweenSamples_bounds sr f w hf hsr hT tr h
  obtain ⟨hc, -⟩ := h
  have h1 := cycling_transfer sr f w kLarge 0 tr
    { tr with osc := tick tr.osc, ticks := tr.ticks + 1 } rfl rfl b5 b6
    (cycling_rampsRest sr f w 0 tr hc) (by push_cast; ring) rfl hc (by unfold kLarge; decide)
  obtain ⟨S, m, hs, hlo, hhi⟩ := h1
  obtain ⟨tr2, e2, h2, t2⟩ := whileSyncStateT_cycling blockSize sr f w hf hsr hT _
    ⟨S, m, hs, by omega, hhi⟩ fuel hfuel
  obtain ⟨r, e3, h3, t3⟩ := sample_tail blockSize sr f w hf hsr hT k block tr2 h2 fuel (by omega)
  refine ⟨r, ?_, h3, by rw [t3, t2]⟩
  unfold runSampleT
  simp only [e2, Option.some_bind]
  exact e3

/-- The sample loop in the steady cycle: it returns, and every sample it runs
adds one tick. -/
theorem runLoopT_steady [FloorRing α] (blockSize : Nat) (sr f w : α) (hf : 0 < f)
    (hsr : 1 ≤ sr / f) (hT : sr / f ≤ 2 ^ 22) (fuel : Nat) (hfuel : 3 ≤ fuel) :
    ∀ (n k : Nat) (tr : Traced α) (block : Nat → α), k + n = blockSize →
      betweenSamples sr f w tr →
      ∃ r, runLoopT blockSize fuel n k tr block = some r ∧
        betweenSamples sr f w r.1 ∧ r.1.ticks = tr.ticks + n := by
  intro n
  induction n with
  | zero => intro k tr block _ h; exact ⟨(tr, block), rfl, h, rfl⟩
  | succ n ih =>
    intro k tr block hk h
    obtain ⟨r1, e1, h1, t1⟩ := runSampleT_steady blockSize sr f w hf hsr hT k block tr h fuel hfuel
    obtain ⟨r2, e2, h2, t2⟩ := ih (k + 1) r1.1 r1.2 (by omega) h1
    refine ⟨r2, ?_, h2, by rw [t2, t1]; omega⟩
    rw [runLoopT, if_pos (by omega), e1, Option.some_bind]
    exact e2

end PulseOscillator

end GenVA

namespace GenVA

namespace PulseOscillator

variable {α : Type} [LinearOrderedField α]

/-- The first `while` loop of the first sample after priming: a positive edge
at the start of the run, then the sync that opens period number `0`. -/
theorem start_calls [FloorRing α] (blockSize : Nat) (sr f w : α) (hf : 0 < f)
    (hsr : 1 ≤ sr / f) (hT : sr / f ≤ 2 ^ 22) (tr : Traced α) (hr : rampsRest f w tr.osc)
    (hs : tr.osc.samplerate = sr) (hp : tr.osc.mPolarity = false)
    (ho : tr.osc.mOscState = -kLarge) (hy : tr.osc.mSyncState = -kLarge) (ht : tr.ticks = 1)
    (he : risingPhases tr.edges = [0]) (n : Nat) :
    writesKernel tr.osc = true ∧ eventPhase tr.osc = -kLarge ∧
    writesKernel (convolute blockSize tr.osc) = false ∧
    cycleSync sr f w (-kLarge) 0 (convoluteT blockSize (convoluteT blockSize tr)) ∧
    whileSyncStateT blockSize (n + 2) tr =
      some (convoluteT blockSize (convoluteT blockSize tr)) := by
  obtain ⟨c1, c2, c3, c4, c5, c6, -, -, c9, c10⟩ := cycle_steps sr f w hf hsr hT
  have hK : (0 : Int) < kLarge := by unfold kLarge; decide
  have hst : Steady sr f w tr.osc := ⟨hs, hr.2.1.1, hr.2.2.1⟩
  -- the first call: no sync, a positive edge
  have e1 : syncEvent tr.osc = false := by
    unfold syncEvent; rw [ho, hy]; exact decide_eq_false (by omega)
  have p1 : eventPhase tr.osc = -kLarge := by unfold eventPhase; rw [e1]; exact ho
  have w1 : writesKernel tr.osc = true := by unfold writesKernel; rw [e1]; rfl
  obtain ⟨f1, f2, f3, f4, f5, f6, f7⟩ := convolute_fields blockSize tr.osc
  have r1 := (rate_steady sr f w hf tr.osc hst).2.2.2 e1 hp
  have hst2 : Steady sr f w (convolute blockSize tr.osc) :=
    ⟨f4.trans hst.1, by rw [f5]; exact hst.2.1, by rw [f6]; exact hst.2.2⟩
  have o2 : (convolute blockSize tr.osc).mOscState = -kLarge + stepRise sr f w := by
    rw [f1, p1, r1]
    exact wrap64_eq _ (by omega) (by omega)
  have y2 : (convolute blockSize tr.osc).mSyncState = -kLarge := by rw [f2, e1]; exact hy
  have q2 : (convolute blockSize tr.osc).mPolarity = true := by
    rw [f3]; unfold polarityAfterSync; rw [e1, hp]; rfl
  -- the second call: the sync, no edge
  have e2 : syncEvent (convolute blockSize tr.osc) = true := by
    unfold syncEvent; rw [o2, y2]; exact decide_eq_true (by omega)
  have w2 : writesKernel (convolute blockSize tr.osc) = false := by
    unfold writesKernel; rw [e2, q2]; rfl
  obtain ⟨g1, g2, g3, g4, g5, g6, g7⟩ := convolute_fields blockSize (convolute blockSize tr.osc)
  obtain ⟨s0, s1, -, -⟩ := rate_steady sr f w hf _ hst2
  have hst3 : Steady sr f w (convolute blockSize (convolute blockSize tr.osc)) :=
    ⟨g4.trans hst2.1, by rw [g5]; exact hst2.2.1, by rw [g6]; exact hst2.2.2⟩
  have hcyc : cycleSync sr f w (-kLarge) 0 (convoluteT blockSize (convoluteT blockSize tr)) := by
    refine ⟨rampsRest_convolute blockSize f w _ (rampsRest_convolute blockSize f w _ hr),
      ⟨hst3, ?_, ?_, ?_⟩, ?_, ?_⟩
    · show (convolute blockSize (convolute blockSize tr.osc)).mPolarity = true
      rw [g3]; unfold polarityAfterSync; rw [e2]; rfl
    · show (convolute blockSize (convolute blockSize tr.osc)).mOscState = _
      rw [g1, s1 e2]; unfold eventPhase; rw [e2, y2, if_pos rfl]
      exact wrap64_eq _ (by omega) (by omega)
    · show (convolute blockSize (convolute blockSize tr.osc)).mSyncState = _
      rw [g2, e2, s0, y2, if_pos rfl]
      exact wrap64_eq _ (by omega) (by omega)
    · show -kLarge + (tr.ticks : Int) * kLarge = _
      rw [ht]; push_cast; ring
    · show risingPhases ((tr.edges ++ edgeOf tr.ticks tr.osc) ++
        edgeOf tr.ticks (convolute blockSize tr.osc)) = _
      rw [risingPhases_append, risingPhases_append, he]
      unfold edgeOf; rw [w1, w2, hp, p1, ht]
      simp [risingPhases, steadyRising]
  have y3 : (convoluteT blockSize (convoluteT blockSize tr)).osc.mSyncState =
      -kLarge + syncPeriod sr f := hcyc.2.1.2.2.2
  refine ⟨w1, p1, w2, hcyc, ?_⟩
  rw [whileSyncStateT, if_pos (by rw [hy]; omega), whileSyncStateT,
    if_pos (by show (convolute blockSize tr.osc).mSyncState < 0; rw [y2]; omega)]
  exact whileSyncStateT_done blockSize _ (by rw [y3]; omega) n

theorem whileSyncStateT_start [FloorRing α] (blockSize : Nat) (sr f w : α) (hf : 0 < f)
    (hsr : 1 ≤ sr / f) (hT : sr / f ≤ 2 ^ 22) (tr : Traced α) (hr : rampsRest f w tr.osc)
    (hs : tr.osc.samplerate = sr) (hp : tr.osc.mPolarity = false)
    (ho : tr.osc.mOscState = -kLarge) (hy : tr.osc.mSyncState = -kLarge) (ht : tr.ticks = 1)
    (he : risingPhases tr.edges = [0]) (n : Nat) :
    ∃ tr', whileSyncStateT blockSize (n + 2) tr = some tr' ∧ cycling sr f w 0 tr' ∧
      tr'.ticks = 1 := by
  obtain ⟨c1, c2, c3, c4, c5, c6, -, -⟩ := cycle_steps sr f w hf hsr hT
  have hK : (0 : Int) < kLarge := by unfold kLarge; decide
  obtain ⟨-, -, -, hcyc, e⟩ := start_calls blockSize sr f w hf hsr hT tr hr hs hp ho hy ht he n
  have y3 : (convoluteT blockSize (convoluteT blockSize tr)).osc.mSyncState =
      -kLarge + syncPeriod sr f := hcyc.2.1.2.2.2
  exact ⟨_, e, ⟨_, _, Or.inl hcyc, by rw [y3]; omega, by rw [y3]; omega⟩, ht⟩

/-- What `prime` leaves of an oscillator whose phases are both `0`. -/
theorem prime_fields [FloorRing α] (blockSize : Nat) (st : PulseOscillator α)
    (ho : st.mOscState = 0) (hy : st.mSyncState = 0) :
    (prime blockSize st).mOscState = 0 ∧ (prime blockSize st).mSyncState = 0 ∧
    (prime blockSize st).mPolarity = false ∧ (prime blockSize st).mFirstRun = false ∧
    (prime blockSize st).samplerate = st.samplerate ∧
    (prime blockSize st).mFreqLerp = st.mFreqLerp ∧
    (prime blockSize st).mWidthLerp = st.mWidthLerp ∧
    writesKernel { st with mFirstRun := false } = true ∧
    eventPhase { st with mFirstRun := false } = 0 := by
  have e : syncEvent { st with mFirstRun := false } = false := by
    unfold syncEvent; show decide (st.mSyncState < st.mOscState) = false
    rw [ho, hy]; rfl
  obtain ⟨f1, f2, f3, f4, f5, f6, f7⟩ := convolute_fields blockSize { st with mFirstRun := false }
  refine ⟨rfl, ?_, rfl, ?_, ?_, ?_, ?_, ?_, ?_⟩
  · show (convolute blockSize { st with mFirstRun := false }).mSyncState = 0
    rw [f2, e]; exact hy
  · show (convolute blockSize { st with mFirstRun := false }).mFirstRun = false
    rw [f7]
  · show (convolute blockSize { st with mFirstRun := false }).samplerate = _
    rw [f4]
  · show (convolute blockSize { st with mFirstRun := false }).mFreqLerp = _
    rw [f5]
  · show (convolute blockSize { st with mFirstRun := false }).mWidthLerp = _
    rw [f6]
  · unfold writesKernel; rw [e]; rfl
  · unfold eventPhase; rw [e]; exact ho

end PulseOscillator

end GenVA

namespace GenVA

namespace PulseOscillator

variable {α : Type} [LinearOrderedField α]

/-- The first call of `run`: priming, the first sample and the rest of the
block all return, and the run ends the block in the steady cycle. -/
theorem runT_first [FloorRing α] (blockSize : Nat) (sr f w : α) (hf : 0 < f)
    (hsr : 1 ≤ sr / f) (hT : sr / f ≤ 2 ^ 22) (hbs : 1 ≤ blockSize) (fuel : Nat) (hfuel : 3 ≤ fuel)
    (tr : Traced α) (block : Nat → α) (h1 : tr.osc.mFirstRun = true)
    (hF : lipolHeld f tr.osc.mFreqLerp) (hW : lipolHeld w tr.osc.mWidthLerp)
    (hs : tr.osc.samplerate = sr) (hp : tr.osc.mPolarity = false)
    (ho : tr.osc.mOscState = 0) (hy : tr.osc.mSyncState = 0)
    (ht : tr.ticks = 0) (he : tr.edges = []) :
    ∃ r, runT blockSize fuel tr block = some r ∧ betweenSamples sr f w r.1 ∧
      r.1.ticks = blockSize := by
  obtain ⟨p1, p2, p3, p4, p5, p6, p7, p8, p9⟩ := prime_fields blockSize tr.osc ho hy
  obtain ⟨b, rfl⟩ : ∃ b, blockSize = b + 1 := ⟨blockSize - 1, by omega⟩
  obtain ⟨n, rfl⟩ : ∃ n, fuel = n + 2 := ⟨fuel - 2, by omega⟩
  have hr : rampsRest f w (primeT (b + 1) tr).osc :=
    ⟨p4, by show lipolHeld f (prime (b + 1) tr.osc).mFreqLerp; rw [p6]; exact hF,
      by show lipolHeld w (prime (b + 1) tr.osc).mWidthLerp; rw [p7]; exact hW⟩
  have hedge : risingPhases (primeT (b + 1) tr).edges = [0] := by
    show risingPhases (tr.edges ++ edgeOf tr.ticks { tr.osc with mFirstRun := false }) = [0]
    unfold edgeOf
    rw [p8, if_pos rfl, p9, he, ht]
    show risingPhases [(!tr.osc.mPolarity, _)] = [0]
    rw [hp]
    simp [risingPhases]
  obtain ⟨tr2, e2, h2, t2⟩ := whileSyncStateT_start (b + 1) sr f w hf hsr hT
    { primeT (b + 1) tr with osc := tick (primeT (b + 1) tr).osc,
                             ticks := (primeT (b + 1) tr).ticks + 1 }
    hr (p5.trans hs) p3
    (by show wrap64 ((prime (b + 1) tr.osc).mOscState - kLarge) = _; rw [p1]; rfl)
    (by show wrap64 ((prime (b + 1) tr.osc).mSyncState - kLarge) = _; rw [p2]; rfl)
    (by show tr.ticks + 1 = 1; rw [ht]) hedge n
  obtain ⟨r3, e3, h3, t3⟩ := sample_tail (b + 1) sr f w hf hsr hT 0 block tr2 h2 (n + 2) (by omega)
  obtain ⟨r4, e4, h4, t4⟩ := runLoopT_steady (b + 1) sr f w hf hsr hT (n + 2) hfuel b 1 r3.1 r3.2
    (by omega) h3
  refine ⟨r4, ?_, h4, by rw [t4, t3, t2]; omega⟩
  unfold runT
  simp only [h1, if_true]
  rw [runLoopT, if_pos (by omega)]
  have hsample : runSampleT (b + 1) (n + 2) 0 (primeT (b + 1) tr) block = some r3 := by
    unfold runSampleT
    simp only [e2, Option.some_bind]
    exact e3
  rw [hsample, Option.some_bind]
  exact e4

/-- A later call of `run` in the steady cycle: it returns, and the run ends
the block in the steady cycle, `blockSize` ticks on. -/
theorem runT_steady [FloorRing α] (blockSize : Nat) (sr f w : α) (hf : 0 < f)
    (hsr : 1 ≤ sr / f) (hT : sr / f ≤ 2 ^ 22)
    (fuel : Nat) (hfuel : 3 ≤ fuel) (tr : Traced α) (block : Nat → α)
    (h : betweenSamples sr f w tr) :
    ∃ r, runT blockSize fuel tr block = some r ∧ betweenSamples sr f w r.1 ∧
      r.1.ticks = tr.ticks + blockSize := by
  have h1 : tr.osc.mFirstRun = false := (cycling_rampsRest sr f w 0 tr h.1).1
  obtain ⟨r, e, h2, t⟩ := runLoopT_steady blockSize sr f w hf hsr hT fuel hfuel blockSize 0 tr
    block (by omega) h
  refine ⟨r, ?_, h2, t⟩
  unfold runT
  simp only [h1, Bool.false_eq_true, if_false]
  exact e

/-- The call `setParams` with the frequency and width the ramps rest at keeps
the run between two samples of the steady cycle. -/
theorem setParams_steady [FloorRing α] (blockSize : Nat) (sr f w sy L : α) (tr : Traced α)
    (h : betweenSamples sr f w tr) :
    betweenSamples sr f w { tr with osc := setParams blockSize tr.osc f w sy L } := by
  obtain ⟨hc, ho⟩ := h
  have hr := cycling_rampsRest sr f w 0 tr hc
  have hr2 : rampsRest f w (setParams blockSize tr.osc f w sy L) :=
    ⟨hr.1, lipolHeld_newValue blockSize f _ (Or.inr hr.2.1.2.1),
      lipolHeld_newValue blockSize w _ (Or.inr hr.2.2.2.1)⟩
  have h2 := cycling_transfer sr f w 0 0 tr
    { tr with osc := setParams blockSize tr.osc f w sy L } rfl rfl
    (by rw [sub_zero]; rfl) (by rw [sub_zero]; rfl) hr2 (by rw [add_zero]) rfl hc le_rfl
  rw [sub_zero] at h2
  exact ⟨h2, ho⟩

/-- Any number of blocks at constant frequency and width, from a freshly
initialised oscillator: every block returns and the run stays in the steady
cycle. -/
theorem runBlocksT_steady [FloorRing α] (blockSize : Nat) (sr f w sy L : α) (hf : 0 < f)
    (hsr : 1 ≤ sr / f) (hT : sr / f ≤ 2 ^ 22) (hbs : 1 ≤ blockSize) (fuel : Nat) (hfuel : 3 ≤ fuel)
    (tbl : SincTable α) (block : Nat → α) :
    ∀ n : Nat, ∃ tr,
      runBlocksT blockSize fuel f w sy L block (n + 1)
        { osc := initialise (unprimed tbl) tbl sr, ticks := 0, edges := [] } = some tr ∧
      betweenSamples sr f w tr ∧ tr.ticks = (n + 1) * blockSize := by
  intro n
  induction n with
  | zero =>
    obtain ⟨r, e, h, t⟩ := runT_first blockSize sr f w hf hsr hT hbs fuel hfuel
      { osc := setParams blockSize (initialise (unprimed tbl) tbl sr) f w sy L,
        ticks := 0, edges := [] } block rfl
      (lipolHeld_newValue blockSize f _ (Or.inl rfl))
      (lipolHeld_newValue blockSize w _ (Or.inl rfl)) rfl rfl rfl rfl rfl rfl
    refine ⟨r.1, ?_, h, by rw [t]; omega⟩
    show (runT blockSize fuel _ block).map Prod.fst = _
    rw [e]; rfl
  | succ n ih =>
    obtain ⟨tr, e, h, t⟩ := ih
    obtain ⟨r, e2, h2, t2⟩ := runT_steady blockSize sr f w hf hsr hT fuel hfuel _ block
      (setParams_steady blockSize sr f w sy L tr h)
    refine ⟨r.1, ?_, h2, ?_⟩
    · rw [runBlocksT, e, Option.some_bind, e2]; rfl
    · rw [t2]; show tr.ticks + blockSize = _; rw [t]; ring

end PulseOscillator

end GenVA

namespace GenVA

namespace PulseOscillator

variable {α : Type} [LinearOrderedField α]

theorem whileSyncStateT_osc [FloorRing α] (blockSize : Nat) :
    ∀ (fuel : Nat) (tr : Traced α),
      (whileSyncStateT blockSize fuel tr).map (fun t => t.osc) =
        whileSyncState blockSize fuel tr.osc := by
  intro fuel
  induction fuel with
  | zero => intro tr; rw [whileSyncStateT, whileSyncState]; split_ifs <;> rfl
  | succ n ih =>
    intro tr
    rw [whileSyncStateT, whileSyncState]
    split_ifs
    · exact ih (convoluteT blockSize tr)
    · rfl

theorem whileOscStateT_osc [FloorRing α] (blockSize : Nat) :
    ∀ (fuel : Nat) (tr : Traced α),
      (whileOscStateT blockSize fuel tr).map (fun t => t.osc) =
        whileOscState blockSize fuel tr.osc := by
  intro fuel
  induction fuel with
  | zero => intro tr; rw [whileOscStateT, whileOscState]; split_ifs <;> rfl
  | succ n ih =>
    intro tr
    rw [whileOscStateT, whileOscState]
    split_ifs
    · exact ih (convoluteT blockSize tr)
    · rfl

theorem runSampleT_osc [FloorRing α] (blockSize fuel k : Nat) (tr : Traced α)
    (block : Nat → α) :
    (runSampleT blockSize fuel k tr block).map (fun r => (r.1.osc, r.2)) =
      runSample blockSize fuel k tr.osc block := by
  have h1 := whileSyncStateT_osc blockSize fuel
    { tr with osc := tick tr.osc, ticks := tr.ticks + 1 }
  have e : runSample blockSize fuel k tr.osc block =
      (whileSyncState blockSize fuel (tick tr.osc)).bind fun st =>
        (whileOscState blockSize fuel st).bind fun st =>
          some (emitSample blockSize k st block) := rfl
  have eT : runSampleT blockSize fuel k tr block =
      (whileSyncStateT blockSize fuel { tr with osc := tick tr.osc, ticks := tr.ticks + 1 }).bind
        fun tr => (whileOscStateT blockSize fuel tr).bind fun tr =>
          some ({ tr with osc := (emitSample blockSize k tr.osc block).1 },
            (emitSample blockSize k tr.osc block).2) := rfl
  rw [e, eT]
  change _ = (whileSyncState blockSize fuel
    ({ tr with osc := tick tr.osc, ticks := tr.ticks + 1 } : Traced α).osc).bind _
  rw [← h1]
  cases whileSyncStateT blockSize fuel { tr with osc := tick tr.osc, ticks := tr.ticks + 1 } with
  | none => rfl
  | some tr2 =>
    have h2 := whileOscStateT_osc blockSize fuel tr2
    show Option.map _ ((whileOscStateT blockSize fuel tr2).bind _) =
      (whileOscState blockSize fuel tr2.osc).bind _
    rw [← h2]
    cases whileOscStateT blockSize fuel tr2 <;> rfl

theorem runLoopT_osc [FloorRing α] (blockSize fuel : Nat) :
    ∀ (n k : Nat) (tr : Traced α) (block : Nat → α),
      (runLoopT blockSize fuel n k tr block).map (fun r => (r.1.osc, r.2)) =
        runLoop blockSize fuel n k tr.osc block := by
  intro n
  induction n with
  | zero => intro k tr block; rfl
  | succ n ih =>
    intro k tr block
    rw [runLoopT, runLoop]
    split_ifs
    · rw [← runSampleT_osc]
      cases runSampleT blockSize fuel k tr block with
      | none => rfl
      | some r => exact ih (k + 1) r.1 r.2
    · rfl

theorem runT_osc [FloorRing α] (blockSize fuel : Nat) (tr : Traced α) (block : Nat → α) :
    (runT blockSize fuel tr block).map (fun r => (r.1.osc, r.2)) =
      run blockSize fuel tr.osc block := by
  unfold runT run
  by_cases h : tr.osc.mFirstRun = true
  · simp only [h, if_true]
    exact runLoopT_osc blockSize fuel blockSize 0 (primeT blockSize tr) block
  · simp only [h, if_false]
    exact runLoopT_osc blockSize fuel blockSize 0 tr block

/-- The record does not change the run: the recorded blocks return exactly
when the blocks do, with the same oscillator. -/
theorem runBlocksT_osc [FloorRing α] (blockSize fuel : Nat) (f w sy L : α) (block : Nat → α) :
    ∀ (n : Nat) (tr : Traced α),
      (runBlocksT blockSize fuel f w sy L block n tr).map (fun t => t.osc) =
        runBlocks blockSize fuel f w sy L block n tr.osc := by
  intro n
  induction n with
  | zero => intro tr; rfl
  | succ n ih =>
    intro tr
    rw [runBlocksT, runBlocks, ← ih tr]
    cases runBlocksT blockSize fuel f w sy L block n tr with
    | none => rfl
    | some tr2 =>
      show Option.map _ ((runT blockSize fuel _ block).map Prod.fst) =
        (run blockSize fuel (setParams blockSize tr2.osc f w sy L) block).map Prod.fst
      rw [← runT_osc blockSize fuel { tr2 with osc := setParams blockSize tr2.osc f w sy L }]
      cases runT blockSize fuel { tr2 with osc := setParams blockSize tr2.osc f w sy L } block
        <;> rfl

/-- The positive edges of a steady run after the two that start it are one
`syncPeriod` apart. -/
theorem steadyRising_spacing [FloorRing α] (sr f w : α) (M i : Nat) (a b : Int)
    (ha : (steadyRising sr f w M)[i + 2]? = some a)
    (hb : (steadyRising sr f w M)[i + 3]? = some b) : b - a = syncPeriod sr f := by
  unfold steadyRising at ha hb
  simp only [List.cons_append, List.nil_append, List.getElem?_cons_succ,
    List.getElem?_map, List.getElem?_range] at ha hb
  by_cases h1 : i + 1 < M
  · have h0 : i < M := by omega
    rw [List.getElem?_range h0] at ha
    rw [List.getElem?_range h1] at hb
    simp only [Option.map_some', Option.some.injEq] at ha hb
    rw [← ha, ← hb]; push_cast; ring
  · rw [List.getElem?_eq_none (by rw [List.length_range]; omega)] at hb
    simp at hb

end PulseOscillator

end GenVA

namespace GenVA

namespace PulseOscillator

variable {α : Type} [LinearOrderedField α]

/-- Each call of `convolute` adds to the record exactly the kernels it adds
into `mOscBuffer`: one kernel of the recorded polarity at the recorded phase
when it writes an edge, nothing otherwise. -/
theorem convoluteT_buffer [FloorRing α] (blockSize : Nat) (tr : Traced α) :
    (convoluteT blockSize tr).edges = tr.edges ++ edgeOf tr.ticks tr.osc ∧
    (convoluteT blockSize tr).osc.mOscBuffer =
      (edgeOf tr.ticks tr.osc).foldl (edgeKernel blockSize tr.osc tr.ticks) tr.osc.mOscBuffer := by
  refine ⟨rfl, ?_⟩
  show (convolute blockSize tr.osc).mOscBuffer = _
  rw [(convolute_buffer blockSize tr.osc).1]
  unfold edgeOf
  by_cases hw : writesKernel tr.osc = true
  · rw [if_pos hw, if_pos hw]
    show _ = edgeKernel blockSize tr.osc tr.ticks tr.osc.mOscBuffer
      (!tr.osc.mPolarity, eventPhase tr.osc + (tr.ticks : Int) * kLarge)
    unfold edgeKernel
    have e : eventPhase tr.osc + (tr.ticks : Int) * kLarge - (tr.ticks : Int) * kLarge =
        eventPhase tr.osc := by ring
    simp only [e]
    cases tr.osc.mPolarity <;> rfl
  · rw [if_neg hw, if_neg hw]
    rfl

/-- The priming adds to the record the kernel its call of `convolute` adds into
`mOscBuffer`, and then scales the buffer by `-0.5`. -/
theorem primeT_buffer [FloorRing α] (blockSize : Nat) (tr : Traced α) :
    (primeT blockSize tr).edges =
      tr.edges ++ edgeOf tr.ticks { tr.osc with mFirstRun := false } ∧
    (primeT blockSize tr).osc.mOscBuffer = fun i =>
      if i < blockSize then
        ((edgeOf tr.ticks { tr.osc with mFirstRun := false }).foldl
          (edgeKernel blockSize { tr.osc with mFirstRun := false } tr.ticks)
          tr.osc.mOscBuffer) i * (-0.5)
      else
        ((edgeOf tr.ticks { tr.osc with mFirstRun := false }).foldl
          (edgeKernel blockSize { tr.osc with mFirstRun := false } tr.ticks)
          tr.osc.mOscBuffer) i := by
  refine ⟨rfl, ?_⟩
  have h : (convolute blockSize { tr.osc with mFirstRun := false }).mOscBuffer =
      (edgeOf tr.ticks { tr.osc with mFirstRun := false }).foldl
        (edgeKernel blockSize { tr.osc with mFirstRun := false } tr.ticks) tr.osc.mOscBuffer :=
    (convoluteT_buffer blockSize ⟨{ tr.osc with mFirstRun := false }, tr.ticks, tr.edges⟩).2
  rw [← h]
  rfl

theorem runSampleT_of [FloorRing α] (blockSize fuel k : Nat) (tr tr2 tr3 : Traced α)
    (block : Nat → α)
    (h1 : whileSyncStateT blockSize fuel { tr with osc := tick tr.osc, ticks := tr.ticks + 1 } =
      some tr2)
    (h2 : whileOscStateT blockSize fuel tr2 = some tr3) :
    runSampleT blockSize fuel k tr block =
      some ({ tr3 with osc := (emitSample blockSize k tr3.osc block).1 },
        (emitSample blockSize k tr3.osc block).2) := by
  have eT : runSampleT blockSize fuel k tr block =
      (whileSyncStateT blockSize fuel { tr with osc := tick tr.osc, ticks := tr.ticks + 1 }).bind
        fun tr => (whileOscStateT blockSize fuel tr).bind fun tr =>
          some ({ tr with osc := (emitSample blockSize k tr.osc block).1 },
            (emitSample blockSize k tr.osc block).2) := rfl
  rw [eT, h1, Option.some_bind, h2, Option.some_bind]

theorem runAt_emitSample [FloorRing α] (blockSize k : Nat) (sr f w : α) (o y : Int) (p : Bool)
    (t : Nat) (rs : List Int) (tr : Traced α) (block : Nat → α)
    (h : runAt sr f w o y p t rs tr) :
    runAt sr f w o y p t rs { tr with osc := (emitSample blockSize k tr.osc block).1 } :=
  ⟨rampsRest_emitSample blockSize k f w _ block h.1, h.2.1, h.2.2.1, h.2.2.2.1, h.2.2.2.2.1,
    h.2.2.2.2.2.1, h.2.2.2.2.2.2⟩

theorem runAt_setParams [FloorRing α] (blockSize : Nat) (sr f w sy L : α) (o y : Int) (p : Bool)
    (t : Nat) (rs : List Int) (tr : Traced α) (h : runAt sr f w o y p t rs tr) :
    runAt sr f w o y p t rs { tr with osc := setParams blockSize tr.osc f w sy L } :=
  ⟨⟨h.1.1, lipolHeld_newValue blockSize f _ (Or.inr h.1.2.1.2.1),
    lipolHeld_newValue blockSize w _ (Or.inr h.1.2.2.2.1)⟩, h.2.1, h.2.2.1, h.2.2.2.1,
    h.2.2.2.2.1, h.2.2.2.2.2.1, h.2.2.2.2.2.2⟩

/-- A sample with both phases at least one sample ahead: no call of
`convolute`, both phases fall by `kLarge`. -/
theorem idle_sample [FloorRing α] (blockSize fuel k : Nat) (sr f w : α) (o y : Int) (p : Bool)
    (t : Nat) (rs : List Int) (tr : Traced α) (block : Nat → α)
    (h : runAt sr f w o y p t rs tr) (ho : kLarge ≤ o) (ho2 : o < 2 ^ 63) (hy : kLarge ≤ y)
    (hy2 : y < 2 ^ 63) :
    ∃ r, runSampleT blockSize fuel k tr block = some r ∧
      runAt sr f w (o - kLarge) (y - kLarge) p (t + 1) rs r.1 := by
  obtain ⟨hr, hs, eo, ey, ep, et, ee⟩ := h
  have hK : kLarge = 1099511627776 := rfl
  have e1 : (tick tr.osc).mOscState = o - kLarge := by
    show wrap64 (tr.osc.mOscState - kLarge) = _
    rw [eo]; exact wrap64_eq _ (by omega) (by omega)
  have e2 : (tick tr.osc).mSyncState = y - kLarge := by
    show wrap64 (tr.osc.mSyncState - kLarge) = _
    rw [ey]; exact wrap64_eq _ (by omega) (by omega)
  have h1 := whileSyncStateT_done blockSize
    { tr with osc := tick tr.osc, ticks := tr.ticks + 1 }
    (by show ¬ (tick tr.osc).mSyncState < 0; rw [e2]; omega) fuel
  have h2 := whileOscStateT_done blockSize
    { tr with osc := tick tr.osc, ticks := tr.ticks + 1 }
    (by show ¬ (tick tr.osc).mOscState < 0; rw [e1]; omega) fuel
  refine ⟨_, runSampleT_of blockSize fuel k tr _ _ block h1 h2, ?_⟩
  exact runAt_emitSample blockSize k sr f w _ _ p _ rs _ block
    ⟨hr, hs, e1, e2, ep, by show tr.ticks + 1 = t + 1; rw [et], ee⟩

/-- Samples with both phases far enough ahead: no call of `convolute`. -/
theorem idle_loop [FloorRing α] (blockSize fuel : Nat) (sr f w : α) (p : Bool)
    (rs : List Int) :
    ∀ (n k : Nat) (o y : Int) (t : Nat) (tr : Traced α) (block : Nat → α),
      k + n ≤ blockSize → runAt sr f w o y p t rs tr →
      (n : Int) * kLarge ≤ o → o < 2 ^ 63 → (n : Int) * kLarge ≤ y → y < 2 ^ 63 →
      ∃ r, runLoopT blockSize fuel n k tr block = some r ∧
        runAt sr f w (o - (n : Int) * kLarge) (y - (n : Int) * kLarge) p (t + n) rs r.1 := by
  intro n
  induction n with
  | zero =>
    intro k o y t tr block _ h _ _ _ _
    refine ⟨(tr, block), rfl, ?_⟩
    simpa using h
  | succ n ih =>
    intro k o y t tr block hk h ho ho2 hy hy2
    have hK : kLarge = 1099511627776 := rfl
    push_cast at ho hy
    obtain ⟨r1, e1, g1⟩ := idle_sample blockSize fuel k sr f w o y p t rs tr block h
      (by nlinarith) ho2 (by nlinarith) hy2
    obtain ⟨r2, e2, g2⟩ := ih (k + 1) (o - kLarge) (y - kLarge) (t + 1) r1.1 r1.2 (by omega) g1
      (by linarith) (by omega) (by linarith) (by omega)
    refine ⟨r2, ?_, ?_⟩
    · rw [runLoopT, if_pos (by omega), e1, Option.some_bind]
      exact e2
    · have a1 : o - kLarge - (n : Int) * kLarge = o - ((n + 1 : Nat) : Int) * kLarge := by
        push_cast; ring
      have a2 : y - kLarge - (n : Int) * kLarge = y - ((n + 1 : Nat) : Int) * kLarge := by
        push_cast; ring
      have a3 : t + 1 + n = t + (n + 1) := by omega
      rw [a1, a2, a3] at g2
      exact g2

/-- One block of the recorded run: `setParams`, then `run`. -/
theorem runBlocksT_succ [FloorRing α] (blockSize fuel : Nat) (f w sy L : α) (block : Nat → α)
    (n : Nat) (tr : Traced α) :
    runBlocksT blockSize fuel f w sy L block (n + 1) tr =
      (runBlocksT blockSize fuel f w sy L block n tr).bind fun tr =>
        (runT blockSize fuel
          { tr with osc := setParams blockSize tr.osc f w sy L } block).map Prod.fst := rfl

/-- The recorded blocks compose. -/
theorem runBlocksT_add [FloorRing α] (blockSize fuel : Nat) (f w sy L : α) (block : Nat → α)
    (a : Nat) : ∀ (b : Nat) (tr : Traced α),
      runBlocksT blockSize fuel f w sy L block (a + b) tr =
        (runBlocksT blockSize fuel f w sy L block a tr).bind
          (runBlocksT blockSize fuel f w sy L block b) := by
  intro b
  induction b with
  | zero =>
    intro tr
    show runBlocksT blockSize fuel f w sy L block a tr = _
    cases runBlocksT blockSize fuel f w sy L block a tr <;> rfl
  | succ b ih =>
    intro tr
    show runBlocksT blockSize fuel f w sy L block (a + b + 1) tr = _
    rw [runBlocksT_succ, ih tr]
    cases runBlocksT blockSize fuel f w sy L block a tr with
    | none => rfl
    | some t1 =>
      simp only [Option.some_bind]
      rw [runBlocksT_succ]

/-- A block after the first is the sample loop from the state `setParams`
leaves. -/
theorem runT_later [FloorRing α] (blockSize fuel : Nat) (sr f w sy L : α) (o y : Int) (p : Bool)
    (t : Nat) (rs : List Int) (tr : Traced α) (block : Nat → α)
    (h : runAt sr f w o y p t rs tr) :
    runT blockSize fuel { tr with osc := setParams blockSize tr.osc f w sy L } block =
      runLoopT blockSize fuel blockSize 0
        { tr with osc := setParams blockSize tr.osc f w sy L } block := by
  have h1 : (setParams blockSize tr.osc f w sy L).mFirstRun = false := h.1.1
  unfold runT
  simp only [h1, Bool.false_eq_true, if_false]

/-- Blocks with both phases far enough ahead: no call of `convolute`, the
record does not grow. -/
theorem idle_blocks [FloorRing α] (blockSize fuel : Nat) (sr f w sy L : α) (p : Bool)
    (rs : List Int) (block : Nat → α) :
    ∀ (m : Nat) (o y : Int) (t : Nat) (tr : Traced α), runAt sr f w o y p t rs tr →
      ((m * blockSize : Nat) : Int) * kLarge ≤ o → o < 2 ^ 63 →
      ((m * blockSize : Nat) : Int) * kLarge ≤ y → y < 2 ^ 63 →
      ∃ tr', runBlocksT blockSize fuel f w sy L block m tr = some tr' ∧
        runAt sr f w (o - ((m * blockSize : Nat) : Int) * kLarge)
          (y - ((m * blockSize : Nat) : Int) * kLarge) p (t + m * blockSize) rs tr' := by
  intro m
  induction m with
  | zero =>
    intro o y t tr h _ _ _ _
    refine ⟨tr, rfl, ?_⟩
    simpa using h
  | succ m ih =>
    intro o y t tr h ho ho2 hy hy2
    have hK : kLarge = 1099511627776 := rfl
    have es : ((m + 1) * blockSize : Nat) = m * blockSize + blockSize := by ring
    rw [es] at ho hy ⊢
    push_cast at ho hy
    have hK0 : (0 : Int) ≤ kLarge := by rw [hK]; norm_num
    have hb0 : (0 : Int) ≤ (blockSize : Int) * kLarge :=
      mul_nonneg (Int.natCast_nonneg _) hK0
    have hm0 : (0 : Int) ≤ (m : Int) * (blockSize : Int) * kLarge :=
      mul_nonneg (mul_nonneg (Int.natCast_nonneg _) (Int.natCast_nonneg _)) hK0
    obtain ⟨tr1, e1, g1⟩ := ih o y t tr h (by push_cast; linarith) ho2 (by push_cast; linarith)
      hy2
    push_cast at g1
    obtain ⟨r2, e2, g2⟩ := idle_loop blockSize fuel sr f w p rs blockSize 0
      (o - (m : Int) * (blockSize : Int) * kLarge) (y - (m : Int) * (blockSize : Int) * kLarge)
      (t + m * blockSize) _ block (by omega)
      (runAt_setParams blockSize sr f w sy L _ _ p _ rs tr1 g1)
      (by linarith) (by linarith) (by linarith) (by linarith)
    refine ⟨r2.1, ?_, ?_⟩
    · rw [runBlocksT_succ, e1, Option.some_bind,
        runT_later blockSize fuel sr f w sy L _ _ p _ rs tr1 block g1, e2]
      rfl
    · have a1 : o - (m : Int) * (blockSize : Int) * kLarge - (blockSize : Int) * kLarge =
          o - ((m * blockSize + blockSize : Nat) : Int) * kLarge := by push_cast; ring
      have a2 : y - (m : Int) * (blockSize : Int) * kLarge - (blockSize : Int) * kLarge =
          y - ((m * blockSize + blockSize : Nat) : Int) * kLarge := by push_cast; ring
      have a3 : t + m * blockSize + blockSize = t + (m * blockSize + blockSize) := by omega
      rw [a1, a2, a3] at g2
      exact g2

end PulseOscillator

end GenVA

namespace GenVA

namespace PulseOscillator

variable {α : Type} [LinearOrderedField α]

/-- The two subtractions that open a sample, recorded, when neither
overflows. -/
theorem tick_runAt [FloorRing α] (sr f w : α) (o y : Int) (p : Bool) (t : Nat) (rs : List Int)
    (tr : Traced α) (h : runAt sr f w o y p t rs tr) (ho : 0 ≤ o) (ho2 : o < 2 ^ 63)
    (hy : 0 ≤ y) (hy2 : y < 2 ^ 63) :
    runAt sr f w (o - kLarge) (y - kLarge) p (t + 1) rs
      { tr with osc := tick tr.osc, ticks := tr.ticks + 1 } := by
  obtain ⟨hr, hs, eo, ey, ep, et, ee⟩ := h
  have hK : kLarge = 1099511627776 := rfl
  refine ⟨hr, hs, ?_, ?_, ep, by show tr.ticks + 1 = t + 1; rw [et], ee⟩
  · show wrap64 (tr.osc.mOscState - kLarge) = _
    rw [eo]; exact wrap64_eq _ (by omega) (by omega)
  · show wrap64 (tr.osc.mSyncState - kLarge) = _
    rw [ey]; exact wrap64_eq _ (by omega) (by omega)

/-- A recorded call of `convolute` without a sync: the oscillator phase moves
by the step of the polarity, the polarity flips, and a positive edge enters the
record when the polarity was false. -/
theorem convoluteT_nosync [FloorRing α] (blockSize : Nat) (sr f w : α) (hf : 0 < f)
    (o y : Int) (p : Bool) (t : Nat) (rs : List Int) (tr : Traced α)
    (h : runAt sr f w o y p t rs tr) (hno : ¬ y < o) :
    runAt sr f w (wrap64 (o + (if p then stepFall sr f w else stepRise sr f w))) y (!p) t
      (rs ++ (if p then [] else [o + (t : Int) * kLarge])) (convoluteT blockSize tr) := by
  obtain ⟨hr, hs, eo, ey, ep, et, ee⟩ := h
  have hst : Steady sr f w tr.osc := ⟨hs, hr.2.1.1, hr.2.2.1⟩
  have he : syncEvent tr.osc = false := by
    unfold syncEvent; rw [eo, ey]; exact decide_eq_false hno
  have hph : eventPhase tr.osc = o := by unfold eventPhase; rw [he]; exact eo
  have hw : writesKernel tr.osc = true := by unfold writesKernel; rw [he]; rfl
  obtain ⟨-, -, r2, r3⟩ := rate_steady sr f w hf tr.osc hst
  obtain ⟨f1, f2, f3, f4, -, -, -⟩ := convolute_fields blockSize tr.osc
  refine ⟨rampsRest_convolute blockSize f w _ hr, f4.trans hs, ?_, ?_, ?_, et, ?_⟩
  · show (convolute blockSize tr.osc).mOscState = _
    rw [f1, hph]
    cases p
    · rw [r3 he ep]; rfl
    · rw [r2 he ep]; rfl
  · show (convolute blockSize tr.osc).mSyncState = _
    rw [f2, he]; exact ey
  · show (convolute blockSize tr.osc).mPolarity = _
    rw [f3]; unfold polarityAfterSync; rw [he, ep]; rfl
  · show risingPhases (tr.edges ++ edgeOf tr.ticks tr.osc) = _
    rw [risingPhases_append, ee]
    unfold edgeOf
    rw [hw, if_pos rfl, ep, hph, et]
    cases p <;> simp [risingPhases]

/-- A recorded call of `convolute` with a sync: the sync phase moves by the
sync period, the oscillator phase restarts from the old sync phase, the
polarity becomes true, and a positive edge enters the record when the polarity
was false. -/
theorem convoluteT_withsync [FloorRing α] (blockSize : Nat) (sr f w : α) (hf : 0 < f)
    (o y : Int) (p : Bool) (t : Nat) (rs : List Int) (tr : Traced α)
    (h : runAt sr f w o y p t rs tr) (hyes : y < o) :
    runAt sr f w (wrap64 (y + stepAfterSync sr f w)) (wrap64 (y + syncPeriod sr f)) true t
      (rs ++ (if p then [] else [y + (t : Int) * kLarge])) (convoluteT blockSize tr) := by
  obtain ⟨hr, hs, eo, ey, ep, et, ee⟩ := h
  have hst : Steady sr f w tr.osc := ⟨hs, hr.2.1.1, hr.2.2.1⟩
  have he : syncEvent tr.osc = true := by
    unfold syncEvent; rw [eo, ey]; exact decide_eq_true hyes
  have hph : eventPhase tr.osc = y := by unfold eventPhase; rw [he]; exact ey
  have hw : writesKernel tr.osc = !p := by unfold writesKernel; rw [he, ep]; rfl
  obtain ⟨r0, r1, -, -⟩ := rate_steady sr f w hf tr.osc hst
  obtain ⟨f1, f2, f3, f4, -, -, -⟩ := convolute_fields blockSize tr.osc
  refine ⟨rampsRest_convolute blockSize f w _ hr, f4.trans hs, ?_, ?_, ?_, et, ?_⟩
  · show (convolute blockSize tr.osc).mOscState = _
    rw [f1, hph, r1 he]
  · show (convolute blockSize tr.osc).mSyncState = _
    rw [f2, he, if_pos rfl, ey, r0]
  · show (convolute blockSize tr.osc).mPolarity = _
    rw [f3]; unfold polarityAfterSync; rw [he]; rfl
  · show risingPhases (tr.edges ++ edgeOf tr.ticks tr.osc) = _
    rw [risingPhases_append, ee]
    unfold edgeOf
    rw [hw, ep, hph, et]
    cases p <;> simp [risingPhases]

theorem whileOscStateT_step [FloorRing α] (blockSize : Nat) (n : Nat) (tr : Traced α)
    (h : tr.osc.mOscState < 0) :
    whileOscStateT blockSize (n + 1) tr = whileOscStateT blockSize n (convoluteT blockSize tr) := by
  rw [whileOscStateT, if_pos h]

theorem whileSyncStateT_step [FloorRing α] (blockSize : Nat) (n : Nat) (tr : Traced α)
    (h : tr.osc.mSyncState < 0) :
    whileSyncStateT blockSize (n + 1) tr =
      whileSyncStateT blockSize n (convoluteT blockSize tr) := by
  rw [whileSyncStateT, if_pos h]

/-- A sample in which the oscillator phase runs out while the polarity is
true, where the step after a negative edge does not fit 64 bits: one call of
`convolute`, a negative edge, the phase wraps around. -/
theorem fall_sample [FloorRing α] (blockSize fuel k : Nat) (sr f w : α) (hf : 0 < f)
    (hFall : stepFall sr f w = -2 ^ 63) (o y : Int) (t : Nat) (rs : List Int) (tr : Traced α)
    (block : Nat → α) (h : runAt sr f w o y true t rs tr) (ho : 0 ≤ o) (ho2 : o < kLarge)
    (hy : kLarge ≤ y) (hy2 : y < 2 ^ 63) (hfuel : 1 ≤ fuel) :
    ∃ r, runSampleT blockSize fuel k tr block = some r ∧
      runAt sr f w (o - kLarge + 2 ^ 63) (y - kLarge) false (t + 1) rs r.1 := by
  have hK : kLarge = 1099511627776 := rfl
  obtain ⟨n, rfl⟩ : ∃ n, fuel = n + 1 := ⟨fuel - 1, by omega⟩
  have g1 := tick_runAt sr f w o y true t rs tr h ho (by omega) (by omega) hy2
  have h1 := whileSyncStateT_done blockSize
    { tr with osc := tick tr.osc, ticks := tr.ticks + 1 }
    (by rw [g1.2.2.2.1]; omega) (n + 1)
  have g2 := convoluteT_nosync blockSize sr f w hf _ _ true _ rs _ g1 (by omega)
  simp only [if_true, List.append_nil, Bool.not_true] at g2
  have ew : wrap64 (o - kLarge + stepFall sr f w) = o - kLarge + 2 ^ 63 := by
    rw [hFall]; unfold wrap64; omega
  rw [ew] at g2
  have h2 : whileOscStateT blockSize (n + 1)
      { tr with osc := tick tr.osc, ticks := tr.ticks + 1 } =
      some (convoluteT blockSize { tr with osc := tick tr.osc, ticks := tr.ticks + 1 }) := by
    rw [whileOscStateT_step blockSize n _ (by rw [g1.2.2.1]; omega)]
    exact whileOscStateT_done blockSize _ (by rw [g2.2.2.1]; omega) n
  exact ⟨_, runSampleT_of blockSize (n + 1) k tr _ _ block h1 h2,
    runAt_emitSample blockSize k sr f w _ _ false _ rs _ block g2⟩

/-- A sample in which the sync phase runs out while the polarity is false,
where the sync period does not fit 64 bits: one call of `convolute`, a positive
edge at the sync phase, and the sync phase wraps around. -/
theorem sync_sample [FloorRing α] (blockSize fuel k : Nat) (sr f w : α) (hf : 0 < f)
    (hP : syncPeriod sr f = -2 ^ 63) (hs1 : kLarge ≤ stepAfterSync sr f w)
    (hs2 : stepAfterSync sr f w < 2 ^ 62) (o y : Int) (t : Nat) (rs : List Int)
    (tr : Traced α) (block : Nat → α) (h : runAt sr f w o y false t rs tr) (hy : 0 ≤ y)
    (hy2 : y < kLarge) (ho : y < o) (ho2 : o < 2 ^ 63) (hfuel : 1 ≤ fuel) :
    ∃ r, runSampleT blockSize fuel k tr block = some r ∧
      runAt sr f w (y - kLarge + stepAfterSync sr f w) (y - kLarge + 2 ^ 63) true (t + 1)
        (rs ++ [y + (t : Int) * kLarge]) r.1 := by
  have hK : kLarge = 1099511627776 := rfl
  obtain ⟨n, rfl⟩ : ∃ n, fuel = n + 1 := ⟨fuel - 1, by omega⟩
  have g1 := tick_runAt sr f w o y false t rs tr h (by omega) ho2 hy (by omega)
  have g2 := convoluteT_withsync blockSize sr f w hf _ _ false _ rs _ g1 (by omega)
  simp only [Bool.false_eq_true, if_false] at g2
  have ew1 : wrap64 (y - kLarge + stepAfterSync sr f w) = y - kLarge + stepAfterSync sr f w :=
    wrap64_eq _ (by omega) (by omega)
  have ew2 : wrap64 (y - kLarge + syncPeriod sr f) = y - kLarge + 2 ^ 63 := by
    rw [hP]; unfold wrap64; omega
  have ee : y - kLarge + ((t + 1 : Nat) : Int) * kLarge = y + (t : Int) * kLarge := by
    push_cast; ring
  rw [ew1, ew2, ee] at g2
  have h1 : whileSyncStateT blockSize (n + 1)
      { tr with osc := tick tr.osc, ticks := tr.ticks + 1 } =
      some (convoluteT blockSize { tr with osc := tick tr.osc, ticks := tr.ticks + 1 }) := by
    rw [whileSyncStateT_step blockSize n _ (by rw [g1.2.2.2.1]; omega)]
    exact whileSyncStateT_done blockSize _ (by rw [g2.2.2.2.1]; omega) n
  have h2 := whileOscStateT_done blockSize
    (convoluteT blockSize { tr with osc := tick tr.osc, ticks := tr.ticks + 1 })
    (by rw [g2.2.2.1]; omega) (n + 1)
  exact ⟨_, runSampleT_of blockSize (n + 1) k tr _ _ block h1 h2,
    runAt_emitSample blockSize k sr f w _ _ true _ _ _ block g2⟩

/-- The first sample after the priming, where neither the step after a
positive edge nor the sync period fits 64 bits: a positive edge at the start of
the run, whose step wraps the oscillator phase around, then a sync without an
edge, whose period wraps the sync phase around. -/
theorem start_sample [FloorRing α] (blockSize fuel k : Nat) (sr f w : α) (hf : 0 < f)
    (hRise : stepRise sr f w = -2 ^ 63) (hP : syncPeriod sr f = -2 ^ 63)
    (hs1 : kLarge ≤ stepAfterSync sr f w) (hs2 : stepAfterSync sr f w < 2 ^ 62)
    (rs : List Int) (tr : Traced α) (block : Nat → α) (h : runAt sr f w 0 0 false 0 rs tr)
    (hfuel : 2 ≤ fuel) :
    ∃ r, runSampleT blockSize fuel k tr block = some r ∧
      runAt sr f w (stepAfterSync sr f w - kLarge) (2 ^ 63 - kLarge) true 1 (rs ++ [0]) r.1 := by
  have hK : kLarge = 1099511627776 := rfl
  obtain ⟨n, rfl⟩ : ∃ n, fuel = n + 2 := ⟨fuel - 2, by omega⟩
  have g1 := tick_runAt sr f w 0 0 false 0 rs tr h le_rfl (by norm_num) le_rfl (by norm_num)
  have g2 := convoluteT_nosync blockSize sr f w hf _ _ false _ rs _ g1 (by omega)
  simp only [Bool.false_eq_true, if_false, Bool.not_false] at g2
  have ew : wrap64 (0 - kLarge + stepRise sr f w) = 2 ^ 63 - kLarge := by
    rw [hRise]; unfold wrap64; omega
  have ee : (0 : Int) - kLarge + ((0 + 1 : Nat) : Int) * kLarge = 0 := by push_cast; ring
  rw [ew, ee] at g2
  have g3 := convoluteT_withsync blockSize sr f w hf _ _ true _ _ _ g2 (by omega)
  simp only [if_true, List.append_nil] at g3
  have ew1 : wrap64 (0 - kLarge + stepAfterSync sr f w) = stepAfterSync sr f w - kLarge := by
    rw [wrap64_eq _ (by omega) (by omega)]; ring
  have ew2 : wrap64 (0 - kLarge + syncPeriod sr f) = 2 ^ 63 - kLarge := by
    rw [hP]; unfold wrap64; omega
  rw [ew1, ew2] at g3
  have h1 : whileSyncStateT blockSize (n + 2)
      { tr with osc := tick tr.osc, ticks := tr.ticks + 1 } =
      some (convoluteT blockSize
        (convoluteT blockSize { tr with osc := tick tr.osc, ticks := tr.ticks + 1 })) := by
    rw [whileSyncStateT_step blockSize (n + 1) _ (by rw [g1.2.2.2.1]; omega),
      whileSyncStateT_step blockSize n _ (by rw [g2.2.2.2.1]; omega)]
    exact whileSyncStateT_done blockSize _ (by rw [g3.2.2.2.1]; omega) n
  have h2 := whileOscStateT_done blockSize
    (convoluteT blockSize
      (convoluteT blockSize { tr with osc := tick tr.osc, ticks := tr.ticks + 1 }))
    (by rw [g3.2.2.1]; omega) (n + 2)
  exact ⟨_, runSampleT_of blockSize (n + 2) k tr _ _ block h1 h2,
    runAt_emitSample blockSize k sr f w _ _ true _ _ _ block g3⟩

end PulseOscillator

end GenVA

namespace GenVA

namespace PulseOscillator

variable {α : Type} [LinearOrderedField α]

theorem runLoopT_succ [FloorRing α] (blockSize fuel n k : Nat) (tr : Traced α)
    (block : Nat → α) :
    runLoopT blockSize fuel (n + 1) k tr block =
      if k < blockSize then
        (runSampleT blockSize fuel k tr block).bind fun r =>
          runLoopT blockSize fuel n (k + 1) r.1 r.2
      else some (tr, block) := rfl

theorem runLoopT_one [FloorRing α] (blockSize fuel k : Nat) (tr : Traced α) (block : Nat → α)
    (hk : k < blockSize) :
    runLoopT blockSize fuel 1 k tr block = runSampleT blockSize fuel k tr block := by
  show runLoopT blockSize fuel (0 + 1) k tr block = _
  rw [runLoopT_succ, if_pos hk]
  cases runSampleT blockSize fuel k tr block <;> rfl

/-- The sample loop composes. -/
theorem runLoopT_add [FloorRing α] (blockSize fuel : Nat) (b : Nat) :
    ∀ (a k : Nat) (tr : Traced α) (block : Nat → α), k + a ≤ blockSize →
      runLoopT blockSize fuel (a + b) k tr block =
        (runLoopT blockSize fuel a k tr block).bind fun r =>
          runLoopT blockSize fuel b (k + a) r.1 r.2 := by
  intro a
  induction a with
  | zero =>
    intro k tr block _
    rw [Nat.zero_add]
    rfl
  | succ a ih =>
    intro k tr block hk
    have e : a + 1 + b = a + b + 1 := by omega
    rw [e, runLoopT_succ, runLoopT_succ, if_pos (by omega), if_pos (by omega)]
    cases runSampleT blockSize fuel k tr block with
    | none => rfl
    | some r1 =>
      simp only [Option.some_bind]
      rw [ih (k + 1) r1.1 r1.2 (by omega)]
      have e2 : k + 1 + a = k + (a + 1) := by omega
      rw [e2]

/-- A block of four samples whose last sample is the one in which the
oscillator phase runs out. -/
theorem fall_block [FloorRing α] (fuel : Nat) (sr f w sy L : α) (hf : 0 < f)
    (hFall : stepFall sr f w = -2 ^ 63) (o y : Int) (t : Nat) (rs : List Int) (tr : Traced α)
    (block : Nat → α) (h : runAt sr f w o y true t rs tr) (ho : 3 * kLarge ≤ o)
    (ho2 : o < 4 * kLarge) (hy : 4 * kLarge ≤ y) (hy2 : y < 2 ^ 63) (hfuel : 1 ≤ fuel) :
    ∃ tr', runBlocksT 4 fuel f w sy L block 1 tr = some tr' ∧
      runAt sr f w (o - 4 * kLarge + 2 ^ 63) (y - 4 * kLarge) false (t + 4) rs tr' := by
  have hK : kLarge = 1099511627776 := rfl
  have g0 := runAt_setParams 4 sr f w sy L o y true t rs tr h
  obtain ⟨r1, e1, g1⟩ := idle_loop 4 fuel sr f w true rs 3 0 o y t _ block (by omega) g0
    (by push_cast; omega) (by omega) (by push_cast; omega) hy2
  obtain ⟨r2, e2, g2⟩ := fall_sample 4 fuel 3 sr f w hf hFall _ _ _ rs r1.1 r1.2 g1
    (by push_cast; omega) (by push_cast; omega) (by push_cast; omega) (by push_cast; omega) hfuel
  refine ⟨r2.1, ?_, ?_⟩
  · show (runT 4 fuel { tr with osc := setParams 4 tr.osc f w sy L } block).map Prod.fst = _
    rw [runT_later 4 fuel sr f w sy L o y true t rs tr block h]
    show (runLoopT 4 fuel (3 + 1) 0 _ block).map Prod.fst = _
    rw [runLoopT_add 4 fuel 1 3 0 _ block (by omega), e1, Option.some_bind,
      runLoopT_one 4 fuel (0 + 3) _ _ (by omega)]
    show (runSampleT 4 fuel 3 r1.1 r1.2).map Prod.fst = _
    rw [e2]; rfl
  · have a1 : o - ((3 : Nat) : Int) * kLarge - kLarge + 2 ^ 63 = o - 4 * kLarge + 2 ^ 63 := by
      push_cast; ring
    have a2 : y - ((3 : Nat) : Int) * kLarge - kLarge = y - 4 * kLarge := by push_cast; ring
    rw [a1, a2] at g2
    exact g2

/-- A block of four samples whose first sample is the one in which the sync
phase runs out. -/
theorem sync_block [FloorRing α] (fuel : Nat) (sr f w sy L : α) (hf : 0 < f)
    (hP : syncPeriod sr f = -2 ^ 63) (hs1 : 4 * kLarge ≤ stepAfterSync sr f w)
    (hs2 : stepAfterSync sr f w < 2 ^ 62) (o y : Int) (t : Nat) (rs : List Int)
    (tr : Traced α) (block : Nat → α) (h : runAt sr f w o y false t rs tr) (hy : 0 ≤ y)
    (hy2 : y < kLarge) (ho : y < o) (ho2 : o < 2 ^ 63) (hfuel : 1 ≤ fuel) :
    ∃ tr', runBlocksT 4 fuel f w sy L block 1 tr = some tr' ∧
      runAt sr f w (y + stepAfterSync sr f w - 4 * kLarge) (y + 2 ^ 63 - 4 * kLarge) true
        (t + 4) (rs ++ [y + (t : Int) * kLarge]) tr' := by
  have hK : kLarge = 1099511627776 := rfl
  have g0 := runAt_setParams 4 sr f w sy L o y false t rs tr h
  obtain ⟨r1, e1, g1⟩ := sync_sample 4 fuel 0 sr f w hf hP (by omega) hs2 o y t rs _ block g0
    hy hy2 ho ho2 hfuel
  obtain ⟨r2, e2, g2⟩ := idle_loop 4 fuel sr f w true _ 3 1 _ _ _ r1.1 r1.2 (by omega) g1
    (by push_cast; omega) (by omega) (by push_cast; omega) (by omega)
  refine ⟨r2.1, ?_, ?_⟩
  · show (runT 4 fuel { tr with osc := setParams 4 tr.osc f w sy L } block).map Prod.fst = _
    rw [runT_later 4 fuel sr f w sy L o y false t rs tr block h]
    show (runLoopT 4 fuel (1 + 3) 0 _ block).map Prod.fst = _
    rw [runLoopT_add 4 fuel 3 1 0 _ block (by omega), runLoopT_one 4 fuel 0 _ _ (by omega), e1,
      Option.some_bind]
    show (runLoopT 4 fuel 3 1 r1.1 r1.2).map Prod.fst = _
    rw [e2]; rfl
  · have a1 : y - kLarge + stepAfterSync sr f w - ((3 : Nat) : Int) * kLarge =
        y + stepAfterSync sr f w - 4 * kLarge := by push_cast; ring
    have a2 : y - kLarge + 2 ^ 63 - ((3 : Nat) : Int) * kLarge = y + 2 ^ 63 - 4 * kLarge := by
      push_cast; ring
    have a3 : t + 1 + 3 = t + 4 := by omega
    rw [a1, a2, a3] at g2
    exact g2

/-- The first block of four samples of a freshly initialised oscillator, where
neither the step after a positive edge nor the sync period fits 64 bits. -/
theorem start_block [FloorRing α] (fuel : Nat) (sr f w sy L : α) (hf : 0 < f)
    (hRise : stepRise sr f w = -2 ^ 63) (hP : syncPeriod sr f = -2 ^ 63)
    (hs1 : 4 * kLarge ≤ stepAfterSync sr f w) (hs2 : stepAfterSync sr f w < 2 ^ 62)
    (tbl : SincTable α) (block : Nat → α) (hfuel : 2 ≤ fuel) :
    ∃ tr', runBlocksT 4 fuel f w sy L block 1
        { osc := initialise (unprimed tbl) tbl sr, ticks := 0, edges := [] } = some tr' ∧
      runAt sr f w (stepAfterSync sr f w - 4 * kLarge) (2 ^ 63 - 4 * kLarge) true 4 [0, 0]
        tr' := by
  have hK : kLarge = 1099511627776 := rfl
  obtain ⟨p1, p2, p3, p4, p5, p6, p7, p8, p9⟩ := prime_fields 4
    (setParams 4 (initialise (unprimed tbl) tbl sr) f w sy L) rfl rfl
  have g0 : runAt sr f w 0 0 false 0 [0]
      (primeT 4 ⟨setParams 4 (initialise (unprimed tbl) tbl sr) f w sy L, 0, []⟩) := by
    refine ⟨⟨p4, ?_, ?_⟩, p5, p1, p2, p3, rfl, ?_⟩
    · show lipolHeld f (prime 4 (setParams 4 (initialise (unprimed tbl) tbl sr) f w sy
        L)).mFreqLerp
      rw [p6]; exact lipolHeld_newValue 4 f _ (Or.inl rfl)
    · show lipolHeld w (prime 4 (setParams 4 (initialise (unprimed tbl) tbl sr) f w sy
        L)).mWidthLerp
      rw [p7]; exact lipolHeld_newValue 4 w _ (Or.inl rfl)
    · show risingPhases ([] ++ edgeOf 0
        { setParams 4 (initialise (unprimed tbl) tbl sr) f w sy L with mFirstRun := false }) = [0]
      unfold edgeOf
      rw [p8, if_pos rfl, p9]
      simp [risingPhases, setParams, initialise]
  obtain ⟨r1, e1, g1⟩ := start_sample 4 fuel 0 sr f w hf hRise hP (by omega) hs2 _ _ block g0
    hfuel
  obtain ⟨r2, e2, g2⟩ := idle_loop 4 fuel sr f w true _ 3 1 _ _ _ r1.1 r1.2 (by omega) g1
    (by push_cast; omega) (by omega) (by push_cast; omega) (by omega)
  refine ⟨r2.1, ?_, ?_⟩
  · show (runT 4 fuel ⟨setParams 4 (initialise (unprimed tbl) tbl sr) f w sy L, 0, []⟩
      block).map Prod.fst = _
    have hrun : runT 4 fuel ⟨setParams 4 (initialise (unprimed tbl) tbl sr) f w sy L, 0, []⟩
        block =
        runLoopT 4 fuel (1 + 3) 0
          (primeT 4 ⟨setParams 4 (initialise (unprimed tbl) tbl sr) f w sy L, 0, []⟩)
          block := rfl
    rw [hrun, runLoopT_add 4 fuel 3 1 0 _ block (by omega), runLoopT_one 4 fuel 0 _ _ (by omega),
      e1, Option.some_bind]
    show (runLoopT 4 fuel 3 1 r1.1 r1.2).map Prod.fst = _
    rw [e2]; rfl
  · have a1 : stepAfterSync sr f w - kLarge - ((3 : Nat) : Int) * kLarge =
        stepAfterSync sr f w - 4 * kLarge := by push_cast; ring
    have a2 : (2 : Int) ^ 63 - kLarge - ((3 : Nat) : Int) * kLarge = 2 ^ 63 - 4 * kLarge := by
      push_cast; ring
    rw [a1, a2] at g2
    exact g2

/-- One round of the oscillator where no step but the one after a sync fits 64
bits, in blocks of four samples: `3001` blocks without a call of `convolute`,
the block with the negative edge, `2094149` blocks without a call, and the
block with the sync and its positive edge, `2^23` samples after the one
before. -/
theorem overflow_cycle [FloorRing α] (fuel : Nat) (sr f w sy L : α) (hf : 0 < f)
    (hFall : stepFall sr f w = -2 ^ 63) (hP : syncPeriod sr f = -2 ^ 63)
    (hs1 : 12011 * kLarge ≤ stepAfterSync sr f w) (hs2 : stepAfterSync sr f w < 12012 * kLarge)
    (block : Nat → α) (t : Nat) (rs : List Int) (tr : Traced α) (hfuel : 1 ≤ fuel)
    (h : runAt sr f w (stepAfterSync sr f w - 4 * kLarge) (2 ^ 63 - 4 * kLarge) true t rs tr) :
    ∃ tr', runBlocksT 4 fuel f w sy L block (3001 + 1 + 2094149 + 1) tr = some tr' ∧
      runAt sr f w (stepAfterSync sr f w - 4 * kLarge) (2 ^ 63 - 4 * kLarge) true
        (t + 8388608) (rs ++ [((t : Int) + 8388604) * kLarge]) tr' := by
  have hK : kLarge = 1099511627776 := rfl
  obtain ⟨t1, e1, g1⟩ := idle_blocks 4 fuel sr f w sy L true rs block 3001 _ _ t tr h
    (by push_cast; omega) (by omega) (by push_cast; omega) (by omega)
  obtain ⟨t2, e2, g2⟩ := fall_block fuel sr f w sy L hf hFall _ _ _ rs t1 block g1
    (by push_cast; omega) (by push_cast; omega) (by push_cast; omega) (by push_cast; omega) hfuel
  obtain ⟨t3, e3, g3⟩ := idle_blocks 4 fuel sr f w sy L false rs block 2094149 _ _ _ t2 g2
    (by push_cast; omega) (by push_cast; omega) (by push_cast; omega) (by push_cast; omega)
  obtain ⟨t4, e4, g4⟩ := sync_block fuel sr f w sy L hf hP (by omega) (by omega) _ _ _ rs t3
    block g3 (by push_cast; omega) (by push_cast; omega) (by push_cast; omega)
    (by push_cast; omega) hfuel
  refine ⟨t4, ?_, ?_⟩
  · rw [runBlocksT_add, runBlocksT_add, runBlocksT_add, e1, Option.some_bind, e2,
      Option.some_bind, e3, Option.some_bind, e4]
  · obtain ⟨hr, hs, eo, ey, ep, et, ee⟩ := g4
    refine ⟨hr, hs, ?_, ?_, ep, ?_, ?_⟩
    · rw [eo]; push_cast; omega
    · rw [ey]; push_cast; omega
    · exact et.trans (by omega)
    · rw [ee]
      have a5 : (2 : Int) ^ 63 - 4 * kLarge - ((3001 * 4 : Nat) : Int) * kLarge - 4 * kLarge -
          ((2094149 * 4 : Nat) : Int) * kLarge +
          ((t + 3001 * 4 + 4 + 2094149 * 4 : Nat) : Int) * kLarge =
          ((t : Int) + 8388604) * kLarge := by
        rw [hK]; push_cast; omega
      rw [a5]

end PulseOscillator

end GenVA

namespace GenVA

namespace PulseOscillator

variable {α : Type} [LinearOrderedField α]

/-- Between two samples of the steady cycle the record holds the positive
edges of a steady run, as many as fit the samples run so far. -/
theorem betweenSamples_record [FloorRing α] (sr f w : α) (hf : 0 < f) (hsr : 1 ≤ sr / f) (hT : sr / f ≤ 2 ^ 22)
    (tr : Traced α) (h : betweenSamples sr f w tr) :
    ∃ M : Nat, risingPhases tr.edges = steadyRising sr f w M ∧
      (tr.ticks : Int) * kLarge ≤ ((M : Int) + 1) * syncPeriod sr f ∧
      ((M : Int) - 1) * syncPeriod sr f < (tr.ticks : Int) * kLarge := by
  obtain ⟨-, -, -, -, -, c6, -, -⟩ := cycle_steps sr f w hf hsr hT
  have hK : (0 : Int) < kLarge := by unfold kLarge; decide
  obtain ⟨⟨S, m, hc, hlo, hhi⟩, -⟩ := h
  rcases hc with ⟨-, ha, ht, hr⟩ | ⟨-, ha, ht, hr⟩ | ⟨-, ha, ht, hr⟩
  · have hy := ha.2.2.2
    exact ⟨m, hr, by nlinarith, by nlinarith⟩
  · have hy := ha.2.2.2
    exact ⟨m, hr, by nlinarith, by nlinarith⟩
  · have hy := ha.2.2.2
    refine ⟨m + 1, hr, ?_, ?_⟩
    · push_cast; nlinarith
    · push_cast; nlinarith

/-- C14 as stated fails: at 48 kHz and the constant frequency 0.001 Hz, for
which `sr / f` is `4.8 * 10^7`, at least one sample, the products
`2^40 * t` and `2^40 * t * width` of `convolute` do not fit 64 bits and the
casts give `INT64_MIN`. A freshly initialised oscillator driven for
`1 + 2^21 + 2^21` blocks of four samples returns from every block, and the
positive edges it has written are the two at phase `0` that start it, one at
phase `2^63` and one at phase `2^64`: consecutive positive edges are `2^63`
phase units, `2^23` samples, apart, and not `2^40 * sr / f`, which is
`2^40 * 4.8 * 10^7`, more than five times as much. -/
theorem pulse_period_overflows :
    (0 : ℚ) < 1 / 1000 ∧ (1 : ℚ) ≤ 48000 / (1 / 1000) ∧
    ∃ tr : Traced ℚ,
      runBlocksT 4 3 (1 / 1000) (1 / 2) 0 1 (fun _ => 0) (1 + 2097152 + 2097152)
        ⟨initialise (unprimed exampleVAConfig.sSincTable) exampleVAConfig.sSincTable 48000, 0,
          []⟩ = some tr ∧
      runBlocks 4 3 (1 / 1000) (1 / 2) 0 1 (fun _ => 0) (1 + 2097152 + 2097152)
        (initialise (unprimed exampleVAConfig.sSincTable) exampleVAConfig.sSincTable 48000) =
        some tr.osc ∧
      tr.ticks = 4 + 8388608 + 8388608 ∧
      risingPhases tr.edges = [0, 0, 2 ^ 63, 2 ^ 64] ∧
      (2 : ℚ) ^ 63 + 2 ^ 40 < 2 ^ 40 * (48000 / (1 / 1000)) := by
  have hK : kLarge = 1099511627776 := rfl
  have hRise : stepRise (48000 : ℚ) (1 / 1000) (1 / 2) = -2 ^ 63 := by
    unfold stepRise
    apply toInt64_overflow
    unfold duty0 stdMax stdClamp
    norm_num
  have hFall : stepFall (48000 : ℚ) (1 / 1000) (1 / 2) = -2 ^ 63 := by
    unfold stepFall
    apply toInt64_overflow
    unfold duty0 stdMax stdClamp
    norm_num
  have hP : syncPeriod (48000 : ℚ) (1 / 1000) = -2 ^ 63 := by
    unfold syncPeriod
    apply toInt64_overflow
    unfold stdMax
    norm_num
  have hfl : stepAfterSync (48000 : ℚ) (1 / 1000) (1 / 2) =
      ⌊(65536.0 : ℚ) * 16777216.0 * stdMax (0.5 : ℚ) (48000 / (1 / 1000 + 1)) *
        duty0 (1 / 2)⌋ := by
    unfold stepAfterSync
    exact toInt64_nonneg _ (by unfold duty0 stdMax stdClamp; norm_num)
      (by unfold duty0 stdMax stdClamp; norm_num)
  have hs1 : 12011 * kLarge ≤ stepAfterSync (48000 : ℚ) (1 / 1000) (1 / 2) := by
    rw [hfl, Int.le_floor, hK]
    unfold duty0 stdMax stdClamp
    norm_num
  have hs2 : stepAfterSync (48000 : ℚ) (1 / 1000) (1 / 2) < 12012 * kLarge := by
    rw [hfl, Int.floor_lt, hK]
    unfold duty0 stdMax stdClamp
    norm_num
  obtain ⟨t0, e0, g0⟩ := start_block 3 (48000 : ℚ) (1 / 1000) (1 / 2) 0 1 (by norm_num) hRise hP
    (by omega) (by omega) exampleVAConfig.sSincTable (fun _ => 0) (by norm_num)
  obtain ⟨t1, e1, g1⟩ := overflow_cycle 3 (48000 : ℚ) (1 / 1000) (1 / 2) 0 1 (by norm_num) hFall
    hP hs1 hs2 (fun _ => 0) 4 _ t0 (by norm_num) g0
  obtain ⟨t2, e2, g2⟩ := overflow_cycle 3 (48000 : ℚ) (1 / 1000) (1 / 2) 0 1 (by norm_num) hFall
    hP hs1 hs2 (fun _ => 0) (4 + 8388608) _ t1 (by norm_num) g1
  have hN : (2097152 : Nat) = 3001 + 1 + 2094149 + 1 := by norm_num
  have hrun : runBlocksT 4 3 (1 / 1000) (1 / 2) 0 1 (fun _ => (0 : ℚ)) (1 + 2097152 + 2097152)
      ⟨initialise (unprimed exampleVAConfig.sSincTable) exampleVAConfig.sSincTable 48000, 0,
        []⟩ = some t2 := by
    rw [hN, runBlocksT_add, runBlocksT_add, e0, Option.some_bind, e1, Option.some_bind, e2]
  refine ⟨by norm_num, by norm_num, t2, hrun, ?_, g2.2.2.2.2.2.1, ?_, by norm_num⟩
  · have hp := runBlocksT_osc 4 3 (1 / 1000 : ℚ) (1 / 2) 0 1 (fun _ => 0)
      (1 + 2097152 + 2097152)
      ⟨initialise (unprimed exampleVAConfig.sSincTable) exampleVAConfig.sSincTable 48000, 0,
        []⟩
    rw [hrun] at hp
    exact hp.symm
  · rw [g2.2.2.2.2.2.2, hK]
    norm_num

/-- C14, amended: a freshly initialised pulse oscillator driven for `n ≥ 1`
blocks at one frequency `f > 0` with `1 ≤ sr / f ≤ 2^22` and one width. Every
block returns, with three calls of `convolute` allowed to each `while` loop.
The positive edges that `convolute` has written are the two at phase `0` that
start the oscillator and then `M` edges exactly `syncPeriod sr f` phase units
apart, where `M` is the number that fits the `n * blockSize` samples run. The
period `syncPeriod sr f` is at most `2 ^ 40 * (sr / f)` and less than one phase
unit below it, so the spacing is within one sample (`2 ^ 40` units) of
`2 ^ 40 * sr / f`. The edges of the record are the kernels in `mOscBuffer`:
every call of `convolute` adds to the record exactly the kernels it adds into
the buffer, each with the recorded polarity at the recorded phase; the priming
does the same and then scales the buffer by `-0.5`. -/
theorem pulse_edges_periodic [FloorRing α] (blockSize fuel n : Nat) (sr f w sy L : α)
    (tbl : SincTable α) (block : Nat → α) (hf : 0 < f) (hsr : 1 ≤ sr / f)
    (hT : sr / f ≤ 2 ^ 22) (hbs : 1 ≤ blockSize) (hfuel : 3 ≤ fuel) (hn : 1 ≤ n) :
    (∃ (tr : Traced α) (M : Nat),
      runBlocksT blockSize fuel f w sy L block n
        { osc := initialise (unprimed tbl) tbl sr, ticks := 0, edges := [] } = some tr ∧
      runBlocks blockSize fuel f w sy L block n (initialise (unprimed tbl) tbl sr) =
        some tr.osc ∧
      tr.ticks = n * blockSize ∧
      risingPhases tr.edges = steadyRising sr f w M ∧
      ((n * blockSize : Nat) : Int) * kLarge ≤ ((M : Int) + 1) * syncPeriod sr f ∧
      ((M : Int) - 1) * syncPeriod sr f < ((n * blockSize : Nat) : Int) * kLarge ∧
      (∀ (i : Nat) (a b : Int), (risingPhases tr.edges)[i + 2]? = some a →
        (risingPhases tr.edges)[i + 3]? = some b → b - a = syncPeriod sr f) ∧
      ((syncPeriod sr f : Int) : α) ≤ 2 ^ 40 * (sr / f) ∧
      2 ^ 40 * (sr / f) - 1 < ((syncPeriod sr f : Int) : α)) ∧
    (∀ t : Traced α,
      (convoluteT blockSize t).edges = t.edges ++ edgeOf t.ticks t.osc ∧
      (convoluteT blockSize t).osc.mOscBuffer =
        (edgeOf t.ticks t.osc).foldl (edgeKernel blockSize t.osc t.ticks) t.osc.mOscBuffer) ∧
    (∀ t : Traced α,
      (primeT blockSize t).edges = t.edges ++ edgeOf t.ticks { t.osc with mFirstRun := false } ∧
      (primeT blockSize t).osc.mOscBuffer = fun i =>
        if i < blockSize then
          ((edgeOf t.ticks { t.osc with mFirstRun := false }).foldl
            (edgeKernel blockSize { t.osc with mFirstRun := false } t.ticks)
            t.osc.mOscBuffer) i * (-0.5)
        else
          ((edgeOf t.ticks { t.osc with mFirstRun := false }).foldl
            (edgeKernel blockSize { t.osc with mFirstRun := false } t.ticks)
            t.osc.mOscBuffer) i) := by
  refine ⟨?_, fun t => convoluteT_buffer blockSize t, fun t => primeT_buffer blockSize t⟩
  obtain ⟨k, rfl⟩ : ∃ k, n = k + 1 := ⟨n - 1, by omega⟩
  obtain ⟨tr, e, h, t⟩ := runBlocksT_steady blockSize sr f w sy L hf hsr hT hbs fuel hfuel tbl
    block k
  obtain ⟨M, r1, r2, r3⟩ := betweenSamples_record sr f w hf hsr hT tr h
  obtain ⟨-, -, -, -, -, -, c7, c8, -⟩ := cycle_steps sr f w hf hsr hT
  refine ⟨tr, M, e, ?_, t, r1, by rw [← t]; exact r2, by rw [← t]; exact r3, ?_, c7, c8⟩
  · have hp := runBlocksT_osc blockSize fuel f w sy L block (k + 1)
      { osc := initialise (unprimed tbl) tbl sr, ticks := 0, edges := [] }
    rw [e] at hp
    exact hp.symm
  · intro i a b ha hb
    rw [r1] at ha hb
    exact steadyRising_spacing sr f w M i a b ha hb

/-- Witness of `pulse_edges_periodic`: 64 blocks of four samples at 48 kHz and
440 Hz, more than two periods of about 109 samples: the record holds at least
two positive edges after the two that start the oscillator. -/
theorem pulse_edges_periodic_witness :
    ((0 : ℚ) < 440 ∧ (1 : ℚ) ≤ 48000 / 440 ∧ (48000 : ℚ) / 440 ≤ 2 ^ 22) ∧
    ∃ (tr : Traced ℚ) (M : Nat),
      runBlocksT 4 3 440 (1 / 2) 0 1 (fun _ => 0) 64
        ⟨initialise (unprimed exampleVAConfig.sSincTable) exampleVAConfig.sSincTable 48000, 0,
          []⟩ = some tr ∧
      runBlocks 4 3 440 (1 / 2) 0 1 (fun _ => 0) 64
        (initialise (unprimed exampleVAConfig.sSincTable) exampleVAConfig.sSincTable 48000) =
        some tr.osc ∧
      tr.ticks = 64 * 4 ∧
      risingPhases tr.edges = steadyRising (48000 : ℚ) 440 (1 / 2) M ∧
      2 ≤ M ∧
      (∀ (i : Nat) (a b : Int), (risingPhases tr.edges)[i + 2]? = some a →
        (risingPhases tr.edges)[i + 3]? = some b → b - a = syncPeriod (48000 : ℚ) 440) ∧
      ((syncPeriod (48000 : ℚ) 440 : Int) : ℚ) ≤ 2 ^ 40 * (48000 / 440) ∧
      2 ^ 40 * ((48000 : ℚ) / 440) - 1 < ((syncPeriod (48000 : ℚ) 440 : Int) : ℚ) := by
  obtain ⟨tr, M, h1, h2, h3, h4, h5, -, h7, h8, h9⟩ :=
    (pulse_edges_periodic 4 3 64 48000 440 (1 / 2) 0 1 exampleVAConfig.sSincTable (fun _ => 0)
      (by norm_num) (by norm_num) (by norm_num) (by norm_num) (by norm_num) (by norm_num)).1
  refine ⟨⟨by norm_num, by norm_num, by norm_num⟩, tr, M, h1, h2, h3, h4, ?_, h7, h8, h9⟩
  have hK : kLarge = 1099511627776 := rfl
  have hP : syncPeriod (48000 : ℚ) 440 < 110 * kLarge := by
    have h : ((syncPeriod (48000 : ℚ) 440 : Int) : ℚ) < ((110 * kLarge : Int) : ℚ) := by
      refine lt_of_le_of_lt h8 ?_
      rw [hK]; norm_num
    exact_mod_cast h
  by_contra hM
  have hM1 : M ≤ 1 := by omega
  have hc : ((M : Int) + 1) * syncPeriod (48000 : ℚ) 440 ≤ 2 * syncPeriod (48000 : ℚ) 440 := by
    have hP0 : (0 : Int) ≤ syncPeriod (48000 : ℚ) 440 := by
      have := (cycle_steps (48000 : ℚ) 440 (1 / 2) (by norm_num) (by norm_num)
        (by norm_num)).2.2.2.2.2.1
      omega
    have hM2 : (M : Int) + 1 ≤ 2 := by omega
    exact mul_le_mul_of_nonneg_right hM2 hP0
  have h5' : ((64 * 4 : Nat) : Int) * kLarge ≤
      ((M : Int) + 1) * syncPeriod (48000 : ℚ) 440 := h5
  push_cast at h5'
  omega

end PulseOscillator

end GenVA

namespace GenVA

namespace PulseOscillator

variable {α : Type} [LinearOrderedField α]

/-- A sample of the sample loop writes the block at its own index only. -/
theorem runSampleT_frame [FloorRing α] (blockSize fuel k : Nat) (tr : Traced α)
    (block : Nat → α) (r : Traced α × (Nat → α))
    (h : runSampleT blockSize fuel k tr block = some r) (j : Nat) (hj : j ≠ k) :
    r.2 j = block j := by
  have eT : runSampleT blockSize fuel k tr block =
      (whileSyncStateT blockSize fuel { tr with osc := tick tr.osc, ticks := tr.ticks + 1 }).bind
        fun tr => (whileOscStateT blockSize fuel tr).bind fun tr =>
          some ({ tr with osc := (emitSample blockSize k tr.osc block).1 },
            (emitSample blockSize k tr.osc block).2) := rfl
  rw [eT] at h
  cases h1 : whileSyncStateT blockSize fuel { tr with osc := tick tr.osc, ticks := tr.ticks + 1 }
    with
  | none => rw [h1] at h; cases h
  | some tr2 =>
    rw [h1, Option.some_bind] at h
    cases h2 : whileOscStateT blockSize fuel tr2 with
    | none => rw [h2] at h; cases h
    | some tr3 =>
      rw [h2, Option.some_bind] at h
      cases h
      show Function.update block k _ j = block j
      exact Function.update_noteq hj _ _

/-- The sample loop entered at index `k` leaves the block below `k` alone. -/
theorem runLoopT_frame [FloorRing α] (blockSize fuel : Nat) :
    ∀ (n k : Nat) (tr : Traced α) (block : Nat → α) (r : Traced α × (Nat → α)),
      runLoopT blockSize fuel n k tr block = some r → ∀ j, j < k → r.2 j = block j := by
  intro n
  induction n with
  | zero => intro k tr block r h j _; rw [runLoopT] at h; cases h; rfl
  | succ n ih =>
    intro k tr block r h j hj
    rw [runLoopT] at h
    split_ifs at h with hk
    · cases h1 : runSampleT blockSize fuel k tr block with
      | none => rw [h1] at h; cases h
      | some r1 =>
        rw [h1, Option.some_bind] at h
        rw [ih (k + 1) r1.1 r1.2 r h j (by omega)]
        exact runSampleT_frame blockSize fuel k tr block r1 h1 j (by omega)
    · cases h; rfl

/-- The first sample of the first call of `run`, when the step after the sync
is at least one sample long: priming, one sample step, two calls of
`convolute`, and the first sample of the block is written from that state. -/
theorem runT_first_output [FloorRing α] (blockSize : Nat) (sr f w : α) (hf : 0 < f)
    (hsr : 1 ≤ sr / f) (hT : sr / f ≤ 2 ^ 22) (hbs : 1 ≤ blockSize) (fuel : Nat) (hfuel : 3 ≤ fuel)
    (hstep : kLarge ≤ stepAfterSync sr f w)
    (tr : Traced α) (block : Nat → α) (h1 : tr.osc.mFirstRun = true)
    (hF : lipolHeld f tr.osc.mFreqLerp) (hW : lipolHeld w tr.osc.mWidthLerp)
    (hs : tr.osc.samplerate = sr) (hp : tr.osc.mPolarity = false)
    (ho : tr.osc.mOscState = 0) (hy : tr.osc.mSyncState = 0)
    (ht : tr.ticks = 0) (he : tr.edges = []) :
    ∃ r, runT blockSize fuel tr block = some r ∧
      r.2 0 = (emitSample blockSize 0
        (convolute blockSize (convolute blockSize (tick (prime blockSize tr.osc)))) block).2 0 ∧
      writesKernel (tick (prime blockSize tr.osc)) = true ∧
      eventPhase (tick (prime blockSize tr.osc)) = -kLarge ∧
      writesKernel (convolute blockSize (tick (prime blockSize tr.osc))) = false := by
  obtain ⟨p1, p2, p3, p4, p5, p6, p7, p8, p9⟩ := prime_fields blockSize tr.osc ho hy
  obtain ⟨b, rfl⟩ : ∃ b, blockSize = b + 1 := ⟨blockSize - 1, by omega⟩
  obtain ⟨n, rfl⟩ : ∃ n, fuel = n + 2 := ⟨fuel - 2, by omega⟩
  have hr : rampsRest f w (primeT (b + 1) tr).osc :=
    ⟨p4, by show lipolHeld f (prime (b + 1) tr.osc).mFreqLerp; rw [p6]; exact hF,
      by show lipolHeld w (prime (b + 1) tr.osc).mWidthLerp; rw [p7]; exact hW⟩
  have hedge : risingPhases (primeT (b + 1) tr).edges = [0] := by
    show risingPhases (tr.edges ++ edgeOf tr.ticks { tr.osc with mFirstRun := false }) = [0]
    unfold edgeOf
    rw [p8, if_pos rfl, p9, he, ht]
    show risingPhases [(!tr.osc.mPolarity, _)] = [0]
    rw [hp]
    simp [risingPhases]
  obtain ⟨w1, q1, w2, hcyc, e2⟩ := start_calls (b + 1) sr f w hf hsr hT
    { primeT (b + 1) tr with osc := tick (primeT (b + 1) tr).osc,
                             ticks := (primeT (b + 1) tr).ticks + 1 }
    hr (p5.trans hs) p3
    (by show wrap64 ((prime (b + 1) tr.osc).mOscState - kLarge) = _; rw [p1]; rfl)
    (by show wrap64 ((prime (b + 1) tr.osc).mSyncState - kLarge) = _; rw [p2]; rfl)
    (by show tr.ticks + 1 = 1; rw [ht]) hedge n
  obtain ⟨c1, c2, c3, c4, c5, c6, -, -⟩ := cycle_steps sr f w hf hsr hT
  have hK : (0 : Int) < kLarge := by unfold kLarge; decide
  have y3 := hcyc.2.1.2.2.2
  have o3 := hcyc.2.1.2.2.1
  have h2 : cycling sr f w 0 (convoluteT (b + 1) (convoluteT (b + 1)
      { primeT (b + 1) tr with osc := tick (primeT (b + 1) tr).osc,
                               ticks := (primeT (b + 1) tr).ticks + 1 })) :=
    ⟨_, _, Or.inl hcyc, by rw [y3]; omega, by rw [y3]; omega⟩
  obtain ⟨r3, e3, h3, t3⟩ := sample_tail (b + 1) sr f w hf hsr hT 0 block _ h2 (n + 2) (by omega)
  rw [whileOscStateT_done (b + 1) _ (by rw [o3]; omega) (n + 2), Option.some_bind] at e3
  obtain ⟨r4, e4, h4, t4⟩ := runLoopT_steady (b + 1) sr f w hf hsr hT (n + 2) hfuel b 1 r3.1 r3.2
    (by omega) h3
  refine ⟨r4, ?_, ?_, w1, q1, w2⟩
  · unfold runT
    simp only [h1, if_true]
    rw [runLoopT, if_pos (by omega)]
    have hsample : runSampleT (b + 1) (n + 2) 0 (primeT (b + 1) tr) block = some r3 := by
      have eT : runSampleT (b + 1) (n + 2) 0 (primeT (b + 1) tr) block =
          (whileSyncStateT (b + 1) (n + 2)
            { primeT (b + 1) tr with osc := tick (primeT (b + 1) tr).osc,
                                     ticks := (primeT (b + 1) tr).ticks + 1 }).bind
            fun tr => (whileOscStateT (b + 1) (n + 2) tr).bind fun tr =>
              some ({ tr with osc := (emitSample (b + 1) 0 tr.osc block).1 },
                (emitSample (b + 1) 0 tr.osc block).2) := rfl
      rw [eT, e2, Option.some_bind,
        whileOscStateT_done (b + 1) _ (by rw [o3]; omega) (n + 2), Option.some_bind]
      exact e3
    rw [hsample, Option.some_bind]
    exact e4
  · rw [runLoopT_frame (b + 1) (n + 2) b 1 r3.1 r3.2 r4 e4 0 (by omega)]
    have := Option.some.inj e3
    rw [← this]
    rfl

end PulseOscillator

end GenVA

namespace GenVA

/-- One kernel of the example table written by `convolute` at buffer position
`0` with positive polarity adds `1` to the first buffer entry. -/
theorem kernel_example (st : PulseOscillator ℚ)
    (ht : st.localSincTable = exampleVAConfig.sSincTable) (hb : st.mBufPos = 0)
    (hw : PulseOscillator.writesKernel st = true) (hp : st.mPolarity = false) (b : ℚ)
    (h : st.mOscBuffer 0 = b) :
    (PulseOscillator.convolute 4 st).mOscBuffer 0 = b + 1 := by
  rw [(PulseOscillator.convolute_buffer 4 st).1, hw, if_pos rfl, ht, hb, hp]
  simp [PulseOscillator.kernelLoop, exampleVAConfig, Function.update, h]
  norm_num

/-- The first block of a fresh pulse oscillator of the example engine at
440 Hz: `run` returns, and the first sample is `1 / 2` times the cube of the
level handed to `setParams`, whatever the level. -/
theorem run_example_first (L : ℚ) :
    ∃ r, PulseOscillator.run 4 3
        (PulseOscillator.setParams 4
          (PulseOscillator.initialise (PulseOscillator.unprimed exampleVAConfig.sSincTable)
            exampleVAConfig.sSincTable 48000) (440.0 * 1) (1 / 2) (440.0 * 1) L)
        (fun _ => 0) = some r ∧ r.2 0 = 1 / 2 * (L * L * L) := by
  obtain ⟨r, e, hr, w1, -, w2⟩ := PulseOscillator.runT_first_output 4 (48000 : ℚ) (440.0 * 1)
    (1 / 2) (by norm_num) (by norm_num) (by norm_num) (by norm_num) 3 le_rfl
    (by rw [PulseOscillator.stepAfterSync, PulseOscillator.toInt64_nonneg _
            (by unfold PulseOscillator.duty0 stdMax stdClamp; norm_num)
            (by unfold PulseOscillator.duty0 stdMax stdClamp; norm_num)]
        unfold PulseOscillator.duty0 stdMax stdClamp PulseOscillator.kLarge
        norm_num)
    { osc := PulseOscillator.setParams 4
        (PulseOscillator.initialise (PulseOscillator.unprimed exampleVAConfig.sSincTable)
          exampleVAConfig.sSincTable 48000) (440.0 * 1) (1 / 2) (440.0 * 1) L,
      ticks := 0, edges := [] } (fun _ => 0) rfl
    (PulseOscillator.lipolHeld_newValue 4 _ _ (Or.inl rfl))
    (PulseOscillator.lipolHeld_newValue 4 _ _ (Or.inl rfl)) rfl rfl rfl rfl rfl rfl
  refine ⟨(r.1.osc, r.2), ?_, ?_⟩
  · have hp := PulseOscillator.runT_osc 4 3
      { osc := PulseOscillator.setParams 4
          (PulseOscillator.initialise (PulseOscillator.unprimed exampleVAConfig.sSincTable)
            exampleVAConfig.sSincTable 48000) (440.0 * 1) (1 / 2) (440.0 * 1) L,
        ticks := 0, edges := [] } (fun _ => 0)
    rw [e] at hp
    exact hp.symm
  · show r.2 0 = _
    rw [hr]
    generalize h0 : PulseOscillator.setParams 4
        (PulseOscillator.initialise (PulseOscillator.unprimed exampleVAConfig.sSincTable)
          exampleVAConfig.sSincTable 48000) (440.0 * 1) (1 / 2) (440.0 * 1) L = st0 at w1 w2 ⊢
    have h0 := h0.symm
    obtain ⟨-, -, -, -, -, -, -, p8, p9⟩ := PulseOscillator.prime_fields 4 st0
      (by rw [h0]; rfl) (by rw [h0]; rfl)
    obtain ⟨a1, a2, a3, a4, a5⟩ := PulseOscillator.convolute_buffer 4
      (PulseOscillator.convolute 4 (PulseOscillator.tick (PulseOscillator.prime 4 st0)))
    obtain ⟨b1, b2, b3, b4, b5⟩ := PulseOscillator.convolute_buffer 4
      (PulseOscillator.tick (PulseOscillator.prime 4 st0))
    rw [w2] at a1
    have k0 := kernel_example { st0 with mFirstRun := false } (by rw [h0]; rfl)
      (by rw [h0]; rfl) p8 (by rw [h0]; rfl) 0 (by rw [h0]; rfl)
    have e6 : (PulseOscillator.tick (PulseOscillator.prime 4 st0)).mOscBuffer 0 =
        (PulseOscillator.convolute 4 { st0 with mFirstRun := false }).mOscBuffer 0 * (-0.5) := rfl
    have k1 := kernel_example (PulseOscillator.tick (PulseOscillator.prime 4 st0))
      (by rw [h0]; rfl) (by rw [h0]; rfl) w1 (by rw [h0]; rfl) ((0 + 1) * (-0.5))
      (by rw [e6, k0])
    have e1 : (PulseOscillator.tick (PulseOscillator.prime 4 st0)).mOscOut = 0 := by
      rw [h0]; rfl
    have e2 : (PulseOscillator.tick (PulseOscillator.prime 4 st0)).mBufPos = 0 := by
      rw [h0]; rfl
    have e3 : (PulseOscillator.tick (PulseOscillator.prime 4 st0)).mLevelLerp.v = L := by
      rw [h0]; rfl
    unfold PulseOscillator.emitSample
    simp only [Function.update_same]
    rw [a1, a2, a3, a4, b2, b3, b4, e1, e2, e3]
    simp only [Bool.false_eq_true, if_false]
    rw [k1]
    norm_num
    ring

/-- The pulse branch of `processMonoToMono` on a fresh example engine with one
voice: the call returns, and the first sample of the block is `1 / 2` times the
cube of the level parameter itself, whatever its value. -/
theorem processMonoToMono_pulse_example (L : ℚ) :
    ∃ r, processMonoToMono exampleVAConfig 3 (exampleVA false 0 L 2 1) (fun _ => 0)
        (fun _ => 0) 60 = some r ∧ r.2 0 = 1 / 2 * (L * L * L) := by
  obtain ⟨r, e, hr⟩ := run_example_first L
  have h0 : (exampleVA false 0 L 2 1).intParam ipWaveform ≠ 0 := by
    rw [show (exampleVA false 0 L 2 1).intParam ipWaveform = 2 from rfl]; decide
  have h1 : (exampleVA false 0 L 2 1).intParam ipWaveform ≠ 1 := by
    rw [show (exampleVA false 0 L 2 1).intParam ipWaveform = 2 from rfl]; decide
  have hproc := processMonoToMono_pulse exampleVAConfig 3 (exampleVA false 0 L 2 1)
    (fun _ => 0) (fun _ => 0) 60 h0 h1
  have hrun : ∀ s : State ℚ ℚ ℚ, s = { exampleVA false 0 L 2 1 with
        levelLerp := (exampleVA false 0 L 2 1).levelLerp.set_target
          (processLevel (exampleVA false 0 L 2 1)) } →
      runPulse exampleVAConfig 3 s (s.mPulseOsc ⟨0, by decide⟩) (fun _ => 0)
        (processDetune (exampleVA false 0 L 2 1) 60 0) = some r := by
    intro s hs
    rw [← e, hs]
    rfl
  have hv : ∀ s : State ℚ ℚ ℚ, s = { exampleVA false 0 L 2 1 with
        levelLerp := (exampleVA false 0 L 2 1).levelLerp.set_target
          (processLevel (exampleVA false 0 L 2 1)) } →
      pulseVoices exampleVAConfig 3 1 (processDetune (exampleVA false 0 L 2 1) 60) 1 0 s =
        some { s with
          mPulseOsc := Function.update s.mPulseOsc ⟨0, by decide⟩ r.1
          oscSum := sumVoice 4 0 r.2 s.oscSum } := by
    intro s hs
    rw [pulseVoices]
    simp only [Nat.cast_zero, zero_lt_one, if_true, show (0 : Nat) < 9 from by decide, dite_true]
    rw [hrun s hs, Option.some_bind, pulseVoices]
    rfl
  have hu : (exampleVA false 0 L 2 1).intParam ipUnison = 1 := rfl
  rw [hu] at hproc
  rw [show (1 : Int).toNat = 1 from rfl, hv _ rfl] at hproc
  refine ⟨_, hproc, ?_⟩
  rw [← hr]
  simp [copy_from_to, sumVoice, exampleVAConfig]

end GenVA

namespace GenVA

/-- Witness of `unison_count_in_range`: three sine voices on the example
engine, and one pulse voice, whose oscillator after the call is the one its
`run` has left. -/
theorem unison_count_in_range_witness :
    ((1 : Nat) ≤ 3 ∧ (3 : Nat) ≤ 9) ∧
    (∃ r, processMonoToMono exampleVAConfig 3 (exampleVA true 0 1 0 3) (fun _ => 0)
      (fun _ => 0) 60 = some r) ∧
    ((1 : Nat) ≤ 1 ∧ (1 : Nat) ≤ 9) ∧
    ∃ r, processMonoToMono exampleVAConfig 3 (exampleVA false 0 1 2 1) (fun _ => 0)
        (fun _ => 0) 60 = some r ∧
      (runPulse exampleVAConfig 3 (exampleVA false 0 1 2 1)
        ((exampleVA false 0 1 2 1).mPulseOsc ⟨0, by decide⟩) (fun _ => 0)
        (processDetune (exampleVA false 0 1 2 1) 60 0)).map Prod.fst =
        some (r.1.mPulseOsc ⟨0, by decide⟩) := by
  refine ⟨⟨by decide, by decide⟩,
    ((unison_count_in_range exampleVAConfig 3 (exampleVA true 0 1 0 3) (fun _ => 0) (fun _ => 0)
      60 3 (by decide) (by decide) rfl).2.1 rfl).imp fun _ h => h.1,
    ⟨by decide, by decide⟩, ?_⟩
  obtain ⟨r0, e0, -⟩ := run_example_first 1
  have hrun : ∀ h : 0 < 9, runPulse exampleVAConfig 3 (exampleVA false 0 1 2 1)
      ((exampleVA false 0 1 2 1).mPulseOsc ⟨0, h⟩) (fun _ => 0)
      (processDetune (exampleVA false 0 1 2 1) 60 0) = some r0 := by
    intro h
    rw [← e0]
    rfl
  have h0 : (exampleVA false 0 1 2 1).intParam ipWaveform ≠ 0 := by
    rw [show (exampleVA false 0 1 2 1).intParam ipWaveform = 2 from rfl]; decide
  have h1 : (exampleVA false 0 1 2 1).intParam ipWaveform ≠ 1 := by
    rw [show (exampleVA false 0 1 2 1).intParam ipWaveform = 2 from rfl]; decide
  have T := (unison_count_in_range exampleVAConfig 3 (exampleVA false 0 1 2 1) (fun _ => 0)
    (fun _ => 0) 60 1 (by decide) (by decide) rfl).2.2.2 h0 h1
  obtain ⟨r, hr⟩ := T.1 (fun j h hj => by
    have hj0 : j = 0 := by omega
    subst hj0
    rw [hrun h]
    exact Option.some_ne_none _)
  refine ⟨r, hr, ?_⟩
  have h2 := T.2 r hr 0 (by decide)
  rw [if_pos (by decide)] at h2
  exact h2

end GenVA

namespace GenVA

/-- C16 fails in the pulse branch of `processMonoToMono`: on a fresh example
engine with the pulse waveform and one voice, the level parameters `1` and `2`
have the same clamped cube `1`, so the block should be the same for both; but
the first sample written is `1 / 2` at level `1` and `4`, eight times as much,
at level `2`, because the pulse oscillator multiplies by the cube of the level
itself and the branch has no `scale_by`. -/
theorem pulse_level_not_clamped :
    processLevel (exampleVA false 0 1 2 1) = 1 ∧
    processLevel (exampleVA false 0 2 2 1) = 1 ∧
    (∃ r, processMonoToMono exampleVAConfig 3 (exampleVA false 0 1 2 1) (fun _ => 0)
        (fun _ => 0) 60 = some r ∧ r.2 0 = 1 / 2) ∧
    (∃ r, processMonoToMono exampleVAConfig 3 (exampleVA false 0 2 2 1) (fun _ => 0)
        (fun _ => 0) 60 = some r ∧ r.2 0 = 4) := by
  refine ⟨?_, ?_, ?_, ?_⟩
  · show stdClamp (1 : ℚ) 0 1 * stdClamp (1 : ℚ) 0 1 * stdClamp (1 : ℚ) 0 1 = 1
    unfold stdClamp; norm_num
  · show stdClamp (2 : ℚ) 0 1 * stdClamp (2 : ℚ) 0 1 * stdClamp (2 : ℚ) 0 1 = 1
    unfold stdClamp; norm_num
  · obtain ⟨r, e, h⟩ := processMonoToMono_pulse_example 1
    exact ⟨r, e, by rw [h]; norm_num⟩
  · obtain ⟨r, e, h⟩ := processMonoToMono_pulse_example 2
    exact ⟨r, e, by rw [h]; norm_num⟩

end GenVA

namespace GenVA

/-- The sine branch of `processMonoToMono` on the example configuration with
one voice: the call returns, every sample of the block is the oscillator's
output times the one clamped cubic level of this block, and the oscillator and
the parameters are as before. -/
theorem processMonoToMono_sine_example (s : State ℚ ℚ ℚ) (hw : s.intParam ipWaveform = 0)
    (hu : s.intParam ipUnison = 1) :
    ∃ r, processMonoToMono exampleVAConfig 3 s (fun _ => 0) (fun _ => 0) 60 = some r ∧
      (∀ k, k < 4 → r.2 k = s.mQuadOsc 0 * processLevel s) ∧
      r.1.mQuadOsc = s.mQuadOsc ∧ r.1.intParam = s.intParam ∧
      r.1.floatParam = s.floatParam := by
  rw [processMonoToMono_sine _ _ _ _ _ _ hw, hu]
  refine ⟨_, rfl, ?_, ?_, ?_, ?_⟩
  · intro k hk
    simp [sineVoices, runSine, sineLoop, exampleVAConfig, copy_from_to, scale_by, sumVoice, hk]
    left
    interval_cases k <;> simp [Function.update]
  · simp [sineVoices, runSine, sineLoop, exampleVAConfig]
  · simp [sineVoices]
  · simp [sineVoices]

/-- C17 fails: on the example engine with the sine waveform and one voice,
whose oscillator puts out `1`, a first block at level `0` is silent, and the
block after it, with the level parameter moved to `1`, has the gain `1` on all
four samples from the first one on. A ramp from the old cubic level `0` that
reaches the new one, `1`, on the last sample would give the first sample a
gain below `1`. -/
theorem sine_gain_not_ramped :
    ∃ r1 r2,
      processMonoToMono exampleVAConfig 3 (exampleVA false 0 0 0 1) (fun _ => 0) (fun _ => 0) 60
        = some r1 ∧
      processMonoToMono exampleVAConfig 3
        { r1.1 with floatParam := Function.update r1.1.floatParam fpLevel 1 }
        (fun _ => 0) (fun _ => 0) 60 = some r2 ∧
      (∀ k, k < 4 → r1.2 k = 0) ∧ (∀ k, k < 4 → r2.2 k = 1) := by
  obtain ⟨r1, e1, h1, q1, i1, f1⟩ := processMonoToMono_sine_example (exampleVA false 0 0 0 1)
    rfl rfl
  obtain ⟨r2, e2, h2, -, -, -⟩ := processMonoToMono_sine_example
    { r1.1 with floatParam := Function.update r1.1.floatParam fpLevel 1 }
    (by show r1.1.intParam ipWaveform = 0; rw [i1]; rfl)
    (by show r1.1.intParam ipUnison = 1; rw [i1]; rfl)
  refine ⟨r1, r2, e1, e2, fun k hk => ?_, fun k hk => ?_⟩
  · rw [h1 k hk]
    show (1 : ℚ) * (stdClamp (0 : ℚ) 0 1 * stdClamp (0 : ℚ) 0 1 * stdClamp (0 : ℚ) 0 1) = 0
    unfold stdClamp; norm_num
  · rw [h2 k hk]
    show r1.1.mQuadOsc 0 *
      (stdClamp (Function.update r1.1.floatParam fpLevel 1 fpLevel) 0 1 *
        stdClamp (Function.update r1.1.floatParam fpLevel 1 fpLevel) 0 1 *
        stdClamp (Function.update r1.1.floatParam fpLevel 1 fpLevel) 0 1) = 1
    rw [q1, Function.update_same]
    show (1 : ℚ) * _ = 1
    unfold stdClamp; norm_num

end GenVA

namespace ShortDelay

variable {α F : Type} [LinearOrderedField α]

theorem stereoSample_off (cfg : Config α F) (ld0 ld1 feedback cf cf' datainL datainR : Nat → α)
    (i : Nat) (st : StereoLoop α F) :
    stereoSample cfg 0 ld0 ld1 feedback cf datainL datainR i st =
      stereoSample cfg 0 ld0 ld1 feedback cf' datainL datainR i st := by
  unfold stereoSample
  simp

/-- With the stereo flag off the sample loop of `stereoImpl` does not read the
cross-feed block. -/
theorem stereoLoop_off (cfg : Config α F) (ld0 ld1 feedback cf cf' datainL datainR : Nat → α) :
    ∀ (n i : Nat) (st : StereoLoop α F),
      stereoLoop cfg 0 ld0 ld1 feedback cf datainL datainR n i st =
        stereoLoop cfg 0 ld0 ld1 feedback cf' datainL datainR n i st := by
  intro n
  induction n with
  | zero => intro i st; rfl
  | succ n ih =>
    intro i st
    unfold stereoLoop
    split_ifs
    · rw [stereoSample_off cfg ld0 ld1 feedback cf cf', ih]
    · rfl

/-- C18: in `stereoImpl` with the stereo flag off, the right line's delay-time
target equals the left line's; each line is written its input plus the soft
clip of the feedback gain times its own output, whatever the cross-feed block;
and for two objects that differ at most in the right-time and cross-feed
parameters (and the cross-feed ramp) the two lines and the two output blocks
come out the same, and the objects still differ at most in those. -/
theorem stereoImpl_off_ignores_right (cfg : Config α F) (s s' : State α F)
    (line0 line1 : LinePointer α) (datainL datainR dataoutL dataoutR : Nat → α)
    (hoff : s.intParam ipStereo = 0) (h : sameButRight s s') :
    (stereoImpl cfg s line0 line1 datainL datainR dataoutL dataoutR).state.lipolDelay1.target =
      (stereoImpl cfg s line0 line1 datainL datainR dataoutL dataoutR).state.lipolDelay0.target ∧
    (∀ (ld0 ld1 feedback cf : Nat → α) (i : Nat) (st : StereoLoop α F),
      (stereoSample cfg 0 ld0 ld1 feedback cf datainL datainR i st).line0 =
        st.line0.write (datainL i + softClip (feedback i *
          (stereoSample cfg 0 ld0 ld1 feedback cf datainL datainR i st).dataoutL i)) ∧
      (stereoSample cfg 0 ld0 ld1 feedback cf datainL datainR i st).line1 =
        st.line1.write (datainR i + softClip (feedback i *
          (stereoSample cfg 0 ld0 ld1 feedback cf datainL datainR i st).dataoutR i))) ∧
    (stereoImpl cfg s' line0 line1 datainL datainR dataoutL dataoutR).line0 =
      (stereoImpl cfg s line0 line1 datainL datainR dataoutL dataoutR).line0 ∧
    (stereoImpl cfg s' line0 line1 datainL datainR dataoutL dataoutR).line1 =
      (stereoImpl cfg s line0 line1 datainL datainR dataoutL dataoutR).line1 ∧
    (stereoImpl cfg s' line0 line1 datainL datainR dataoutL dataoutR).dataoutL =
      (stereoImpl cfg s line0 line1 datainL datainR dataoutL dataoutR).dataoutL ∧
    (stereoImpl cfg s' line0 line1 datainL datainR dataoutL dataoutR).dataoutR =
      (stereoImpl cfg s line0 line1 datainL datainR dataoutL dataoutR).dataoutR ∧
    sameButRight (stereoImpl cfg s line0 line1 datainL datainR dataoutL dataoutR).state
      (stereoImpl cfg s' line0 line1 datainL datainR dataoutL dataoutR).state := by
  obtain ⟨hfp, hip, hsr, hl0, hl1, hsh, hfb, hd0, hd1, hlp, hhp⟩ := h
  have hoff' : s'.intParam ipStereo = 0 := by rw [hip]; exact hoff
  have t1 := hfp fpTimeL (by decide) (by decide)
  have t2 := hfp fpFeedback (by decide) (by decide)
  have t3 := hfp fpHighCut (by decide) (by decide)
  have t4 := hfp fpLowCut (by decide) (by decide)
  have hloop := stereoLoop_off cfg
    ((s.lipolDelay0.set_target (blockDelayTarget (cfg.FIRipol_N : α) (s.floatParam fpTimeL)
      s.sampleRate)).store_block cfg.blockSize)
    ((s.lipolDelay1.set_target (blockDelayTarget (cfg.FIRipol_N : α) (s.floatParam fpTimeL)
      s.sampleRate)).store_block cfg.blockSize)
    ((s.lipolFb.set_target (stdClamp (s.floatParam fpFeedback) 0 1)).store_block cfg.blockSize)
    ((s'.lipolCross.set_target (stdClamp (s'.floatParam fpCrossFeed) 0 1)).store_block
      cfg.blockSize)
    ((s.lipolCross.set_target (stdClamp (s.floatParam fpCrossFeed) 0 1)).store_block
      cfg.blockSize) datainL datainR cfg.blockSize 0
    { line0 := line0, line1 := line1,
      lp := cfg.coeff_LP2B s.lp (cfg.calc_omega (s.floatParam fpHighCut / 12.0)) 0.707,
      hp := cfg.coeff_HP s.hp (cfg.calc_omega (s.floatParam fpLowCut / 12.0)) 0.707,
      dataoutL := copy_from_to cfg.blockSize datainL dataoutL,
      dataoutR := copy_from_to cfg.blockSize datainR dataoutR }
  unfold stereoImpl
  simp only [hoff, hoff', ne_eq, not_true_eq_false, if_false, t1, t2, t3, t4, hsr, hd0, hd1,
    hfb, hlp, hhp, hloop]
  refine ⟨rfl, fun ld0 ld1 feedback cf i st => ?_, trivial, trivial, trivial, trivial, ?_⟩
  · unfold stereoSample
    simp
  · exact ⟨fun i h1 h2 => hfp i h1 h2, hip, rfl, hl0, hl1, hsh, rfl, rfl, rfl, rfl, rfl⟩

/-- Witness of `stereoImpl_off_ignores_right`: the example delay with the
stereo flag off, once with right time 20 ms and no cross-feed, once with right
time 200 ms and full cross-feed. -/
theorem stereoImpl_off_ignores_right_witness :
    (stereoImpl exampleDelayConfig (exampleMonoDelay 200 1) ⟨15, []⟩ ⟨15, []⟩
      (fun _ => 1) (fun _ => 1) (fun _ => 0) (fun _ => 0)).dataoutR =
    (stereoImpl exampleDelayConfig (exampleMonoDelay 20 0) ⟨15, []⟩ ⟨15, []⟩
      (fun _ => 1) (fun _ => 1) (fun _ => 0) (fun _ => 0)).dataoutR :=
  (stereoImpl_off_ignores_right exampleDelayConfig (exampleMonoDelay 20 0)
    (exampleMonoDelay 200 1) ⟨15, []⟩ ⟨15, []⟩ (fun _ => 1) (fun _ => 1) (fun _ => 0)
    (fun _ => 0) rfl
    ⟨by
      intro i h1 h2
      fin_cases i <;> first | rfl | exact absurd rfl h1 | exact absurd rfl h2,
     rfl, rfl, rfl, rfl, rfl, rfl, rfl, rfl, rfl, rfl⟩).2.2.2.2.2.1

end ShortDelay

namespace ShortDelay

variable {α F : Type} [LinearOrderedField α]

theorem initVoiceEffect_gains (cfg : Config α F) (s : State α F) :
    (initVoiceEffect cfg s).lipolFb.target = stdClamp (s.floatParam fpFeedback) 0 1 ∧
    (initVoiceEffect cfg s).lipolCross.target = stdClamp (s.floatParam fpCrossFeed) 0 1 := by
  unfold initVoiceEffect
  refine ⟨?_, ?_⟩ <;> (dsimp only; split_ifs <;> rfl)

end ShortDelay

namespace CytomicSVF

variable {α : Type} [LinearOrderedField α]

theorem callsOf_resonances (cfg : Config α) (s : State α) (pitch : α) :
    ∀ c ∈ callsOf cfg s pitch, ∀ r ∈ c.resonances,
      r = stdClamp (s.floatParam fpResonance) 0 1 := by
  have hres := (effectiveParam_apply s pitch).2.2.1
  have hset : ∀ r ∈ (setCoeffCall cfg s pitch).resonances,
      r = stdClamp (s.floatParam fpResonance) 0 1 := by
    intro r hr
    unfold setCoeffCall at hr
    rw [hres] at hr
    split_ifs at hr <;> simp [SvfCall.resonances] at hr <;> exact hr
  intro c hc r hr
  rw [callsOf_eq] at hc
  split_ifs at hc
  · simp only [List.singleton_append, List.mem_cons, List.mem_singleton, List.not_mem_nil,
      or_false] at hc
    rcases hc with rfl | rfl
    · simp [SvfCall.resonances] at hr
    · exact hset r hr
  · simp only [List.nil_append, List.mem_singleton] at hc
    subst hc
    exact hset r hr
  · simp only [List.mem_singleton] at hc
    subst hc
    simp [SvfCall.resonances] at hr

end CytomicSVF

/-- C19: the feedback and cross-feed targets `initVoiceEffect` sets, the
feedback target `monoImpl` sets, the feedback and cross-feed targets
`stereoImpl` sets, and every resonance a `calc_coeffs` call hands to
`setCoeffForBlock` are the parameter clamped to `[0, 1]`; and a value clamped
so lies in `[0, 1]`. -/
theorem gain_targets_clamped {α F : Type} [LinearOrderedField α]
    (cfg : ShortDelay.Config α F) (s : ShortDelay.State α F)
    (line0 line1 : ShortDelay.LinePointer α) (datainL datainR dataoutL dataoutR : Nat → α)
    (fcfg : CytomicSVF.Config α) (fs : CytomicSVF.State α) (pitch : α) :
    (ShortDelay.initVoiceEffect cfg s).lipolFb.target =
      stdClamp (s.floatParam ShortDelay.fpFeedback) 0 1 ∧
    (ShortDelay.initVoiceEffect cfg s).lipolCross.target =
      stdClamp (s.floatParam ShortDelay.fpCrossFeed) 0 1 ∧
    (ShortDelay.monoImpl cfg s line0 datainL dataoutL).state.lipolFb.target =
      stdClamp (s.floatParam ShortDelay.fpFeedback) 0 1 ∧
    (ShortDelay.monoImpl cfg s line0 datainL dataoutL).state.lipolCross = s.lipolCross ∧
    (ShortDelay.stereoImpl cfg s line0 line1 datainL datainR dataoutL dataoutR).state.lipolFb.target
      = stdClamp (s.floatParam ShortDelay.fpFeedback) 0 1 ∧
    (ShortDelay.stereoImpl cfg s line0 line1 datainL datainR dataoutL
      dataoutR).state.lipolCross.target = stdClamp (s.floatParam ShortDelay.fpCrossFeed) 0 1 ∧
    (∀ c ∈ CytomicSVF.callsOf fcfg fs pitch, ∀ r ∈ c.resonances,
      r = stdClamp (fs.floatParam CytomicSVF.fpResonance) 0 1) ∧
    (∀ v : α, 0 ≤ stdClamp v 0 1 ∧ stdClamp v 0 1 ≤ 1) := by
  obtain ⟨h1, h2⟩ := ShortDelay.initVoiceEffect_gains cfg s
  exact ⟨h1, h2, rfl, rfl, rfl, rfl, CytomicSVF.callsOf_resonances fcfg fs pitch,
    fun v => ShortDelay.stdClamp_bounds v 0 1 zero_le_one⟩

namespace ShortDelay

/-- The float-parameter descriptors of the delay: the sentinel named `"Error"`
outside `0..5`, no sentinel inside. -/
theorem delay_paramAt_sentinel {α F : Type} (s : State α F) (idx : Int) :
    ((idx < 0 ∨ 6 ≤ idx) → (paramAt s idx).name = "Error") ∧
    ((0 ≤ idx ∧ idx < 6) → isSentinelName (paramAt s idx).name = false) := by
  refine ⟨fun h => ?_, fun h => ?_⟩
  · unfold paramAt
    simp only [show idx ≠ 0 by omega, show idx ≠ 1 by omega, show idx ≠ 2 by omega,
      show idx ≠ 3 by omega, show idx ≠ 4 by omega, show idx ≠ 5 by omega, if_false]
    rfl
  · have hc : idx = 0 ∨ idx = 1 ∨ idx = 2 ∨ idx = 3 ∨ idx = 4 ∨ idx = 5 := by omega
    unfold paramAt
    rcases hc with rfl | rfl | rfl | rfl | rfl | rfl <;>
      cases decide (s.intParam ipStereo > 0) <;> decide

end ShortDelay

namespace CytomicSVF

/-- The float-parameter descriptors of the filter: the sentinel named
`"Unknown <index>"` outside `0..3`, no sentinel inside. -/
theorem filter_paramAt_sentinel {α : Type} (s : State α) (idx : Int) :
    ((idx < 0 ∨ 4 ≤ idx) → (paramAt s idx).name = "Unknown " ++ toString idx) ∧
    ((0 ≤ idx ∧ idx < 4) → isSentinelName (paramAt s idx).name = false) := by
  refine ⟨fun h => ?_, fun h => ?_⟩
  · unfold paramAt
    simp only [show idx ≠ 0 by omega, show idx ≠ 1 by omega, show idx ≠ 2 by omega,
      show idx ≠ 3 by omega, if_false]
    rfl
  · have hc : idx = 0 ∨ idx = 1 ∨ idx = 2 ∨ idx = 3 := by omega
    unfold paramAt
    rcases hc with rfl | rfl | rfl | rfl <;>
      cases decide (s.intParam ipStereo > 0) <;> cases s.keytrackOn <;> decide

/-- The integer-parameter descriptors of the filter: the sentinel named
`"error"` outside `0..1`, no sentinel inside. -/
theorem filter_intParamAt_sentinel (idx : Int) :
    ((idx < 0 ∨ 2 ≤ idx) → (intParamAt idx).name = "error") ∧
    ((0 ≤ idx ∧ idx < 2) → isSentinelName (intParamAt idx).name = false) := by
  refine ⟨fun h => ?_, fun h => ?_⟩
  · unfold intParamAt
    simp only [show idx ≠ 0 by omega, show idx ≠ 1 by omega, if_false]
    rfl
  · have hc : idx = 0 ∨ idx = 1 := by omega
    rcases hc with rfl | rfl <;> decide

end CytomicSVF

namespace GenVA

/-- The float-parameter descriptors of the oscillator: the sentinel named
`"Unknown <index>"` outside `0..4`, no sentinel inside. -/
theorem osc_paramAt_sentinel {α : Type} (p : Params α) (idx : Int) :
    ((idx < 0 ∨ 5 ≤ idx) → (paramAt p idx).name = "Unknown " ++ toString idx) ∧
    ((0 ≤ idx ∧ idx < 5) → isSentinelName (paramAt p idx).name = false) := by
  refine ⟨fun h => ?_, fun h => ?_⟩
  · unfold paramAt
    simp only [show idx ≠ 0 by omega, show idx ≠ 1 by omega, show idx ≠ 2 by omega,
      show idx ≠ 3 by omega, show idx ≠ 4 by omega, if_false]
    rfl
  · have hc : idx = 0 ∨ idx = 1 ∨ idx = 2 ∨ idx = 3 ∨ idx = 4 := by omega
    unfold paramAt
    rcases hc with rfl | rfl | rfl | rfl | rfl <;> cases p.keytrackOn <;> decide

/-- The integer-parameter descriptors of the oscillator: the sentinel named
`"error"` outside `0..2`, no sentinel inside. -/
theorem osc_intParamAt_sentinel (idx : Int) :
    ((idx < 0 ∨ 3 ≤ idx) → (intParamAt idx).name = "error") ∧
    ((0 ≤ idx ∧ idx < 3) → isSentinelName (intParamAt idx).name = false) := by
  refine ⟨fun h => ?_, fun h => ?_⟩
  · unfold intParamAt
    simp only [show idx ≠ 0 by omega, show idx ≠ 1 by omega, show idx ≠ 2 by omega, if_false]
    rfl
  · have hc : idx = 0 ∨ idx = 1 ∨ idx = 2 := by omega
    rcases hc with rfl | rfl | rfl <;> decide

end GenVA

/-- C20 fails for the integer parameters of the delay: `ShortDelay::intParamAt`
has no `switch` and returns the descriptor of the stereo flag for every index,
so for the index `1`, which is not a valid integer-parameter index of the delay
(it has one integer parameter, index `0`), the name is `"Stereo"` and not a
sentinel; the filter and the oscillator return the sentinel named `"error"` for
their first invalid index. -/
theorem delay_intParamAt_no_sentinel :
    (∀ idx : Int, ShortDelay.intParamAt idx = ShortDelay.intParamAt 0) ∧
    (ShortDelay.intParamAt 1).name = "Stereo" ∧
    isSentinelName (ShortDelay.intParamAt 1).name = false ∧
    (CytomicSVF.intParamAt 2).name = "error" ∧
    (GenVA.intParamAt 3).name = "error" := by
  refine ⟨fun _ => rfl, ?_, ?_, ?_, ?_⟩ <;> decide

namespace ShortDelay

variable {α : Type} [LinearOrderedField α]

theorem stdClamp_neg (x : α) : stdClamp (-x) (-1.5 : α) 1.5 = -stdClamp x (-1.5 : α) 1.5 := by
  unfold stdClamp
  split_ifs <;> first | rfl | linarith

theorem stdClamp_mono (x y lo hi : α) (h : lo ≤ hi) (hxy : x ≤ y) :
    stdClamp x lo hi ≤ stdClamp y lo hi := by
  unfold stdClamp
  split_ifs <;> linarith

/-- The cubic `c - 4/27 * c^3` of the soft clip is strictly increasing on
`[-1.5, 1.5]`. -/
theorem softCubic_strictMono (a b : α) (ha : -1.5 ≤ a) (hab : a < b) (hb : b ≤ 1.5) :
    a - 4.0 / 27.0 * a * a * a < b - 4.0 / 27.0 * b * b * b := by
  norm_num at ha hb ⊢
  have h1 : 0 < (3 / 2 - a) * (3 / 2 + b) := mul_pos (by linarith) (by linarith)
  have h2 : 0 ≤ (3 / 2 + a) * (3 / 2 - b) := mul_nonneg (by linarith) (by linarith)
  have h3 : 0 ≤ (3 / 2 - a) * (3 / 2 + a) := mul_nonneg (by linarith) (by linarith)
  have h4 : 0 ≤ (3 / 2 - b) * (3 / 2 + b) := mul_nonneg (by linarith) (by linarith)
  have h5 : 0 < 27 / 4 - (a * a + a * b + b * b) := by nlinarith
  have h6 : 0 < (b - a) * (27 / 4 - (a * a + a * b + b * b)) := mul_pos (by linarith) h5
  nlinarith

end ShortDelay

namespace ShortDelay

variable {α : Type} [LinearOrderedField α]

/-- C24: the soft clip `s(x) = c - 4/27 * c^3` with `c = clamp(x, -1.5, 1.5)`
of `monoImpl` and `stereoImpl` is odd, is non-decreasing on all values and
strictly increasing on `[-1.5, 1.5]`, and is `1` from `1.5` on and `-1` up to
`-1.5`. -/
theorem softClip_odd_monotone :
    (∀ x : α, softClip x =
      stdClamp x (-1.5) 1.5 - 4 / 27 * (stdClamp x (-1.5) 1.5) ^ 3) ∧
    (∀ x : α, softClip (-x) = -softClip x) ∧
    (∀ x y : α, x ≤ y → softClip x ≤ softClip y) ∧
    (∀ x y : α, -1.5 ≤ x → x < y → y ≤ 1.5 → softClip x < softClip y) ∧
    (∀ x : α, 1.5 ≤ x → softClip x = 1) ∧
    (∀ x : α, x ≤ -1.5 → softClip x = -1) := by
  refine ⟨fun x => ?_, fun x => ?_, fun x y hxy => ?_, fun x y hx hxy hy => ?_, fun x hx => ?_,
    fun x hx => ?_⟩
  · unfold softClip
    norm_num
    ring
  · unfold softClip
    rw [stdClamp_neg]
    ring
  · have hb := stdClamp_bounds x (-1.5 : α) 1.5 (by norm_num)
    have hc := stdClamp_bounds y (-1.5 : α) 1.5 (by norm_num)
    have hm := stdClamp_mono x y (-1.5 : α) 1.5 (by norm_num) hxy
    unfold softClip
    rcases hm.lt_or_eq with hlt | heq
    · exact (softCubic_strictMono _ _ hb.1 hlt hc.2).le
    · rw [heq]
  · have ex : stdClamp x (-1.5 : α) 1.5 = x := by
      unfold stdClamp
      rw [if_neg (by linarith), if_neg (by linarith)]
    have ey : stdClamp y (-1.5 : α) 1.5 = y := by
      unfold stdClamp
      rw [if_neg (by linarith), if_neg (by linarith)]
    unfold softClip
    rw [ex, ey]
    exact softCubic_strictMono x y hx hxy hy
  · have ex : stdClamp x (-1.5 : α) 1.5 = 1.5 := by
      unfold stdClamp
      rw [if_neg (by linarith)]
      split_ifs with h
      · rfl
      · linarith
    unfold softClip
    rw [ex]
    norm_num
  · have ex : stdClamp x (-1.5 : α) 1.5 = -1.5 := by
      unfold stdClamp
      split_ifs with h1 h2
      · rfl
      · linarith
      · linarith
    unfold softClip
    rw [ex]
    norm_num

end ShortDelay

namespace GenVA

namespace PulseOscillator

variable {α : Type} [LinearOrderedField α]

/-- A property of the oscillator that every call of `convolute` keeps holds
after the loop `while (mSyncState < 0)`. -/
theorem whileSyncState_closed [FloorRing α] (blockSize : Nat) (P : PulseOscillator α → Prop)
    (hc : ∀ st, P st → P (convolute blockSize st)) :
    ∀ (fuel : Nat) (st st' : PulseOscillator α), P st →
      whileSyncState blockSize fuel st = some st' → P st' := by
  intro fuel
  induction fuel with
  | zero =>
    intro st st' hp h
    rw [whileSyncState] at h
    split_ifs at h
    cases h; exact hp
  | succ n ih =>
    intro st st' hp h
    rw [whileSyncState] at h
    split_ifs at h
    · exact ih _ _ (hc st hp) h
    · cases h; exact hp

/-- A property of the oscillator that every call of `convolute` keeps holds
after the loop `while (mOscState < 0)`. -/
theorem whileOscState_closed [FloorRing α] (blockSize : Nat) (P : PulseOscillator α → Prop)
    (hc : ∀ st, P st → P (convolute blockSize st)) :
    ∀ (fuel : Nat) (st st' : PulseOscillator α), P st →
      whileOscState blockSize fuel st = some st' → P st' := by
  intro fuel
  induction fuel with
  | zero =>
    intro st st' hp h
    rw [whileOscState] at h
    split_ifs at h
    cases h; exact hp
  | succ n ih =>
    intro st st' hp h
    rw [whileOscState] at h
    split_ifs at h
    · exact ih _ _ (hc st hp) h
    · cases h; exact hp

/-- The body of the sample loop in its steps: the two subtractions, the two
`while` loops, the end of the sample. -/
theorem runSample_eq [FloorRing α] (blockSize fuel k : Nat) (st : PulseOscillator α)
    (block : Nat → α) :
    runSample blockSize fuel k st block =
      (whileSyncState blockSize fuel (tick st)).bind fun st =>
        (whileOscState blockSize fuel st).bind fun st =>
          some (emitSample blockSize k st block) := rfl

/-- A property of the oscillator that the steps of a sample keep holds after
the sample. -/
theorem runSample_closed [FloorRing α] (blockSize fuel : Nat) (P : PulseOscillator α → Prop)
    (hc : ∀ st, P st → P (convolute blockSize st)) (ht : ∀ st, P st → P (tick st))
    (he : ∀ st k block, P st → P (emitSample blockSize k st block).1)
    (k : Nat) (st : PulseOscillator α) (block : Nat → α) (r : PulseOscillator α × (Nat → α))
    (hp : P st) (h : runSample blockSize fuel k st block = some r) : P r.1 := by
  rw [runSample_eq] at h
  cases h1 : whileSyncState blockSize fuel (tick st) with
  | none => rw [h1] at h; cases h
  | some st1 =>
    rw [h1, Option.some_bind] at h
    cases h2 : whileOscState blockSize fuel st1 with
    | none => rw [h2] at h; cases h
    | some st2 =>
      rw [h2, Option.some_bind] at h
      cases h
      exact he _ _ _ (whileOscState_closed blockSize P hc fuel _ _
        (whileSyncState_closed blockSize P hc fuel _ _ (ht st hp) h1) h2)

/-- A property of the oscillator that the steps of a sample keep holds after
the sample loop. -/
theorem runLoop_closed [FloorRing α] (blockSize fuel : Nat) (P : PulseOscillator α → Prop)
    (hc : ∀ st, P st → P (convolute blockSize st)) (ht : ∀ st, P st → P (tick st))
    (he : ∀ st k block, P st → P (emitSample blockSize k st block).1) :
    ∀ (n k : Nat) (st : PulseOscillator α) (block : Nat → α)
      (r : PulseOscillator α × (Nat → α)), P st →
      runLoop blockSize fuel n k st block = some r → P r.1 := by
  intro n
  induction n with
  | zero => intro k st block r hp h; rw [runLoop] at h; cases h; exact hp
  | succ n ih =>
    intro k st block r hp h
    rw [runLoop] at h
    split_ifs at h
    · cases h1 : runSample blockSize fuel k st block with
      | none => rw [h1] at h; cases h
      | some r1 =>
        rw [h1, Option.some_bind] at h
        exact ih _ _ _ _ (runSample_closed blockSize fuel P hc ht he k st block r1 hp h1) h
    · cases h; exact hp

/-- After a call of `run` the flag `mFirstRun` is clear. -/
theorem run_firstRun [FloorRing α] (blockSize fuel : Nat) (st : PulseOscillator α)
    (block : Nat → α) (r : PulseOscillator α × (Nat → α))
    (h : run blockSize fuel st block = some r) : r.1.mFirstRun = false := by
  unfold run at h
  refine runLoop_closed blockSize fuel (fun s => s.mFirstRun = false)
    (fun s hs => (convolute_fields blockSize s).2.2.2.2.2.2.trans hs)
    (fun s hs => hs) (fun s k b hs => hs) blockSize 0 _ block r ?_ h
  by_cases hf : st.mFirstRun = true
  · simp only [hf, if_true]
    show (convolute blockSize { st with mFirstRun := false }).mFirstRun = false
    rw [(convolute_fields blockSize _).2.2.2.2.2.2]
  · simp only [hf, if_false]
    exact Bool.eq_false_iff.2 hf

/-- After a sequence of blocks the flag `mFirstRun` is clear, when there was a
block or the flag was clear before. -/
theorem runSeq_firstRun [FloorRing α] (blockSize fuel : Nat) (block : Nat → α) :
    ∀ (ps : List (BlockParams α)) (st : PulseOscillator α)
      (r : PulseOscillator α × List (Nat → α)),
      runSeq blockSize fuel block ps st = some r → ps ≠ [] ∨ st.mFirstRun = false →
      r.1.mFirstRun = false := by
  intro ps
  induction ps with
  | nil =>
    intro st r h hc
    rw [runSeq] at h
    cases h
    rcases hc with hc | hc
    · exact absurd rfl hc
    · exact hc
  | cons p ps ih =>
    intro st r h _
    rw [runSeq] at h
    cases h1 : run blockSize fuel (setParams blockSize st p.freq p.width p.sync p.level) block with
    | none => rw [h1] at h; cases h
    | some r1 =>
      rw [h1, Option.some_bind] at h
      cases h2 : runSeq blockSize fuel block ps r1.1 with
      | none => rw [h2] at h; cases h
      | some q =>
        rw [h2] at h
        cases h
        exact ih r1.1 q h2 (Or.inr (run_firstRun blockSize fuel _ block r1 h1))

end PulseOscillator

end GenVA

namespace GenVA

namespace PulseOscillator

variable {α : Type} [LinearOrderedField α]

/-- The kernel position of an event at phase `0`: row `0` of the table, with
no interpolation. -/
theorem toInt32_kLarge :
    toInt32 (wrap64 (kLarge + 0) / 2 ^ 16 % 2 ^ 32) % 2 ^ 16 = 0 ∧
    toInt32 (wrap64 (kLarge + 0) / 2 ^ 16 % 2 ^ 32) / 2 ^ 16 % 256 = 0 := by
  unfold toInt32 wrap64 kLarge
  constructor <;> decide

/-- The buffer after a call of `convolute` that writes a positive kernel for
an event at phase `0` into an empty buffer at position `0`. -/
theorem convolute_primeKernel [FloorRing α] (blockSize : Nat) (st : PulseOscillator α)
    (hw : writesKernel st = true) (hphase : eventPhase st = 0) (hpol : st.mPolarity = false)
    (hb : st.mBufPos = 0) (hbuf : st.mOscBuffer = fun _ => 0) :
    (convolute blockSize st).mOscBuffer = primeKernel blockSize st.localSincTable := by
  rw [(convolute_buffer blockSize st).1, hw, if_pos rfl, hphase, hpol, hb, hbuf,
    toInt32_kLarge.1, toInt32_kLarge.2]
  unfold primeKernel
  simp only [Bool.false_eq_true, if_false, Int.cast_zero, zero_mul]

/-- What the priming leaves of an oscillator as `initialize` left it. -/
theorem prime_fresh [FloorRing α] (blockSize : Nat) (s : PulseOscillator α)
    (ho : s.mOscState = 0) (hy : s.mSyncState = 0) (hpol : s.mPolarity = false)
    (hb : s.mBufPos = 0) (hbuf : s.mOscBuffer = fun _ => 0) :
    (prime blockSize s).mFirstRun = false ∧
    ((prime blockSize s).mOscState = 0 ∧ (prime blockSize s).mSyncState = 0 ∧
      (prime blockSize s).mPolarity = false) ∧
    (∀ i, (prime blockSize s).mOscBuffer i =
      if i < blockSize then primeKernel blockSize s.localSincTable i * (-0.5)
      else primeKernel blockSize s.localSincTable i) := by
  obtain ⟨p1, p2, p3, p4, -, -, -, p8, p9⟩ := prime_fields blockSize s ho hy
  refine ⟨p4, ⟨p1, p2, p3⟩, fun i => ?_⟩
  have hk := convolute_primeKernel blockSize { s with mFirstRun := false } p8 p9 hpol hb hbuf
  show (if i < blockSize then
      (convolute blockSize { s with mFirstRun := false }).mOscBuffer i * (-0.5)
    else (convolute blockSize { s with mFirstRun := false }).mOscBuffer i) = _
  rw [hk]

end PulseOscillator

end GenVA

namespace GenVA

namespace PulseOscillator

variable {α : Type} [LinearOrderedField α]

/-- C21: for an oscillator `s` as `initialize` left it, with or without a
`setParams` after it: the flag `mFirstRun` is set, so `run` primes and then
enters the sample loop; the priming clears the flag and leaves `mOscState = 0`,
`mSyncState = 0`, `mPolarity = false` and the buffer at `-0.5` times the one
positive kernel `convolute` wrote (at the buffer entries below `blockSize`).
After any sequence of one or more blocks from `s` the flag is clear,
`setParams` does not touch it, and a `run` that finds it clear goes straight to
the sample loop. -/
theorem prime_once [FloorRing α] (blockSize fuel : Nat) (st0 s : PulseOscillator α)
    (tbl : SincTable α) (sr freq width sync level : α) (block : Nat → α)
    (h : s = initialise st0 tbl sr ∨
      s = setParams blockSize (initialise st0 tbl sr) freq width sync level) :
    s.mFirstRun = true ∧
    run blockSize fuel s block = runLoop blockSize fuel blockSize 0 (prime blockSize s) block ∧
    (prime blockSize s).mFirstRun = false ∧
    ((prime blockSize s).mOscState = 0 ∧ (prime blockSize s).mSyncState = 0 ∧
      (prime blockSize s).mPolarity = false) ∧
    (∀ i, (prime blockSize s).mOscBuffer i =
      if i < blockSize then primeKernel blockSize tbl i * (-0.5)
      else primeKernel blockSize tbl i) ∧
    (∀ (ps : List (BlockParams α)) (r : PulseOscillator α × List (Nat → α)),
      runSeq blockSize fuel block ps s = some r → ps ≠ [] → r.1.mFirstRun = false) ∧
    (∀ (st : PulseOscillator α) (f w sy L : α),
      (setParams blockSize st f w sy L).mFirstRun = st.mFirstRun) ∧
    (∀ (st : PulseOscillator α) (out : Nat → α), st.mFirstRun = false →
      run blockSize fuel st out = runLoop blockSize fuel blockSize 0 st out) := by
  have hs : s.mFirstRun = true ∧ s.mOscState = 0 ∧ s.mSyncState = 0 ∧ s.mPolarity = false ∧
      s.mBufPos = 0 ∧ (s.mOscBuffer = fun _ => 0) ∧ s.localSincTable = tbl := by
    rcases h with rfl | rfl <;> exact ⟨rfl, rfl, rfl, rfl, rfl, rfl, rfl⟩
  obtain ⟨h1, h2, h3, h4, h5, h6, h7⟩ := hs
  obtain ⟨q1, q2, q3⟩ := prime_fresh blockSize s h2 h3 h4 h5 h6
  rw [h7] at q3
  refine ⟨h1, ?_, q1, q2, q3, fun ps r hr hne => ?_, fun st f w sy L => rfl,
    fun st out hst => ?_⟩
  · unfold run
    simp only [h1, if_true]
  · exact runSeq_firstRun blockSize fuel block ps s r hr (Or.inl hne)
  · unfold run
    simp only [hst, Bool.false_eq_true, if_false]

/-- Witness of `prime_once`: the oscillator of the example engine right after
`initialize`. -/
theorem prime_once_witness :
    (prime 4 (initialise (unprimed exampleVAConfig.sSincTable) exampleVAConfig.sSincTable
      (48000 : ℚ))).mOscState = 0 :=
  (prime_once 4 3 (unprimed exampleVAConfig.sSincTable)
    (initialise (unprimed exampleVAConfig.sSincTable) exampleVAConfig.sSincTable (48000 : ℚ))
    exampleVAConfig.sSincTable 48000 440 (1 / 2) 0 1 (fun _ => 0) (Or.inl rfl)).2.2.2.1.1

end PulseOscillator

end GenVA

namespace GenVA

namespace PulseOscillator

variable {α : Type} [LinearOrderedField α]

theorem land_lt (x blockSize : Nat) (hbs : 1 ≤ blockSize) : x &&& (blockSize - 1) < blockSize :=
  lt_of_le_of_lt Nat.and_le_right (by omega)

/-- In every state the oscillator passes through, `mBufPos` is below
`blockSize`. -/
theorem Reachable_mBufPos [FloorRing α] (blockSize : Nat) (hbs : 1 ≤ blockSize)
    (st : PulseOscillator α) (h : Reachable blockSize st) : st.mBufPos < blockSize := by
  induction h with
  | initialise st tbl sr => exact hbs
  | setParams freq width sync level _ ih => exact ih
  | clearFirstRun _ ih => exact ih
  | convolute _ ih => rw [(convolute_buffer blockSize _).2.2.1]; exact ih
  | prime _ ih =>
    rename_i s _
    show (convolute blockSize { s with mFirstRun := false }).mBufPos < blockSize
    rw [(convolute_buffer blockSize _).2.2.1]; exact ih
  | tick _ ih => exact ih
  | emitSample k block _ ih => exact land_lt _ blockSize hbs

/-- The sinc-table indices of the kernel row of `convolute` lie in
`[0, 256 * FIRipol_N)`. -/
theorem kernelRow_range [FloorRing α] (st : PulseOscillator α) (k : Nat)
    (hk : k < st.localSincTable.FIRipol_N) :
    0 ≤ kernelRow st + k ∧ kernelRow st + k < 256 * (st.localSincTable.FIRipol_N : Int) := by
  unfold kernelRow
  have h0 : 0 ≤ kernelPos st / 2 ^ 16 % 256 := Int.emod_nonneg _ (by norm_num)
  have h1 : kernelPos st / 2 ^ 16 % 256 < 256 := Int.emod_lt_of_pos _ (by norm_num)
  generalize kernelPos st / 2 ^ 16 % 256 = q at h0 h1
  have hN : (0 : Int) ≤ (st.localSincTable.FIRipol_N : Int) := Int.natCast_nonneg _
  have hk' : (k : Int) < (st.localSincTable.FIRipol_N : Int) := by exact_mod_cast hk
  have h2 : q * (st.localSincTable.FIRipol_N : Int) ≤ 255 * (st.localSincTable.FIRipol_N : Int) :=
    mul_le_mul_of_nonneg_right (by omega) hN
  have h3 : 0 ≤ q * (st.localSincTable.FIRipol_N : Int) := mul_nonneg h0 hN
  constructor
  · omega
  · omega

/-- The kernel loop writes buffer entries below `blockSize` only. -/
theorem kernelLoop_frame (blockSize : Nat) (hbs : 1 ≤ blockSize) (tbl : SincTable α)
    (mBufPos : Nat) (fpol lipol : α) (m : Int) :
    ∀ (n k : Nat) (buf : Nat → α) (j : Nat), blockSize ≤ j →
      kernelLoop blockSize tbl mBufPos fpol lipol m n k buf j = buf j := by
  intro n
  induction n with
  | zero => intro k buf j _; rfl
  | succ n ih =>
    intro k buf j hj
    rw [kernelLoop]
    split_ifs with hk
    · simp only []
      rw [ih (k + 1) _ j hj]
      have hlt := land_lt (mBufPos + k) blockSize hbs
      exact Function.update_noteq (by omega) _ _
    · rfl

/-- The kernel loop with its accesses checked returns what the kernel loop
returns, when the row `m` lies in the table: no access of the loop is out of
range. -/
theorem kernelLoopChecked_eq (blockSize : Nat) (hbs : 1 ≤ blockSize) (tbl : SincTable α)
    (mBufPos : Nat) (fpol lipol : α) (m : Int)
    (hm : ∀ k : Nat, k < tbl.FIRipol_N →
      0 ≤ m + k ∧ m + k < 256 * (tbl.FIRipol_N : Int)) :
    ∀ (n k : Nat) (buf : Nat → α),
      kernelLoopChecked blockSize tbl mBufPos fpol lipol m n k buf =
        some (kernelLoop blockSize tbl mBufPos fpol lipol m n k buf) := by
  intro n
  induction n with
  | zero => intro k buf; rfl
  | succ n ih =>
    intro k buf
    by_cases hk : k < tbl.FIRipol_N
    · have hc : (mBufPos + k) &&& (blockSize - 1) < blockSize ∧ 0 ≤ m + (k : Int) ∧
          m + (k : Int) < 256 * (tbl.FIRipol_N : Int) :=
        ⟨land_lt (mBufPos + k) blockSize hbs, hm k hk⟩
      rw [kernelLoopChecked, kernelLoop, if_pos hk, if_pos hk]
      simp only []
      rw [if_pos hc]
      exact ih (k + 1) _
    · rw [kernelLoopChecked, kernelLoop, if_neg hk, if_neg hk]

/-- In every state the oscillator passes through, the buffer entries from
`blockSize` on are `0`, as `initialize` left them: nothing is written past the
end of `mOscBuffer`. -/
theorem Reachable_buffer [FloorRing α] (blockSize : Nat) (hbs : 1 ≤ blockSize)
    (st : PulseOscillator α) (h : Reachable blockSize st) :
    ∀ j, blockSize ≤ j → st.mOscBuffer j = 0 := by
  have hconv : ∀ s : PulseOscillator α, (∀ j, blockSize ≤ j → s.mOscBuffer j = 0) →
      ∀ j, blockSize ≤ j → (convolute blockSize s).mOscBuffer j = 0 := by
    intro s hs j hj
    rw [(convolute_buffer blockSize s).1]
    by_cases hw : writesKernel s = true
    · rw [if_pos hw, kernelLoop_frame blockSize hbs _ _ _ _ _ _ _ _ j hj]; exact hs j hj
    · rw [if_neg hw]; exact hs j hj
  induction h with
  | initialise st tbl sr => intro j _; rfl
  | setParams freq width sync level _ ih => exact ih
  | clearFirstRun _ ih => exact ih
  | convolute _ ih => exact hconv _ ih
  | prime _ ih =>
    rename_i s _
    intro j hj
    show (if j < blockSize then
        (convolute blockSize { s with mFirstRun := false }).mOscBuffer j * (-0.5)
      else (convolute blockSize { s with mFirstRun := false }).mOscBuffer j) = 0
    rw [if_neg (by omega)]
    exact hconv { s with mFirstRun := false } ih j hj
  | tick _ ih => exact ih
  | emitSample k block _ ih =>
    rename_i s _
    intro j hj
    show Function.update s.mOscBuffer s.mBufPos 0 j = 0
    by_cases hjp : j = s.mBufPos
    · rw [hjp, Function.update_same]
    · rw [Function.update_noteq hjp]; exact ih j hj

/-- The sequence of blocks leads from a state the oscillator passes through to
such a state. -/
theorem runSeq_Reachable [FloorRing α] (blockSize fuel : Nat) (block : Nat → α) :
    ∀ (ps : List (BlockParams α)) (st : PulseOscillator α)
      (r : PulseOscillator α × List (Nat → α)), Reachable blockSize st →
      runSeq blockSize fuel block ps st = some r → Reachable blockSize r.1 := by
  intro ps
  induction ps with
  | nil => intro st r hr h; rw [runSeq] at h; cases h; exact hr
  | cons p ps ih =>
    intro st r hr h
    rw [runSeq] at h
    cases h1 : run blockSize fuel (setParams blockSize st p.freq p.width p.sync p.level) block with
    | none => rw [h1] at h; cases h
    | some r1 =>
      rw [h1, Option.some_bind] at h
      cases h2 : runSeq blockSize fuel block ps r1.1 with
      | none => rw [h2] at h; cases h
      | some q =>
        rw [h2] at h
        cases h
        refine ih r1.1 q ?_ h2
        unfold run at h1
        refine runLoop_closed blockSize fuel (Reachable blockSize)
          (fun s hs => Reachable.convolute hs) (fun s hs => Reachable.tick hs)
          (fun s k b hs => Reachable.emitSample k b hs) blockSize 0 _ block r1 ?_ h1
        have hsp := Reachable.setParams p.freq p.width p.sync p.level hr
        split_ifs
        · exact Reachable.prime hsp
        · exact hsp

end PulseOscillator

end GenVA

namespace GenVA

namespace PulseOscillator

variable {α : Type} [LinearOrderedField α]

/-- C25: for a block size of at least one, every sequence of blocks after
`initialize` ends in a state the oscillator passes through. In every such state
`mBufPos` is below `blockSize`, every buffer index
`(mBufPos + k) & (blockSize - 1)` is below `blockSize`, and every sinc-table
index `m + k` with `k < FIRipol_N` of the kernel row `m` that `convolute` reads
lies in `[0, 256 * FIRipol_N)`. These are the indices of the accesses: the
kernel loop of `convolute` with each access to `mOscBuffer` and to the two sinc
tables checked returns the buffer `convolute` writes, the end of a sample with
its accesses to `mOscBuffer[mBufPos]` and `block[k]` checked returns what
`emitSample` returns, and the buffer entries from `blockSize` on stay `0`, so
nothing is written past the end of `mOscBuffer`. -/
theorem indices_in_range [FloorRing α] (blockSize : Nat) (hbs : 1 ≤ blockSize) :
    (∀ (st0 : PulseOscillator α) (tbl : SincTable α) (sr : α) (fuel : Nat) (block : Nat → α)
      (ps : List (BlockParams α)) (r : PulseOscillator α × List (Nat → α)),
      runSeq blockSize fuel block ps (initialise st0 tbl sr) = some r →
      Reachable blockSize r.1) ∧
    (∀ st : PulseOscillator α, Reachable blockSize st →
      st.mBufPos < blockSize ∧
      (∀ k : Nat, (st.mBufPos + k) &&& (blockSize - 1) < blockSize) ∧
      (∀ k : Nat, k < st.localSincTable.FIRipol_N →
        0 ≤ kernelRow st + k ∧ kernelRow st + k < 256 * (st.localSincTable.FIRipol_N : Int)) ∧
      (convolute blockSize st).mOscBuffer =
        (if writesKernel st then
          kernelLoop blockSize st.localSincTable st.mBufPos (if st.mPolarity then -1.0 else 1.0)
            (((kernelPos st % 2 ^ 16 : Int)) : α) (kernelRow st)
            st.localSincTable.FIRipol_N 0 st.mOscBuffer
        else st.mOscBuffer) ∧
      kernelLoopChecked blockSize st.localSincTable st.mBufPos
          (if st.mPolarity then -1.0 else 1.0) (((kernelPos st % 2 ^ 16 : Int)) : α)
          (kernelRow st) st.localSincTable.FIRipol_N 0 st.mOscBuffer =
        some (kernelLoop blockSize st.localSincTable st.mBufPos
          (if st.mPolarity then -1.0 else 1.0) (((kernelPos st % 2 ^ 16 : Int)) : α)
          (kernelRow st) st.localSincTable.FIRipol_N 0 st.mOscBuffer) ∧
      (∀ (k : Nat) (block : Nat → α), k < blockSize →
        emitSampleChecked blockSize k st block = some (emitSample blockSize k st block)) ∧
      (∀ j, blockSize ≤ j → st.mOscBuffer j = 0)) := by
  refine ⟨fun st0 tbl sr fuel block ps r h => ?_, fun st hr => ⟨?_, fun k => ?_, fun k hk => ?_,
    ?_, ?_, fun k block hk => ?_, ?_⟩⟩
  · exact runSeq_Reachable blockSize fuel block ps _ r (Reachable.initialise st0 tbl sr) h
  · exact Reachable_mBufPos blockSize hbs st hr
  · exact land_lt _ blockSize hbs
  · exact kernelRow_range st k hk
  · exact (convolute_buffer blockSize st).1
  · exact kernelLoopChecked_eq blockSize hbs _ _ _ _ _ (fun k hk => kernelRow_range st k hk) _ _ _
  · unfold emitSampleChecked
    rw [if_pos ⟨Reachable_mBufPos blockSize hbs st hr, hk⟩]
  · exact Reachable_buffer blockSize hbs st hr

/-- Witness of `indices_in_range`: the oscillator of the example engine after
`initialize` and one block of four samples at 440 Hz: the block returns, and in
the state it leaves `mBufPos` is below 4 and the buffer is `0` from index 4
on. -/
theorem indices_in_range_witness :
    (1 : Nat) ≤ 4 ∧
    ∃ r, runSeq 4 3 (fun _ => (0 : ℚ))
        [{ freq := 440.0 * 1, width := 1 / 2, sync := 440.0 * 1, level := 1 }]
        (initialise (unprimed exampleVAConfig.sSincTable) exampleVAConfig.sSincTable 48000) =
        some r ∧
      r.1.mBufPos < 4 ∧ ∀ j, 4 ≤ j → r.1.mOscBuffer j = 0 := by
  obtain ⟨r0, e0, -⟩ := run_example_first 1
  have hseq : runSeq 4 3 (fun _ => (0 : ℚ))
      [{ freq := 440.0 * 1, width := 1 / 2, sync := 440.0 * 1, level := 1 }]
      (initialise (unprimed exampleVAConfig.sSincTable) exampleVAConfig.sSincTable 48000) =
      some (r0.1, [r0.2]) := by
    rw [runSeq]
    show (run 4 3 (setParams 4
      (initialise (unprimed exampleVAConfig.sSincTable) exampleVAConfig.sSincTable 48000)
      (440.0 * 1) (1 / 2) (440.0 * 1) 1) (fun _ => 0)).bind _ = _
    rw [e0]
    rfl
  have hR := (indices_in_range 4 (by norm_num)).1 _ _ _ _ _ _ _ hseq
  exact ⟨by norm_num, _, hseq, ((indices_in_range 4 (by norm_num)).2 _ hR).1,
    ((indices_in_range 4 (by norm_num)).2 _ hR).2.2.2.2.2.2⟩

end PulseOscillator

end GenVA

namespace GenVA

namespace PulseOscillator

variable {α : Type} [LinearOrderedField α]

theorem whileSyncState_eraseSync [FloorRing α] (blockSize : Nat) :
    ∀ (fuel : Nat) (st : PulseOscillator α),
      whileSyncState blockSize fuel (eraseSync st) =
        (whileSyncState blockSize fuel st).map eraseSync := by
  intro fuel
  induction fuel with
  | zero =>
    intro st
    rw [whileSyncState, whileSyncState]
    show (if st.mSyncState < 0 then none else some (eraseSync st)) = _
    split_ifs <;> rfl
  | succ n ih =>
    intro st
    rw [whileSyncState, whileSyncState]
    show (if st.mSyncState < 0 then
      whileSyncState blockSize n (eraseSync (convolute blockSize st))
      else some (eraseSync st)) = _
    split_ifs
    · exact ih _
    · rfl

theorem whileOscState_eraseSync [FloorRing α] (blockSize : Nat) :
    ∀ (fuel : Nat) (st : PulseOscillator α),
      whileOscState blockSize fuel (eraseSync st) =
        (whileOscState blockSize fuel st).map eraseSync := by
  intro fuel
  induction fuel with
  | zero =>
    intro st
    rw [whileOscState, whileOscState]
    show (if st.mOscState < 0 then none else some (eraseSync st)) = _
    split_ifs <;> rfl
  | succ n ih =>
    intro st
    rw [whileOscState, whileOscState]
    show (if st.mOscState < 0 then
      whileOscState blockSize n (eraseSync (convolute blockSize st))
      else some (eraseSync st)) = _
    split_ifs
    · exact ih _
    · rfl

/-- A sample of the sample loop does not read the sync ramp. -/
theorem runSample_eraseSync [FloorRing α] (blockSize fuel k : Nat) (st : PulseOscillator α)
    (block : Nat → α) :
    (runSample blockSize fuel k (eraseSync st) block).map (fun r => (eraseSync r.1, r.2)) =
      (runSample blockSize fuel k st block).map (fun r => (eraseSync r.1, r.2)) := by
  rw [runSample_eq, runSample_eq]
  have h1 := whileSyncState_eraseSync blockSize fuel (tick st)
  show Option.map _ ((whileSyncState blockSize fuel (eraseSync (tick st))).bind _) = _
  rw [h1]
  cases whileSyncState blockSize fuel (tick st) with
  | none => rfl
  | some st1 =>
    have h2 := whileOscState_eraseSync blockSize fuel st1
    show Option.map _ ((whileOscState blockSize fuel (eraseSync st1)).bind _) =
      Option.map _ ((whileOscState blockSize fuel st1).bind _)
    rw [h2]
    cases whileOscState blockSize fuel st1 <;> rfl

/-- The sample loop gives the same blocks, and the same oscillator up to the
sync ramp, from two oscillators that differ in the sync ramp only. -/
theorem runLoop_eraseSync [FloorRing α] (blockSize fuel : Nat) :
    ∀ (n k : Nat) (st st' : PulseOscillator α) (block : Nat → α),
      eraseSync st = eraseSync st' →
      (runLoop blockSize fuel n k st block).map (fun r => (eraseSync r.1, r.2)) =
        (runLoop blockSize fuel n k st' block).map (fun r => (eraseSync r.1, r.2)) := by
  intro n
  induction n with
  | zero => intro k st st' block h; rw [runLoop, runLoop]; simp only [Option.map_some', h]
  | succ n ih =>
    intro k st st' block h
    rw [runLoop, runLoop]
    split_ifs
    · have e := (runSample_eraseSync blockSize fuel k st block).symm.trans
        ((congrArg (fun s => (runSample blockSize fuel k s block).map
          (fun r => (eraseSync r.1, r.2))) h).trans (runSample_eraseSync blockSize fuel k st' block))
      cases h1 : runSample blockSize fuel k st block with
      | none =>
        cases h2 : runSample blockSize fuel k st' block with
        | none => rfl
        | some r2 => rw [h1, h2] at e; cases e
      | some r1 =>
        cases h2 : runSample blockSize fuel k st' block with
        | none => rw [h1, h2] at e; cases e
        | some r2 =>
          rw [h1, h2] at e
          simp only [Option.map_some', Option.some.injEq, Prod.mk.injEq] at e
          simp only [Option.some_bind]
          rw [e.2]
          exact ih (k + 1) r1.1 r2.1 r2.2 e.1
    · simp only [Option.map_some', h]

/-- A call of `run` gives the same block, and the same oscillator up to the
sync ramp, from two oscillators that differ in the sync ramp only. -/
theorem run_eraseSync [FloorRing α] (blockSize fuel : Nat) (st st' : PulseOscillator α)
    (block : Nat → α) (h : eraseSync st = eraseSync st') :
    (run blockSize fuel st block).map (fun r => (eraseSync r.1, r.2)) =
      (run blockSize fuel st' block).map (fun r => (eraseSync r.1, r.2)) := by
  have hf : st.mFirstRun = st'.mFirstRun :=
    (congrArg PulseOscillator.mFirstRun h :
      (eraseSync st).mFirstRun = (eraseSync st').mFirstRun)
  unfold run
  by_cases h1 : st.mFirstRun = true
  · have h2 : st'.mFirstRun = true := hf ▸ h1
    simp only [h1, h2, if_true]
    exact runLoop_eraseSync blockSize fuel blockSize 0 _ _ block
      (congrArg (prime blockSize) h : prime blockSize (eraseSync st) = prime blockSize (eraseSync st'))
  · have h2 : ¬ st'.mFirstRun = true := hf ▸ h1
    simp only [h1, h2, if_false]
    exact runLoop_eraseSync blockSize fuel blockSize 0 _ _ block h

/-- A sequence of blocks gives the same blocks, and the same oscillator up to
the sync ramp, for two argument lists that differ in the sync arguments only,
from two oscillators that differ in the sync ramp only. -/
theorem runSeq_eraseSync [FloorRing α] (blockSize fuel : Nat) (block : Nat → α) :
    ∀ (ps qs : List (BlockParams α)), sameButSync ps qs →
      ∀ (st st' : PulseOscillator α), eraseSync st = eraseSync st' →
      (runSeq blockSize fuel block ps st).map (fun r => (eraseSync r.1, r.2)) =
        (runSeq blockSize fuel block qs st').map (fun r => (eraseSync r.1, r.2)) := by
  intro ps qs hpq
  induction hpq with
  | nil => intro st st' h; rw [runSeq, runSeq]; simp only [Option.map_some', h]
  | @cons p q ps qs hp _ ih =>
    intro st st' h
    obtain ⟨hf, hw, hl⟩ := hp
    rw [runSeq, runSeq]
    have hset : eraseSync (setParams blockSize st p.freq p.width p.sync p.level) =
        eraseSync (setParams blockSize st' q.freq q.width q.sync q.level) := by
      rw [← hf, ← hw, ← hl]
      exact (congrArg (fun s => eraseSync (setParams blockSize s p.freq p.width p.sync p.level)) h :
        eraseSync (setParams blockSize (eraseSync st) p.freq p.width p.sync p.level) =
          eraseSync (setParams blockSize (eraseSync st') p.freq p.width p.sync p.level))
    have e := run_eraseSync blockSize fuel _ _ block hset
    cases h1 : run blockSize fuel (setParams blockSize st p.freq p.width p.sync p.level) block with
    | none =>
      cases h2 : run blockSize fuel (setParams blockSize st' q.freq q.width q.sync q.level)
        block with
      | none => rfl
      | some r2 => rw [h1, h2] at e; cases e
    | some r1 =>
      cases h2 : run blockSize fuel (setParams blockSize st' q.freq q.width q.sync q.level)
        block with
      | none => rw [h1, h2] at e; cases e
      | some r2 =>
        rw [h1, h2] at e
        simp only [Option.map_some', Option.some.injEq, Prod.mk.injEq] at e
        simp only [Option.some_bind]
        have e3 := ih r1.1 r2.1 e.1
        rw [e.2]
        cases h3 : runSeq blockSize fuel block ps r1.1 with
        | none =>
          cases h4 : runSeq blockSize fuel block qs r2.1 with
          | none => rfl
          | some q2 => rw [h3, h4] at e3; cases e3
        | some q1 =>
          cases h4 : runSeq blockSize fuel block qs r2.1 with
          | none => rw [h3, h4] at e3; cases e3
          | some q2 =>
            rw [h3, h4] at e3
            simp only [Option.map_some', Option.some.injEq, Prod.mk.injEq] at e3
            simp only [Option.map_some', e3.1, e3.2]

end PulseOscillator

end GenVA

namespace GenVA

namespace PulseOscillator

variable {α : Type} [LinearOrderedField α]

/-- C23: two sequences of blocks from the same oscillator whose `setParams`
arguments agree in frequency, width and level and are free in the sync
argument: one returns exactly when the other does, and then the output blocks
are the same and the oscillators agree in `mOscState`, `mSyncState`,
`mPolarity`, the buffer, `mOscOut`, `mBufPos` and in everything else but the
sync ramp. -/
theorem sync_no_influence [FloorRing α] (blockSize fuel : Nat) (block : Nat → α)
    (ps qs : List (BlockParams α)) (st : PulseOscillator α) (h : sameButSync ps qs) :
    (runSeq blockSize fuel block ps st = none ↔ runSeq blockSize fuel block qs st = none) ∧
    (∀ r r', runSeq blockSize fuel block ps st = some r →
      runSeq blockSize fuel block qs st = some r' →
      r'.2 = r.2 ∧ r'.1.mOscState = r.1.mOscState ∧ r'.1.mSyncState = r.1.mSyncState ∧
      r'.1.mPolarity = r.1.mPolarity ∧ r'.1.mOscBuffer = r.1.mOscBuffer ∧
      r'.1.mOscOut = r.1.mOscOut ∧ r'.1.mBufPos = r.1.mBufPos ∧
      eraseSync r'.1 = eraseSync r.1) := by
  have e := runSeq_eraseSync blockSize fuel block ps qs h st st rfl
  refine ⟨?_, fun r r' h1 h2 => ?_⟩
  · cases h1 : runSeq blockSize fuel block ps st with
    | none =>
      cases h2 : runSeq blockSize fuel block qs st with
      | none => exact ⟨fun _ => rfl, fun _ => rfl⟩
      | some r2 => rw [h1, h2] at e; cases e
    | some r1 =>
      cases h2 : runSeq blockSize fuel block qs st with
      | none => rw [h1, h2] at e; cases e
      | some r2 => exact ⟨fun hn => Option.noConfusion hn, fun hn => Option.noConfusion hn⟩
  · rw [h1, h2] at e
    simp only [Option.map_some', Option.some.injEq, Prod.mk.injEq] at e
    obtain ⟨e1, e2⟩ := e
    exact ⟨e2.symm,
      (congrArg PulseOscillator.mOscState e1.symm :
        (eraseSync r'.1).mOscState = (eraseSync r.1).mOscState),
      (congrArg PulseOscillator.mSyncState e1.symm :
        (eraseSync r'.1).mSyncState = (eraseSync r.1).mSyncState),
      (congrArg PulseOscillator.mPolarity e1.symm :
        (eraseSync r'.1).mPolarity = (eraseSync r.1).mPolarity),
      (congrArg PulseOscillator.mOscBuffer e1.symm :
        (eraseSync r'.1).mOscBuffer = (eraseSync r.1).mOscBuffer),
      (congrArg PulseOscillator.mOscOut e1.symm :
        (eraseSync r'.1).mOscOut = (eraseSync r.1).mOscOut),
      (congrArg PulseOscillator.mBufPos e1.symm :
        (eraseSync r'.1).mBufPos = (eraseSync r.1).mBufPos),
      e1.symm⟩

/-- Witness of `sync_no_influence`: one block of the example oscillator at
440 Hz, once with the sync argument 0 and once with 880. -/
theorem sync_no_influence_witness :
    (runSeq 4 3 (fun _ => (0 : ℚ)) [{ freq := 440, width := 1 / 2, sync := 0, level := 1 }]
        (initialise (unprimed exampleVAConfig.sSincTable) exampleVAConfig.sSincTable
          (48000 : ℚ)) = none ↔
      runSeq 4 3 (fun _ => (0 : ℚ)) [{ freq := 440, width := 1 / 2, sync := 880, level := 1 }]
        (initialise (unprimed exampleVAConfig.sSincTable) exampleVAConfig.sSincTable
          (48000 : ℚ)) = none) :=
  (sync_no_influence 4 3 (fun _ => (0 : ℚ))
    [{ freq := 440, width := 1 / 2, sync := 0, level := 1 }]
    [{ freq := 440, width := 1 / 2, sync := 880, level := 1 }]
    (initialise (unprimed exampleVAConfig.sSincTable) exampleVAConfig.sSincTable (48000 : ℚ))
    (List.Forall₂.cons ⟨rfl, rfl, rfl⟩ List.Forall₂.nil)).1

end PulseOscillator

end GenVA


namespace GenVA

namespace PulseOscillator

variable {α : Type} [LinearOrderedField α]

end PulseOscillator

end GenVA

namespace GenVA

namespace PulseOscillator

variable {α : Type} [LinearOrderedField α]

end PulseOscillator

end GenVA

namespace GenVA

namespace PulseOscillator

variable {α : Type} [LinearOrderedField α]

end PulseOscillator

end GenVA
